import Mathlib

/-! A shallow embedding of rota.c: the scorer, the neighbour generator, the search step
and the loader, with the properties proved about them.

Conventions of the embedding.

* C `float` values are exact rationals (`ℚ`): the theorems speak about exact arithmetic.
* C `int` person indices, day differences and failure codes are `Int`; loop counters,
  week/day/shift indices and the `uint` bit words are `Nat`.
* C arrays are total maps (`Nat → _`, or `Int → _` when indexed by a person); an index
  outside the bounds of the C array has no meaning in C, the map just answers something.
  The only array kept as a list is `failure_data` (16 records), so that the failure part
  of a score can be compared and evaluated.
* `genrand_int32` is an external generator: each function that draws random numbers takes
  the raw values returned by `genrand_int32` as extra arguments, in the order of the calls.
* A fatal error of the loader (`exit(-1)`) is the result `none`.
-/

namespace Rota

/-! ## Data model (rota.c lines 48-230) -/

abbrev MAX_PERSON_COUNT : Nat := 32
abbrev MAX_WEEK_COUNT : Nat := 32

/-- Record `person_config_t`; the `name` buffer is a string. -/
structure person_config_t where
  name : String
  first_day : Int
  last_day : Int
  total_non_holiday_days : Int
  full_time_amount : ℚ
  effective_full_time_amount : ℚ
  cannot_do_ward_weeks : Bool
  on_call_day_bias : ℚ
  on_call_weekend_bias : ℚ
  ward_week_bias : ℚ
  bank_holiday_bias : ℚ
  target_ward_weeks : ℚ
  target_on_call_days : ℚ
  target_on_call_weekends : ℚ
  target_on_call_bank_holidays : ℚ
  target_day_off_block_size : ℚ
  target_ward_week_spacing : ℚ

/-- Record `config_t` (the `time_t first_day` calendar anchor is left out: it is only
used for printing dates). -/
structure config_t where
  person_count : Nat
  week_count : Nat
  people : Int → person_config_t
  bank_holiday_bits : Nat → Nat
  holiday_day_bits : Nat → Nat
  invalid_on_call_day_bits : Nat → Nat
  invalid_ward_week_bits : Nat → Nat
  disliked_on_call_day_bits : Nat → Nat
  disliked_ward_week_bits : Nat → Nat
  forced_on_call_people : Nat → Int
  total_on_call_days_and_bias : ℚ
  total_on_call_weekends_and_bias : ℚ
  total_ward_weeks_and_bias : ℚ
  total_bank_holidays_and_bias : ℚ
  effective_on_call_person_count : ℚ
  effective_ward_person_count : ℚ

abbrev POINTS_SHIFT_OVERLAP : Nat := 0
abbrev POINTS_WORK_ON_HOLIDAY : Nat := 1
abbrev POINTS_ON_CALL_ON_INVALID_DAY : Nat := 2
abbrev POINTS_ON_WARD_ON_INVALID_WEEK : Nat := 3
abbrev POINTS_NOT_ON_CALL_WHEN_FORCED : Nat := 4
abbrev POINTS_WORK_FOLLOWING_ON_CALL : Nat := 5
abbrev POINTS_ON_CALL_ON_DISLIKED_DAY : Nat := 6
abbrev POINTS_WARD_WEEK_ON_DISLIKED_WEEK : Nat := 7
abbrev POINTS_ON_CALL_DAY_DIFFERENCE : Nat := 8
abbrev POINTS_ON_CALL_BANK_HOLIDAY_DIFFERENCE : Nat := 9
abbrev POINTS_ON_CALL_WEEKEND_DIFFERENCE : Nat := 10
abbrev POINTS_WARD_WEEK_DIFFERENCE : Nat := 11
abbrev POINTS_ON_CALL_WEEKEND_FOLLOWS_WARD_WEEK : Nat := 12
abbrev POINTS_MULTIPLE_ON_CALLS_PER_WEEK : Nat := 13
abbrev POINTS_WARD_WEEK_ONE_WEEK_AGO : Nat := 14
abbrev POINTS_WARD_WEEK_TWO_WEEKS_AGO : Nat := 15
abbrev POINTS_DAY_OFF : Nat := 16
abbrev POINTS_DAY_OFF_DECAY : Nat := 17
abbrev POINTS_NO_WARD_WEEK : Nat := 18
abbrev POINTS_NO_WARD_WEEK_DECAY : Nat := 19
abbrev POINTS_COUNT : Nat := 20

/-- Record `points_t`: the weight table, indexed by the `POINTS_*` enumerators. -/
structure points_t where
  values : Nat → ℚ

abbrev SHIFT_ON_CALL_MON : Nat := 0
abbrev SHIFT_ON_CALL_TUE : Nat := 1
abbrev SHIFT_ON_CALL_WED : Nat := 2
abbrev SHIFT_ON_CALL_THU : Nat := 3
abbrev SHIFT_ON_CALL_FRI : Nat := 4
abbrev SHIFT_ON_CALL_WEEKEND : Nat := 5
abbrev SHIFT_WARD_WEEK : Nat := 6
abbrev SHIFT_COUNT : Nat := 7

/-- Record `week_t`: `shifts[SHIFT_COUNT]`, a person index per shift slot. -/
structure week_t where
  shifts : Nat → Int

/-- Record `rota_t`: `weeks[MAX_WEEK_COUNT]`. -/
structure rota_t where
  weeks : Nat → week_t

abbrev FAILURE_MULTIPLE_SHIFTS_AT_ONCE : Int := 0
abbrev FAILURE_WORK_ON_HOLIDAY : Int := 1
abbrev FAILURE_WORK_JUST_BEFORE_HOLIDAY : Int := 2
abbrev FAILURE_NOT_ON_CALL_WHEN_FORCED : Int := 3
abbrev FAILURE_ON_WARD_WHEN_CANNOT : Int := 4
abbrev FAILURE_ON_CALL_WHEN_CANNOT : Int := 5
abbrev FAILURE_WORK_FOLLOWING_ON_CALL : Int := 6
abbrev FAILURE_COUNT : Int := 7

/-- Record `person_score_t`. -/
structure person_score_t where
  total_ward_weeks : Int
  total_on_call_days : Int
  total_on_call_weekends : Int
  total_on_call_bank_holidays : Int
  remainder_ward_weeks : ℚ
  remainder_on_call_days : ℚ
  remainder_on_call_weekends : ℚ
  remainder_on_call_bank_holidays : ℚ

/-- Record `failure_data_t`. -/
structure failure_data_t where
  failure : Int
  person_index : Int
  rota_day_index : Int
deriving DecidableEq, Repr

abbrev MAX_FAILURE_COUNT : Nat := 16

/-- Record `score_t`; `failure_data` is the array of `MAX_FAILURE_COUNT` records. -/
structure score_t where
  people : Int → person_score_t
  value : ℚ
  failure_count : Nat
  failure_data : List failure_data_t

/-- The value `memset(score, 0, sizeof(score_t))` leaves in `*score`. -/
def score_zero : score_t where
  people := fun _ => ⟨0, 0, 0, 0, 0, 0, 0, 0⟩
  value := 0
  failure_count := 0
  failure_data := List.replicate MAX_FAILURE_COUNT ⟨0, 0, 0⟩

/-- Function `add_failure` (lines 232-241): append a record while the list is not full. -/
def add_failure (score : score_t) (failure person_index rota_day_index : Int) : score_t :=
  if score.failure_count < MAX_FAILURE_COUNT then
    { score with
      failure_count := score.failure_count + 1
      failure_data := score.failure_data.set score.failure_count
        ⟨failure, person_index, rota_day_index⟩ }
  else score

/-- Function `rota_rand` (lines 246-249): `genrand_int32() % person_count`, the raw
generator output being the first argument. In C a zero `person_count` is a division by
zero; here `r % 0 = r`. -/
def rota_rand (genrand_int32 : Nat) (person_count : Nat) : Nat :=
  genrand_int32 % person_count

/-! ## Bitsets (lines 251-313) -/

/-- Function `set_bank_holiday` (lines 251-256). -/
def set_bank_holiday (config : config_t) (rota_day_index : Nat) : config_t :=
  let entry_index := rota_day_index / 32
  let bit_index := rota_day_index % 32
  { config with
    bank_holiday_bits := Function.update config.bank_holiday_bits entry_index
      (config.bank_holiday_bits entry_index ||| (1 <<< bit_index)) }

/-- Function `is_bank_holiday` (lines 258-263). -/
def is_bank_holiday (config : config_t) (rota_day_index : Nat) : Bool :=
  let entry_index := rota_day_index / 32
  let bit_index := rota_day_index % 32
  (config.bank_holiday_bits entry_index &&& (1 <<< bit_index)) != 0

/-- Function `is_holiday_day` (lines 270-273); `1U << person` is `1 <<< person.toNat`. -/
def is_holiday_day (config : config_t) (rota_day_index : Nat) (person : Int) : Bool :=
  (config.holiday_day_bits rota_day_index &&& (1 <<< person.toNat)) != 0

/-- Function `is_invalid_on_call_day` (lines 280-283). -/
def is_invalid_on_call_day (config : config_t) (rota_day_index : Nat) (person : Int) : Bool :=
  (config.invalid_on_call_day_bits rota_day_index &&& (1 <<< person.toNat)) != 0

/-- Function `is_invalid_ward_week` (lines 290-293). -/
def is_invalid_ward_week (config : config_t) (week_index : Nat) (person : Int) : Bool :=
  (config.invalid_ward_week_bits week_index &&& (1 <<< person.toNat)) != 0

/-- Function `is_disliked_ward_week` (lines 300-303). -/
def is_disliked_ward_week (config : config_t) (week_index : Nat) (person : Int) : Bool :=
  (config.disliked_ward_week_bits week_index &&& (1 <<< person.toNat)) != 0

/-- Function `is_disliked_on_call_day` (lines 310-313). -/
def is_disliked_on_call_day (config : config_t) (rota_day_index : Nat) (person : Int) : Bool :=
  (config.disliked_on_call_day_bits rota_day_index &&& (1 <<< person.toNat)) != 0

/-- Function `sqr` (lines 315-318). -/
def sqr (x : ℚ) : ℚ := x * x

/-! ## The decaying bonuses (lines 320-342) -/

/-- The loop `for (i = 1; i < difference; ++i) { sum += score; score *= decay; }` shared
by `get_days_off_score` and `get_no_ward_week_score`: `n` is the number of iterations
left, the pair is `(sum, score)`. -/
def decay_loop (decay : ℚ) : Nat → ℚ × ℚ → ℚ × ℚ
  | 0, acc => acc
  | n + 1, acc => decay_loop decay n (acc.1 + acc.2, acc.2 * decay)

/-- Function `get_days_off_score` (lines 320-330); the loop runs `day_difference - 1`
times, and not at all when `day_difference <= 1`. -/
def get_days_off_score (points : points_t) (day_difference : Int) : ℚ :=
  (decay_loop (points.values POINTS_DAY_OFF_DECAY) (day_difference - 1).toNat
    (0, points.values POINTS_DAY_OFF)).1

/-- Function `get_no_ward_week_score` (lines 332-342). -/
def get_no_ward_week_score (points : points_t) (week_difference : Int) : ℚ :=
  (decay_loop (points.values POINTS_NO_WARD_WEEK_DECAY) (week_difference - 1).toNat
    (0, points.values POINTS_NO_WARD_WEEK)).1

/-! ## The scorer (lines 344-559) -/

/-- The statement `score->value += x`. -/
def add_value (score : score_t) (x : ℚ) : score_t :=
  { score with value := score.value + x }

/-- The local variables of `score_rota` that live across the sweep, with the score
under construction. -/
structure sweep_t where
  score : score_t
  last_on_call_week : Int → Int
  last_work_day : Int → Int
  last_ward_week : Int → Int
  person_on_call_yesterday : Int

/-- Lines 350-361: the `memset` and the initialisation of the tracking arrays for the
persons `0 .. person_count - 1`. The entries of the other persons are uninitialised in
C; they are 0 here. -/
def sweep_init (config : config_t) : sweep_t :=
  (List.range config.person_count).foldl
    (fun st (i : Nat) =>
      { st with
        last_on_call_week := Function.update st.last_on_call_week (i : Int) (-1)
        last_work_day := Function.update st.last_work_day (i : Int)
          ((config.people i).first_day - 1)
        last_ward_week := Function.update st.last_ward_week (i : Int)
          (Int.tdiv (config.people i).first_day 7 - 1) })
    { score := score_zero
      last_on_call_week := fun _ => 0
      last_work_day := fun _ => 0
      last_ward_week := fun _ => 0
      person_on_call_yesterday := -1 }

/-- Lines 368-469: the body of the day loop for `day_index < 5` (Monday to Friday). -/
def score_weekday (config : config_t) (points : points_t) (rota : rota_t)
    (week_index day_index : Nat) (st : sweep_t) : sweep_t :=
  let week := rota.weeks week_index
  let rota_day_index : Nat := week_index * 7 + day_index
  let person_on_call := week.shifts day_index
  let person_on_ward := week.shifts SHIFT_WARD_WEEK
  let score := st.score
  -- check for shift overlap
  let score :=
    if person_on_call = person_on_ward then
      add_failure (add_value score (points.values POINTS_SHIFT_OVERLAP))
        FAILURE_MULTIPLE_SHIFTS_AT_ONCE person_on_call rota_day_index
    else score
  let score :=
    if day_index = 0 ∧ (config.people person_on_ward).cannot_do_ward_weeks = true then
      add_failure (add_value score (points.values POINTS_ON_WARD_ON_INVALID_WEEK))
        FAILURE_ON_WARD_WHEN_CANNOT person_on_ward rota_day_index
    else score
  -- check holidays
  let score :=
    if is_holiday_day config rota_day_index person_on_call = true then
      add_failure (add_value score (points.values POINTS_WORK_ON_HOLIDAY))
        FAILURE_WORK_ON_HOLIDAY person_on_call rota_day_index
    else score
  let score :=
    if is_holiday_day config rota_day_index person_on_ward = true then
      add_failure (add_value score (points.values POINTS_WORK_ON_HOLIDAY))
        FAILURE_WORK_ON_HOLIDAY person_on_ward rota_day_index
    else score
  let score :=
    if is_holiday_day config (rota_day_index + 1) person_on_call = true then
      add_failure (add_value score (points.values POINTS_WORK_ON_HOLIDAY))
        FAILURE_WORK_JUST_BEFORE_HOLIDAY person_on_call rota_day_index
    else score
  -- check invalid days
  let score :=
    if day_index = 0 ∧ is_invalid_ward_week config week_index person_on_ward = true then
      add_failure (add_value score (points.values POINTS_ON_WARD_ON_INVALID_WEEK))
        FAILURE_ON_WARD_WHEN_CANNOT person_on_ward rota_day_index
    else score
  let score :=
    if is_invalid_on_call_day config rota_day_index person_on_call = true then
      add_failure (add_value score (points.values POINTS_ON_CALL_ON_INVALID_DAY))
        FAILURE_ON_CALL_WHEN_CANNOT person_on_call rota_day_index
    else score
  -- check forced on call days
  let forced_on_call_person := config.forced_on_call_people rota_day_index
  let score :=
    if forced_on_call_person ≠ -1 ∧ forced_on_call_person ≠ person_on_call then
      add_failure (add_value score (points.values POINTS_NOT_ON_CALL_WHEN_FORCED))
        FAILURE_NOT_ON_CALL_WHEN_FORCED forced_on_call_person rota_day_index
    else score
  -- check for not being on call yesterday
  let score :=
    if day_index = 0 ∧ person_on_ward = st.person_on_call_yesterday then
      add_failure (add_value score (points.values POINTS_WORK_FOLLOWING_ON_CALL))
        FAILURE_WORK_FOLLOWING_ON_CALL person_on_ward rota_day_index
    else score
  let score :=
    if person_on_call = st.person_on_call_yesterday then
      add_failure (add_value score (points.values POINTS_WORK_FOLLOWING_ON_CALL))
        FAILURE_WORK_FOLLOWING_ON_CALL person_on_call rota_day_index
    else score
  -- check for not being on call this week
  let score :=
    if st.last_on_call_week person_on_call = week_index then
      add_value score (points.values POINTS_MULTIPLE_ON_CALLS_PER_WEEK)
    else score
  -- check for not being on ward last week
  let score :=
    if day_index = 0 ∧ week_index > 0 ∧
        (rota.weeks (week_index - 1)).shifts SHIFT_WARD_WEEK = person_on_ward then
      add_value score (points.values POINTS_WARD_WEEK_ONE_WEEK_AGO)
    else score
  let score :=
    if day_index = 0 ∧ week_index > 1 ∧
        (rota.weeks (week_index - 2)).shifts SHIFT_WARD_WEEK = person_on_ward then
      add_value score (points.values POINTS_WARD_WEEK_TWO_WEEKS_AGO)
    else score
  -- check disliked days
  let score :=
    if is_disliked_on_call_day config rota_day_index person_on_call = true then
      add_value score (points.values POINTS_ON_CALL_ON_DISLIKED_DAY)
    else score
  let score :=
    if day_index = 0 ∧ is_disliked_ward_week config week_index person_on_ward = true then
      add_value score (points.values POINTS_WARD_WEEK_ON_DISLIKED_WEEK)
    else score
  -- check days off
  let score := add_value score
    (get_days_off_score points (rota_day_index - st.last_work_day person_on_call))
  let score :=
    if day_index = 0 then
      add_value score
        (get_days_off_score points (rota_day_index - st.last_work_day person_on_ward))
    else score
  -- check last ward week
  let score :=
    if day_index = 0 then
      add_value score
        (get_no_ward_week_score points (week_index - st.last_ward_week person_on_ward))
    else score
  -- update tracking
  let last_on_call_week := Function.update st.last_on_call_week person_on_call week_index
  let last_ward_week := Function.update st.last_ward_week person_on_ward week_index
  let last_work_day := Function.update st.last_work_day person_on_call rota_day_index
  let last_work_day := Function.update last_work_day person_on_ward rota_day_index
  -- update counters
  let people := score.people
  let people :=
    if is_bank_holiday config rota_day_index = true then
      Function.update people person_on_call
        { people person_on_call with
          total_on_call_bank_holidays :=
            (people person_on_call).total_on_call_bank_holidays + 1 }
    else people
  let people := Function.update people person_on_call
    { people person_on_call with
      total_on_call_days := (people person_on_call).total_on_call_days + 1 }
  let people :=
    if day_index = 0 then
      Function.update people person_on_ward
        { people person_on_ward with
          total_ward_weeks := (people person_on_ward).total_ward_weeks + 1 }
    else people
  { score := { score with people := people }
    last_on_call_week := last_on_call_week
    last_work_day := last_work_day
    last_ward_week := last_ward_week
    person_on_call_yesterday := person_on_call }

/-- Lines 470-522: the body of the day loop for `day_index >= 5` (Saturday, Sunday). -/
def score_weekend_day (config : config_t) (points : points_t) (rota : rota_t)
    (week_index day_index : Nat) (st : sweep_t) : sweep_t :=
  let week := rota.weeks week_index
  let rota_day_index : Nat := week_index * 7 + day_index
  let person_on_call := week.shifts SHIFT_ON_CALL_WEEKEND
  let score := st.score
  -- check holidays
  let score :=
    if is_holiday_day config rota_day_index person_on_call = true then
      add_failure (add_value score (points.values POINTS_WORK_ON_HOLIDAY))
        FAILURE_WORK_ON_HOLIDAY person_on_call rota_day_index
    else score
  -- check invalid on call days
  let score :=
    if is_invalid_on_call_day config rota_day_index person_on_call = true then
      add_failure (add_value score (points.values POINTS_ON_CALL_ON_INVALID_DAY))
        FAILURE_ON_CALL_WHEN_CANNOT person_on_call rota_day_index
    else score
  -- check forced on call days
  let forced_on_call_person := config.forced_on_call_people rota_day_index
  let score :=
    if forced_on_call_person ≠ -1 ∧ forced_on_call_person ≠ person_on_call then
      add_failure (add_value score (points.values POINTS_NOT_ON_CALL_WHEN_FORCED))
        FAILURE_NOT_ON_CALL_WHEN_FORCED forced_on_call_person rota_day_index
    else score
  -- check for not being on call yesterday
  let score :=
    if day_index = 5 ∧ person_on_call = st.person_on_call_yesterday then
      add_failure (add_value score (points.values POINTS_WORK_FOLLOWING_ON_CALL))
        FAILURE_WORK_FOLLOWING_ON_CALL person_on_call rota_day_index
    else score
  -- check for not being on call this week
  let score :=
    if day_index = 5 ∧ st.last_on_call_week person_on_call = week_index then
      add_value score (points.values POINTS_MULTIPLE_ON_CALLS_PER_WEEK)
    else score
  -- check disliked days
  let score :=
    if is_disliked_on_call_day config rota_day_index person_on_call = true then
      add_value score (points.values POINTS_ON_CALL_ON_DISLIKED_DAY)
    else score
  -- check days off
  let score :=
    if day_index = 5 then
      add_value score
        (get_days_off_score points (rota_day_index - st.last_work_day person_on_call))
    else score
  -- update tracking
  let last_on_call_week := Function.update st.last_on_call_week person_on_call week_index
  let last_work_day := Function.update st.last_work_day person_on_call rota_day_index
  -- update counters
  let people := score.people
  let people :=
    if day_index = 5 then
      Function.update people person_on_call
        { people person_on_call with
          total_on_call_weekends := (people person_on_call).total_on_call_weekends + 1 }
    else people
  { score := { score with people := people }
    last_on_call_week := last_on_call_week
    last_work_day := last_work_day
    last_ward_week := st.last_ward_week
    person_on_call_yesterday := person_on_call }

/-- Lines 366-523: one iteration of the loop over the days of a week. -/
def score_day (config : config_t) (points : points_t) (rota : rota_t)
    (week_index : Nat) (st : sweep_t) (day_index : Nat) : sweep_t :=
  if day_index < 5 then score_weekday config points rota week_index day_index st
  else score_weekend_day config points rota week_index day_index st

/-- Lines 362-529: one iteration of the loop over the weeks. -/
def score_week (config : config_t) (points : points_t) (rota : rota_t)
    (st : sweep_t) (week_index : Nat) : sweep_t :=
  let week := rota.weeks week_index
  let st := (List.range 7).foldl (score_day config points rota week_index) st
  -- check on call weekends follow from ward weeks
  if week.shifts SHIFT_ON_CALL_WEEKEND = week.shifts SHIFT_WARD_WEEK then
    { st with
      score := add_value st.score (points.values POINTS_ON_CALL_WEEKEND_FOLLOWS_WARD_WEEK) }
  else st

/-- Lines 531-537: the days off and the weeks off the ward after the last work day. -/
def score_tail (config : config_t) (points : points_t) (st : sweep_t)
    (score : score_t) (i : Nat) : score_t :=
  let last_day := (config.people i).last_day
  let score := add_value score (get_days_off_score points (last_day - st.last_work_day i))
  let last_week := Int.tdiv last_day 7
  add_value score (get_no_ward_week_score points (last_week - st.last_ward_week i))

/-- Lines 539-558: the remainders of person `i` and their quadratic terms. -/
def score_distribution (config : config_t) (points : points_t)
    (score : score_t) (i : Nat) : score_t :=
  let person_config := config.people i
  let person_score := score.people i
  let remainder_on_call_days : ℚ :=
    person_score.total_on_call_days + person_config.on_call_day_bias
      - person_config.target_on_call_days
  let remainder_on_call_weekends : ℚ :=
    person_score.total_on_call_weekends + person_config.on_call_weekend_bias
      - person_config.target_on_call_weekends
  let remainder_ward_weeks : ℚ :=
    person_score.total_ward_weeks + person_config.ward_week_bias
      - person_config.target_ward_weeks
  let remainder_on_call_bank_holidays : ℚ :=
    person_score.total_on_call_bank_holidays + person_config.bank_holiday_bias
      - person_config.target_on_call_bank_holidays
  let score :=
    { score with
      people := Function.update score.people (i : Int)
        { person_score with
          remainder_on_call_days := remainder_on_call_days
          remainder_on_call_weekends := remainder_on_call_weekends
          remainder_ward_weeks := remainder_ward_weeks
          remainder_on_call_bank_holidays := remainder_on_call_bank_holidays } }
  let score := add_value score
    (points.values POINTS_ON_CALL_DAY_DIFFERENCE * sqr remainder_on_call_days)
  let score := add_value score
    (points.values POINTS_ON_CALL_WEEKEND_DIFFERENCE * sqr remainder_on_call_weekends)
  let score := add_value score
    (points.values POINTS_WARD_WEEK_DIFFERENCE * sqr remainder_ward_weeks)
  add_value score
    (points.values POINTS_ON_CALL_BANK_HOLIDAY_DIFFERENCE * sqr remainder_on_call_bank_holidays)

/-- The sweep over the weeks (lines 362-529), from the initial state. -/
def score_sweep (config : config_t) (points : points_t) (rota : rota_t) : sweep_t :=
  (List.range config.week_count).foldl (score_week config points rota) (sweep_init config)

/-- Function `score_rota` (lines 344-559); the score written through the pointer is the
result. -/
def score_rota (config : config_t) (points : points_t) (rota : rota_t) : score_t :=
  let st := score_sweep config points rota
  let score := (List.range config.person_count).foldl (score_tail config points st) st.score
  (List.range config.person_count).foldl (score_distribution config points) score

/-! ## The neighbour generator (lines 740-771) -/

/-- The assignment `rota->weeks[week].shifts[shift] = person`. -/
def set_shift (rota : rota_t) (week shift : Nat) (person : Int) : rota_t :=
  ⟨Function.update rota.weeks week
    ⟨Function.update (rota.weeks week).shifts shift person⟩⟩

/-- Function `mutate_random_reassign` (lines 740-751); `rota_out` is the result, the
three raw draws are in the order of the three `rota_rand` calls. -/
def mutate_random_reassign (config : config_t) (rota_in : rota_t)
    (r_week r_shift r_person : Nat) : rota_t :=
  let rota_out := rota_in
  let week := rota_rand r_week config.week_count
  let shift := rota_rand r_shift SHIFT_COUNT
  set_shift rota_out week shift (rota_rand r_person config.person_count)

/-- Function `mutate_random_swap` (lines 753-771); the draw `r_shift_b` is consumed only
when `shift_a < 5`. -/
def mutate_random_swap (config : config_t) (rota_in : rota_t)
    (r_week_a r_shift_a r_week_b r_shift_b : Nat) : rota_t :=
  let rota_out := rota_in
  let week_a := rota_rand r_week_a config.week_count
  let shift_a := rota_rand r_shift_a SHIFT_COUNT
  let week_b := rota_rand r_week_b config.week_count
  let shift_b := if shift_a < 5 then rota_rand r_shift_b 5 else shift_a
  let rota_out := set_shift rota_out week_a shift_a ((rota_in.weeks week_b).shifts shift_b)
  set_shift rota_out week_b shift_b ((rota_in.weeks week_a).shifts shift_a)

/-! ## The search loop of `main` (lines 1451-1485) -/

/-- Record `state_t`: in C a pair of pointers; here the schedule and the score they
point to, so `swap_state` exchanges two values and the `memcpy` pair copies one. -/
structure state_t where
  rota : rota_t
  score : score_t

/-- The three buffers of the search loop. -/
structure search_t where
  current : state_t
  candidate : state_t
  best : state_t

abbrev run_count : Nat := 6 * 1024 * 1024

/-- Function `swap_state` (lines 1370-1375). -/
def swap_state (a b : state_t) : state_t × state_t := (b, a)

/-- Lines 1473-1484 of iteration `i`: the acceptance test on the scored candidate and
the update of `best`. `u` is the uniform draw and `accept_prob` the value of
`powf(.5f, 1.f + i/acceptance_half_life)`. -/
def search_accept (i : Nat) (u accept_prob : ℚ) (s : search_t) : search_t :=
  -- accept randomly or if better
  let swapped :=
    if s.candidate.score.value > s.current.score.value ∨ u < accept_prob then
      swap_state s.current s.candidate
    else (s.current, s.candidate)
  let current := swapped.1
  let candidate := swapped.2
  -- keep track of best ever
  let best := if i = 0 ∨ current.score.value > s.best.score.value then current else s.best
  { current := current, candidate := candidate, best := best }

/-- Lines 1466-1484: one iteration of the search loop. The raw draws are `r_kind` (the
`switch`), `r_a .. r_d` (the mutation; `r_d` is read by the swap only) and `r_u` (the
acceptance draw); `accept_prob` is the value of the `powf` expression at iteration `i`. -/
def search_iteration (config : config_t) (points : points_t) (accept_prob : ℚ) (i : Nat)
    (r_kind r_a r_b r_c r_d r_u : Nat) (s : search_t) : search_t :=
  -- do mutation
  let rota :=
    if rota_rand r_kind 2 = 1 then mutate_random_swap config s.current.rota r_a r_b r_c r_d
    else mutate_random_reassign config s.current.rota r_a r_b r_c
  let candidate : state_t := { rota := rota, score := score_rota config points rota }
  let u : ℚ := (rota_rand r_u run_count : ℚ) / (run_count : ℚ)
  search_accept i u accept_prob { s with candidate := candidate }

/-- Lines 1449-1456: the state at loop entry for an initial schedule `rota`: `current`
is scored and copied into `best`; the candidate buffers are still unwritten in C and
hold the same schedule here. -/
def search_init (config : config_t) (points : points_t) (rota : rota_t) : search_t :=
  let current : state_t := { rota := rota, score := score_rota config points rota }
  { current := current, candidate := current, best := current }

abbrev acceptance_half_life : Nat := 256 * 1024

/-- The exponent `1.f + (float)i/(float)acceptance_half_life` of line 1474, for a half
life `half_life`. -/
def accept_exponent (half_life i : Nat) : ℚ :=
  1 + (i : ℚ) / (half_life : ℚ)

/-- Line 1474: `accept_prob = powf(.5f, 1.f + i/acceptance_half_life)`. The library
function `powf` is not part of the repository and is an argument. -/
def accept_prob (powf : ℚ → ℚ → ℚ) (half_life i : Nat) : ℚ :=
  powf (1 / 2) (accept_exponent half_life i)

/-- Lines 1442-1448: every slot of the first `week_count` weeks is assigned a random
person; `genrand k` is the raw value of the `k`-th generator call and `rota` the content
of the buffer before the loop. -/
def random_fill (config : config_t) (genrand : Nat → Nat) (rota : rota_t) : rota_t :=
  (List.range config.week_count).foldl
    (fun rota i =>
      (List.range SHIFT_COUNT).foldl
        (fun rota j =>
          set_shift rota i j
            (rota_rand (genrand (i * SHIFT_COUNT + j)) config.person_count))
        rota)
    rota

/-- The raw values of `genrand_int32` consumed by one iteration of the search loop, in
the order of the calls: the `switch`, the mutation (`r_d` is read by the swap only) and
the acceptance draw. -/
structure draws_t where
  r_kind : Nat
  r_a : Nat
  r_b : Nat
  r_c : Nat
  r_d : Nat
  r_u : Nat

/-- Lines 1449-1485: the three buffers after the first `n` iterations of the search loop
(`n = 0` is loop entry) from the initial schedule `rota`; `accept_prob i` is the value of
the `powf` expression and `draws i` the generator values of iteration `i`. -/
def search_run (config : config_t) (points : points_t) (accept_prob : Nat → ℚ)
    (draws : Nat → draws_t) (rota : rota_t) : Nat → search_t
  | 0 => search_init config points rota
  | i + 1 =>
    search_iteration config points (accept_prob i) i (draws i).r_kind (draws i).r_a
      (draws i).r_b (draws i).r_c (draws i).r_d (draws i).r_u
      (search_run config points accept_prob draws rota i)

/-! ## The loader (lines 265-308 and 773-1210)

The file is read through `fopen`, `fgetc`, `sscanf`, `atof`, `mktime` and `localtime`.
Here the input is the number of leading non-empty columns of the header line (whose
dates are taken to be consecutive days starting on a Monday) and the list of the
following lines, each already split at the commas by `scan_for_next_column`. The two
number parsers are arguments. A fatal error (`exit(-1)`) is `none`. -/

/-- Function `set_holiday_day` (lines 265-268). -/
def set_holiday_day (config : config_t) (rota_day_index : Nat) (person : Int) : config_t :=
  { config with
    holiday_day_bits := Function.update config.holiday_day_bits rota_day_index
      (config.holiday_day_bits rota_day_index ||| (1 <<< person.toNat)) }

/-- Function `set_invalid_on_call_day` (lines 275-278). -/
def set_invalid_on_call_day (config : config_t) (rota_day_index : Nat) (person : Int) :
    config_t :=
  { config with
    invalid_on_call_day_bits := Function.update config.invalid_on_call_day_bits rota_day_index
      (config.invalid_on_call_day_bits rota_day_index ||| (1 <<< person.toNat)) }

/-- Function `set_invalid_ward_week` (lines 285-288). -/
def set_invalid_ward_week (config : config_t) (week_index : Nat) (person : Int) : config_t :=
  { config with
    invalid_ward_week_bits := Function.update config.invalid_ward_week_bits week_index
      (config.invalid_ward_week_bits week_index ||| (1 <<< person.toNat)) }

/-- Function `set_disliked_ward_week` (lines 295-298). -/
def set_disliked_ward_week (config : config_t) (week_index : Nat) (person : Int) : config_t :=
  { config with
    disliked_ward_week_bits := Function.update config.disliked_ward_week_bits week_index
      (config.disliked_ward_week_bits week_index ||| (1 <<< person.toNat)) }

/-- Function `set_disliked_on_call_day` (lines 305-308). -/
def set_disliked_on_call_day (config : config_t) (rota_day_index : Nat) (person : Int) :
    config_t :=
  { config with
    disliked_on_call_day_bits := Function.update config.disliked_on_call_day_bits
      rota_day_index
      (config.disliked_on_call_day_bits rota_day_index ||| (1 <<< person.toNat)) }

/-- The two C library number parsers used on the cells: `atof(line)` and
`sscanf(line, "%f", &amount)`, which answers `none` when it does not return 1. -/
structure libc_t where
  atof : String → ℚ
  sscanf_float : String → Option ℚ

abbrev CATEGORY_HOLIDAY : Int := 0
abbrev CATEGORY_CANNOT_ON_CALL_DAY : Int := 1
abbrev CATEGORY_CANNOT_ON_CALL_DAY_ALWAYS : Int := 2
abbrev CATEGORY_CANNOT_WARD_WEEK : Int := 3
abbrev CATEGORY_DISLIKE_ON_CALL_DAY : Int := 4
abbrev CATEGORY_DISLIKE_ON_CALL_DAY_ALWAYS : Int := 5
abbrev CATEGORY_DISLIKE_WARD_WEEK : Int := 6
abbrev CATEGORY_PART_TIME : Int := 7
abbrev CATEGORY_START_DATE : Int := 8
abbrev CATEGORY_END_DATE : Int := 9
abbrev CATEGORY_BANK_HOLIDAY : Int := 10
abbrev CATEGORY_BANK_HOLIDAY_BIAS : Int := 11
abbrev CATEGORY_WARD_WEEK_BIAS : Int := 12
abbrev CATEGORY_ON_CALL_DAY_BIAS : Int := 13
abbrev CATEGORY_ON_CALL_WEEKEND_BIAS : Int := 14
abbrev CATEGORY_NO_WARD_WEEKS : Int := 15
abbrev CATEGORY_FORCE_ON_CALL_DAY : Int := 16
abbrev CATEGORY_COUNT : Nat := 17

/-- Table `g_category_names` (lines 886-905). -/
def g_category_names : List String :=
  ["holiday", "cannot be on call", "always cannot be on call", "cannot be on ward",
    "prefer not on call", "always prefer not on call", "prefer not on ward", "part time",
    "start date", "end date", "bank holiday", "bank holiday bias", "ward week bias",
    "on call day bias", "on call weekend bias", "no ward weeks", "must be on call"]

/-- Function `match_category_by_tag` (lines 907-917): the first index whose name is the
tag; an unknown tag is fatal. -/
def match_category_by_tag (tag : String) : Option Int :=
  ((List.range CATEGORY_COUNT).find? fun i => g_category_names.getD i "" = tag).map
    fun i => (i : Int)

abbrev FIRST_DAY_COLUMN : Nat := 2

/-- The person record after `memset(config, 0, sizeof(config_t))`. -/
def person_config_zero : person_config_t :=
  ⟨"", 0, 0, 0, 0, 0, false, 0, 0, 0, 0, 0, 0, 0, 0, 0, 0⟩

/-- Lines 944-947: the configuration after the `memset` and the loop that sets the
`7*MAX_WEEK_COUNT` entries of `forced_on_call_people` to -1. -/
def config_zero : config_t :=
  { person_count := 0
    week_count := 0
    people := fun _ => person_config_zero
    bank_holiday_bits := fun _ => 0
    holiday_day_bits := fun _ => 0
    invalid_on_call_day_bits := fun _ => 0
    invalid_ward_week_bits := fun _ => 0
    disliked_on_call_day_bits := fun _ => 0
    disliked_ward_week_bits := fun _ => 0
    forced_on_call_people := fun i => if i < 7 * MAX_WEEK_COUNT then -1 else 0
    total_on_call_days_and_bias := 0
    total_on_call_weekends_and_bias := 0
    total_ward_weeks_and_bias := 0
    total_bank_holidays_and_bias := 0
    effective_on_call_person_count := 0
    effective_ward_person_count := 0 }

/-- Function `find_or_add_person` (lines 821-846): the index of the first person with
that name, or a new person after the last one; an empty name is fatal. The copy of the
name is not bounded by `MAX_PERSON_NAME_LENGTH` here, nor the person count by
`MAX_PERSON_COUNT` (the C function checks neither). -/
def find_or_add_person (config : config_t) (name : String) : Option (config_t × Int) :=
  if name = "" then none
  else
    match (List.range config.person_count).find? fun person =>
        (config.people (person : Int)).name = name with
    | some person => some (config, (person : Int))
    | none =>
      let person : Int := config.person_count
      let info : person_config_t :=
        { config.people person with
          name := name
          full_time_amount := 1
          first_day := 0
          last_day := (config.week_count : Int) * 7 - 1
          effective_full_time_amount := 1 }
      some ({ config with
              people := Function.update config.people person info
              person_count := config.person_count + 1 }, person)

/-- Lines 1030-1142: the `switch` on the category for a non-empty cell of a day
column. -/
def read_cell (libc : libc_t) (config : config_t) (person category : Int)
    (rota_day_index : Nat) (line : String) : Option config_t :=
  let weekday_index := rota_day_index % 7
  if category = CATEGORY_HOLIDAY then
    some (set_holiday_day config rota_day_index person)
  else if category = CATEGORY_CANNOT_ON_CALL_DAY then
    some (set_invalid_on_call_day config rota_day_index person)
  else if category = CATEGORY_CANNOT_ON_CALL_DAY_ALWAYS then
    some ((List.range config.week_count).foldl
      (fun config week_index =>
        set_invalid_on_call_day config (7 * week_index + weekday_index) person) config)
  else if category = CATEGORY_DISLIKE_ON_CALL_DAY then
    some (set_disliked_on_call_day config rota_day_index person)
  else if category = CATEGORY_DISLIKE_ON_CALL_DAY_ALWAYS then
    some ((List.range config.week_count).foldl
      (fun config week_index =>
        set_disliked_on_call_day config (7 * week_index + weekday_index) person) config)
  else if category = CATEGORY_CANNOT_WARD_WEEK then
    if weekday_index < 5 then some (set_invalid_ward_week config (rota_day_index / 7) person)
    else some config
  else if category = CATEGORY_DISLIKE_WARD_WEEK then
    if weekday_index < 5 then some (set_disliked_ward_week config (rota_day_index / 7) person)
    else some config
  else if category = CATEGORY_PART_TIME then
    match libc.sscanf_float line with
    | none => none
    | some amount =>
      if amount < 0 ∨ 1 < amount then none
      else
        some { config with
          people := Function.update config.people person
            { config.people person with full_time_amount := amount } }
  else if category = CATEGORY_START_DATE then
    if (config.people person).first_day ≠ 0 then none
    else
      some { config with
        people := Function.update config.people person
          { config.people person with first_day := rota_day_index } }
  else if category = CATEGORY_END_DATE then
    if (config.people person).last_day ≠ 7 * (config.week_count : Int) - 1 then none
    else
      some { config with
        people := Function.update config.people person
          { config.people person with last_day := rota_day_index } }
  else if category = CATEGORY_BANK_HOLIDAY then
    let config := set_bank_holiday config rota_day_index
    some { config with
      total_bank_holidays_and_bias := config.total_bank_holidays_and_bias + 1 }
  else if category = CATEGORY_BANK_HOLIDAY_BIAS then
    some { config with
      people := Function.update config.people person
        { config.people person with bank_holiday_bias := libc.atof line } }
  else if category = CATEGORY_WARD_WEEK_BIAS then
    some { config with
      people := Function.update config.people person
        { config.people person with ward_week_bias := libc.atof line } }
  else if category = CATEGORY_ON_CALL_DAY_BIAS then
    some { config with
      people := Function.update config.people person
        { config.people person with on_call_day_bias := libc.atof line } }
  else if category = CATEGORY_ON_CALL_WEEKEND_BIAS then
    some { config with
      people := Function.update config.people person
        { config.people person with on_call_weekend_bias := libc.atof line } }
  else if category = CATEGORY_NO_WARD_WEEKS then
    some { config with
      people := Function.update config.people person
        { config.people person with cannot_do_ward_weeks := true } }
  else if category = CATEGORY_FORCE_ON_CALL_DAY then
    if config.forced_on_call_people rota_day_index ≠ -1 then none
    else
      some { config with
        forced_on_call_people :=
          Function.update config.forced_on_call_people rota_day_index person }
  else none

/-- Lines 1010-1145: the loop over the columns of one line, from column `col` on, the
remaining columns being the list; `some config` also when a `break` ends the loop. -/
def read_row_from (libc : libc_t) (day_count : Int) :
    List String → Nat → Int → Int → config_t → Option config_t
  | [], _, _, _, config => some config
  | line :: next, col, person, category, config =>
    if ¬ ((col : Int) < FIRST_DAY_COLUMN + day_count) then some config
    else if col = 0 then
      -- skip rows with no person
      if line ≠ "" then
        match find_or_add_person config line with
        | none => none
        | some found => read_row_from libc day_count next (col + 1) found.2 category found.1
      else read_row_from libc day_count next (col + 1) person category config
    else if col = 1 then
      -- only allow bank holidays with no person
      if line = "" then
        if person = -1 then some config else none
      else
        match match_category_by_tag line with
        | none => none
        | some matched =>
          if person = -1 ∧ matched ≠ CATEGORY_BANK_HOLIDAY then some config
          else read_row_from libc day_count next (col + 1) person matched config
    else if line ≠ "" then
      match read_cell libc config person category (col - FIRST_DAY_COLUMN) line with
      | none => none
      | some config => read_row_from libc day_count next (col + 1) person category config
    else read_row_from libc day_count next (col + 1) person category config

/-- Lines 1003-1146: the loop over the lines after the header. -/
def read_rows (libc : libc_t) (day_count : Int) (rows : List (List String))
    (config : config_t) : Option config_t :=
  rows.foldlM (fun config row => read_row_from libc day_count row 0 (-1) (-1) config) config

/-- Lines 944-1000: the configuration after the header line with `header_columns`
leading non-empty columns; not a whole number of weeks, or more than `MAX_WEEK_COUNT`
weeks, is fatal. -/
def read_config_header (header_columns : Nat) : Option config_t :=
  let day_count : Int := (header_columns : Int) - FIRST_DAY_COLUMN
  if Int.tmod day_count 7 ≠ 0 then none
  else
    let week_count := Int.tdiv day_count 7
    if week_count > MAX_WEEK_COUNT then none
    else
      some { config_zero with
        week_count := week_count.toNat
        total_on_call_days_and_bias := 5 * (week_count : ℚ)
        total_on_call_weekends_and_bias := (week_count : ℚ)
        total_ward_weeks_and_bias := (week_count : ℚ) }

/-- Lines 1155-1165: the three loops over the days for one person: the days before
`first_day` and after `last_day` become holidays, the days in between without the holiday
bit are counted. -/
def read_config_person_days (config : config_t) (person_index : Nat) : config_t :=
  let total_day_count : Int := 7 * (config.week_count : Int)
  let first_day := (config.people person_index).first_day
  let last_day := (config.people person_index).last_day
  let config := (List.range first_day.toNat).foldl
    (fun config i => set_holiday_day config i person_index) config
  let config := (List.range (last_day + 1 - first_day).toNat).foldl
    (fun config (k : Nat) =>
      if is_holiday_day config (first_day + (k : Int)).toNat person_index = false then
        { config with
          people := Function.update config.people (person_index : Int)
            { config.people person_index with
              total_non_holiday_days :=
                (config.people person_index).total_non_holiday_days + 1 } }
      else config) config
  (List.range (total_day_count - (last_day + 1)).toNat).foldl
    (fun config (k : Nat) =>
      set_holiday_day config (last_day + 1 + (k : Int)).toNat person_index)
    config

/-- Lines 1153-1183: the body of the aggregation loop for one person; a ward-disallowed
person with a ward week bias is fatal. -/
def read_config_person (config : config_t) (person_index : Nat) : Option config_t :=
  let total_day_count : Int := 7 * (config.week_count : Int)
  let config := read_config_person_days config person_index
  let person := config.people person_index
  let person_day_count : Int := 1 + person.last_day - person.first_day
  let rota_amount : ℚ := (person_day_count : ℚ) / (total_day_count : ℚ)
  let person := { person with
    effective_full_time_amount := person.full_time_amount * rota_amount }
  let config := { config with people := Function.update config.people (person_index : Int) person }
  if person.cannot_do_ward_weeks = true ∧ person.ward_week_bias ≠ 0 then none
  else
    some { config with
      total_on_call_days_and_bias := config.total_on_call_days_and_bias + person.on_call_day_bias
      total_on_call_weekends_and_bias :=
        config.total_on_call_weekends_and_bias + person.on_call_weekend_bias
      total_ward_weeks_and_bias := config.total_ward_weeks_and_bias + person.ward_week_bias
      total_bank_holidays_and_bias :=
        config.total_bank_holidays_and_bias + person.bank_holiday_bias
      effective_on_call_person_count :=
        config.effective_on_call_person_count + person.effective_full_time_amount
      effective_ward_person_count :=
        if person.cannot_do_ward_weeks = false then
          config.effective_ward_person_count + person.effective_full_time_amount
        else config.effective_ward_person_count }

/-- Lines 1151-1184: the aggregation loop over the persons. -/
def read_config_aggregate (config : config_t) : Option config_t :=
  (List.range config.person_count).foldlM read_config_person config

/-- Macro `MIN` (line 19). -/
def MIN (a b : ℚ) : ℚ := if a < b then a else b

/-- Lines 1188-1208: the targets of one person. A division by zero, which gives an
infinity or a NaN in C, gives 0 here. -/
def read_config_target (config : config_t) (person_index : Nat) : config_t :=
  let person := config.people person_index
  let on_call_ratio := person.effective_full_time_amount / config.effective_on_call_person_count
  let ward_ratio :=
    if person.cannot_do_ward_weeks = true then 0
    else person.effective_full_time_amount / config.effective_ward_person_count
  let target_on_call_days := on_call_ratio * config.total_on_call_days_and_bias
  let target_on_call_weekends := on_call_ratio * config.total_on_call_weekends_and_bias
  let target_ward_weeks := ward_ratio * config.total_ward_weeks_and_bias
  let target_on_call_bank_holidays := on_call_ratio * config.total_bank_holidays_and_bias
  let expected_on_call_days := target_on_call_days - person.on_call_day_bias
  let expected_on_call_weekends := target_on_call_weekends - person.on_call_weekend_bias
  let expected_ward_weeks := target_ward_weeks - person.ward_week_bias
  let expected_working_days :=
    expected_on_call_days + 2 * expected_on_call_weekends + 5 * expected_ward_weeks
  let expected_follow_on_shifts := MIN expected_ward_weeks expected_on_call_weekends
  let expected_shift_count :=
    expected_on_call_days + expected_on_call_weekends + expected_ward_weeks
      - expected_follow_on_shifts
  { config with
    people := Function.update config.people (person_index : Int)
      { person with
        target_on_call_days := target_on_call_days
        target_on_call_weekends := target_on_call_weekends
        target_ward_weeks := target_ward_weeks
        target_on_call_bank_holidays := target_on_call_bank_holidays
        target_day_off_block_size :=
          ((person.total_non_holiday_days : ℚ) - expected_working_days) / expected_shift_count
        target_ward_week_spacing :=
          (person.total_non_holiday_days : ℚ) / expected_ward_weeks } }

/-- Lines 1186-1209: the target loop over the persons. -/
def read_config_targets (config : config_t) : config_t :=
  (List.range config.person_count).foldl read_config_target config

/-- Function `read_config` (lines 942-1210) on the header and the lines of the file. -/
def read_config (libc : libc_t) (header_columns : Nat) (rows : List (List String)) :
    Option config_t :=
  match read_config_header header_columns with
  | none => none
  | some config =>
    match read_rows libc ((header_columns : Int) - FIRST_DAY_COLUMN) rows config with
    | none => none
    | some config =>
      match read_config_aggregate config with
      | none => none
      | some config => some (read_config_targets config)

/-- Line 1198: `expected_on_call_days`, from the target stored just before. -/
def expected_on_call_days (person : person_config_t) : ℚ :=
  person.target_on_call_days - person.on_call_day_bias

/-- Line 1199: `expected_on_call_weekends`. -/
def expected_on_call_weekends (person : person_config_t) : ℚ :=
  person.target_on_call_weekends - person.on_call_weekend_bias

/-- Line 1200: `expected_ward_weeks`, the divisor of `target_ward_week_spacing`. -/
def expected_ward_weeks (person : person_config_t) : ℚ :=
  person.target_ward_weeks - person.ward_week_bias

/-- Line 1202: `expected_working_days`. -/
def expected_working_days (person : person_config_t) : ℚ :=
  expected_on_call_days person + 2 * expected_on_call_weekends person
    + 5 * expected_ward_weeks person

/-- Lines 1204-1205: `expected_shift_count`, the divisor of
`target_day_off_block_size`. -/
def expected_shift_count (person : person_config_t) : ℚ :=
  expected_on_call_days person + expected_on_call_weekends person
    + expected_ward_weeks person
    - MIN (expected_ward_weeks person) (expected_on_call_weekends person)

/-! ## The weight table loader (lines 129-151 and 1377-1412) -/

/-- Table `g_points_names` (lines 129-151). -/
def g_points_names : List String :=
  ["shift_overlap", "work_on_holiday", "on_call_on_invalid_day", "on_ward_on_invalid_week",
    "not_on_call_when_forced", "work_following_on_call", "on_call_on_disliked_day",
    "ward_week_on_disliked_week", "on_call_day_difference", "on_call_bank_holiday_difference",
    "on_call_weekend_difference", "ward_week_difference",
    "on_call_weekend_follows_ward_week", "multiple_on_calls_per_week",
    "ward_week_one_week_ago", "ward_week_two_weeks_ago", "day_off", "day_off_decay",
    "no_ward_week", "no_ward_week_decay"]

/-- Lines 1394-1407: the body of the loop of `read_points` for one line of the file. A
line is `none` when it is empty (`*line == '\0'`: skipped) and `some (name, value)`
otherwise, `name` being the text before the first comma and `value` the text after it.
(A non-empty line without a comma leaves `value` a null pointer, which `atof` may not be
given; such lines are not represented.) The inner loop finds the first index whose name
is `name`; reaching `POINTS_COUNT` is fatal. -/
def read_points_line (libc : libc_t) (points : points_t) (line : Option (String × String)) :
    Option points_t :=
  match line with
  | none => some points
  | some (name, value) =>
    match (List.range POINTS_COUNT).find? fun i => g_points_names.getD i "" = name with
    | none => none
    | some i => some ⟨Function.update points.values i (libc.atof value)⟩

/-- Function `read_points` (lines 1377-1412) on the lines of the file, from the table
that `memset` fills with zeros. -/
def read_points (libc : libc_t) (lines : List (Option (String × String))) : Option points_t :=
  lines.foldlM (read_points_line libc) ⟨fun _ => 0⟩

/-! ## The array accesses of the scorer

The C function has no error branch: an access outside an array is undefined behaviour.
The lists below name, in program order, every array subscript and every shift count that
`score_rota` evaluates, each with the number of elements of the array (or the width of
the shifted word); `score_rota_checked` is the scorer that fails when one of them is out
of bounds. The subscript of `failure_data` is not listed: `add_failure` guards it
itself. -/

/-- An array subscript (or shift count) together with the size of the array (or the
width of the word). -/
structure access_t where
  index : Int
  size : Nat

/-- The access is within bounds. -/
def access_t.ok (a : access_t) : Bool :=
  decide (0 ≤ a.index ∧ a.index < (a.size : Int))

/-- A subscript of one of the per-person arrays of `MAX_PERSON_COUNT` elements:
`config->people`, `score->people`, `last_on_call_week`, `last_work_day`,
`last_ward_week`. -/
def people_at (person : Int) : access_t := ⟨person, MAX_PERSON_COUNT⟩

/-- The shift count of `1U << person` in a 32-bit word. -/
def shift_by (person : Int) : access_t := ⟨person, 32⟩

/-- A subscript of `holiday_day_bits[MAX_WEEK_COUNT*7 + 1]`. -/
def holiday_day_bits_at (rota_day_index : Nat) : access_t :=
  ⟨rota_day_index, MAX_WEEK_COUNT * 7 + 1⟩

/-- A subscript of one of the per-day arrays of `MAX_WEEK_COUNT*7` elements:
`invalid_on_call_day_bits`, `disliked_on_call_day_bits`, `forced_on_call_people`. -/
def day_array_at (rota_day_index : Nat) : access_t := ⟨rota_day_index, MAX_WEEK_COUNT * 7⟩

/-- A subscript of one of the per-week arrays of `MAX_WEEK_COUNT` elements:
`invalid_ward_week_bits`, `disliked_ward_week_bits`, `rota->weeks`. -/
def week_array_at (week_index : Nat) : access_t := ⟨week_index, MAX_WEEK_COUNT⟩

/-- A subscript of `bank_holiday_bits[DIV_ROUND_UP(MAX_WEEK_COUNT*7, 32)]`, as
`is_bank_holiday` computes it. -/
def bank_holiday_bits_at (rota_day_index : Nat) : access_t :=
  ⟨((rota_day_index / 32 : Nat) : Int), (MAX_WEEK_COUNT * 7 + (32 - 1)) / 32⟩

/-- A subscript of `week->shifts[SHIFT_COUNT]`. -/
def shifts_at (shift : Nat) : access_t := ⟨shift, SHIFT_COUNT⟩

/-- The accesses of the weekday branch (lines 368-469), in program order. -/
def score_weekday_accesses (config : config_t) (rota : rota_t)
    (week_index day_index : Nat) : List access_t :=
  let rota_day_index : Nat := week_index * 7 + day_index
  let person_on_call := (rota.weeks week_index).shifts day_index
  let person_on_ward := (rota.weeks week_index).shifts SHIFT_WARD_WEEK
  -- lines 369-370
  [shifts_at day_index, shifts_at SHIFT_WARD_WEEK] ++
  -- line 377
  (if day_index = 0 then [people_at person_on_ward] else []) ++
  -- lines 383, 387, 391
  [holiday_day_bits_at rota_day_index, shift_by person_on_call,
    holiday_day_bits_at rota_day_index, shift_by person_on_ward,
    holiday_day_bits_at (rota_day_index + 1), shift_by person_on_call] ++
  -- line 397
  (if day_index = 0 then [week_array_at week_index, shift_by person_on_ward] else []) ++
  -- lines 401, 407, 424
  [day_array_at rota_day_index, shift_by person_on_call, day_array_at rota_day_index,
    people_at person_on_call] ++
  -- lines 429, 432
  (if day_index = 0 ∧ week_index > 0 then
    [week_array_at (week_index - 1), shifts_at SHIFT_WARD_WEEK] else []) ++
  (if day_index = 0 ∧ week_index > 1 then
    [week_array_at (week_index - 2), shifts_at SHIFT_WARD_WEEK] else []) ++
  -- lines 437, 440
  [day_array_at rota_day_index, shift_by person_on_call] ++
  (if day_index = 0 then [week_array_at week_index, shift_by person_on_ward] else []) ++
  -- lines 445, 447, 452
  [people_at person_on_call] ++
  (if day_index = 0 then [people_at person_on_ward, people_at person_on_ward] else []) ++
  -- lines 456-459
  [people_at person_on_call, people_at person_on_ward, people_at person_on_call,
    people_at person_on_ward] ++
  -- lines 463-468
  [bank_holiday_bits_at rota_day_index] ++
  (if is_bank_holiday config rota_day_index = true then [people_at person_on_call] else []) ++
  [people_at person_on_call] ++
  (if day_index = 0 then [people_at person_on_ward] else [])

/-- The accesses of the weekend branch (lines 470-522), in program order. -/
def score_weekend_day_accesses (rota : rota_t) (week_index day_index : Nat) :
    List access_t :=
  let rota_day_index : Nat := week_index * 7 + day_index
  let person_on_call := (rota.weeks week_index).shifts SHIFT_ON_CALL_WEEKEND
  -- lines 471, 474, 480, 486
  [shifts_at SHIFT_ON_CALL_WEEKEND, holiday_day_bits_at rota_day_index,
    shift_by person_on_call, day_array_at rota_day_index, shift_by person_on_call,
    day_array_at rota_day_index] ++
  -- line 499
  (if day_index = 5 then [people_at person_on_call] else []) ++
  -- line 504
  [day_array_at rota_day_index, shift_by person_on_call] ++
  -- line 510
  (if day_index = 5 then [people_at person_on_call] else []) ++
  -- lines 514-515
  [people_at person_on_call, people_at person_on_call] ++
  -- line 520
  (if day_index = 5 then [people_at person_on_call] else [])

/-- Every access of `score_rota` (lines 356-558), in program order. -/
def score_rota_accesses (config : config_t) (rota : rota_t) : List access_t :=
  -- lines 356-360
  ((List.range config.person_count).flatMap fun i =>
    [people_at i, people_at i, people_at i, people_at i, people_at i]) ++
  -- lines 362-529
  ((List.range config.week_count).flatMap fun week_index =>
    [week_array_at week_index] ++
    ((List.range 7).flatMap fun day_index =>
      if day_index < 5 then score_weekday_accesses config rota week_index day_index
      else score_weekend_day_accesses rota week_index day_index) ++
    [shifts_at SHIFT_ON_CALL_WEEKEND, shifts_at SHIFT_WARD_WEEK]) ++
  -- lines 532-537
  ((List.range config.person_count).flatMap fun i =>
    [people_at i, people_at i, people_at i]) ++
  -- lines 540-558
  ((List.range config.person_count).flatMap fun i => [people_at i, people_at i])

/-- The scorer with an error branch: `none` when an access is out of bounds, the score
of `score_rota` otherwise. -/
def score_rota_checked (config : config_t) (points : points_t) (rota : rota_t) :
    Option score_t :=
  if (score_rota_accesses config rota).all access_t.ok = true then
    some (score_rota config points rota)
  else none

/-! ## Specification-side definitions

These follow the wording of the specification; the theorems compare them with the
embedding of the code above. -/

/-- The `POINTS_*` weight that the scorer charges together with a failure kind. -/
def failure_points (failure : Int) : Nat :=
  if failure = FAILURE_MULTIPLE_SHIFTS_AT_ONCE then POINTS_SHIFT_OVERLAP
  else if failure = FAILURE_WORK_ON_HOLIDAY then POINTS_WORK_ON_HOLIDAY
  else if failure = FAILURE_WORK_JUST_BEFORE_HOLIDAY then POINTS_WORK_ON_HOLIDAY
  else if failure = FAILURE_NOT_ON_CALL_WHEN_FORCED then POINTS_NOT_ON_CALL_WHEN_FORCED
  else if failure = FAILURE_ON_WARD_WHEN_CANNOT then POINTS_ON_WARD_ON_INVALID_WEEK
  else if failure = FAILURE_ON_CALL_WHEN_CANNOT then POINTS_ON_CALL_ON_INVALID_DAY
  else POINTS_WORK_FOLLOWING_ON_CALL

/-- Total weight of a list of hard-violation events under a weight table. -/
def charge (points : points_t) (events : List failure_data_t) : ℚ :=
  (events.map fun e => points.values (failure_points e.failure)).sum

/-- The person who was on call on the calendar day before day `day_index` of week
`week_index`; `-1` before the first day of the horizon. -/
def on_call_yesterday (rota : rota_t) (week_index day_index : Nat) : Int :=
  if day_index = 0 then
    if week_index = 0 then -1
    else (rota.weeks (week_index - 1)).shifts SHIFT_ON_CALL_WEEKEND
  else if day_index ≤ 5 then (rota.weeks week_index).shifts (day_index - 1)
  else (rota.weeks week_index).shifts SHIFT_ON_CALL_WEEKEND

/-- Hard-violation events of a weekday (Monday to Friday), in the order of the checks,
`yesterday` being the person on call the day before. -/
def weekday_violations (config : config_t) (rota : rota_t) (week_index day_index : Nat)
    (yesterday : Int) : List failure_data_t :=
  let rota_day_index : Nat := week_index * 7 + day_index
  let person_on_call := (rota.weeks week_index).shifts day_index
  let person_on_ward := (rota.weeks week_index).shifts SHIFT_WARD_WEEK
  let forced_on_call_person := config.forced_on_call_people rota_day_index
  (if person_on_call = person_on_ward then
      [⟨FAILURE_MULTIPLE_SHIFTS_AT_ONCE, person_on_call, rota_day_index⟩] else []) ++
  (if day_index = 0 ∧ (config.people person_on_ward).cannot_do_ward_weeks = true then
      [⟨FAILURE_ON_WARD_WHEN_CANNOT, person_on_ward, rota_day_index⟩] else []) ++
  (if is_holiday_day config rota_day_index person_on_call = true then
      [⟨FAILURE_WORK_ON_HOLIDAY, person_on_call, rota_day_index⟩] else []) ++
  (if is_holiday_day config rota_day_index person_on_ward = true then
      [⟨FAILURE_WORK_ON_HOLIDAY, person_on_ward, rota_day_index⟩] else []) ++
  (if is_holiday_day config (rota_day_index + 1) person_on_call = true then
      [⟨FAILURE_WORK_JUST_BEFORE_HOLIDAY, person_on_call, rota_day_index⟩] else []) ++
  (if day_index = 0 ∧ is_invalid_ward_week config week_index person_on_ward = true then
      [⟨FAILURE_ON_WARD_WHEN_CANNOT, person_on_ward, rota_day_index⟩] else []) ++
  (if is_invalid_on_call_day config rota_day_index person_on_call = true then
      [⟨FAILURE_ON_CALL_WHEN_CANNOT, person_on_call, rota_day_index⟩] else []) ++
  (if forced_on_call_person ≠ -1 ∧ forced_on_call_person ≠ person_on_call then
      [⟨FAILURE_NOT_ON_CALL_WHEN_FORCED, forced_on_call_person, rota_day_index⟩] else []) ++
  (if day_index = 0 ∧ person_on_ward = yesterday then
      [⟨FAILURE_WORK_FOLLOWING_ON_CALL, person_on_ward, rota_day_index⟩] else []) ++
  (if person_on_call = yesterday then
      [⟨FAILURE_WORK_FOLLOWING_ON_CALL, person_on_call, rota_day_index⟩] else [])

/-- Hard-violation events of a weekend day (Saturday, Sunday), in the order of the
checks. -/
def weekend_violations (config : config_t) (rota : rota_t) (week_index day_index : Nat)
    (yesterday : Int) : List failure_data_t :=
  let rota_day_index : Nat := week_index * 7 + day_index
  let person_on_call := (rota.weeks week_index).shifts SHIFT_ON_CALL_WEEKEND
  let forced_on_call_person := config.forced_on_call_people rota_day_index
  (if is_holiday_day config rota_day_index person_on_call = true then
      [⟨FAILURE_WORK_ON_HOLIDAY, person_on_call, rota_day_index⟩] else []) ++
  (if is_invalid_on_call_day config rota_day_index person_on_call = true then
      [⟨FAILURE_ON_CALL_WHEN_CANNOT, person_on_call, rota_day_index⟩] else []) ++
  (if forced_on_call_person ≠ -1 ∧ forced_on_call_person ≠ person_on_call then
      [⟨FAILURE_NOT_ON_CALL_WHEN_FORCED, forced_on_call_person, rota_day_index⟩] else []) ++
  (if day_index = 5 ∧ person_on_call = yesterday then
      [⟨FAILURE_WORK_FOLLOWING_ON_CALL, person_on_call, rota_day_index⟩] else [])

/-- Hard-violation events of one day of the horizon. -/
def day_violations (config : config_t) (rota : rota_t) (week_index day_index : Nat) :
    List failure_data_t :=
  if day_index < 5 then
    weekday_violations config rota week_index day_index
      (on_call_yesterday rota week_index day_index)
  else
    weekend_violations config rota week_index day_index
      (on_call_yesterday rota week_index day_index)

/-- Hard-violation events of one week, day by day. -/
def week_violations (config : config_t) (rota : rota_t) (week_index : Nat) :
    List failure_data_t :=
  (List.range 7).flatMap (day_violations config rota week_index)

/-- All hard-violation events of a schedule in sweep order (weeks, then days, then the
order of the checks), without any cap. Its length is the total number `V` of hard
violations. -/
def hard_violations (config : config_t) (rota : rota_t) : List failure_data_t :=
  (List.range config.week_count).flatMap (week_violations config rota)

/-- The failure records a score really holds: the first `failure_count` entries of
`failure_data`. -/
def recorded_failures (score : score_t) : List failure_data_t :=
  score.failure_data.take score.failure_count

/-- The shift-overlap records of the (week, weekday) pairs whose on-call person is that
week's ward person, in calendar order. -/
def overlap_records (rota : rota_t) (week_count : Nat) : List failure_data_t :=
  (List.range week_count).flatMap fun week_index =>
    (List.range 5).flatMap fun day_index =>
      if (rota.weeks week_index).shifts day_index
          = (rota.weeks week_index).shifts SHIFT_WARD_WEEK then
        [⟨FAILURE_MULTIPLE_SHIFTS_AT_ONCE, (rota.weeks week_index).shifts day_index,
          ((week_index * 7 + day_index : Nat) : Int)⟩]
      else []

/-- The weight table with the six hard weights and the other, soft weights zero except
for the two decay factors, which are not charged by themselves. -/
def SoftZero (points : points_t) : Prop :=
  ∀ i, (6 ≤ i ∧ i ≤ 16) ∨ i = 18 → points.values i = 0

/-- What ties a score under construction to the hard-violation events met so far: the
list holds the first 16 of them, and with soft weights zero the value is their
charge. -/
structure Logged (points : points_t) (s : score_t) (events : List failure_data_t) :
    Prop where
  len : s.failure_data.length = MAX_FAILURE_COUNT
  count : s.failure_count = min MAX_FAILURE_COUNT events.length
  data : s.failure_data.take s.failure_count = events.take MAX_FAILURE_COUNT
  value : SoftZero points → s.value = charge points events

/-- The (week, slot) positions of the schedule array in which two schedules differ. -/
def differing_slots (a b : rota_t) : Finset (Nat × Nat) :=
  (Finset.range MAX_WEEK_COUNT ×ˢ Finset.range SHIFT_COUNT).filter
    fun p => (a.weeks p.1).shifts p.2 ≠ (b.weeks p.1).shifts p.2

/-- How many of the slots `slots` of the first `week_count` weeks a person holds. -/
def slot_count (rota : rota_t) (week_count : Nat) (slots : Finset Nat) (person : Int) :
    Nat :=
  ((Finset.range week_count ×ˢ slots).filter
    fun p => (rota.weeks p.1).shifts p.2 = person).card

/-- The weekday on-call slots Monday to Friday. -/
def weekday_slots : Finset Nat := Finset.range 5

/-- The weekend on-call slot. -/
def weekend_slots : Finset Nat := {SHIFT_ON_CALL_WEEKEND}

/-- The ward-week slot. -/
def ward_slots : Finset Nat := {SHIFT_WARD_WEEK}

/-- The scenario of the single-person end-to-end test: one week, one person who is
ward-eligible and has no holiday, invalid-day, invalid-week or forced-day flag in that
week, and a schedule with that person (index 0) in all 7 slots of the week. -/
structure SinglePersonWeek (config : config_t) (rota : rota_t) : Prop where
  week_count : config.week_count = 1
  person_count : config.person_count = 1
  ward_allowed : (config.people 0).cannot_do_ward_weeks = false
  no_holiday : ∀ d, d < 7 → is_holiday_day config d 0 = false
  no_invalid_day : ∀ d, d < 7 → is_invalid_on_call_day config d 0 = false
  no_invalid_week : is_invalid_ward_week config 0 0 = false
  no_forced_day : ∀ d, d < 7 → config.forced_on_call_people d = -1
  slots : ∀ s, s < 7 → (rota.weeks 0).shifts s = 0

/-- The ten failure records of the single-person week: a shift overlap on each weekday,
and work following on call from Tuesday to Saturday. -/
def single_person_week_failures : List failure_data_t :=
  [⟨FAILURE_MULTIPLE_SHIFTS_AT_ONCE, 0, 0⟩,
   ⟨FAILURE_MULTIPLE_SHIFTS_AT_ONCE, 0, 1⟩, ⟨FAILURE_WORK_FOLLOWING_ON_CALL, 0, 1⟩,
   ⟨FAILURE_MULTIPLE_SHIFTS_AT_ONCE, 0, 2⟩, ⟨FAILURE_WORK_FOLLOWING_ON_CALL, 0, 2⟩,
   ⟨FAILURE_MULTIPLE_SHIFTS_AT_ONCE, 0, 3⟩, ⟨FAILURE_WORK_FOLLOWING_ON_CALL, 0, 3⟩,
   ⟨FAILURE_MULTIPLE_SHIFTS_AT_ONCE, 0, 4⟩, ⟨FAILURE_WORK_FOLLOWING_ON_CALL, 0, 4⟩,
   ⟨FAILURE_WORK_FOLLOWING_ON_CALL, 0, 5⟩]

/-- Schedule validity: every slot of the first `week_count` weeks holds a person index
in `[0, person_count)`. -/
def rota_valid (config : config_t) (rota : rota_t) : Prop :=
  ∀ w s, w < config.week_count → s < SHIFT_COUNT →
    0 ≤ (rota.weeks w).shifts s ∧ (rota.weeks w).shifts s < (config.person_count : Int)

/-- A configuration without constraint flags: no holiday, invalid-day or invalid-week
bit, no forced on-call day and no ward-disallowed person. -/
structure NoConstraintFlags (config : config_t) : Prop where
  no_holiday : ∀ d p, is_holiday_day config d p = false
  no_invalid_day : ∀ d p, is_invalid_on_call_day config d p = false
  no_invalid_week : ∀ w p, is_invalid_ward_week config w p = false
  no_forced_day : ∀ d, config.forced_on_call_people d = -1
  no_ward_disallowed : ∀ p, (config.people p).cannot_do_ward_weeks = false

/-- The `7 * week_count` slot occupants of a schedule are pairwise distinct. -/
def distinct_occupants (config : config_t) (rota : rota_t) : Prop :=
  ∀ w s w' s', w < config.week_count → s < SHIFT_COUNT → w' < config.week_count →
    s' < SHIFT_COUNT → (rota.weeks w).shifts s = (rota.weeks w').shifts s' → w = w' ∧ s = s'

/-- The failures of kind `failure` that the weekend on-call slot of week `week_index`
produced among `events`: the records of that kind dated on the Saturday or the Sunday of
the week (the weekday checks date their records Monday to Friday). -/
def weekend_failures (events : List failure_data_t) (week_index : Nat) (failure : Int) :
    List failure_data_t :=
  events.filter fun e =>
    decide ((e.rota_day_index = ((week_index * 7 + 5 : Nat) : Int) ∨
        e.rota_day_index = ((week_index * 7 + 6 : Nat) : Int)) ∧ e.failure = failure)

/-- Truth value as a number: 1 for `true`, 0 for `false`. -/
def flag_count (b : Bool) : Nat := if b = true then 1 else 0

/-- The soft weights charged during the sweep and after the last work day are zero: all
weights except the six hard weights, the four `*_difference` weights and the two decay
factors. -/
def SweepZero (points : points_t) : Prop :=
  ∀ i, i = 6 ∨ i = 7 ∨ (12 ≤ i ∧ i ≤ 16) ∨ i = 18 → points.values i = 0

/-- What ties the score to the hard-violation events met so far while the sweep runs
(before the distribution terms are added): like `Logged`, the value being the charge of
the events as soon as the soft weights of the sweep are zero. -/
structure SweepLogged (points : points_t) (s : score_t) (events : List failure_data_t) :
    Prop where
  len : s.failure_data.length = MAX_FAILURE_COUNT
  count : s.failure_count = min MAX_FAILURE_COUNT events.length
  data : s.failure_data.take s.failure_count = events.take MAX_FAILURE_COUNT
  value : SweepZero points → s.value = charge points events

/-- The record of a person with the four remainders set to total + bias - target. -/
def with_remainders (config : config_t) (person_score : person_score_t) (i : Int) :
    person_score_t :=
  { person_score with
    remainder_on_call_days :=
      person_score.total_on_call_days + (config.people i).on_call_day_bias
        - (config.people i).target_on_call_days
    remainder_on_call_weekends :=
      person_score.total_on_call_weekends + (config.people i).on_call_weekend_bias
        - (config.people i).target_on_call_weekends
    remainder_ward_weeks :=
      person_score.total_ward_weeks + (config.people i).ward_week_bias
        - (config.people i).target_ward_weeks
    remainder_on_call_bank_holidays :=
      person_score.total_on_call_bank_holidays + (config.people i).bank_holiday_bias
        - (config.people i).target_on_call_bank_holidays }

/-- The weighted squares of the four remainders of a person record. -/
def distribution_term (points : points_t) (person_score : person_score_t) : ℚ :=
  points.values POINTS_ON_CALL_DAY_DIFFERENCE * person_score.remainder_on_call_days ^ 2
    + points.values POINTS_ON_CALL_WEEKEND_DIFFERENCE
      * person_score.remainder_on_call_weekends ^ 2
    + points.values POINTS_WARD_WEEK_DIFFERENCE * person_score.remainder_ward_weeks ^ 2
    + points.values POINTS_ON_CALL_BANK_HOLIDAY_DIFFERENCE
      * person_score.remainder_on_call_bank_holidays ^ 2

/-- Structurally valid input of the scorer: between 1 and 32 persons, at most 32 weeks,
forced on-call entries that are -1 or a person index, and a schedule whose slots hold
person indices. -/
structure structurally_valid (config : config_t) (rota : rota_t) : Prop where
  person_count_pos : 1 ≤ config.person_count
  person_count_max : config.person_count ≤ MAX_PERSON_COUNT
  week_count_max : config.week_count ≤ MAX_WEEK_COUNT
  forced_valid : ∀ d, d < 7 * config.week_count →
    config.forced_on_call_people d = -1 ∨
      (0 ≤ config.forced_on_call_people d ∧
        config.forced_on_call_people d < (config.person_count : Int))
  schedule_valid : rota_valid config rota

/-- The number of days of the horizon that are flagged as bank holiday. -/
def bank_holiday_count (config : config_t) : Nat :=
  ((List.range (7 * config.week_count)).filter fun d => is_bank_holiday config d).length

/-- The sum over the persons of one of the bias fields. -/
def bias_sum (config : config_t) (bias : person_config_t → ℚ) : ℚ :=
  Finset.sum (Finset.range config.person_count) fun i => bias (config.people i)

/-- Two configurations with the same horizon and the same three pool totals for on-call
days, on-call weekends and ward weeks. -/
structure same_pool (a b : config_t) : Prop where
  week_count : b.week_count = a.week_count
  on_call_days : b.total_on_call_days_and_bias = a.total_on_call_days_and_bias
  on_call_weekends : b.total_on_call_weekends_and_bias = a.total_on_call_weekends_and_bias
  ward_weeks : b.total_ward_weeks_and_bias = a.total_ward_weeks_and_bias

/-- Two configurations with the same horizon, the same persons count and the same four
biases for every person. -/
structure same_biases (a b : config_t) : Prop where
  week_count : b.week_count = a.week_count
  person_count : b.person_count = a.person_count
  on_call_day : ∀ j, (b.people j).on_call_day_bias = (a.people j).on_call_day_bias
  on_call_weekend : ∀ j, (b.people j).on_call_weekend_bias = (a.people j).on_call_weekend_bias
  ward_week : ∀ j, (b.people j).ward_week_bias = (a.people j).ward_week_bias
  bank_holiday : ∀ j, (b.people j).bank_holiday_bias = (a.people j).bank_holiday_bias

/-- Two configurations with the same four pool totals. -/
structure same_totals (a b : config_t) : Prop where
  on_call_days : b.total_on_call_days_and_bias = a.total_on_call_days_and_bias
  on_call_weekends : b.total_on_call_weekends_and_bias = a.total_on_call_weekends_and_bias
  ward_weeks : b.total_ward_weeks_and_bias = a.total_ward_weeks_and_bias
  bank_holidays : b.total_bank_holidays_and_bias = a.total_bank_holidays_and_bias

/-- The score of each of `current` and `best` is the score of the schedule held with
it. -/
def Consistent (config : config_t) (points : points_t) (s : search_t) : Prop :=
  s.current.score = score_rota config points s.current.rota ∧
    s.best.score = score_rota config points s.best.rota

/-- The day-before-holiday records: one for each weekday on-call slot (weeks in order,
Monday to Friday) whose person has the holiday bit on the following day, with that
person and the day of the slot. -/
def before_holiday_records (config : config_t) (rota : rota_t) : List failure_data_t :=
  (List.range config.week_count).flatMap fun week_index =>
    (List.range 5).flatMap fun day_index =>
      if is_holiday_day config (week_index * 7 + day_index + 1)
          ((rota.weeks week_index).shifts day_index) = true then
        [⟨FAILURE_WORK_JUST_BEFORE_HOLIDAY, (rota.weeks week_index).shifts day_index,
          ((week_index * 7 + day_index : Nat) : Int)⟩]
      else []

/-- The value text of the last line that carries the name `name`, if there is one. -/
def last_value : List (Option (String × String)) → String → Option String
  | [], _ => none
  | line :: rest, name =>
    match last_value rest name with
    | some value => some value
    | none =>
      match line with
      | some (n, value) => if n = name then some value else none
      | none => none

/-- What the lines of the file leave in the person records for the aggregation: the
counter of non-holiday days still zero, a start day that is not negative and an end day
that is at least -1. -/
def rows_ok (config : config_t) : Prop :=
  ∀ j : Int, (config.people j).total_non_holiday_days = 0 ∧
    0 ≤ (config.people j).first_day ∧ -1 ≤ (config.people j).last_day

/-- Two configurations with the same horizon and the same two effective person counts,
the second one keeping `rows_ok`. -/
structure rows_frame (a b : config_t) : Prop where
  week_count : b.week_count = a.week_count
  on_call : b.effective_on_call_person_count = a.effective_on_call_person_count
  ward : b.effective_ward_person_count = a.effective_ward_person_count
  ok : rows_ok a → rows_ok b

/-- The number of days in `[first_day, last_day]` on which the person has no holiday
bit. -/
def non_holiday_days (config : config_t) (person : Int) (first_day last_day : Int) : Nat :=
  ((List.range (last_day + 1).toNat).filter fun (d : Nat) =>
    decide (first_day ≤ (d : Int)) && !is_holiday_day config d person).length

/-- The record of person `i` as the aggregation loop leaves it: the non-holiday days of
the active range are counted and the full-time amount is scaled by the share of the
horizon that the active range covers. -/
def aggregated_person (config : config_t) (i : Int) : person_config_t :=
  { config.people i with
    total_non_holiday_days := (config.people i).total_non_holiday_days
      + (non_holiday_days config i (config.people i).first_day (config.people i).last_day
          : Int)
    effective_full_time_amount := (config.people i).full_time_amount
      * (((1 + (config.people i).last_day - (config.people i).first_day : Int) : ℚ)
        / ((7 * (config.week_count : Int) : Int) : ℚ)) }

/-- The active range of every person starts on a day that is not negative and ends on a
day that is at least -1. -/
def ranges_ok (config : config_t) : Prop :=
  ∀ j : Int, 0 ≤ (config.people j).first_day ∧ -1 ≤ (config.people j).last_day

/-- The number of the six on-call slots of week `week_index` (Monday to Friday and the
weekend slot, counted once) that `person` holds. -/
def on_call_count (rota : rota_t) (week_index : Nat) (person : Int) : Nat :=
  ((List.range 6).filter fun s =>
    decide ((rota.weeks week_index).shifts s = person)).length

/-- The slots among the first `k` slots of week `week_index` whose holder also holds an
earlier slot of the same week. -/
def repeated_on_calls (rota : rota_t) (week_index k : Nat) : List Nat :=
  (List.range k).filter fun s =>
    (List.range s).any fun s' =>
      decide ((rota.weeks week_index).shifts s' = (rota.weeks week_index).shifts s)

/-- Two scores with the same failure log: the same count and the same records. -/
structure same_log (a b : score_t) : Prop where
  failure_count : a.failure_count = b.failure_count
  failure_data : a.failure_data = b.failure_data

/-- Two sweep states that differ at most in the value of the score: the same per-person
records, the same failure log and the same tracking variables. -/
structure same_sweep (a b : sweep_t) : Prop where
  people : a.score.people = b.score.people
  log : same_log a.score b.score
  last_on_call_week : a.last_on_call_week = b.last_on_call_week
  last_work_day : a.last_work_day = b.last_work_day
  last_ward_week : a.last_ward_week = b.last_ward_week
  person_on_call_yesterday : a.person_on_call_yesterday = b.person_on_call_yesterday

/-- The weight table whose two decay entries are those of `P` and whose eighteen other
entries are `a * P + b * Q`. -/
def combine_points (a b : ℚ) (P Q : points_t) : points_t :=
  { values := fun i =>
      if i = POINTS_DAY_OFF_DECAY ∨ i = POINTS_NO_WARD_WEEK_DECAY then P.values i
      else a * P.values i + b * Q.values i }

/-- The table `R` has the decay entries of `P` and of `Q`, and its other entries are
`a * P + b * Q`. -/
structure lin_tables (a b : ℚ) (R P Q : points_t) : Prop where
  values : ∀ i, i ≠ POINTS_DAY_OFF_DECAY → i ≠ POINTS_NO_WARD_WEEK_DECAY →
    R.values i = a * P.values i + b * Q.values i
  day_off_decay_left : R.values POINTS_DAY_OFF_DECAY = P.values POINTS_DAY_OFF_DECAY
  day_off_decay_right : R.values POINTS_DAY_OFF_DECAY = Q.values POINTS_DAY_OFF_DECAY
  no_ward_week_decay_left :
    R.values POINTS_NO_WARD_WEEK_DECAY = P.values POINTS_NO_WARD_WEEK_DECAY
  no_ward_week_decay_right :
    R.values POINTS_NO_WARD_WEEK_DECAY = Q.values POINTS_NO_WARD_WEEK_DECAY

/-- Three sweep states that differ at most in the value, the value of the first being
`a` times that of the second plus `b` times that of the third. -/
structure lin_sweep (a b : ℚ) (r p q : sweep_t) : Prop where
  left : same_sweep r p
  right : same_sweep r q
  value : r.score.value = a * p.score.value + b * q.score.value

/-- The sum over the persons of one of the fields of the per-person records of a score. -/
def score_sum {α : Type} [AddCommMonoid α] (config : config_t) (score : score_t)
    (field : person_score_t → α) : α :=
  Finset.sum (Finset.range config.person_count) fun i => field (score.people i)

/-- The number of Monday-to-Friday days of the horizon that are flagged as bank holiday. -/
def weekday_bank_holiday_count (config : config_t) : Nat :=
  ((List.range (7 * config.week_count)).filter fun d =>
    decide (d % 7 < 5) && is_bank_holiday config d).length

/-! ## Concrete inputs used by the examples -/

/-- A person active for the whole of a one-week horizon, ward-eligible, no bias. -/
def example_person : person_config_t :=
  ⟨"", 0, 6, 7, 1, 1, false, 0, 0, 0, 0, 0, 0, 0, 0, 0, 0⟩

/-- A configuration without any constraint flag: `person_count` persons like
`example_person`, `week_count` weeks. -/
def example_config (person_count week_count : Nat) : config_t :=
  { person_count := person_count
    week_count := week_count
    people := fun _ => example_person
    bank_holiday_bits := fun _ => 0
    holiday_day_bits := fun _ => 0
    invalid_on_call_day_bits := fun _ => 0
    invalid_ward_week_bits := fun _ => 0
    disliked_on_call_day_bits := fun _ => 0
    disliked_ward_week_bits := fun _ => 0
    forced_on_call_people := fun _ => -1
    total_on_call_days_and_bias := 0
    total_on_call_weekends_and_bias := 0
    total_ward_weeks_and_bias := 0
    total_bank_holidays_and_bias := 0
    effective_on_call_person_count := 1
    effective_ward_person_count := 1 }

/-- The schedule that puts person 0 in every slot. -/
def rota_all_zero : rota_t := ⟨fun _ => ⟨fun _ => 0⟩⟩

/-- The weight table with the six hard weights 1 and every other weight 0. -/
def hard_unit_points : points_t := ⟨fun i => if i < 6 then 1 else 0⟩

/-- The weight table whose only non-zero weight is `shift_overlap = -1`. -/
def overlap_penalty_points : points_t := ⟨fun i => if i = 0 then -1 else 0⟩

/-- A weight table with `day_off = 2`, `day_off_decay = 1/2`, `no_ward_week = 3`,
`no_ward_week_decay = 1/3` and every other weight 0. -/
def decay_example_points : points_t :=
  ⟨fun i => if i = 16 then 2 else if i = 17 then 1 / 2 else if i = 18 then 3
    else if i = 19 then 1 / 3 else 0⟩

/-- A two-week schedule: week 0 all person 0; week 1 with on-call persons
`0 0 1 0 fri 0` and ward person 0. -/
def rota_two_weeks (fri : Int) : rota_t :=
  ⟨fun w => if w = 1 then
      ⟨fun s => if s = 2 then 1 else if s = 4 then fri else 0⟩
    else ⟨fun _ => 0⟩⟩

/-- A one-week schedule: person 1 on call every day, person 0 on the ward. -/
def rota_no_overlap : rota_t := ⟨fun _ => ⟨fun s => if s = 6 then 0 else 1⟩⟩

/-- The schedule that puts person `7 * w + s` in slot `s` of week `w`. -/
def rota_one_person_per_slot : rota_t := ⟨fun w => ⟨fun s => ((7 * w + s : Nat) : Int)⟩⟩

/-- Seven persons, one week; person 5 is on holiday and dislikes being on call on both
days of the weekend. -/
def weekend_flags_config : config_t :=
  { example_config 7 1 with
    holiday_day_bits := fun d => if d = 5 ∨ d = 6 then 32 else 0
    disliked_on_call_day_bits := fun d => if d = 5 ∨ d = 6 then 32 else 0 }

/-- The weight table whose only non-zero weight is `on_call_on_disliked_day = 1`. -/
def disliked_unit_points : points_t := ⟨fun i => if i = 6 then 1 else 0⟩

/-- The weight table with the four `*_difference` weights 1, 2, 3, 4 (days, bank
holidays, weekends, ward weeks) and every other weight 0. -/
def difference_points : points_t :=
  ⟨fun i => if i = 8 then 1 else if i = 9 then 2 else if i = 10 then 3
    else if i = 11 then 4 else 0⟩

/-- Number parsers for the examples: they read the decimal digits of natural numbers
and answer 0, or a failure, on any other text. -/
def example_libc : libc_t :=
  ⟨fun s => (s.toNat?.getD 0 : ℚ), fun s => s.toNat?.map fun n => (n : ℚ)⟩

/-- A one-week file (header of 2 + 7 columns) with one person, on holiday on Tuesday,
and two bank-holiday lines that both mark Monday. -/
def bank_holiday_twice_rows : List (List String) :=
  [["alice", "holiday", "", "x"], ["", "bank holiday", "x"], ["", "bank holiday", "x"]]

/-- A one-week file with two persons: alice with an on-call day bias of 2 and an on-call
weekend bias of 1, bob with a ward week bias of 3. -/
def bias_rows : List (List String) :=
  [["alice", "on call day bias", "2"], ["alice", "on call weekend bias", "1"],
    ["bob", "ward week bias", "3"]]

/-- Two persons, one week; person 1 is on holiday on Tuesday (day 1). -/
def holiday_tuesday_config : config_t :=
  { example_config 2 1 with holiday_day_bits := fun d => if d = 1 then 2 else 0 }

/-- A one-week file in which alice has a start date cell on Monday (day 0) and another on
Tuesday. -/
def start_date_twice_rows : List (List String) := [["alice", "start date", "x", "x"]]

/-- A one-week file in which alice has a start date cell on Tuesday and another on
Wednesday. -/
def start_date_twice_later_rows : List (List String) :=
  [["alice", "start date", "", "x", "x"]]

/-- A one-week file in which alice has an end date line for Sunday (day 6, the last day)
and then an end date line for Saturday. -/
def end_date_twice_rows : List (List String) :=
  [["alice", "end date", "", "", "", "", "", "", "x"],
    ["alice", "end date", "", "", "", "", "", "x"]]

/-- A one-week file in which alice has an end date line for Saturday and then one for
Friday. -/
def end_date_twice_earlier_rows : List (List String) :=
  [["alice", "end date", "", "", "", "", "", "x"],
    ["alice", "end date", "", "", "", "", "x"]]

/-- A points file with an empty line, `day_off` given twice and `shift_overlap` once. -/
def example_points_lines : List (Option (String × String)) :=
  [some ("day_off", "3"), none, some ("shift_overlap", "7"), some ("day_off", "5")]

/-- A one-week file with two persons: alice cannot do ward weeks, bob has no entry but a
holiday on Monday. -/
def ward_disallowed_rows : List (List String) :=
  [["alice", "no ward weeks", "x"], ["bob", "holiday", "x"]]

/-- A one-week file in which alice cannot do ward weeks and has a ward week bias of 2. -/
def ward_bias_conflict_rows : List (List String) :=
  [["alice", "no ward weeks", "x"], ["alice", "ward week bias", "2"]]

/-- A one-week file in which alice starts on Wednesday (day 2), ends on Friday (day 4) and
is on holiday on Thursday (day 3). -/
def active_range_rows : List (List String) :=
  [["alice", "start date", "", "", "x"], ["alice", "end date", "", "", "", "", "x"],
    ["alice", "holiday", "", "", "", "x"]]

/-- The weight table whose only non-zero weight is `multiple_on_calls_per_week = 1`. -/
def multiple_unit_points : points_t := ⟨fun i => if i = 13 then 1 else 0⟩

/-- A weight table with the decays of `decay_example_points` (1/2 and 1/3), the weight
`multiple_on_calls_per_week = 1`, `day_off = 1` and every other weight 0. -/
def shared_decay_points : points_t :=
  ⟨fun i => if i = 13 then 1 else if i = 16 then 1 else if i = 17 then 1 / 2
    else if i = 19 then 1 / 3 else 0⟩

/-- Two persons, two weeks; Tuesday of week 0 (day 1) and Saturday of week 0 (day 5) are
bank holidays. -/
def bank_holiday_config : config_t :=
  set_bank_holiday (set_bank_holiday (example_config 2 2) 1) 5

/-! ## The failure log kept by the sweep -/

theorem add_failure_value (s : score_t) (f p d : Int) : (add_failure s f p d).value = s.value := by
  unfold add_failure
  split <;> rfl

theorem value_hard (s : score_t) (c : Prop) [Decidable c] (w : ℚ) (f p d : Int) :
    (if c then add_failure (add_value s w) f p d else s).value
      = s.value + if c then w else 0 := by
  split
  · rw [add_failure_value]; rfl
  · simp

theorem value_soft (s : score_t) (c : Prop) [Decidable c] (w : ℚ) :
    (if c then add_value s w else s).value = s.value + if c then w else 0 := by
  split
  · rfl
  · simp

theorem value_add (s : score_t) (w : ℚ) : (add_value s w).value = s.value + w := rfl

theorem charge_append (points : points_t) (a b : List failure_data_t) :
    charge points (a ++ b) = charge points a + charge points b := by
  simp [charge]

theorem logged_add_value {points : points_t} {s : score_t} {events : List failure_data_t}
    (h : SweepLogged points s events) (x : ℚ) (hx : SweepZero points → x = 0) :
    SweepLogged points (add_value s x) events :=
  ⟨h.len, h.count, h.data, fun hz => by simp [add_value, h.value hz, hx hz]⟩

theorem logged_people {points : points_t} {s : score_t} {events : List failure_data_t}
    (h : SweepLogged points s events) (people : Int → person_score_t) :
    SweepLogged points { s with people := people } events :=
  ⟨h.len, h.count, h.data, h.value⟩

theorem logged_soft {points : points_t} {s : score_t} {events : List failure_data_t}
    (h : SweepLogged points s events) (c : Prop) [Decidable c] (x : ℚ)
    (hx : SweepZero points → x = 0) :
    SweepLogged points (if c then add_value s x else s) events := by
  split
  · exact logged_add_value h x hx
  · exact h

theorem logged_add_failure {points : points_t} {s : score_t} {events : List failure_data_t}
    (h : SweepLogged points s events) (f p d : Int) :
    SweepLogged points (add_failure (add_value s (points.values (failure_points f))) f p d)
      (events ++ [⟨f, p, d⟩]) := by
  obtain ⟨hl, hc, hd, hv⟩ := h
  have hval : SweepZero points →
      s.value + points.values (failure_points f) = charge points (events ++ [⟨f, p, d⟩]) := by
    intro hz
    rw [charge_append, hv hz]
    simp [charge]
  unfold add_failure
  by_cases hlt : events.length < MAX_FAILURE_COUNT
  · have hcnt : s.failure_count = events.length := by
      rw [hc]; exact Nat.min_eq_right (Nat.le_of_lt hlt)
    have hfull : List.take MAX_FAILURE_COUNT events = events :=
      List.take_of_length_le (Nat.le_of_lt hlt)
    rw [hcnt, hfull] at hd
    have hlt2 : (add_value s (points.values (failure_points f))).failure_count
        < MAX_FAILURE_COUNT := by
      show s.failure_count < MAX_FAILURE_COUNT
      rw [hcnt]; exact hlt
    rw [if_pos hlt2]
    refine ⟨?_, ?_, ?_, hval⟩
    · show (s.failure_data.set s.failure_count _).length = MAX_FAILURE_COUNT
      rw [List.length_set]; exact hl
    · show s.failure_count + 1
        = min MAX_FAILURE_COUNT (events ++ [(⟨f, p, d⟩ : failure_data_t)]).length
      rw [hcnt, List.length_append, List.length_singleton]
      exact (Nat.min_eq_right hlt).symm
    · show (s.failure_data.set s.failure_count ⟨f, p, d⟩).take (s.failure_count + 1)
        = (events ++ [(⟨f, p, d⟩ : failure_data_t)]).take MAX_FAILURE_COUNT
      have h1 : (events ++ [(⟨f, p, d⟩ : failure_data_t)]).take MAX_FAILURE_COUNT
          = events ++ [⟨f, p, d⟩] := by
        apply List.take_of_length_le
        rw [List.length_append, List.length_singleton]; exact hlt
      rw [h1, hcnt]
      have hlen : events.length < s.failure_data.length := by rw [hl]; exact hlt
      apply List.ext_getElem
      · simp [List.length_take, List.length_set, hl]; omega
      · intro n hn1 hn2
        simp only [List.length_append, List.length_singleton] at hn2
        rw [List.getElem_take]
        by_cases hn : n = events.length
        · subst hn
          simp
        · have hn3 : n < events.length := by omega
          rw [List.getElem_set_ne (by omega), List.getElem_append_left hn3]
          have := congrArg (fun l => l[n]?) hd
          simp only [List.getElem?_take, hn3, if_true] at this
          rw [List.getElem?_eq_getElem (by omega), List.getElem?_eq_getElem hn3] at this
          exact Option.some.inj this
  · have hge : MAX_FAILURE_COUNT ≤ events.length := Nat.le_of_not_lt hlt
    have hcnt : s.failure_count = MAX_FAILURE_COUNT := by
      rw [hc]; exact Nat.min_eq_left hge
    have hnlt : ¬ (add_value s (points.values (failure_points f))).failure_count
        < MAX_FAILURE_COUNT := by
      show ¬ s.failure_count < MAX_FAILURE_COUNT
      rw [hcnt]; exact Nat.lt_irrefl _
    rw [if_neg hnlt]
    refine ⟨hl, ?_, ?_, hval⟩
    · show s.failure_count
        = min MAX_FAILURE_COUNT (events ++ [(⟨f, p, d⟩ : failure_data_t)]).length
      rw [hcnt, List.length_append]
      exact (Nat.min_eq_left (by omega)).symm
    · show s.failure_data.take s.failure_count
        = (events ++ [(⟨f, p, d⟩ : failure_data_t)]).take MAX_FAILURE_COUNT
      rw [hd, List.take_append_of_le_length hge]

theorem logged_hard {points : points_t} {s : score_t} {events : List failure_data_t}
    (h : SweepLogged points s events) (c : Prop) [Decidable c] (w : ℚ) (f p d : Int)
    (hw : w = points.values (failure_points f)) :
    SweepLogged points (if c then add_failure (add_value s w) f p d else s)
      (events ++ if c then [⟨f, p, d⟩] else []) := by
  subst hw
  split
  · exact logged_add_failure h f p d
  · simpa using h

theorem decay_loop_zero (decay : ℚ) (n : Nat) (sum : ℚ) :
    decay_loop decay n (sum, 0) = (sum, 0) := by
  induction n with
  | zero => rfl
  | succ k ih => simp [decay_loop, ih]

theorem soft_zero_days_off {points : points_t} (d : Int) (hz : SweepZero points) :
    get_days_off_score points d = 0 := by
  unfold get_days_off_score
  rw [hz POINTS_DAY_OFF (by decide), decay_loop_zero]

theorem soft_zero_no_ward {points : points_t} (d : Int) (hz : SweepZero points) :
    get_no_ward_week_score points d = 0 := by
  unfold get_no_ward_week_score
  rw [hz POINTS_NO_WARD_WEEK (by decide), decay_loop_zero]

theorem score_weekday_logged (config : config_t) (points : points_t) (rota : rota_t)
    (week_index day_index : Nat) (st : sweep_t) (events : List failure_data_t)
    (h : SweepLogged points st.score events) :
    SweepLogged points (score_weekday config points rota week_index day_index st).score
      (events ++ weekday_violations config rota week_index day_index
        st.person_on_call_yesterday) := by
  unfold score_weekday weekday_violations
  simp only [← List.append_assoc]
  apply logged_people
  apply logged_soft _ _ _ (fun hz => soft_zero_no_ward _ hz)
  apply logged_soft _ _ _ (fun hz => soft_zero_days_off _ hz)
  apply logged_add_value _ _ (fun hz => soft_zero_days_off _ hz)
  apply logged_soft _ _ _ (fun hz => hz _ (by decide))
  apply logged_soft _ _ _ (fun hz => hz _ (by decide))
  apply logged_soft _ _ _ (fun hz => hz _ (by decide))
  apply logged_soft _ _ _ (fun hz => hz _ (by decide))
  apply logged_soft _ _ _ (fun hz => hz _ (by decide))
  refine logged_hard ?_ _ _ _ _ _ (by rfl)
  refine logged_hard ?_ _ _ _ _ _ (by rfl)
  refine logged_hard ?_ _ _ _ _ _ (by rfl)
  refine logged_hard ?_ _ _ _ _ _ (by rfl)
  refine logged_hard ?_ _ _ _ _ _ (by rfl)
  refine logged_hard ?_ _ _ _ _ _ (by rfl)
  refine logged_hard ?_ _ _ _ _ _ (by rfl)
  refine logged_hard ?_ _ _ _ _ _ (by rfl)
  refine logged_hard ?_ _ _ _ _ _ (by rfl)
  refine logged_hard ?_ _ _ _ _ _ (by rfl)
  exact h

theorem score_weekend_day_logged (config : config_t) (points : points_t) (rota : rota_t)
    (week_index day_index : Nat) (st : sweep_t) (events : List failure_data_t)
    (h : SweepLogged points st.score events) :
    SweepLogged points (score_weekend_day config points rota week_index day_index st).score
      (events ++ weekend_violations config rota week_index day_index
        st.person_on_call_yesterday) := by
  unfold score_weekend_day weekend_violations
  simp only [← List.append_assoc]
  apply logged_people
  apply logged_soft _ _ _ (fun hz => soft_zero_days_off _ hz)
  apply logged_soft _ _ _ (fun hz => hz _ (by decide))
  apply logged_soft _ _ _ (fun hz => hz _ (by decide))
  refine logged_hard ?_ _ _ _ _ _ (by rfl)
  refine logged_hard ?_ _ _ _ _ _ (by rfl)
  refine logged_hard ?_ _ _ _ _ _ (by rfl)
  refine logged_hard ?_ _ _ _ _ _ (by rfl)
  exact h

theorem score_day_yesterday (config : config_t) (points : points_t) (rota : rota_t)
    (week_index day_index : Nat) (st : sweep_t) :
    (score_day config points rota week_index st day_index).person_on_call_yesterday
      = (rota.weeks week_index).shifts (if day_index < 5 then day_index else 5) := by
  unfold score_day
  split <;> rfl

theorem score_day_logged (config : config_t) (points : points_t) (rota : rota_t)
    (week_index day_index : Nat) (st : sweep_t) (events : List failure_data_t)
    (h : SweepLogged points st.score events)
    (hy : st.person_on_call_yesterday = on_call_yesterday rota week_index day_index) :
    SweepLogged points (score_day config points rota week_index st day_index).score
      (events ++ day_violations config rota week_index day_index) := by
  unfold score_day day_violations
  rw [← hy]
  split
  · exact score_weekday_logged config points rota week_index day_index st events h
  · exact score_weekend_day_logged config points rota week_index day_index st events h

theorem on_call_yesterday_succ (rota : rota_t) (week_index day_index : Nat)
    (hd : day_index < 6) :
    on_call_yesterday rota week_index (day_index + 1)
      = (rota.weeks week_index).shifts (if day_index < 5 then day_index else 5) := by
  unfold on_call_yesterday
  have h5 : day_index < 5 ∨ day_index = 5 := by omega
  rcases h5 with h5 | h5
  · simp [h5, Nat.succ_le_of_lt h5]
  · subst h5; simp

theorem score_days_logged (config : config_t) (points : points_t) (rota : rota_t)
    (week_index : Nat) (st : sweep_t) (events : List failure_data_t)
    (h : SweepLogged points st.score events)
    (hy : st.person_on_call_yesterday = on_call_yesterday rota week_index 0)
    (n : Nat) (hn : n ≤ 7) :
    SweepLogged points
        ((List.range n).foldl (score_day config points rota week_index) st).score
        (events ++ (List.range n).flatMap (day_violations config rota week_index)) ∧
      ((List.range n).foldl (score_day config points rota week_index)
          st).person_on_call_yesterday
        = if n = 7 then (rota.weeks week_index).shifts SHIFT_ON_CALL_WEEKEND
          else on_call_yesterday rota week_index n := by
  induction n with
  | zero => simpa using ⟨h, hy⟩
  | succ k ih =>
    obtain ⟨ih1, ih2⟩ := ih (by omega)
    rw [if_neg (by omega)] at ih2
    rw [List.range_succ, List.foldl_append, List.flatMap_append, ← List.append_assoc]
    constructor
    · simpa using score_day_logged config points rota week_index k _ _ ih1 ih2
    · simp only [List.foldl_cons, List.foldl_nil]
      rw [score_day_yesterday]
      by_cases h7 : k + 1 = 7
      · rw [if_pos h7, if_neg (by omega)]
      · rw [if_neg h7, on_call_yesterday_succ rota week_index k (by omega)]

theorem score_week_logged (config : config_t) (points : points_t) (rota : rota_t)
    (week_index : Nat) (st : sweep_t) (events : List failure_data_t)
    (h : SweepLogged points st.score events)
    (hy : st.person_on_call_yesterday = on_call_yesterday rota week_index 0) :
    SweepLogged points (score_week config points rota st week_index).score
        (events ++ week_violations config rota week_index) ∧
      (score_week config points rota st week_index).person_on_call_yesterday
        = on_call_yesterday rota (week_index + 1) 0 := by
  obtain ⟨h1, h2⟩ :=
    score_days_logged config points rota week_index st events h hy 7 (Nat.le_refl 7)
  rw [if_pos rfl] at h2
  have hy2 : on_call_yesterday rota (week_index + 1) 0
      = (rota.weeks week_index).shifts SHIFT_ON_CALL_WEEKEND := by
    simp [on_call_yesterday]
  unfold score_week week_violations
  rw [hy2]
  dsimp only
  split
  · exact ⟨logged_add_value h1 _ (fun hz => hz _ (by decide)), h2⟩
  · exact ⟨h1, h2⟩

theorem sweep_init_score (config : config_t) :
    (sweep_init config).score = score_zero ∧
      (sweep_init config).person_on_call_yesterday = -1 := by
  unfold sweep_init
  induction config.person_count with
  | zero => exact ⟨rfl, rfl⟩
  | succ k ih =>
    rw [List.range_succ, List.foldl_append]
    exact ih

theorem logged_score_zero (points : points_t) : SweepLogged points score_zero [] :=
  ⟨by simp [score_zero], rfl, rfl, fun _ => rfl⟩

theorem score_weeks_logged (config : config_t) (points : points_t) (rota : rota_t)
    (n : Nat) :
    SweepLogged points
        ((List.range n).foldl (score_week config points rota) (sweep_init config)).score
        ((List.range n).flatMap (week_violations config rota)) ∧
      ((List.range n).foldl (score_week config points rota)
          (sweep_init config)).person_on_call_yesterday
        = on_call_yesterday rota n 0 := by
  induction n with
  | zero =>
    obtain ⟨h1, h2⟩ := sweep_init_score config
    constructor
    · simpa [h1] using logged_score_zero points
    · simpa [on_call_yesterday] using h2
  | succ k ih =>
    obtain ⟨ih1, ih2⟩ := ih
    rw [List.range_succ, List.foldl_append, List.flatMap_append]
    simpa using score_week_logged config points rota k _ _ ih1 ih2

theorem score_tail_logged (config : config_t) (points : points_t) (st : sweep_t)
    (events : List failure_data_t) (n : Nat) (s : score_t) (h : SweepLogged points s events) :
    SweepLogged points ((List.range n).foldl (score_tail config points st) s) events := by
  induction n with
  | zero => simpa using h
  | succ k ih =>
    rw [List.range_succ, List.foldl_append]
    simp only [List.foldl_cons, List.foldl_nil]
    unfold score_tail
    exact logged_add_value (logged_add_value ih _ (fun hz => soft_zero_days_off _ hz)) _
      (fun hz => soft_zero_no_ward _ hz)

theorem score_distribution_fold (config : config_t) (points : points_t) (s : score_t)
    (n : Nat) :
    ((List.range n).foldl (score_distribution config points) s).failure_count
        = s.failure_count ∧
      ((List.range n).foldl (score_distribution config points) s).failure_data
        = s.failure_data ∧
      ((List.range n).foldl (score_distribution config points) s).value
        = s.value + Finset.sum (Finset.range n)
            (fun i => distribution_term points (with_remainders config (s.people i) i)) ∧
      ∀ j : Int, ((List.range n).foldl (score_distribution config points) s).people j
        = if 0 ≤ j ∧ j < (n : Int) then with_remainders config (s.people j) j
          else s.people j := by
  induction n with
  | zero =>
    refine ⟨rfl, rfl, by simp, ?_⟩
    intro j
    simp only [List.range_zero, List.foldl_nil]
    rw [if_neg (by omega)]
  | succ k ih =>
    rw [List.range_succ, List.foldl_append]
    simp only [List.foldl_cons, List.foldl_nil]
    generalize (List.range k).foldl (score_distribution config points) s = r at ih ⊢
    obtain ⟨ih1, ih2, ih3, ih4⟩ := ih
    have hk : r.people (k : Int) = s.people (k : Int) := by
      rw [ih4, if_neg (by omega)]
    refine ⟨ih1, ih2, ?_, ?_⟩
    · rw [Finset.sum_range_succ, ← add_assoc, ← ih3]
      unfold score_distribution
      simp only [value_add, hk]
      unfold distribution_term with_remainders sqr
      simp only
      ring
    · intro j
      unfold score_distribution
      simp only [add_value, hk]
      by_cases hj : j = (k : Int)
      · subst hj
        rw [if_pos (by omega)]
        simp [with_remainders]
      · rw [Function.update_noteq hj, ih4]
        by_cases hlt : 0 ≤ j ∧ j < (k : Int)
        · rw [if_pos hlt, if_pos (by omega)]
        · rw [if_neg hlt, if_neg (by omega)]

theorem score_rota_sweep_logged (config : config_t) (points : points_t) (rota : rota_t) :
    SweepLogged points
      ((List.range config.person_count).foldl
        (score_tail config points (score_sweep config points rota))
        (score_sweep config points rota).score)
      (hard_violations config rota) := by
  unfold hard_violations score_sweep
  exact score_tail_logged config points _ _ _ _
    (score_weeks_logged config points rota config.week_count).1

theorem distribution_term_zero (points : points_t) (hz : SoftZero points)
    (person_score : person_score_t) : distribution_term points person_score = 0 := by
  unfold distribution_term
  rw [hz POINTS_ON_CALL_DAY_DIFFERENCE (by decide),
    hz POINTS_ON_CALL_WEEKEND_DIFFERENCE (by decide),
    hz POINTS_WARD_WEEK_DIFFERENCE (by decide),
    hz POINTS_ON_CALL_BANK_HOLIDAY_DIFFERENCE (by decide)]
  ring

/-- The score returned by `score_rota` logs the hard violations of the schedule: the
recorded failures are the first 16 of them and, with the soft weights zero, the value is
their total charge. -/
theorem score_rota_logged (config : config_t) (points : points_t) (rota : rota_t) :
    Logged points (score_rota config points rota) (hard_violations config rota) := by
  have hs := score_rota_sweep_logged config points rota
  obtain ⟨h1, h2, h3, _⟩ := score_distribution_fold config points
    ((List.range config.person_count).foldl
      (score_tail config points (score_sweep config points rota))
      (score_sweep config points rota).score) config.person_count
  unfold score_rota
  dsimp only
  refine ⟨?_, ?_, ?_, ?_⟩
  · rw [h2]; exact hs.len
  · rw [h1]; exact hs.count
  · rw [h1, h2]; exact hs.data
  · intro hz
    have hsz : SweepZero points := by
      intro i hi
      apply hz
      omega
    rw [h3, hs.value hsz]
    simp [distribution_term_zero points hz]

theorem failure_points_lt (f : Int) : failure_points f < 6 := by
  unfold failure_points
  split_ifs <;> decide

theorem charge_unit (points : points_t) (h1 : ∀ i, i < 6 → points.values i = 1)
    (events : List failure_data_t) : charge points events = (events.length : ℚ) := by
  unfold charge
  induction events with
  | nil => simp
  | cons e es ih =>
    rw [List.map_cons, List.sum_cons, ih, h1 _ (failure_points_lt e.failure),
      List.length_cons]
    push_cast
    ring

/-! ## C1: the best value across iterations -/

/-- C1 (as stated, refuted): at iteration 0 the tracked best value can go down. From the
loop-entry state of a two-person, one-week schedule without overlap (value 0, which is
also the best value), the reassign move puts the ward person on call on Monday (value
-1), the acceptance draw 0 is below 1/2 and the test `i == 0` copies the worse current
schedule over best. -/
theorem search_best_decreases_at_iteration_zero :
    (search_init (example_config 2 1) overlap_penalty_points rota_no_overlap).best.score.value
        = 0 ∧
      (search_iteration (example_config 2 1) overlap_penalty_points (1 / 2) 0 0 0 0 0 0 0
        (search_init (example_config 2 1) overlap_penalty_points
          rota_no_overlap)).best.score.value = -1 ∧
      ¬ ((search_init (example_config 2 1) overlap_penalty_points
            rota_no_overlap).best.score.value
          ≤ (search_iteration (example_config 2 1) overlap_penalty_points (1 / 2) 0 0 0 0 0 0 0
              (search_init (example_config 2 1) overlap_penalty_points
                rota_no_overlap)).best.score.value) := by
  decide!

/-- C1 (amended): for every iteration index `i >= 1`, every candidate and every
acceptance draw, `best.value` after the iteration is at least `best.value` before it;
this holds for the acceptance step on any scored candidate and so for the whole
iteration with any random draws. -/
theorem search_best_monotone_from_iteration_one (i : Nat) (hi : 1 ≤ i)
    (u accept_prob : ℚ) (s : search_t) :
    s.best.score.value ≤ (search_accept i u accept_prob s).best.score.value ∧
      ∀ (config : config_t) (points : points_t) (r_kind r_a r_b r_c r_d r_u : Nat),
        s.best.score.value
          ≤ (search_iteration config points accept_prob i r_kind r_a r_b r_c r_d r_u
              s).best.score.value := by
  have key : ∀ (v : ℚ) (t : search_t),
      t.best.score.value ≤ (search_accept i v accept_prob t).best.score.value := by
    intro v t
    unfold search_accept
    dsimp only
    generalize (if t.candidate.score.value > t.current.score.value ∨ v < accept_prob then
      swap_state t.current t.candidate else (t.current, t.candidate)).1 = c
    have h0 : ¬ i = 0 := by omega
    by_cases h : i = 0 ∨ c.score.value > t.best.score.value
    · rw [if_pos h]
      rcases h with h | h
      · exact absurd h h0
      · exact le_of_lt h
    · rw [if_neg h]
  refine ⟨key u s, ?_⟩
  intro config points r_kind r_a r_b r_c r_d r_u
  exact key ((rota_rand r_u run_count : ℚ) / (run_count : ℚ))
    { s with
      candidate :=
        { rota :=
            if rota_rand r_kind 2 = 1 then
              mutate_random_swap config s.current.rota r_a r_b r_c r_d
            else mutate_random_reassign config s.current.rota r_a r_b r_c
          score := score_rota config points
            (if rota_rand r_kind 2 = 1 then
              mutate_random_swap config s.current.rota r_a r_b r_c r_d
            else mutate_random_reassign config s.current.rota r_a r_b r_c) } }

/-- C1 (amended), witness: iteration 1 on the loop-entry state of the two-person
example. -/
theorem search_best_monotone_from_iteration_one_witness :
    1 ≤ 1 ∧
      ((search_init (example_config 2 1) overlap_penalty_points
            rota_no_overlap).best.score.value
          ≤ (search_accept 1 0 (1 / 2)
              (search_init (example_config 2 1) overlap_penalty_points
                rota_no_overlap)).best.score.value ∧
        ∀ (config : config_t) (points : points_t) (r_kind r_a r_b r_c r_d r_u : Nat),
          (search_init (example_config 2 1) overlap_penalty_points
              rota_no_overlap).best.score.value
            ≤ (search_iteration config points (1 / 2) 1 r_kind r_a r_b r_c r_d r_u
                (search_init (example_config 2 1) overlap_penalty_points
                  rota_no_overlap)).best.score.value) :=
  ⟨Nat.le_refl 1,
    search_best_monotone_from_iteration_one 1 (Nat.le_refl 1) 0 (1 / 2)
      (search_init (example_config 2 1) overlap_penalty_points rota_no_overlap)⟩

/-! ## C4, C5, C6: the cap on recorded failures -/

/-- C4: for every configuration, weight table and schedule, `failure_count` is
`min(16, V)` with `V` the number of hard-violation events of the sweep, it never exceeds
16, the recorded entries are the first `failure_count` events in sweep order, and
`add_failure` returns the score unchanged once `failure_count` is 16. -/
theorem score_rota_failure_count_capped (config : config_t) (points : points_t)
    (rota : rota_t) :
    (score_rota config points rota).failure_count
        = min MAX_FAILURE_COUNT (hard_violations config rota).length ∧
      (score_rota config points rota).failure_count ≤ 16 ∧
      recorded_failures (score_rota config points rota)
        = (hard_violations config rota).take (score_rota config points rota).failure_count ∧
      ∀ (score : score_t) (failure person_index rota_day_index : Int),
        score.failure_count = MAX_FAILURE_COUNT →
          add_failure score failure person_index rota_day_index = score := by
  have h := score_rota_logged config points rota
  refine ⟨h.count, ?_, ?_, ?_⟩
  · rw [h.count]; exact Nat.min_le_left _ _
  · unfold recorded_failures
    rw [h.data, h.count, List.take_eq_take]
    simp
  · intro score failure person_index rota_day_index hfull
    unfold add_failure
    rw [if_neg (by rw [hfull]; exact Nat.lt_irrefl _)]

/-- C5: with the six hard weights 1 and the fourteen other weights 0, the value returned
by `score_rota` is the total number of hard-violation events, recorded or not. -/
theorem score_rota_value_counts_hard_violations (config : config_t) (points : points_t)
    (rota : rota_t) (hhard : ∀ i, i < 6 → points.values i = 1)
    (hsoft : ∀ i, 6 ≤ i → i < POINTS_COUNT → points.values i = 0) :
    (score_rota config points rota).value = ((hard_violations config rota).length : ℚ) := by
  have hz : SoftZero points := by
    intro i hi
    have h20 : POINTS_COUNT = 20 := rfl
    apply hsoft i <;> rcases hi with hi | hi <;> omega
  rw [(score_rota_logged config points rota).value hz]
  exact charge_unit points hhard _

/-- C5, witness: a two-week schedule with 19 hard violations, more than the cap of 16;
the value is 19 while 16 failures are recorded. -/
theorem score_rota_value_counts_hard_violations_witness :
    (∀ i, i < 6 → hard_unit_points.values i = 1) ∧
      (∀ i, 6 ≤ i → i < POINTS_COUNT → hard_unit_points.values i = 0) ∧
      (hard_violations (example_config 2 2) (rota_two_weeks 0)).length = 19 ∧
      (score_rota (example_config 2 2) hard_unit_points (rota_two_weeks 0)).failure_count
        = 16 ∧
      (score_rota (example_config 2 2) hard_unit_points (rota_two_weeks 0)).value
        = ((hard_violations (example_config 2 2) (rota_two_weeks 0)).length : ℚ) :=
  ⟨fun i hi => by simp [hard_unit_points, hi],
    fun i hi _ => by simp [hard_unit_points, Nat.not_lt.mpr hi],
    by decide, by decide,
    score_rota_value_counts_hard_violations (example_config 2 2) hard_unit_points
      (rota_two_weeks 0)
      (fun i hi => by simp [hard_unit_points, hi])
      (fun i hi _ => by simp [hard_unit_points, Nat.not_lt.mpr hi])⟩

/-- C6 (as stated, refuted): two schedules of one configuration, one with exactly 16
hard violations and one with 19, get the same `failure_count` and the same
`failure_data`; only the value (16 against 19 under unit hard weights) tells them
apart. -/
theorem score_rota_overflow_indistinguishable :
    (hard_violations (example_config 2 2) (rota_two_weeks 1)).length = 16 ∧
      (hard_violations (example_config 2 2) (rota_two_weeks 0)).length = 19 ∧
      (score_rota (example_config 2 2) hard_unit_points (rota_two_weeks 1)).failure_count
        = (score_rota (example_config 2 2) hard_unit_points (rota_two_weeks 0)).failure_count ∧
      (score_rota (example_config 2 2) hard_unit_points (rota_two_weeks 1)).failure_data
        = (score_rota (example_config 2 2) hard_unit_points (rota_two_weeks 0)).failure_data ∧
      (score_rota (example_config 2 2) hard_unit_points (rota_two_weeks 1)).value = 16 ∧
      (score_rota (example_config 2 2) hard_unit_points (rota_two_weeks 0)).value = 19 := by
  refine ⟨by decide, by decide, by decide, by decide, by decide!, by decide!⟩

/-- C6 (amended): the only overflow signal is `failure_count = 16`, which means "there
may be more". Whenever a schedule has more than 16 hard violations `failure_count` is
16, and whenever `failure_count` is below 16 the recorded list is the complete list of
hard violations; a schedule with exactly 16 violations gives the same signal. -/
theorem score_rota_overflow_signal (config : config_t) (points : points_t)
    (rota : rota_t) :
    (16 < (hard_violations config rota).length →
        (score_rota config points rota).failure_count = MAX_FAILURE_COUNT) ∧
      ((hard_violations config rota).length = 16 →
        (score_rota config points rota).failure_count = MAX_FAILURE_COUNT) ∧
      ((score_rota config points rota).failure_count < MAX_FAILURE_COUNT →
        (hard_violations config rota).length = (score_rota config points rota).failure_count ∧
        recorded_failures (score_rota config points rota) = hard_violations config rota) := by
  have h := score_rota_logged config points rota
  refine ⟨?_, ?_, ?_⟩
  · intro hv
    rw [h.count]; exact Nat.min_eq_left (Nat.le_of_lt hv)
  · intro hv
    rw [h.count]; exact Nat.min_eq_left (by rw [hv])
  · intro hlt
    have hc := h.count
    have hlen : (hard_violations config rota).length < MAX_FAILURE_COUNT := by
      by_contra hge
      rw [Nat.min_eq_left (Nat.le_of_not_lt hge)] at hc
      omega
    have hcnt : (score_rota config points rota).failure_count
        = (hard_violations config rota).length := by
      rw [hc]; exact Nat.min_eq_right (Nat.le_of_lt hlen)
    refine ⟨hcnt.symm, ?_⟩
    unfold recorded_failures
    rw [h.data]
    exact List.take_of_length_le (Nat.le_of_lt hlen)

/-- C6 (amended), witness: the 19-violation schedule signals 16, and the single-person
week with 10 violations is listed completely. -/
theorem score_rota_overflow_signal_witness :
    (score_rota (example_config 2 2) hard_unit_points (rota_two_weeks 0)).failure_count
        = MAX_FAILURE_COUNT ∧
      recorded_failures (score_rota (example_config 1 1) hard_unit_points rota_all_zero)
        = hard_violations (example_config 1 1) rota_all_zero :=
  ⟨(score_rota_overflow_signal (example_config 2 2) hard_unit_points
      (rota_two_weeks 0)).1 (by decide),
    ((score_rota_overflow_signal (example_config 1 1) hard_unit_points
      rota_all_zero).2.2 (by decide)).2⟩

theorem filter_ite_singleton {α : Type} (c : Prop) [Decidable c] (x : α) (p : α → Bool) :
    (if c then [x] else []).filter p = if c then (if p x = true then [x] else []) else [] := by
  by_cases h : c
  · simp only [if_pos h, List.filter_cons, List.filter_nil]
  · simp only [if_neg h, List.filter_nil]

theorem filter_overlap_weekday (config : config_t) (rota : rota_t)
    (week_index day_index : Nat) (yesterday : Int) :
    (weekday_violations config rota week_index day_index yesterday).filter
        (fun e => decide (e.failure = FAILURE_MULTIPLE_SHIFTS_AT_ONCE))
      = if (rota.weeks week_index).shifts day_index
            = (rota.weeks week_index).shifts SHIFT_WARD_WEEK then
          [⟨FAILURE_MULTIPLE_SHIFTS_AT_ONCE, (rota.weeks week_index).shifts day_index,
            ((week_index * 7 + day_index : Nat) : Int)⟩]
        else [] := by
  unfold weekday_violations
  simp [List.filter_append, filter_ite_singleton]

theorem filter_overlap_weekend (config : config_t) (rota : rota_t)
    (week_index day_index : Nat) (yesterday : Int) :
    (weekend_violations config rota week_index day_index yesterday).filter
        (fun e => decide (e.failure = FAILURE_MULTIPLE_SHIFTS_AT_ONCE)) = [] := by
  unfold weekend_violations
  simp [List.filter_append, filter_ite_singleton]

theorem filter_flatMap_range {α : Type} (p : α → Bool) (f : Nat → List α) (n : Nat) :
    ((List.range n).flatMap f).filter p = (List.range n).flatMap fun i => (f i).filter p := by
  induction n with
  | zero => rfl
  | succ k ih => simp [List.range_succ, List.flatMap_append, List.filter_append, ih]

theorem filter_overlap_week (config : config_t) (rota : rota_t) (week_index : Nat) :
    (week_violations config rota week_index).filter
        (fun e => decide (e.failure = FAILURE_MULTIPLE_SHIFTS_AT_ONCE))
      = (List.range 5).flatMap fun day_index =>
          if (rota.weeks week_index).shifts day_index
              = (rota.weeks week_index).shifts SHIFT_WARD_WEEK then
            [⟨FAILURE_MULTIPLE_SHIFTS_AT_ONCE, (rota.weeks week_index).shifts day_index,
              ((week_index * 7 + day_index : Nat) : Int)⟩]
          else [] := by
  unfold week_violations
  rw [filter_flatMap_range]
  have h7 : List.range 7 = [0, 1, 2, 3, 4, 5, 6] := by decide
  have h5 : List.range 5 = [0, 1, 2, 3, 4] := by decide
  rw [h7, h5]
  simp [day_violations, filter_overlap_weekday, filter_overlap_weekend]

theorem filter_overlap_hard_violations (config : config_t) (rota : rota_t) :
    (hard_violations config rota).filter
        (fun e => decide (e.failure = FAILURE_MULTIPLE_SHIFTS_AT_ONCE))
      = overlap_records rota config.week_count := by
  unfold hard_violations overlap_records
  rw [filter_flatMap_range]
  simp only [filter_overlap_week]

theorem failure_points_eq_zero (f : Int) :
    failure_points f = 0 ↔ f = FAILURE_MULTIPLE_SHIFTS_AT_ONCE := by
  unfold failure_points
  split_ifs with h <;> simp [h]

theorem charge_overlap_only (points : points_t) (h0 : ∀ i, i ≠ 0 → points.values i = 0)
    (events : List failure_data_t) :
    charge points events
      = points.values POINTS_SHIFT_OVERLAP
        * ((events.filter
            (fun e => decide (e.failure = FAILURE_MULTIPLE_SHIFTS_AT_ONCE))).length : ℚ) := by
  unfold charge
  induction events with
  | nil => simp
  | cons e es ih =>
    rw [List.map_cons, List.sum_cons, ih, List.filter_cons]
    by_cases he : e.failure = FAILURE_MULTIPLE_SHIFTS_AT_ONCE
    · rw [(failure_points_eq_zero e.failure).mpr he]
      simp [he]
      ring
    · rw [h0 _ (fun h => he ((failure_points_eq_zero e.failure).mp h))]
      simp [he]

theorem single_person_week_violations (config : config_t) (rota : rota_t)
    (h : SinglePersonWeek config rota) :
    hard_violations config rota = single_person_week_failures := by
  have h7 : List.range 7 = [0, 1, 2, 3, 4, 5, 6] := by decide
  have s0 := h.slots 0 (by decide)
  have s1 := h.slots 1 (by decide)
  have s2 := h.slots 2 (by decide)
  have s3 := h.slots 3 (by decide)
  have s4 := h.slots 4 (by decide)
  have s5 := h.slots 5 (by decide)
  have s6 := h.slots 6 (by decide)
  have a0 := h.no_holiday 0 (by decide)
  have a1 := h.no_holiday 1 (by decide)
  have a2 := h.no_holiday 2 (by decide)
  have a3 := h.no_holiday 3 (by decide)
  have a4 := h.no_holiday 4 (by decide)
  have a5 := h.no_holiday 5 (by decide)
  have a6 := h.no_holiday 6 (by decide)
  have b0 := h.no_invalid_day 0 (by decide)
  have b1 := h.no_invalid_day 1 (by decide)
  have b2 := h.no_invalid_day 2 (by decide)
  have b3 := h.no_invalid_day 3 (by decide)
  have b4 := h.no_invalid_day 4 (by decide)
  have b5 := h.no_invalid_day 5 (by decide)
  have b6 := h.no_invalid_day 6 (by decide)
  have c0 := h.no_forced_day 0 (by decide)
  have c1 := h.no_forced_day 1 (by decide)
  have c2 := h.no_forced_day 2 (by decide)
  have c3 := h.no_forced_day 3 (by decide)
  have c4 := h.no_forced_day 4 (by decide)
  have c5 := h.no_forced_day 5 (by decide)
  have c6 := h.no_forced_day 6 (by decide)
  have hw := h.ward_allowed
  have hi := h.no_invalid_week
  have h1 : List.range 1 = [0] := by decide
  unfold hard_violations week_violations
  rw [h.week_count, h1, h7]
  simp only [List.flatMap_cons, List.flatMap_nil, List.append_nil]
  simp [day_violations, weekday_violations, weekend_violations, on_call_yesterday,
    single_person_week_failures, s0, s1, s2, s3, s4, s5, s6, a0, a1, a2, a3, a4, a5, a6,
    b0, b1, b2, b3, b4, b5, b6, c0, c1, c2, c3, c4, c5, c6, hw, hi]

theorem single_person_week_example : SinglePersonWeek (example_config 1 1) rota_all_zero :=
  ⟨rfl, rfl, rfl, fun _ _ => by simp [is_holiday_day, example_config],
    fun _ _ => by simp [is_invalid_on_call_day, example_config],
    by simp [is_invalid_ward_week, example_config], fun _ _ => rfl, fun _ _ => rfl⟩

theorem recorded_failures_eq (config : config_t) (points : points_t) (rota : rota_t) :
    recorded_failures (score_rota config points rota)
      = (hard_violations config rota).take MAX_FAILURE_COUNT :=
  (score_rota_logged config points rota).data

theorem mem_overlap_records (rota : rota_t) (week_count : Nat) (e : failure_data_t) :
    e ∈ overlap_records rota week_count ↔
      ∃ week_index day_index, week_index < week_count ∧ day_index < 5 ∧
        (rota.weeks week_index).shifts day_index
          = (rota.weeks week_index).shifts SHIFT_WARD_WEEK ∧
        e = ⟨FAILURE_MULTIPLE_SHIFTS_AT_ONCE, (rota.weeks week_index).shifts day_index,
              ((week_index * 7 + day_index : Nat) : Int)⟩ := by
  unfold overlap_records
  simp only [List.mem_flatMap, List.mem_range]
  constructor
  · rintro ⟨w, hw, d, hd, hmem⟩
    split at hmem
    · next hc => exact ⟨w, d, hw, hd, hc, by simpa using hmem⟩
    · simp at hmem
  · rintro ⟨w, d, hw, hd, hc, he⟩
    exact ⟨w, hw, d, hd, by rw [if_pos hc, he]; simp⟩

/-! ## C2, C3: shift overlap and the single-person week -/

/-- C2: `score_rota` charges a shift overlap for exactly the (week, weekday) pairs whose
on-call person is that week's ward person. With `shift_overlap` the only non-zero weight
the value is that weight times the number of such pairs; the shift-overlap records among
the recorded failures are a prefix of the records of those pairs, and all of them when
the cap of 16 is not exceeded; `overlap_records` lists one record (person, day) per such
pair. In particular, in the single-person week each weekday `d = 0..4` yields the record
(FAILURE_MULTIPLE_SHIFTS_AT_ONCE, person 0, day d). -/
theorem score_rota_shift_overlap (config : config_t) (rota : rota_t) :
    (∀ points : points_t, (∀ i, i ≠ POINTS_SHIFT_OVERLAP → points.values i = 0) →
        (score_rota config points rota).value
          = points.values POINTS_SHIFT_OVERLAP
            * ((overlap_records rota config.week_count).length : ℚ)) ∧
      (∀ points : points_t,
        (recorded_failures (score_rota config points rota)).filter
            (fun e => decide (e.failure = FAILURE_MULTIPLE_SHIFTS_AT_ONCE))
          <+: overlap_records rota config.week_count) ∧
      (∀ points : points_t, (hard_violations config rota).length ≤ MAX_FAILURE_COUNT →
        (recorded_failures (score_rota config points rota)).filter
            (fun e => decide (e.failure = FAILURE_MULTIPLE_SHIFTS_AT_ONCE))
          = overlap_records rota config.week_count) ∧
      (∀ e : failure_data_t, e ∈ overlap_records rota config.week_count ↔
        ∃ week_index day_index, week_index < config.week_count ∧ day_index < 5 ∧
          (rota.weeks week_index).shifts day_index
            = (rota.weeks week_index).shifts SHIFT_WARD_WEEK ∧
          e = ⟨FAILURE_MULTIPLE_SHIFTS_AT_ONCE, (rota.weeks week_index).shifts day_index,
                ((week_index * 7 + day_index : Nat) : Int)⟩) ∧
      (SinglePersonWeek config rota → ∀ (points : points_t) (d : Nat), d < 5 →
        (⟨FAILURE_MULTIPLE_SHIFTS_AT_ONCE, 0, (d : Int)⟩ : failure_data_t)
          ∈ recorded_failures (score_rota config points rota)) := by
  refine ⟨?_, ?_, ?_, mem_overlap_records rota config.week_count, ?_⟩
  · intro points h0
    have hz : SoftZero points := by
      intro i hi
      apply h0
      show i ≠ 0
      rcases hi with hi | hi <;> omega
    rw [(score_rota_logged config points rota).value hz, charge_overlap_only points h0,
      filter_overlap_hard_violations]
  · intro points
    rw [recorded_failures_eq, ← filter_overlap_hard_violations config rota]
    exact List.IsPrefix.filter _ (List.take_prefix _ _)
  · intro points hle
    rw [recorded_failures_eq, List.take_of_length_le hle, filter_overlap_hard_violations]
  · intro h points d hd
    rw [recorded_failures_eq, single_person_week_violations config rota h]
    have hd5 : d = 0 ∨ d = 1 ∨ d = 2 ∨ d = 3 ∨ d = 4 := by omega
    rcases hd5 with rfl | rfl | rfl | rfl | rfl <;> decide

/-- C2, witness: the single-person week of the example configuration. -/
theorem score_rota_shift_overlap_witness :
    SinglePersonWeek (example_config 1 1) rota_all_zero ∧
      ∀ (points : points_t) (d : Nat), d < 5 →
        (⟨FAILURE_MULTIPLE_SHIFTS_AT_ONCE, 0, (d : Int)⟩ : failure_data_t)
          ∈ recorded_failures (score_rota (example_config 1 1) points rota_all_zero) :=
  ⟨single_person_week_example,
    (score_rota_shift_overlap (example_config 1 1) rota_all_zero).2.2.2.2
      single_person_week_example⟩

/-- C3 (as stated, refuted): in the single-person week of the example configuration
`score_rota` returns `failure_count = 10`, not 5. -/
theorem score_rota_single_person_week_not_five :
    SinglePersonWeek (example_config 1 1) rota_all_zero ∧
      (score_rota (example_config 1 1) hard_unit_points rota_all_zero).failure_count = 10 ∧
      ¬ (score_rota (example_config 1 1) hard_unit_points rota_all_zero).failure_count = 5 :=
  ⟨single_person_week_example, by decide, by decide⟩

/-- C3 (amended): in the single-person week (one ward-eligible person without flags, one
week, that person in all 7 slots) `score_rota` returns `failure_count = 10`: the five
shift-overlap failures, one per weekday, and five work-following-on-call failures, for
Tuesday to Friday and for the weekend slot. -/
theorem score_rota_single_person_week (config : config_t) (points : points_t)
    (rota : rota_t) (h : SinglePersonWeek config rota) :
    (score_rota config points rota).failure_count = 10 ∧
      recorded_failures (score_rota config points rota) = single_person_week_failures ∧
      (single_person_week_failures.filter
        (fun e => decide (e.failure = FAILURE_MULTIPLE_SHIFTS_AT_ONCE))).length = 5 ∧
      (single_person_week_failures.filter
        (fun e => decide (e.failure = FAILURE_WORK_FOLLOWING_ON_CALL))).length = 5 := by
  have hl := score_rota_logged config points rota
  have hv := single_person_week_violations config rota h
  refine ⟨?_, ?_, by decide, by decide⟩
  · rw [hl.count, hv]; decide
  · rw [recorded_failures_eq, hv]; decide

/-- C3 (amended), witness: the example configuration with one person and one week. -/
theorem score_rota_single_person_week_witness :
    SinglePersonWeek (example_config 1 1) rota_all_zero ∧
      (score_rota (example_config 1 1) hard_unit_points rota_all_zero).failure_count = 10 :=
  ⟨single_person_week_example,
    (score_rota_single_person_week (example_config 1 1) hard_unit_points rota_all_zero
      single_person_week_example).1⟩

/-! ## The neighbour generator -/

theorem set_shift_get (rota : rota_t) (week shift : Nat) (person : Int) (w s : Nat) :
    ((set_shift rota week shift person).weeks w).shifts s
      = if w = week ∧ s = shift then person else (rota.weeks w).shifts s := by
  unfold set_shift
  by_cases hw : w = week
  · subst hw
    by_cases hs : s = shift
    · subst hs; simp
    · simp [Function.update_noteq hs, hs]
  · simp [Function.update_noteq hw, hw]

theorem rota_ext (a b : rota_t)
    (h : ∀ w s, (a.weeks w).shifts s = (b.weeks w).shifts s) : a = b := by
  cases a with
  | mk wa =>
    cases b with
    | mk wb =>
      congr 1
      funext w
      have hw : ∀ s, (wa w).shifts s = (wb w).shifts s := fun s => h w s
      cases hwa : wa w with
      | mk sa =>
        cases hwb : wb w with
        | mk sb =>
          congr 1
          funext s
          have := hw s
          rw [hwa, hwb] at this
          exact this

theorem mutate_random_swap_get (config : config_t) (rota : rota_t)
    (r_week_a r_shift_a r_week_b r_shift_b : Nat) (w s : Nat) :
    ((mutate_random_swap config rota r_week_a r_shift_a r_week_b r_shift_b).weeks w).shifts s
      = if w = rota_rand r_week_b config.week_count ∧
            s = (if rota_rand r_shift_a SHIFT_COUNT < 5 then rota_rand r_shift_b 5
                  else rota_rand r_shift_a SHIFT_COUNT) then
          (rota.weeks (rota_rand r_week_a config.week_count)).shifts
            (rota_rand r_shift_a SHIFT_COUNT)
        else if w = rota_rand r_week_a config.week_count ∧
            s = rota_rand r_shift_a SHIFT_COUNT then
          (rota.weeks (rota_rand r_week_b config.week_count)).shifts
            (if rota_rand r_shift_a SHIFT_COUNT < 5 then rota_rand r_shift_b 5
              else rota_rand r_shift_a SHIFT_COUNT)
        else (rota.weeks w).shifts s := by
  unfold mutate_random_swap
  simp only [set_shift_get]

/-- C7 (as stated, refuted): when the drawn person is the one already in the drawn slot
the output of `mutate_random_reassign` is the input: no slot changes, not one. -/
theorem mutate_random_reassign_may_change_nothing :
    (differing_slots rota_all_zero
        (mutate_random_reassign (example_config 1 1) rota_all_zero 0 0 0)).card = 0 ∧
      ¬ (differing_slots rota_all_zero
        (mutate_random_reassign (example_config 1 1) rota_all_zero 0 0 0)).card = 1 := by
  decide

/-- C7 (amended): `mutate_random_reassign` changes at most one slot. For every input
schedule and every triple of draws the output holds the drawn person in the drawn
(week, shift) position and equals the input in every other position, so the two differ
in at most one position, and in exactly one if and only if the drawn person is not the
previous occupant of the slot. -/
theorem mutate_random_reassign_changes_at_most_one (config : config_t) (rota : rota_t)
    (r_week r_shift r_person : Nat)
    (hw : 0 < config.week_count) (hmax : config.week_count ≤ MAX_WEEK_COUNT) :
    ((mutate_random_reassign config rota r_week r_shift r_person).weeks
          (rota_rand r_week config.week_count)).shifts (rota_rand r_shift SHIFT_COUNT)
        = (rota_rand r_person config.person_count : Int) ∧
      (∀ w s, ¬ (w = rota_rand r_week config.week_count ∧ s = rota_rand r_shift SHIFT_COUNT) →
        ((mutate_random_reassign config rota r_week r_shift r_person).weeks w).shifts s
          = (rota.weeks w).shifts s) ∧
      (differing_slots rota
        (mutate_random_reassign config rota r_week r_shift r_person)).card ≤ 1 ∧
      ((differing_slots rota
          (mutate_random_reassign config rota r_week r_shift r_person)).card = 1 ↔
        (rota_rand r_person config.person_count : Int)
          ≠ (rota.weeks (rota_rand r_week config.week_count)).shifts
              (rota_rand r_shift SHIFT_COUNT)) := by
  have hget : ∀ w s,
      ((mutate_random_reassign config rota r_week r_shift r_person).weeks w).shifts s
        = if w = rota_rand r_week config.week_count ∧ s = rota_rand r_shift SHIFT_COUNT then
            (rota_rand r_person config.person_count : Int)
          else (rota.weeks w).shifts s := by
    intro w s
    unfold mutate_random_reassign
    simp only [set_shift_get]
  have hwk : rota_rand r_week config.week_count < MAX_WEEK_COUNT :=
    Nat.lt_of_lt_of_le (Nat.mod_lt _ hw) hmax
  have hsh : rota_rand r_shift SHIFT_COUNT < SHIFT_COUNT := Nat.mod_lt _ (by decide)
  have hdiff : differing_slots rota
        (mutate_random_reassign config rota r_week r_shift r_person)
      = if (rota_rand r_person config.person_count : Int)
            ≠ (rota.weeks (rota_rand r_week config.week_count)).shifts
                (rota_rand r_shift SHIFT_COUNT) then
          {(rota_rand r_week config.week_count, rota_rand r_shift SHIFT_COUNT)}
        else ∅ := by
    ext ⟨w, s⟩
    simp only [differing_slots, Finset.mem_filter, Finset.mem_product, Finset.mem_range, hget]
    by_cases hp : w = rota_rand r_week config.week_count ∧ s = rota_rand r_shift SHIFT_COUNT
    · obtain ⟨rfl, rfl⟩ := hp
      by_cases hne : (rota_rand r_person config.person_count : Int)
          ≠ (rota.weeks (rota_rand r_week config.week_count)).shifts
              (rota_rand r_shift SHIFT_COUNT)
      · simp [hne, hwk, hsh, Ne.symm hne]
      · have heq := not_not.mp hne
        simp [heq]
    · rw [if_neg hp]
      split
      · simp only [ne_eq, not_true_eq_false, and_false, Finset.mem_singleton, Prod.mk.injEq,
          false_iff]
        exact hp
      · simp
  refine ⟨?_, ?_, ?_, ?_⟩
  · rw [hget, if_pos ⟨rfl, rfl⟩]
  · intro w s hne
    rw [hget, if_neg hne]
  · rw [hdiff]
    split <;> simp
  · rw [hdiff]
    split
    · next h => simp [h]
    · next h => simp [h]

/-- C7 (amended), witness: one person more than the occupant, so the slot changes. -/
theorem mutate_random_reassign_changes_at_most_one_witness :
    0 < (example_config 2 1).week_count ∧
      (example_config 2 1).week_count ≤ MAX_WEEK_COUNT ∧
      (differing_slots rota_all_zero
        (mutate_random_reassign (example_config 2 1) rota_all_zero 0 0 1)).card ≤ 1 :=
  ⟨by decide, by decide,
    (mutate_random_reassign_changes_at_most_one (example_config 2 1) rota_all_zero 0 0 1
      (by decide) (by decide)).2.2.1⟩

/-- C8: `mutate_random_swap` changes at most two slots. For every input schedule and all
draws the output differs from the input in at most two (week, slot) positions, every
position other than `(week_a, shift_a)` and `(week_b, shift_b)` is copied unchanged, and
when the two drawn positions coincide the output equals the input. -/
theorem mutate_random_swap_changes_at_most_two (config : config_t) (rota : rota_t)
    (r_week_a r_shift_a r_week_b r_shift_b : Nat) :
    (differing_slots rota
        (mutate_random_swap config rota r_week_a r_shift_a r_week_b r_shift_b)).card ≤ 2 ∧
      (∀ w s,
        ¬ (w = rota_rand r_week_a config.week_count ∧ s = rota_rand r_shift_a SHIFT_COUNT) →
        ¬ (w = rota_rand r_week_b config.week_count ∧
            s = (if rota_rand r_shift_a SHIFT_COUNT < 5 then rota_rand r_shift_b 5
                  else rota_rand r_shift_a SHIFT_COUNT)) →
        ((mutate_random_swap config rota r_week_a r_shift_a r_week_b r_shift_b).weeks w).shifts s
          = (rota.weeks w).shifts s) ∧
      (rota_rand r_week_a config.week_count = rota_rand r_week_b config.week_count →
        rota_rand r_shift_a SHIFT_COUNT
          = (if rota_rand r_shift_a SHIFT_COUNT < 5 then rota_rand r_shift_b 5
              else rota_rand r_shift_a SHIFT_COUNT) →
        mutate_random_swap config rota r_week_a r_shift_a r_week_b r_shift_b = rota) := by
  have hget := mutate_random_swap_get config rota r_week_a r_shift_a r_week_b r_shift_b
  refine ⟨?_, ?_, ?_⟩
  · have hsub : differing_slots rota
          (mutate_random_swap config rota r_week_a r_shift_a r_week_b r_shift_b)
        ⊆ {(rota_rand r_week_a config.week_count, rota_rand r_shift_a SHIFT_COUNT),
            (rota_rand r_week_b config.week_count,
              (if rota_rand r_shift_a SHIFT_COUNT < 5 then rota_rand r_shift_b 5
                else rota_rand r_shift_a SHIFT_COUNT))} := by
      intro p hp
      obtain ⟨w, s⟩ := p
      simp only [differing_slots, Finset.mem_filter] at hp
      simp only [Finset.mem_insert, Finset.mem_singleton, Prod.mk.injEq]
      by_contra hcon
      push_neg at hcon
      apply hp.2
      rw [hget, if_neg (fun h => hcon.2 h.1 h.2), if_neg (fun h => hcon.1 h.1 h.2)]
    exact le_trans (Finset.card_le_card hsub) Finset.card_le_two
  · intro w s ha hb
    rw [hget, if_neg hb, if_neg ha]
  · intro hweek hshift
    apply rota_ext
    intro w s
    rw [hget]
    by_cases hb : w = rota_rand r_week_b config.week_count ∧
        s = (if rota_rand r_shift_a SHIFT_COUNT < 5 then rota_rand r_shift_b 5
              else rota_rand r_shift_a SHIFT_COUNT)
    · rw [if_pos hb, hb.1, hb.2, ← hweek, ← hshift]
    · rw [if_neg hb]
      by_cases ha : w = rota_rand r_week_a config.week_count ∧
          s = rota_rand r_shift_a SHIFT_COUNT
      · exact absurd ⟨ha.1.trans hweek, ha.2.trans hshift⟩ hb
      · rw [if_neg ha]

theorem card_filter_swap {α : Type} [DecidableEq α] (S : Finset α) (f : α → Int) (a b : α)
    (x : Int) (hab : a ∈ S ↔ b ∈ S) :
    (S.filter (fun p => (if p = b then f a else if p = a then f b else f p) = x)).card
      = (S.filter (fun p => f p = x)).card := by
  by_cases ha : a ∈ S
  · have hb : b ∈ S := hab.mp ha
    have hσ : ∀ p, (if p = b then f a else if p = a then f b else f p)
        = f (Equiv.swap a b p) := by
      intro p
      by_cases h1 : p = b
      · subst h1; simp
      · by_cases h2 : p = a
        · subst h2; simp [h1]
        · simp [h1, h2, Equiv.swap_apply_of_ne_of_ne h2 h1]
    have hS : ∀ p, p ∈ S → Equiv.swap a b p ∈ S := by
      intro p hp
      by_cases h2 : p = a
      · subst h2; simpa using hb
      · by_cases h1 : p = b
        · subst h1; simpa using ha
        · rw [Equiv.swap_apply_of_ne_of_ne h2 h1]; exact hp
    apply Finset.card_bij (fun p _ => Equiv.swap a b p)
    · intro p hp
      rw [Finset.mem_filter] at hp ⊢
      exact ⟨hS p hp.1, by rw [← hσ]; exact hp.2⟩
    · intro p _ q _ hpq
      exact (Equiv.swap a b).injective hpq
    · intro q hq
      rw [Finset.mem_filter] at hq
      refine ⟨Equiv.swap a b q, ?_, by simp⟩
      rw [Finset.mem_filter]
      exact ⟨hS q hq.1, by rw [hσ]; simpa using hq.2⟩
  · have hb : b ∉ S := fun h => ha (hab.mpr h)
    apply congrArg
    apply Finset.filter_congr
    intro p hp
    have h1 : p ≠ b := fun h => hb (h ▸ hp)
    have h2 : p ≠ a := fun h => ha (h ▸ hp)
    simp [h1, h2]

theorem mutate_random_swap_slot_count (config : config_t) (rota : rota_t)
    (r_week_a r_shift_a r_week_b r_shift_b : Nat) (slots : Finset Nat) (person : Int)
    (hkind : rota_rand r_shift_a SHIFT_COUNT ∈ slots ↔
      (if rota_rand r_shift_a SHIFT_COUNT < 5 then rota_rand r_shift_b 5
        else rota_rand r_shift_a SHIFT_COUNT) ∈ slots) :
    slot_count (mutate_random_swap config rota r_week_a r_shift_a r_week_b r_shift_b)
        config.week_count slots person
      = slot_count rota config.week_count slots person := by
  unfold slot_count
  have hget := mutate_random_swap_get config rota r_week_a r_shift_a r_week_b r_shift_b
  have hrw : ∀ p : Nat × Nat,
      ((mutate_random_swap config rota r_week_a r_shift_a r_week_b r_shift_b).weeks p.1).shifts
          p.2
        = (if p = (rota_rand r_week_b config.week_count,
                (if rota_rand r_shift_a SHIFT_COUNT < 5 then rota_rand r_shift_b 5
                  else rota_rand r_shift_a SHIFT_COUNT)) then
            (fun q : Nat × Nat => (rota.weeks q.1).shifts q.2)
              (rota_rand r_week_a config.week_count, rota_rand r_shift_a SHIFT_COUNT)
          else if p = (rota_rand r_week_a config.week_count,
                rota_rand r_shift_a SHIFT_COUNT) then
            (fun q : Nat × Nat => (rota.weeks q.1).shifts q.2)
              (rota_rand r_week_b config.week_count,
                (if rota_rand r_shift_a SHIFT_COUNT < 5 then rota_rand r_shift_b 5
                  else rota_rand r_shift_a SHIFT_COUNT))
          else (fun q : Nat × Nat => (rota.weeks q.1).shifts q.2) p) := by
    intro p
    obtain ⟨w, s⟩ := p
    simp only [hget, Prod.mk.injEq]
  simp only [hrw]
  apply card_filter_swap
  simp only [Finset.mem_product, Finset.mem_range]
  rcases Nat.eq_zero_or_pos config.week_count with h0 | hpos
  · simp [h0]
  · have ha : rota_rand r_week_a config.week_count < config.week_count := Nat.mod_lt _ hpos
    have hb : rota_rand r_week_b config.week_count < config.week_count := Nat.mod_lt _ hpos
    simp only [ha, hb, true_and]
    exact hkind

/-- C9: `mutate_random_swap` only exchanges occupants of slots of the same kind. For
every input schedule, all draws and every person, the number of weekday on-call slots,
of weekend slots and of ward slots that the person holds over the first `week_count`
weeks is the same in the output as in the input. -/
theorem mutate_random_swap_preserves_slot_counts (config : config_t) (rota : rota_t)
    (r_week_a r_shift_a r_week_b r_shift_b : Nat) (person : Int) :
    slot_count (mutate_random_swap config rota r_week_a r_shift_a r_week_b r_shift_b)
          config.week_count weekday_slots person
        = slot_count rota config.week_count weekday_slots person ∧
      slot_count (mutate_random_swap config rota r_week_a r_shift_a r_week_b r_shift_b)
          config.week_count weekend_slots person
        = slot_count rota config.week_count weekend_slots person ∧
      slot_count (mutate_random_swap config rota r_week_a r_shift_a r_week_b r_shift_b)
          config.week_count ward_slots person
        = slot_count rota config.week_count ward_slots person := by
  have h5 : rota_rand r_shift_b 5 < 5 := Nat.mod_lt _ (by decide)
  have e5 : SHIFT_ON_CALL_WEEKEND = 5 := rfl
  have e6 : SHIFT_WARD_WEEK = 6 := rfl
  refine ⟨?_, ?_, ?_⟩ <;> apply mutate_random_swap_slot_count
  · unfold weekday_slots
    simp only [Finset.mem_range]
    split
    · next h => simp [h, h5]
    · rfl
  · unfold weekend_slots
    simp only [Finset.mem_singleton]
    split
    · next h => constructor <;> intro h' <;> omega
    · rfl
  · unfold ward_slots
    simp only [Finset.mem_singleton]
    split
    · next h => constructor <;> intro h' <;> omega
    · rfl

/-! ## C10: the decaying bonuses -/

theorem decay_loop_closed_form (decay : ℚ) (hdecay : decay ≠ 1) (n : Nat) (sum score : ℚ) :
    (decay_loop decay n (sum, score)).1 = sum + score * (1 - decay ^ n) / (1 - decay) := by
  have h1 : (1 : ℚ) - decay ≠ 0 := sub_ne_zero.mpr (Ne.symm hdecay)
  induction n generalizing sum score with
  | zero => simp [decay_loop]
  | succ k ih =>
    simp only [decay_loop]
    rw [ih]
    field_simp
    ring

/-- C10: over exact rational arithmetic, for every weight table and every gap `d >= 1`,
`get_days_off_score` returns `weight * (1 - decay^(d-1)) / (1 - decay)` with
`weight = points[day_off]` and `decay = points[day_off_decay]` whenever that decay is not
1, and `get_no_ward_week_score` satisfies the same closed form with
`points[no_ward_week]` and `points[no_ward_week_decay]`; for `d = 1` both are 0. -/
theorem decaying_score_closed_form (points : points_t) (d : Int) (hd : 1 ≤ d) :
    (points.values POINTS_DAY_OFF_DECAY ≠ 1 →
        get_days_off_score points d
          = points.values POINTS_DAY_OFF * (1 - points.values POINTS_DAY_OFF_DECAY ^ (d - 1))
            / (1 - points.values POINTS_DAY_OFF_DECAY)) ∧
      (points.values POINTS_NO_WARD_WEEK_DECAY ≠ 1 →
        get_no_ward_week_score points d
          = points.values POINTS_NO_WARD_WEEK
              * (1 - points.values POINTS_NO_WARD_WEEK_DECAY ^ (d - 1))
            / (1 - points.values POINTS_NO_WARD_WEEK_DECAY)) ∧
      (d = 1 → get_days_off_score points d = 0 ∧ get_no_ward_week_score points d = 0) := by
  have hn : ((d - 1).toNat : Int) = d - 1 := Int.toNat_of_nonneg (by omega)
  refine ⟨?_, ?_, ?_⟩
  · intro hdecay
    unfold get_days_off_score
    rw [decay_loop_closed_form _ hdecay, ← hn, zpow_natCast, zero_add, hn]
  · intro hdecay
    unfold get_no_ward_week_score
    rw [decay_loop_closed_form _ hdecay, ← hn, zpow_natCast, zero_add, hn]
  · intro h1
    subst h1
    exact ⟨rfl, rfl⟩

/-- C10, witness: gap 3 with `day_off = 2`, decay `1/2` gives `2 + 1 = 3`, and with
`no_ward_week = 3`, decay `1/3` gives `3 + 1 = 4`. -/
theorem decaying_score_closed_form_witness :
    (1 : Int) ≤ 3 ∧
      get_days_off_score decay_example_points 3
        = decay_example_points.values POINTS_DAY_OFF
            * (1 - decay_example_points.values POINTS_DAY_OFF_DECAY ^ ((3 : Int) - 1))
          / (1 - decay_example_points.values POINTS_DAY_OFF_DECAY) ∧
      get_days_off_score decay_example_points 3 = 3 ∧
      get_no_ward_week_score decay_example_points 3 = 4 :=
  ⟨by decide,
    (decaying_score_closed_form decay_example_points 3 (by decide)).1
      (by simp [decay_example_points]),
    by decide!, by decide!⟩

/-! ## C11: sign and monotonicity of the decaying bonus -/

theorem decay_loop_succ (decay : ℚ) (n : Nat) (sum score : ℚ) :
    decay_loop decay (n + 1) (sum, score)
      = ((decay_loop decay n (sum, score)).1 + score * decay ^ n,
          (decay_loop decay n (sum, score)).2 * decay) ∧
      (decay_loop decay n (sum, score)).2 = score * decay ^ n := by
  induction n generalizing sum score with
  | zero => simp [decay_loop]
  | succ k ih =>
    have h1 := ih (sum + score) (score * decay)
    have h2 := ih sum score
    constructor
    · rw [show decay_loop decay (k + 1 + 1) (sum, score)
          = decay_loop decay (k + 1) (sum + score, score * decay) from rfl, h1.1]
      rw [show decay_loop decay (k + 1) (sum, score)
          = decay_loop decay k (sum + score, score * decay) from rfl]
      simp only [Prod.mk.injEq, and_true]
      ring
    · rw [h2.1]
      simp only
      rw [h2.2]
      ring

theorem decay_loop_nonneg (decay : ℚ) (hdecay : 0 ≤ decay) (n : Nat) (sum score : ℚ)
    (hsum : 0 ≤ sum) (hscore : 0 ≤ score) : 0 ≤ (decay_loop decay n (sum, score)).1 := by
  induction n with
  | zero => exact hsum
  | succ k ih =>
    rw [(decay_loop_succ decay k sum score).1]
    exact add_nonneg ih (mul_nonneg hscore (pow_nonneg hdecay k))

/-- C11: over exact arithmetic, with a non-negative `day_off` weight and a non-negative
`day_off_decay`, for every integer gap `d` the bonus `get_days_off_score d` is
non-negative, it is at most `get_days_off_score (d + 1)`, and it is 0 whenever
`d <= 1`. -/
theorem get_days_off_score_nonneg_mono (points : points_t) (d : Int)
    (hweight : 0 ≤ points.values POINTS_DAY_OFF)
    (hdecay : 0 ≤ points.values POINTS_DAY_OFF_DECAY) :
    0 ≤ get_days_off_score points d ∧
      get_days_off_score points d ≤ get_days_off_score points (d + 1) ∧
      (d ≤ 1 → get_days_off_score points d = 0) := by
  refine ⟨?_, ?_, ?_⟩
  · exact decay_loop_nonneg _ hdecay _ _ _ (le_refl 0) hweight
  · unfold get_days_off_score
    by_cases hd : 1 ≤ d
    · have hn : (d + 1 - 1).toNat = (d - 1).toNat + 1 := by omega
      rw [hn, (decay_loop_succ _ _ _ _).1]
      exact le_add_of_nonneg_right (mul_nonneg hweight (pow_nonneg hdecay _))
    · have h0 : (d - 1).toNat = 0 := by omega
      have h1 : (d + 1 - 1).toNat = 0 := by omega
      rw [h0, h1]
  · intro hd
    unfold get_days_off_score
    have h0 : (d - 1).toNat = 0 := by omega
    rw [h0]
    rfl

/-- C11, witness: weight 2 and decay 1/2 at gap 3, where the bonus is 3 and the next is
7/2. -/
theorem get_days_off_score_nonneg_mono_witness :
    0 ≤ decay_example_points.values POINTS_DAY_OFF ∧
      0 ≤ decay_example_points.values POINTS_DAY_OFF_DECAY ∧
      get_days_off_score decay_example_points 3 = 3 ∧
      get_days_off_score decay_example_points 4 = 7 / 2 ∧
      get_days_off_score decay_example_points 3 ≤ get_days_off_score decay_example_points 4 :=
  ⟨by decide!, by decide!, by decide!, by decide!,
    (get_days_off_score_nonneg_mono decay_example_points 3 (by decide!) (by decide!)).2.1⟩

/-! ## C15, C16: the acceptance rule -/

/-- C15: for every half life `> 0` the exponent of the acceptance probability is 1 at
iteration 0 and 2 at iteration `half_life`, so `0.5^(1 + i/half_life)` taken over the
reals is exactly 1/2 at `i = 0` and exactly 1/4 at `i = half_life`; the same holds for
`accept_prob` with any power function that agrees with exponentiation at the exponents 1
and 2. -/
theorem accept_prob_at_zero_and_half_life (half_life : Nat) (hpos : 0 < half_life) :
    accept_exponent half_life 0 = 1 ∧
      accept_exponent half_life half_life = 2 ∧
      (1 / 2 : ℝ) ^ ((accept_exponent half_life 0 : ℚ) : ℝ) = 1 / 2 ∧
      (1 / 2 : ℝ) ^ ((accept_exponent half_life half_life : ℚ) : ℝ) = 1 / 4 ∧
      ∀ powf : ℚ → ℚ → ℚ, (∀ b : ℚ, powf b 1 = b) → (∀ b : ℚ, powf b 2 = b * b) →
        accept_prob powf half_life 0 = 1 / 2 ∧
          accept_prob powf half_life half_life = 1 / 4 := by
  have hne : (half_life : ℚ) ≠ 0 := Nat.cast_ne_zero.mpr (Nat.pos_iff_ne_zero.mp hpos)
  have h0 : accept_exponent half_life 0 = 1 := by
    unfold accept_exponent
    simp
  have h1 : accept_exponent half_life half_life = 2 := by
    unfold accept_exponent
    rw [div_self hne]
    norm_num
  refine ⟨h0, h1, ?_, ?_, ?_⟩
  · rw [h0]
    simp
  · rw [h1]
    norm_num
  · intro powf hp1 hp2
    unfold accept_prob
    rw [h0, h1, hp1, hp2]
    norm_num

/-- C15, witness: the half life `256 * 1024` of `main`. -/
theorem accept_prob_at_zero_and_half_life_witness :
    0 < acceptance_half_life ∧
      accept_exponent acceptance_half_life 0 = 1 ∧
      accept_exponent acceptance_half_life acceptance_half_life = 2 :=
  ⟨by decide,
    (accept_prob_at_zero_and_half_life acceptance_half_life (by decide)).1,
    (accept_prob_at_zero_and_half_life acceptance_half_life (by decide)).2.1⟩

/-- C16: in one iteration the candidate becomes the new current if
`candidate.value > current.value` or the uniform draw `u` is below `accept_prob`, and
otherwise current (schedule and score) is unchanged; a strictly better candidate is
accepted whatever the draw. The same holds for the whole iteration, whose candidate is
the scored mutation of current. -/
theorem search_accept_rule (i : Nat) (u accept_prob : ℚ) (s : search_t) :
    (search_accept i u accept_prob s).current
        = (if s.candidate.score.value > s.current.score.value ∨ u < accept_prob then
            s.candidate else s.current) ∧
      (s.candidate.score.value > s.current.score.value →
        (search_accept i u accept_prob s).current = s.candidate) ∧
      (¬ (s.candidate.score.value > s.current.score.value ∨ u < accept_prob) →
        (search_accept i u accept_prob s).current = s.current) ∧
      ∀ (config : config_t) (points : points_t) (r_kind r_a r_b r_c r_d r_u : Nat),
        (¬ (search_iteration config points accept_prob i r_kind r_a r_b r_c r_d r_u
              s).current = s.current →
          (search_iteration config points accept_prob i r_kind r_a r_b r_c r_d r_u
              s).current.score.value > s.current.score.value ∨
            (rota_rand r_u run_count : ℚ) / (run_count : ℚ) < accept_prob) := by
  have key : ∀ (v : ℚ) (t : search_t),
      (search_accept i v accept_prob t).current
        = (if t.candidate.score.value > t.current.score.value ∨ v < accept_prob then
            t.candidate else t.current) := by
    intro v t
    unfold search_accept swap_state
    dsimp only
    split <;> rfl
  refine ⟨key u s, ?_, ?_, ?_⟩
  · intro h
    rw [key, if_pos (Or.inl h)]
  · intro h
    rw [key, if_neg h]
  · intro config points r_kind r_a r_b r_c r_d r_u
    have gen : ∀ (v : ℚ) (cand : state_t),
        ¬ (search_accept i v accept_prob { s with candidate := cand }).current = s.current →
          (search_accept i v accept_prob { s with candidate := cand }).current.score.value
              > s.current.score.value ∨ v < accept_prob := by
      intro v cand hne
      rw [key] at hne ⊢
      dsimp only at hne ⊢
      by_cases hc : cand.score.value > s.current.score.value ∨ v < accept_prob
      · rw [if_pos hc]
        exact hc
      · rw [if_neg hc] at hne
        exact absurd rfl hne
    exact gen ((rota_rand r_u run_count : ℚ) / (run_count : ℚ))
      { rota :=
          if rota_rand r_kind 2 = 1 then
            mutate_random_swap config s.current.rota r_a r_b r_c r_d
          else mutate_random_reassign config s.current.rota r_a r_b r_c
        score := score_rota config points
          (if rota_rand r_kind 2 = 1 then
            mutate_random_swap config s.current.rota r_a r_b r_c r_d
          else mutate_random_reassign config s.current.rota r_a r_b r_c) }

/-! ## C17: schedule validity -/

theorem random_fill_week_get (config : config_t) (genrand : Nat → Nat) (i n : Nat)
    (rota : rota_t) (w s : Nat) :
    (((List.range n).foldl
        (fun rota j =>
          set_shift rota i j (rota_rand (genrand (i * SHIFT_COUNT + j)) config.person_count))
        rota).weeks w).shifts s
      = if w = i ∧ s < n then
          ((rota_rand (genrand (i * SHIFT_COUNT + s)) config.person_count : Nat) : Int)
        else (rota.weeks w).shifts s := by
  induction n with
  | zero => simp
  | succ k ih =>
    rw [List.range_succ, List.foldl_append]
    simp only [List.foldl_cons, List.foldl_nil]
    rw [set_shift_get, ih]
    by_cases hw : w = i
    · by_cases hs : s = k
      · subst hs; simp [hw]
      · by_cases hlt : s < k
        · simp [hw, hs, hlt, Nat.lt_succ_of_lt hlt]
        · have : ¬ s < k + 1 := by omega
          simp [hw, hs, hlt, this]
    · simp [hw]

theorem random_fill_get (config : config_t) (genrand : Nat → Nat) (rota : rota_t)
    (n w s : Nat) :
    (((List.range n).foldl
        (fun rota i =>
          (List.range SHIFT_COUNT).foldl
            (fun rota j =>
              set_shift rota i j
                (rota_rand (genrand (i * SHIFT_COUNT + j)) config.person_count))
            rota)
        rota).weeks w).shifts s
      = if w < n ∧ s < SHIFT_COUNT then
          ((rota_rand (genrand (w * SHIFT_COUNT + s)) config.person_count : Nat) : Int)
        else (rota.weeks w).shifts s := by
  induction n with
  | zero => simp
  | succ k ih =>
    rw [List.range_succ k, List.foldl_append]
    simp only [List.foldl_cons, List.foldl_nil]
    rw [random_fill_week_get, ih]
    by_cases hw : w = k
    · subst hw
      by_cases hs : s < SHIFT_COUNT
      · simp [hs]
      · simp [hs]
    · by_cases hlt : w < k
      · simp [hw, hlt, Nat.lt_succ_of_lt hlt]
      · have : ¬ w < k + 1 := by omega
        simp [hw, hlt, this]

/-- C17: with `week_count >= 1` and `person_count >= 1` (so that every draw
`rota_rand r n` lies in `[0, n)`), the initial random fill produces a valid schedule
from any buffer content, and `mutate_random_reassign` and `mutate_random_swap` map valid
schedules to valid schedules, for all draws. -/
theorem rota_valid_invariant (config : config_t) (hweeks : 1 ≤ config.week_count)
    (hpeople : 1 ≤ config.person_count) :
    (∀ (genrand : Nat → Nat) (rota : rota_t), rota_valid config (random_fill config genrand rota)) ∧
      (∀ (rota : rota_t) (r_week r_shift r_person : Nat), rota_valid config rota →
        rota_valid config (mutate_random_reassign config rota r_week r_shift r_person)) ∧
      (∀ (rota : rota_t) (r_week_a r_shift_a r_week_b r_shift_b : Nat), rota_valid config rota →
        rota_valid config
          (mutate_random_swap config rota r_week_a r_shift_a r_week_b r_shift_b)) := by
  have hrand : ∀ r : Nat, (0 : Int) ≤ (rota_rand r config.person_count : Nat) ∧
      ((rota_rand r config.person_count : Nat) : Int) < (config.person_count : Int) := by
    intro r
    have h := Nat.mod_lt r hpeople
    unfold rota_rand
    exact ⟨Int.natCast_nonneg _, Int.ofNat_lt.mpr h⟩
  have hwk : ∀ r : Nat, rota_rand r config.week_count < config.week_count :=
    fun r => Nat.mod_lt r hweeks
  have hsh : ∀ r : Nat, rota_rand r SHIFT_COUNT < SHIFT_COUNT :=
    fun r => Nat.mod_lt r (by decide)
  refine ⟨?_, ?_, ?_⟩
  · intro genrand rota w s hw hs
    unfold random_fill
    rw [random_fill_get, if_pos ⟨hw, hs⟩]
    exact hrand _
  · intro rota r_week r_shift r_person hvalid w s hw hs
    unfold mutate_random_reassign
    simp only [set_shift_get]
    split
    · exact hrand _
    · exact hvalid w s hw hs
  · intro rota r_week_a r_shift_a r_week_b r_shift_b hvalid w s hw hs
    rw [mutate_random_swap_get]
    have hb : (if rota_rand r_shift_a SHIFT_COUNT < 5 then rota_rand r_shift_b 5
        else rota_rand r_shift_a SHIFT_COUNT) < SHIFT_COUNT := by
      have h5 : rota_rand r_shift_b 5 < 5 := Nat.mod_lt _ (by decide)
      have h7 : SHIFT_COUNT = 7 := rfl
      split
      · omega
      · exact hsh _
    generalize (if rota_rand r_shift_a SHIFT_COUNT < 5 then rota_rand r_shift_b 5
        else rota_rand r_shift_a SHIFT_COUNT) = shift_b at hb ⊢
    by_cases h1 : w = rota_rand r_week_b config.week_count ∧ s = shift_b
    · rw [if_pos h1]
      exact hvalid _ _ (hwk _) (hsh _)
    · rw [if_neg h1]
      by_cases h2 : w = rota_rand r_week_a config.week_count ∧
          s = rota_rand r_shift_a SHIFT_COUNT
      · rw [if_pos h2]
        exact hvalid _ _ (hwk _) hb
      · rw [if_neg h2]
        exact hvalid w s hw hs

/-- C17, witness: two persons and one week; the fill of the all-zero buffer with the
draws `0, 1, 2, ...` is valid. -/
theorem rota_valid_invariant_witness :
    1 ≤ (example_config 2 1).week_count ∧ 1 ≤ (example_config 2 1).person_count ∧
      rota_valid (example_config 2 1)
        (random_fill (example_config 2 1) (fun k => k) rota_all_zero) :=
  ⟨by decide, by decide,
    (rota_valid_invariant (example_config 2 1) (by decide) (by decide)).1
      (fun k => k) rota_all_zero⟩

/-! ## C13: no flags and one person per slot -/

theorem flatMap_range_eq_nil {α : Type} (f : Nat → List α) (n : Nat)
    (h : ∀ i, i < n → f i = []) : (List.range n).flatMap f = [] := by
  induction n with
  | zero => rfl
  | succ k ih =>
    rw [List.range_succ, List.flatMap_append, ih (fun i hi => h i (Nat.lt_succ_of_lt hi))]
    simp [h k (Nat.lt_succ_self k)]

theorem day_violations_eq_nil (config : config_t) (rota : rota_t)
    (hflags : NoConstraintFlags config) (hvalid : rota_valid config rota)
    (hdistinct : distinct_occupants config rota) (w d : Nat) (hw : w < config.week_count)
    (hd : d < 7) : day_violations config rota w d = [] := by
  have hne : ∀ a b, a < 7 → b < 7 → a ≠ b →
      (rota.weeks w).shifts a ≠ (rota.weeks w).shifts b := by
    intro a b ha hb hab heq
    exact hab (hdistinct w a w b hw ha hw hb heq).2
  have hprev : ∀ a b, a < 7 → b < 7 → 0 < w →
      (rota.weeks w).shifts a ≠ (rota.weeks (w - 1)).shifts b := by
    intro a b ha hb hpos heq
    have := (hdistinct w a (w - 1) b hw ha (by omega) hb heq).1
    omega
  have hnn : ∀ a, a < 7 → (rota.weeks w).shifts a ≠ -1 := by
    intro a ha heq
    have := (hvalid w a hw ha).1
    omega
  have hy0 : ∀ a, a < 7 → (rota.weeks w).shifts a ≠ on_call_yesterday rota w 0 := by
    intro a ha
    unfold on_call_yesterday
    rw [if_pos rfl]
    by_cases hw0 : w = 0
    · rw [if_pos hw0]; exact hnn a ha
    · rw [if_neg hw0]; exact hprev a 5 ha (by decide) (Nat.pos_of_ne_zero hw0)
  have hd7 : d = 0 ∨ d = 1 ∨ d = 2 ∨ d = 3 ∨ d = 4 ∨ d = 5 ∨ d = 6 := by omega
  unfold day_violations
  rcases hd7 with rfl | rfl | rfl | rfl | rfl | rfl | rfl
  · simp [weekday_violations, hflags.no_holiday, hflags.no_invalid_day,
      hflags.no_invalid_week, hflags.no_forced_day, hflags.no_ward_disallowed,
      hne 0 6 (by decide) (by decide) (by decide), hy0 6 (by decide), hy0 0 (by decide)]
  · simp [weekday_violations, on_call_yesterday, hflags.no_holiday, hflags.no_invalid_day,
      hflags.no_invalid_week, hflags.no_forced_day, hflags.no_ward_disallowed,
      hne 1 6 (by decide) (by decide) (by decide), hne 1 0 (by decide) (by decide) (by decide)]
  · simp [weekday_violations, on_call_yesterday, hflags.no_holiday, hflags.no_invalid_day,
      hflags.no_invalid_week, hflags.no_forced_day, hflags.no_ward_disallowed,
      hne 2 6 (by decide) (by decide) (by decide), hne 2 1 (by decide) (by decide) (by decide)]
  · simp [weekday_violations, on_call_yesterday, hflags.no_holiday, hflags.no_invalid_day,
      hflags.no_invalid_week, hflags.no_forced_day, hflags.no_ward_disallowed,
      hne 3 6 (by decide) (by decide) (by decide), hne 3 2 (by decide) (by decide) (by decide)]
  · simp [weekday_violations, on_call_yesterday, hflags.no_holiday, hflags.no_invalid_day,
      hflags.no_invalid_week, hflags.no_forced_day, hflags.no_ward_disallowed,
      hne 4 6 (by decide) (by decide) (by decide), hne 4 3 (by decide) (by decide) (by decide)]
  · simp [weekend_violations, on_call_yesterday, hflags.no_holiday, hflags.no_invalid_day,
      hflags.no_forced_day, hne 5 4 (by decide) (by decide) (by decide)]
  · simp [weekend_violations, on_call_yesterday, hflags.no_holiday, hflags.no_invalid_day,
      hflags.no_forced_day]

theorem hard_violations_eq_nil (config : config_t) (rota : rota_t)
    (hflags : NoConstraintFlags config) (hvalid : rota_valid config rota)
    (hdistinct : distinct_occupants config rota) : hard_violations config rota = [] := by
  unfold hard_violations
  apply flatMap_range_eq_nil
  intro w hw
  unfold week_violations
  apply flatMap_range_eq_nil
  intro d hd
  exact day_violations_eq_nil config rota hflags hvalid hdistinct w d hw hd

theorem no_constraint_flags_example (person_count week_count : Nat) :
    NoConstraintFlags (example_config person_count week_count) :=
  ⟨fun _ _ => by simp [is_holiday_day, example_config],
    fun _ _ => by simp [is_invalid_on_call_day, example_config],
    fun _ _ => by simp [is_invalid_ward_week, example_config],
    fun _ => rfl, fun _ => rfl⟩

/-- C13: for every configuration without constraint flags and every schedule whose
`7 * week_count` slot occupants are pairwise distinct people (valid person indices),
`score_rota` returns `failure_count = 0`, whatever the weights. -/
theorem score_rota_no_failure_when_distinct (config : config_t) (points : points_t)
    (rota : rota_t) (hflags : NoConstraintFlags config) (hvalid : rota_valid config rota)
    (hdistinct : distinct_occupants config rota) :
    (score_rota config points rota).failure_count = 0 ∧
      recorded_failures (score_rota config points rota) = [] := by
  have hl := score_rota_logged config points rota
  have hv := hard_violations_eq_nil config rota hflags hvalid hdistinct
  constructor
  · rw [hl.count, hv]; rfl
  · rw [recorded_failures_eq, hv]; rfl

/-- C13, witness: seven persons, one week, person `s` in slot `s`. -/
theorem score_rota_no_failure_when_distinct_witness :
    NoConstraintFlags (example_config 7 1) ∧
      rota_valid (example_config 7 1) rota_one_person_per_slot ∧
      distinct_occupants (example_config 7 1) rota_one_person_per_slot ∧
      (score_rota (example_config 7 1) hard_unit_points rota_one_person_per_slot).failure_count
        = 0 :=
  have hvalid : rota_valid (example_config 7 1) rota_one_person_per_slot := by
    intro w s hw hs
    have hw0 : w = 0 := Nat.lt_one_iff.mp hw
    subst hw0
    have h7 : SHIFT_COUNT = 7 := rfl
    simp only [rota_one_person_per_slot, example_config]
    constructor <;> omega
  have hdistinct : distinct_occupants (example_config 7 1) rota_one_person_per_slot := by
    intro w s w' s' hw hs hw' hs' heq
    have hw0 : w = 0 := Nat.lt_one_iff.mp hw
    have hw0' : w' = 0 := Nat.lt_one_iff.mp hw'
    subst hw0 hw0'
    simp only [rota_one_person_per_slot] at heq
    constructor
    · rfl
    · omega
  ⟨no_constraint_flags_example 7 1, hvalid, hdistinct,
    (score_rota_no_failure_when_distinct (example_config 7 1) hard_unit_points
      rota_one_person_per_slot (no_constraint_flags_example 7 1) hvalid hdistinct).1⟩

/-! ## C12: how often the weekend checks fire -/

theorem day_violations_day (config : config_t) (rota : rota_t) (w d : Nat)
    (e : failure_data_t) (he : e ∈ day_violations config rota w d) :
    e.rota_day_index = ((w * 7 + d : Nat) : Int) := by
  unfold day_violations at he
  split at he
  · unfold weekday_violations at he
    simp only [List.mem_append] at he
    rcases he with ((((((((he | he) | he) | he) | he) | he) | he) | he) | he) | he <;>
      · split at he
        · rw [List.mem_singleton] at he; rw [he]
        · simp at he
  · unfold weekend_violations at he
    simp only [List.mem_append] at he
    rcases he with ((he | he) | he) | he <;>
      · split at he
        · rw [List.mem_singleton] at he; rw [he]
        · simp at he

theorem flatMap_range_single {α : Type} (f : Nat → List α) (n i0 : Nat)
    (h : ∀ i, i ≠ i0 → f i = []) :
    (List.range n).flatMap f = if i0 < n then f i0 else [] := by
  induction n with
  | zero => rfl
  | succ k ih =>
    rw [List.range_succ, List.flatMap_append, ih]
    by_cases hk : k = i0
    · subst hk
      simp
    · by_cases hlt : i0 < k
      · simp [hlt, Nat.lt_succ_of_lt hlt, h k hk]
      · have : ¬ i0 < k + 1 := by omega
        simp [hlt, this, h k hk]

theorem weekend_failures_day (config : config_t) (rota : rota_t) (w w' d : Nat)
    (failure : Int) (hd : d < 7) :
    weekend_failures (day_violations config rota w' d) w failure
      = if w' = w ∧ (d = 5 ∨ d = 6) then
          (day_violations config rota w d).filter fun e => decide (e.failure = failure)
        else [] := by
  unfold weekend_failures
  by_cases hc : w' = w ∧ (d = 5 ∨ d = 6)
  · rw [if_pos hc]
    obtain ⟨rfl, hd56⟩ := hc
    apply List.filter_congr
    intro e he
    have hday := day_violations_day config rota w' d e he
    have : e.rota_day_index = ((w' * 7 + 5 : Nat) : Int) ∨
        e.rota_day_index = ((w' * 7 + 6 : Nat) : Int) := by
      rcases hd56 with rfl | rfl
      · exact Or.inl hday
      · exact Or.inr hday
    simp only [this, true_and]
  · rw [if_neg hc, List.filter_eq_nil_iff]
    intro e he
    have hday := day_violations_day config rota w' d e he
    simp only [decide_eq_true_eq, not_and]
    intro h56
    exfalso
    apply hc
    rw [hday] at h56
    constructor
    · rcases h56 with h | h <;> omega
    · rcases h56 with h | h <;> omega

theorem weekend_failures_week (config : config_t) (rota : rota_t) (w w' : Nat)
    (failure : Int) :
    weekend_failures (week_violations config rota w') w failure
      = if w' = w then
          ((weekend_violations config rota w 5 (on_call_yesterday rota w 5)).filter
              fun e => decide (e.failure = failure)) ++
            ((weekend_violations config rota w 6 (on_call_yesterday rota w 6)).filter
              fun e => decide (e.failure = failure))
        else [] := by
  have h7 : List.range 7 = [0, 1, 2, 3, 4, 5, 6] := by decide
  have hfm := filter_flatMap_range
    (fun e : failure_data_t =>
      decide ((e.rota_day_index = ((w * 7 + 5 : Nat) : Int) ∨
          e.rota_day_index = ((w * 7 + 6 : Nat) : Int)) ∧ e.failure = failure))
    (day_violations config rota w') 7
  have hday := fun d hd => weekend_failures_day config rota w w' d failure hd
  unfold weekend_failures at hday ⊢
  unfold week_violations
  rw [hfm, h7]
  simp only [List.flatMap_cons, List.flatMap_nil, List.append_nil]
  rw [hday 0 (by decide), hday 1 (by decide), hday 2 (by decide), hday 3 (by decide),
    hday 4 (by decide), hday 5 (by decide), hday 6 (by decide)]
  by_cases hw : w' = w
  · subst hw
    simp [day_violations]
  · simp [hw]

theorem weekend_failures_hard_violations (config : config_t) (rota : rota_t) (w : Nat)
    (failure : Int) (hw : w < config.week_count) :
    weekend_failures (hard_violations config rota) w failure
      = ((weekend_violations config rota w 5 (on_call_yesterday rota w 5)).filter
            fun e => decide (e.failure = failure)) ++
          ((weekend_violations config rota w 6 (on_call_yesterday rota w 6)).filter
            fun e => decide (e.failure = failure)) := by
  have hfm := filter_flatMap_range
    (fun e : failure_data_t =>
      decide ((e.rota_day_index = ((w * 7 + 5 : Nat) : Int) ∨
          e.rota_day_index = ((w * 7 + 6 : Nat) : Int)) ∧ e.failure = failure))
    (week_violations config rota) config.week_count
  have hweek := fun w' => weekend_failures_week config rota w w' failure
  unfold weekend_failures at hweek ⊢
  unfold hard_violations
  rw [hfm, flatMap_range_single _ _ w, if_pos hw, hweek w, if_pos rfl]
  intro i hi
  rw [hweek i, if_neg hi]

theorem score_weekend_day_value (config : config_t) (points : points_t) (rota : rota_t)
    (week_index day_index : Nat) (st : sweep_t) :
    (score_weekend_day config points rota week_index day_index st).score.value
      = st.score.value
        + (if is_holiday_day config (week_index * 7 + day_index)
              ((rota.weeks week_index).shifts SHIFT_ON_CALL_WEEKEND) = true
            then points.values POINTS_WORK_ON_HOLIDAY else 0)
        + (if is_invalid_on_call_day config (week_index * 7 + day_index)
              ((rota.weeks week_index).shifts SHIFT_ON_CALL_WEEKEND) = true
            then points.values POINTS_ON_CALL_ON_INVALID_DAY else 0)
        + (if config.forced_on_call_people (week_index * 7 + day_index) ≠ -1 ∧
              config.forced_on_call_people (week_index * 7 + day_index)
                ≠ (rota.weeks week_index).shifts SHIFT_ON_CALL_WEEKEND
            then points.values POINTS_NOT_ON_CALL_WHEN_FORCED else 0)
        + (if day_index = 5 ∧ (rota.weeks week_index).shifts SHIFT_ON_CALL_WEEKEND
              = st.person_on_call_yesterday
            then points.values POINTS_WORK_FOLLOWING_ON_CALL else 0)
        + (if day_index = 5 ∧ st.last_on_call_week
              ((rota.weeks week_index).shifts SHIFT_ON_CALL_WEEKEND) = week_index
            then points.values POINTS_MULTIPLE_ON_CALLS_PER_WEEK else 0)
        + (if is_disliked_on_call_day config (week_index * 7 + day_index)
              ((rota.weeks week_index).shifts SHIFT_ON_CALL_WEEKEND) = true
            then points.values POINTS_ON_CALL_ON_DISLIKED_DAY else 0)
        + (if day_index = 5 then
            get_days_off_score points
              (((week_index * 7 + day_index : Nat) : Int)
                - st.last_work_day ((rota.weeks week_index).shifts SHIFT_ON_CALL_WEEKEND))
            else 0) := by
  unfold score_weekend_day
  dsimp only
  simp only [value_soft, value_hard]

theorem days_off_zero_weight (points : points_t) (d : Int)
    (h : points.values POINTS_DAY_OFF = 0) : get_days_off_score points d = 0 := by
  unfold get_days_off_score
  rw [h, decay_loop_zero]

theorem length_ite_singleton {α : Type} (c : Prop) [Decidable c] (x : α) :
    (if c then [x] else []).length = flag_count (decide c) := by
  unfold flag_count
  by_cases h : c <;> simp [h]

theorem weekend_violations_filter_length (config : config_t) (rota : rota_t)
    (w d : Nat) (yesterday failure : Int) :
    ((weekend_violations config rota w d yesterday).filter
        fun e => decide (e.failure = failure)).length
      = if failure = FAILURE_WORK_ON_HOLIDAY then
          flag_count (is_holiday_day config (w * 7 + d)
            ((rota.weeks w).shifts SHIFT_ON_CALL_WEEKEND))
        else if failure = FAILURE_ON_CALL_WHEN_CANNOT then
          flag_count (is_invalid_on_call_day config (w * 7 + d)
            ((rota.weeks w).shifts SHIFT_ON_CALL_WEEKEND))
        else if failure = FAILURE_NOT_ON_CALL_WHEN_FORCED then
          flag_count (decide (config.forced_on_call_people (w * 7 + d) ≠ -1 ∧
            config.forced_on_call_people (w * 7 + d)
              ≠ (rota.weeks w).shifts SHIFT_ON_CALL_WEEKEND))
        else if failure = FAILURE_WORK_FOLLOWING_ON_CALL then
          flag_count (decide (d = 5 ∧
            (rota.weeks w).shifts SHIFT_ON_CALL_WEEKEND = yesterday))
        else 0 := by
  unfold weekend_violations
  simp only [List.filter_append, filter_ite_singleton, List.length_append]
  by_cases h1 : failure = FAILURE_WORK_ON_HOLIDAY
  · subst h1
    simp [length_ite_singleton]
  · by_cases h5 : failure = FAILURE_ON_CALL_WHEN_CANNOT
    · subst h5
      simp [length_ite_singleton]
    · by_cases h3 : failure = FAILURE_NOT_ON_CALL_WHEN_FORCED
      · subst h3
        simp [length_ite_singleton]
      · by_cases h6 : failure = FAILURE_WORK_FOLLOWING_ON_CALL
        · subst h6
          simp [length_ite_singleton]
        · have e1 : ¬ FAILURE_WORK_ON_HOLIDAY = failure := fun h => h1 h.symm
          have e5 : ¬ FAILURE_ON_CALL_WHEN_CANNOT = failure := fun h => h5 h.symm
          have e3 : ¬ FAILURE_NOT_ON_CALL_WHEN_FORCED = failure := fun h => h3 h.symm
          have e6 : ¬ FAILURE_WORK_FOLLOWING_ON_CALL = failure := fun h => h6 h.symm
          simp [h1, h5, h3, h6, e1, e5, e3, e6]

theorem flag_count_le_one (b : Bool) : flag_count b ≤ 1 := by
  unfold flag_count
  split <;> decide

theorem weekend_violations_filter_length_le (config : config_t) (rota : rota_t)
    (w d : Nat) (yesterday failure : Int) :
    ((weekend_violations config rota w d yesterday).filter
        fun e => decide (e.failure = failure)).length ≤ 1 := by
  rw [weekend_violations_filter_length]
  split_ifs <;> first | exact flag_count_le_one _ | decide

/-- C12 (as stated, refuted): with person 5 in the weekend slot and on holiday on both
weekend days, the weekend slot produces two work-on-holiday failures in the week, one
for Saturday and one for Sunday; and with the disliked-day flag on both days and
`on_call_on_disliked_day = 1` the only weight, the value is 2: two disliked-day
penalties. -/
theorem weekend_checks_fire_twice :
    recorded_failures
        (score_rota weekend_flags_config hard_unit_points rota_one_person_per_slot)
      = [⟨FAILURE_WORK_ON_HOLIDAY, 5, 5⟩, ⟨FAILURE_WORK_ON_HOLIDAY, 5, 6⟩] ∧
      ¬ (weekend_failures
          (recorded_failures
            (score_rota weekend_flags_config hard_unit_points rota_one_person_per_slot))
          0 FAILURE_WORK_ON_HOLIDAY).length ≤ 1 ∧
      (score_rota weekend_flags_config disliked_unit_points rota_one_person_per_slot).value
        = 2 := by
  refine ⟨by decide, by decide, by decide!⟩

/-- C12 (amended): for every configuration, schedule and week, the weekend on-call slot
produces at most one work-following-on-call failure (the check is made on Saturday
only). The work-on-holiday, on-call-when-cannot and not-on-call-when-forced checks are
made on Saturday and on Sunday: the slot produces one such failure per weekend day that
carries the flag, so at most two of each per week, and the recorded list holds no more.
The disliked-day penalty too is charged once per flagged weekend day: with
`on_call_on_disliked_day` the only non-zero weight, the two weekend steps add that
weight once for each of the two days whose disliked bit is set. -/
theorem weekend_checks_per_week (config : config_t) (points : points_t) (rota : rota_t)
    (w : Nat) (hw : w < config.week_count) :
    (weekend_failures (hard_violations config rota) w FAILURE_WORK_FOLLOWING_ON_CALL).length
        ≤ 1 ∧
      (weekend_failures (hard_violations config rota) w FAILURE_WORK_ON_HOLIDAY).length
        = flag_count (is_holiday_day config (w * 7 + 5)
              ((rota.weeks w).shifts SHIFT_ON_CALL_WEEKEND))
          + flag_count (is_holiday_day config (w * 7 + 6)
              ((rota.weeks w).shifts SHIFT_ON_CALL_WEEKEND)) ∧
      (weekend_failures (hard_violations config rota) w FAILURE_ON_CALL_WHEN_CANNOT).length
        = flag_count (is_invalid_on_call_day config (w * 7 + 5)
              ((rota.weeks w).shifts SHIFT_ON_CALL_WEEKEND))
          + flag_count (is_invalid_on_call_day config (w * 7 + 6)
              ((rota.weeks w).shifts SHIFT_ON_CALL_WEEKEND)) ∧
      (weekend_failures (hard_violations config rota) w
          FAILURE_NOT_ON_CALL_WHEN_FORCED).length
        = flag_count (decide (config.forced_on_call_people (w * 7 + 5) ≠ -1 ∧
              config.forced_on_call_people (w * 7 + 5)
                ≠ (rota.weeks w).shifts SHIFT_ON_CALL_WEEKEND))
          + flag_count (decide (config.forced_on_call_people (w * 7 + 6) ≠ -1 ∧
              config.forced_on_call_people (w * 7 + 6)
                ≠ (rota.weeks w).shifts SHIFT_ON_CALL_WEEKEND)) ∧
      (∀ failure : Int,
        (weekend_failures (recorded_failures (score_rota config points rota)) w
            failure).length
          ≤ (weekend_failures (hard_violations config rota) w failure).length ∧
        (weekend_failures (hard_violations config rota) w failure).length ≤ 2) ∧
      ((∀ i, i ≠ POINTS_ON_CALL_ON_DISLIKED_DAY → points.values i = 0) → ∀ st : sweep_t,
        (score_weekend_day config points rota w 6
            (score_weekend_day config points rota w 5 st)).score.value
          = st.score.value
            + points.values POINTS_ON_CALL_ON_DISLIKED_DAY
              * ((flag_count (is_disliked_on_call_day config (w * 7 + 5)
                    ((rota.weeks w).shifts SHIFT_ON_CALL_WEEKEND))
                  + flag_count (is_disliked_on_call_day config (w * 7 + 6)
                    ((rota.weeks w).shifts SHIFT_ON_CALL_WEEKEND)) : Nat) : ℚ)) := by
  have hwf := fun f => weekend_failures_hard_violations config rota w f hw
  have hlen := fun d y f => weekend_violations_filter_length config rota w d y f
  have hle := fun d y f => weekend_violations_filter_length_le config rota w d y f
  refine ⟨?_, ?_, ?_, ?_, ?_, ?_⟩
  · rw [hwf, List.length_append, hlen, hlen]
    have h6 : flag_count (decide ((6 : Nat) = 5 ∧
        (rota.weeks w).shifts SHIFT_ON_CALL_WEEKEND = on_call_yesterday rota w 6)) = 0 := by
      simp [flag_count]
    simp only [show ¬ (FAILURE_WORK_FOLLOWING_ON_CALL = FAILURE_WORK_ON_HOLIDAY) by decide,
      show ¬ (FAILURE_WORK_FOLLOWING_ON_CALL = FAILURE_ON_CALL_WHEN_CANNOT) by decide,
      show ¬ (FAILURE_WORK_FOLLOWING_ON_CALL = FAILURE_NOT_ON_CALL_WHEN_FORCED) by decide,
      if_false, if_true]
    rw [h6]
    exact flag_count_le_one _
  · rw [hwf, List.length_append, hlen, hlen]
    simp only [if_true]
  · rw [hwf, List.length_append, hlen, hlen]
    simp only [show ¬ (FAILURE_ON_CALL_WHEN_CANNOT = FAILURE_WORK_ON_HOLIDAY) by decide,
      if_false, if_true]
  · rw [hwf, List.length_append, hlen, hlen]
    simp only [show ¬ (FAILURE_NOT_ON_CALL_WHEN_FORCED = FAILURE_WORK_ON_HOLIDAY) by decide,
      show ¬ (FAILURE_NOT_ON_CALL_WHEN_FORCED = FAILURE_ON_CALL_WHEN_CANNOT) by decide,
      if_false, if_true]
  · intro failure
    constructor
    · unfold weekend_failures
      rw [recorded_failures_eq]
      exact ((List.take_sublist _ _).filter _).length_le
    · rw [hwf, List.length_append]
      have h5 := hle 5 (on_call_yesterday rota w 5) failure
      have h6 := hle 6 (on_call_yesterday rota w 6) failure
      omega
  · intro h0 st
    rw [score_weekend_day_value, score_weekend_day_value]
    have e1 : points.values POINTS_WORK_ON_HOLIDAY = 0 := h0 _ (by decide)
    have e2 : points.values POINTS_ON_CALL_ON_INVALID_DAY = 0 := h0 _ (by decide)
    have e4 : points.values POINTS_NOT_ON_CALL_WHEN_FORCED = 0 := h0 _ (by decide)
    have e5 : points.values POINTS_WORK_FOLLOWING_ON_CALL = 0 := h0 _ (by decide)
    have e13 : points.values POINTS_MULTIPLE_ON_CALLS_PER_WEEK = 0 := h0 _ (by decide)
    have e16 : points.values POINTS_DAY_OFF = 0 := h0 _ (by decide)
    simp only [e1, e2, e4, e5, e13, days_off_zero_weight points _ e16, ite_self, add_zero]
    unfold flag_count
    split_ifs <;> push_cast <;> ring

/-- C12 (amended), witness: week 0 of the configuration with both weekend days flagged,
where the weekend slot produces no work-following-on-call failure and two
work-on-holiday failures. -/
theorem weekend_checks_per_week_witness :
    0 < weekend_flags_config.week_count ∧
      (weekend_failures (hard_violations weekend_flags_config rota_one_person_per_slot) 0
          FAILURE_WORK_FOLLOWING_ON_CALL).length ≤ 1 ∧
      (weekend_failures (hard_violations weekend_flags_config rota_one_person_per_slot) 0
          FAILURE_WORK_ON_HOLIDAY).length = 2 :=
  ⟨by decide,
    (weekend_checks_per_week weekend_flags_config hard_unit_points rota_one_person_per_slot 0
      (by decide)).1,
    by decide⟩

/-! ## C14: the remainders and their quadratic terms -/

theorem charge_zero (points : points_t) (h : ∀ i, i < 6 → points.values i = 0)
    (events : List failure_data_t) : charge points events = 0 := by
  unfold charge
  induction events with
  | nil => rfl
  | cons e es ih =>
    rw [List.map_cons, List.sum_cons, ih, h _ (failure_points_lt e.failure), add_zero]

theorem score_rota_distribution (config : config_t) (points : points_t) (rota : rota_t) :
    (score_rota config points rota).value
        = ((List.range config.person_count).foldl
              (score_tail config points (score_sweep config points rota))
              (score_sweep config points rota).score).value
          + Finset.sum (Finset.range config.person_count)
              (fun i => distribution_term points ((score_rota config points rota).people i)) ∧
      ∀ i : Nat, i < config.person_count →
        (score_rota config points rota).people i
          = with_remainders config ((score_rota config points rota).people i) i := by
  obtain ⟨_, _, h3, h4⟩ := score_distribution_fold config points
    ((List.range config.person_count).foldl
      (score_tail config points (score_sweep config points rota))
      (score_sweep config points rota).score) config.person_count
  have hp : ∀ i : Nat, i < config.person_count →
      (score_rota config points rota).people i
        = with_remainders config
            (((List.range config.person_count).foldl
              (score_tail config points (score_sweep config points rota))
              (score_sweep config points rota).score).people i) i := by
    intro i hi
    unfold score_rota
    dsimp only
    rw [h4, if_pos (by omega)]
  constructor
  · have hv : (score_rota config points rota).value
        = ((List.range config.person_count).foldl
              (score_tail config points (score_sweep config points rota))
              (score_sweep config points rota).score).value
          + Finset.sum (Finset.range config.person_count)
              (fun i => distribution_term points
                (with_remainders config
                  (((List.range config.person_count).foldl
                    (score_tail config points (score_sweep config points rota))
                    (score_sweep config points rota).score).people i) i)) := h3
    rw [hv]
    congr 1
    apply Finset.sum_congr rfl
    intro i hi
    rw [hp i (Finset.mem_range.mp hi)]
  · intro i hi
    rw [hp i hi]
    rfl

/-- C14: for every person `i` of the configuration `score_rota` sets each of the four
remainders to total + bias - target (on-call days, on-call weekends, ward weeks, on-call
bank holidays), and when every weight other than the four `*_difference` weights is 0
the returned value is the sum over all persons of
`w_day * rem_days^2 + w_weekend * rem_weekends^2 + w_ward * rem_ward^2 + w_bank * rem_bank^2`. -/
theorem score_rota_remainders (config : config_t) (points : points_t) (rota : rota_t) :
    (∀ i : Nat, i < config.person_count →
        ((score_rota config points rota).people i).remainder_on_call_days
            = ((score_rota config points rota).people i).total_on_call_days
              + (config.people i).on_call_day_bias - (config.people i).target_on_call_days ∧
          ((score_rota config points rota).people i).remainder_on_call_weekends
            = ((score_rota config points rota).people i).total_on_call_weekends
              + (config.people i).on_call_weekend_bias
              - (config.people i).target_on_call_weekends ∧
          ((score_rota config points rota).people i).remainder_ward_weeks
            = ((score_rota config points rota).people i).total_ward_weeks
              + (config.people i).ward_week_bias - (config.people i).target_ward_weeks ∧
          ((score_rota config points rota).people i).remainder_on_call_bank_holidays
            = ((score_rota config points rota).people i).total_on_call_bank_holidays
              + (config.people i).bank_holiday_bias
              - (config.people i).target_on_call_bank_holidays) ∧
      ((∀ k, k < POINTS_COUNT → k ≠ POINTS_ON_CALL_DAY_DIFFERENCE →
          k ≠ POINTS_ON_CALL_BANK_HOLIDAY_DIFFERENCE →
          k ≠ POINTS_ON_CALL_WEEKEND_DIFFERENCE → k ≠ POINTS_WARD_WEEK_DIFFERENCE →
          points.values k = 0) →
        (score_rota config points rota).value
          = Finset.sum (Finset.range config.person_count) (fun i =>
              points.values POINTS_ON_CALL_DAY_DIFFERENCE
                  * ((score_rota config points rota).people i).remainder_on_call_days ^ 2
                + points.values POINTS_ON_CALL_WEEKEND_DIFFERENCE
                  * ((score_rota config points rota).people i).remainder_on_call_weekends ^ 2
                + points.values POINTS_WARD_WEEK_DIFFERENCE
                  * ((score_rota config points rota).people i).remainder_ward_weeks ^ 2
                + points.values POINTS_ON_CALL_BANK_HOLIDAY_DIFFERENCE
                  * ((score_rota config points rota).people i).remainder_on_call_bank_holidays
                    ^ 2)) := by
  obtain ⟨hv, hp⟩ := score_rota_distribution config points rota
  constructor
  · intro i hi
    have h := hp i hi
    refine ⟨?_, ?_, ?_, ?_⟩
    · exact congrArg person_score_t.remainder_on_call_days h
    · exact congrArg person_score_t.remainder_on_call_weekends h
    · exact congrArg person_score_t.remainder_ward_weeks h
    · exact congrArg person_score_t.remainder_on_call_bank_holidays h
  · intro h0
    have h0' : ∀ k, k < 20 → k ≠ 8 → k ≠ 9 → k ≠ 10 → k ≠ 11 → points.values k = 0 := h0
    have hsz : SweepZero points := by
      intro i hi
      apply h0' i <;> omega
    have hhard : ∀ i, i < 6 → points.values i = 0 := by
      intro i hi
      apply h0' i <;> omega
    rw [hv, (score_rota_sweep_logged config points rota).value hsz, charge_zero points hhard,
      zero_add]
    rfl

/-- C14, witness: two persons, one week, person 0 in every slot and the difference
weights 1, 2, 3, 4: the totals of person 0 are 5 days, 1 weekend and 1 ward week, the
targets are 0, and the value is `1 * 25 + 3 * 1 + 4 * 1 = 32`. -/
theorem score_rota_remainders_witness :
    ((score_rota (example_config 2 1) difference_points rota_all_zero).people
        (0 : Nat)).remainder_on_call_days = 5 ∧
      (score_rota (example_config 2 1) difference_points rota_all_zero).value = 32 ∧
      ((score_rota (example_config 2 1) difference_points rota_all_zero).people
          (0 : Nat)).remainder_on_call_days
        = ((score_rota (example_config 2 1) difference_points rota_all_zero).people
            (0 : Nat)).total_on_call_days
          + ((example_config 2 1).people (0 : Nat)).on_call_day_bias
          - ((example_config 2 1).people (0 : Nat)).target_on_call_days :=
  ⟨by decide!, by decide!,
    ((score_rota_remainders (example_config 2 1) difference_points rota_all_zero).1 0
      (by decide)).1⟩

/-! ## C18: the scorer stays within its arrays -/

theorem all_ite_nil {α : Type} (c : Prop) [Decidable c] (l : List α) (p : α → Bool) :
    (if c then l else []).all p = (!(decide c) || l.all p) := by
  by_cases h : c <;> simp [h]

theorem people_at_ok (person : Int) (h0 : 0 ≤ person) (h1 : person < 32) :
    (people_at person).ok = true := by
  simp [access_t.ok, people_at, h0, h1]

theorem shift_by_ok (person : Int) (h0 : 0 ≤ person) (h1 : person < 32) :
    (shift_by person).ok = true := by
  simp [access_t.ok, shift_by, h0, h1]

theorem holiday_day_bits_at_ok (d : Nat) (h : d ≤ 224) : (holiday_day_bits_at d).ok = true := by
  simp only [access_t.ok, holiday_day_bits_at, decide_eq_true_eq]
  have : MAX_WEEK_COUNT = 32 := rfl
  omega

theorem day_array_at_ok (d : Nat) (h : d < 224) : (day_array_at d).ok = true := by
  simp only [access_t.ok, day_array_at, decide_eq_true_eq]
  have : MAX_WEEK_COUNT = 32 := rfl
  omega

theorem week_array_at_ok (w : Nat) (h : w < 32) : (week_array_at w).ok = true := by
  simp only [access_t.ok, week_array_at, decide_eq_true_eq]
  have : MAX_WEEK_COUNT = 32 := rfl
  omega

theorem bank_holiday_bits_at_ok (d : Nat) (h : d < 224) :
    (bank_holiday_bits_at d).ok = true := by
  simp only [access_t.ok, bank_holiday_bits_at, decide_eq_true_eq]
  have : MAX_WEEK_COUNT = 32 := rfl
  omega

theorem shifts_at_ok (s : Nat) (h : s < 7) : (shifts_at s).ok = true := by
  simp only [access_t.ok, shifts_at, decide_eq_true_eq]
  have : SHIFT_COUNT = 7 := rfl
  omega

theorem score_weekday_accesses_ok (config : config_t) (rota : rota_t) (w d : Nat)
    (hw : w < 32) (hd : d < 5)
    (hc0 : 0 ≤ (rota.weeks w).shifts d) (hc1 : (rota.weeks w).shifts d < 32)
    (hw0 : 0 ≤ (rota.weeks w).shifts SHIFT_WARD_WEEK)
    (hw1 : (rota.weeks w).shifts SHIFT_WARD_WEEK < 32) :
    (score_weekday_accesses config rota w d).all access_t.ok = true := by
  have a1 := people_at_ok _ hc0 hc1
  have a2 := people_at_ok _ hw0 hw1
  have a3 := shift_by_ok _ hc0 hc1
  have a4 := shift_by_ok _ hw0 hw1
  have a5 := holiday_day_bits_at_ok (w * 7 + d) (by omega)
  have a6 := holiday_day_bits_at_ok (w * 7 + d + 1) (by omega)
  have a7 := day_array_at_ok (w * 7 + d) (by omega)
  have a8 := week_array_at_ok w hw
  have a9 := week_array_at_ok (w - 1) (by omega)
  have a10 := week_array_at_ok (w - 2) (by omega)
  have a11 := bank_holiday_bits_at_ok (w * 7 + d) (by omega)
  have a12 := shifts_at_ok d (by omega)
  have a13 := shifts_at_ok SHIFT_WARD_WEEK (by decide)
  unfold score_weekday_accesses
  simp only [List.all_append, all_ite_nil, List.all_cons, List.all_nil, a1, a2, a3, a4, a5,
    a6, a7, a8, a9, a10, a11, a12, a13, Bool.and_self, Bool.or_true]

theorem score_weekend_day_accesses_ok (rota : rota_t) (w d : Nat)
    (hw : w < 32) (hd : d < 7)
    (hc0 : 0 ≤ (rota.weeks w).shifts SHIFT_ON_CALL_WEEKEND)
    (hc1 : (rota.weeks w).shifts SHIFT_ON_CALL_WEEKEND < 32) :
    (score_weekend_day_accesses rota w d).all access_t.ok = true := by
  have a1 := people_at_ok _ hc0 hc1
  have a3 := shift_by_ok _ hc0 hc1
  have a5 := holiday_day_bits_at_ok (w * 7 + d) (by omega)
  have a7 := day_array_at_ok (w * 7 + d) (by omega)
  have a12 := shifts_at_ok SHIFT_ON_CALL_WEEKEND (by decide)
  unfold score_weekend_day_accesses
  simp only [List.all_append, all_ite_nil, List.all_cons, List.all_nil, a1, a3, a5, a7, a12,
    Bool.and_self, Bool.or_true]

theorem all_flatMap_range {α : Type} (f : Nat → List α) (p : α → Bool) (n : Nat)
    (h : ∀ i, i < n → (f i).all p = true) : ((List.range n).flatMap f).all p = true := by
  induction n with
  | zero => rfl
  | succ k ih =>
    rw [List.range_succ, List.flatMap_append, List.all_append,
      ih (fun i hi => h i (Nat.lt_succ_of_lt hi))]
    simp [h k (Nat.lt_succ_self k)]

theorem score_rota_accesses_ok (config : config_t) (rota : rota_t)
    (h : structurally_valid config rota) :
    (score_rota_accesses config rota).all access_t.ok = true := by
  have hp : ∀ i : Nat, i < config.person_count → (people_at (i : Int)).ok = true := by
    intro i hi
    have := h.person_count_max
    have h32 : MAX_PERSON_COUNT = 32 := rfl
    exact people_at_ok _ (by omega) (by omega)
  have hslot : ∀ w s, w < config.week_count → s < 7 →
      0 ≤ (rota.weeks w).shifts s ∧ (rota.weeks w).shifts s < 32 := by
    intro w s hw hs
    have := h.schedule_valid w s hw hs
    have := h.person_count_max
    have h32 : MAX_PERSON_COUNT = 32 := rfl
    omega
  have hweek : ∀ w, w < config.week_count → w < 32 := by
    intro w hw
    have := h.week_count_max
    have h32 : MAX_WEEK_COUNT = 32 := rfl
    omega
  unfold score_rota_accesses
  simp only [List.all_append, Bool.and_eq_true]
  refine ⟨⟨⟨?_, ?_⟩, ?_⟩, ?_⟩
  · apply all_flatMap_range
    intro i hi
    simp [hp i hi]
  · apply all_flatMap_range
    intro w hw
    simp only [List.all_append, Bool.and_eq_true]
    refine ⟨⟨?_, ?_⟩, ?_⟩
    · simp [week_array_at_ok w (hweek w hw)]
    · apply all_flatMap_range
      intro d hd
      split
      · next hd5 =>
        exact score_weekday_accesses_ok config rota w d (hweek w hw) hd5
          (hslot w d hw hd).1 (hslot w d hw hd).2
          (hslot w 6 hw (by decide)).1 (hslot w 6 hw (by decide)).2
      · exact score_weekend_day_accesses_ok rota w d (hweek w hw) hd
          (hslot w 5 hw (by decide)).1 (hslot w 5 hw (by decide)).2
    · simp [shifts_at_ok SHIFT_ON_CALL_WEEKEND (by decide),
        shifts_at_ok SHIFT_WARD_WEEK (by decide)]
  · apply all_flatMap_range
    intro i hi
    simp [hp i hi]
  · apply all_flatMap_range
    intro i hi
    simp [hp i hi]

/-- C18: on structurally valid input (1 to 32 persons, at most 32 weeks, forced on-call
entries -1 or a person index, a schedule whose slots of the first `week_count` weeks
hold person indices) every array subscript and shift count of the sweep is within
bounds, including `holiday_day_bits[day + 1]` and the bank-holiday words, so the checked
scorer returns the score and never takes its error branch; and the `failure_data` list
of the result keeps its 16 entries. -/
theorem score_rota_never_fails (config : config_t) (points : points_t) (rota : rota_t)
    (h : structurally_valid config rota) :
    (∀ a, a ∈ score_rota_accesses config rota → 0 ≤ a.index ∧ a.index < (a.size : Int)) ∧
      score_rota_checked config points rota = some (score_rota config points rota) ∧
      (score_rota config points rota).failure_data.length = MAX_FAILURE_COUNT ∧
      (score_rota config points rota).failure_count ≤ MAX_FAILURE_COUNT := by
  have hall := score_rota_accesses_ok config rota h
  refine ⟨?_, ?_, (score_rota_logged config points rota).len, ?_⟩
  · intro a ha
    have := List.all_eq_true.mp hall a ha
    simpa [access_t.ok] using this
  · unfold score_rota_checked
    rw [if_pos hall]
  · rw [(score_rota_logged config points rota).count]
    exact Nat.min_le_left _ _

theorem structurally_valid_example : structurally_valid (example_config 1 1) rota_all_zero :=
  ⟨by decide, by decide, by decide, fun _ _ => Or.inl rfl,
    fun _ _ _ _ => ⟨le_refl 0, by simp [rota_all_zero, example_config]⟩⟩

/-- C18, witness: one person, one week, person 0 in every slot. -/
theorem score_rota_never_fails_witness :
    structurally_valid (example_config 1 1) rota_all_zero ∧
      score_rota_checked (example_config 1 1) hard_unit_points rota_all_zero
        = some (score_rota (example_config 1 1) hard_unit_points rota_all_zero) :=
  ⟨structurally_valid_example,
    (score_rota_never_fails (example_config 1 1) hard_unit_points rota_all_zero
      structurally_valid_example).2.1⟩

/-! ## C19: the pool totals after `read_config` -/

theorem same_pool_refl (a : config_t) : same_pool a a := ⟨rfl, rfl, rfl, rfl⟩

theorem same_pool_trans {a b c : config_t} (h1 : same_pool a b) (h2 : same_pool b c) :
    same_pool a c :=
  ⟨h2.week_count.trans h1.week_count, h2.on_call_days.trans h1.on_call_days,
    h2.on_call_weekends.trans h1.on_call_weekends, h2.ward_weeks.trans h1.ward_weeks⟩

theorem same_pool_foldl {α : Type} (f : config_t → α → config_t)
    (hf : ∀ c x, same_pool c (f c x)) (l : List α) (c : config_t) :
    same_pool c (l.foldl f c) := by
  induction l generalizing c with
  | nil => exact same_pool_refl c
  | cons x xs ih => exact same_pool_trans (hf c x) (ih (f c x))

theorem find_or_add_person_same_pool (config : config_t) (name : String)
    (found : config_t × Int) (h : find_or_add_person config name = some found) :
    same_pool config found.1 := by
  unfold find_or_add_person at h
  split at h
  · exact absurd h (by simp)
  · split at h
    · cases h; exact same_pool_refl _
    · cases h; exact ⟨rfl, rfl, rfl, rfl⟩

theorem read_cell_same_pool (libc : libc_t) (config : config_t) (person category : Int)
    (rota_day_index : Nat) (line : String) (config' : config_t)
    (h : read_cell libc config person category rota_day_index line = some config') :
    same_pool config config' := by
  unfold read_cell at h
  dsimp only at h
  by_cases h_CATEGORY_HOLIDAY : category = CATEGORY_HOLIDAY
  · rw [if_pos h_CATEGORY_HOLIDAY] at h
    cases h
    exact ⟨rfl, rfl, rfl, rfl⟩
  rw [if_neg h_CATEGORY_HOLIDAY] at h
  by_cases h_CATEGORY_CANNOT_ON_CALL_DAY : category = CATEGORY_CANNOT_ON_CALL_DAY
  · rw [if_pos h_CATEGORY_CANNOT_ON_CALL_DAY] at h
    cases h
    exact ⟨rfl, rfl, rfl, rfl⟩
  rw [if_neg h_CATEGORY_CANNOT_ON_CALL_DAY] at h
  by_cases h_CATEGORY_CANNOT_ON_CALL_DAY_ALWAYS : category = CATEGORY_CANNOT_ON_CALL_DAY_ALWAYS
  · rw [if_pos h_CATEGORY_CANNOT_ON_CALL_DAY_ALWAYS] at h
    cases h
    apply same_pool_foldl
    intro c x
    exact ⟨rfl, rfl, rfl, rfl⟩
  rw [if_neg h_CATEGORY_CANNOT_ON_CALL_DAY_ALWAYS] at h
  by_cases h_CATEGORY_DISLIKE_ON_CALL_DAY : category = CATEGORY_DISLIKE_ON_CALL_DAY
  · rw [if_pos h_CATEGORY_DISLIKE_ON_CALL_DAY] at h
    cases h
    exact ⟨rfl, rfl, rfl, rfl⟩
  rw [if_neg h_CATEGORY_DISLIKE_ON_CALL_DAY] at h
  by_cases h_CATEGORY_DISLIKE_ON_CALL_DAY_ALWAYS : category = CATEGORY_DISLIKE_ON_CALL_DAY_ALWAYS
  · rw [if_pos h_CATEGORY_DISLIKE_ON_CALL_DAY_ALWAYS] at h
    cases h
    apply same_pool_foldl
    intro c x
    exact ⟨rfl, rfl, rfl, rfl⟩
  rw [if_neg h_CATEGORY_DISLIKE_ON_CALL_DAY_ALWAYS] at h
  by_cases h_CATEGORY_CANNOT_WARD_WEEK : category = CATEGORY_CANNOT_WARD_WEEK
  · rw [if_pos h_CATEGORY_CANNOT_WARD_WEEK] at h
    split at h
    · cases h
      exact ⟨rfl, rfl, rfl, rfl⟩
    · cases h
      exact ⟨rfl, rfl, rfl, rfl⟩
  rw [if_neg h_CATEGORY_CANNOT_WARD_WEEK] at h
  by_cases h_CATEGORY_DISLIKE_WARD_WEEK : category = CATEGORY_DISLIKE_WARD_WEEK
  · rw [if_pos h_CATEGORY_DISLIKE_WARD_WEEK] at h
    split at h
    · cases h
      exact ⟨rfl, rfl, rfl, rfl⟩
    · cases h
      exact ⟨rfl, rfl, rfl, rfl⟩
  rw [if_neg h_CATEGORY_DISLIKE_WARD_WEEK] at h
  by_cases h_part : category = CATEGORY_PART_TIME
  · rw [if_pos h_part] at h
    split at h
    · exact absurd h (by simp)
    · split at h
      · exact absurd h (by simp)
      · cases h
        exact ⟨rfl, rfl, rfl, rfl⟩
  rw [if_neg h_part] at h
  by_cases h_CATEGORY_START_DATE : category = CATEGORY_START_DATE
  · rw [if_pos h_CATEGORY_START_DATE] at h
    split at h
    · exact absurd h (by simp)
    · cases h
      exact ⟨rfl, rfl, rfl, rfl⟩
  rw [if_neg h_CATEGORY_START_DATE] at h
  by_cases h_CATEGORY_END_DATE : category = CATEGORY_END_DATE
  · rw [if_pos h_CATEGORY_END_DATE] at h
    split at h
    · exact absurd h (by simp)
    · cases h
      exact ⟨rfl, rfl, rfl, rfl⟩
  rw [if_neg h_CATEGORY_END_DATE] at h
  by_cases h_CATEGORY_BANK_HOLIDAY : category = CATEGORY_BANK_HOLIDAY
  · rw [if_pos h_CATEGORY_BANK_HOLIDAY] at h
    cases h
    exact ⟨rfl, rfl, rfl, rfl⟩
  rw [if_neg h_CATEGORY_BANK_HOLIDAY] at h
  by_cases h_CATEGORY_BANK_HOLIDAY_BIAS : category = CATEGORY_BANK_HOLIDAY_BIAS
  · rw [if_pos h_CATEGORY_BANK_HOLIDAY_BIAS] at h
    cases h
    exact ⟨rfl, rfl, rfl, rfl⟩
  rw [if_neg h_CATEGORY_BANK_HOLIDAY_BIAS] at h
  by_cases h_CATEGORY_WARD_WEEK_BIAS : category = CATEGORY_WARD_WEEK_BIAS
  · rw [if_pos h_CATEGORY_WARD_WEEK_BIAS] at h
    cases h
    exact ⟨rfl, rfl, rfl, rfl⟩
  rw [if_neg h_CATEGORY_WARD_WEEK_BIAS] at h
  by_cases h_CATEGORY_ON_CALL_DAY_BIAS : category = CATEGORY_ON_CALL_DAY_BIAS
  · rw [if_pos h_CATEGORY_ON_CALL_DAY_BIAS] at h
    cases h
    exact ⟨rfl, rfl, rfl, rfl⟩
  rw [if_neg h_CATEGORY_ON_CALL_DAY_BIAS] at h
  by_cases h_CATEGORY_ON_CALL_WEEKEND_BIAS : category = CATEGORY_ON_CALL_WEEKEND_BIAS
  · rw [if_pos h_CATEGORY_ON_CALL_WEEKEND_BIAS] at h
    cases h
    exact ⟨rfl, rfl, rfl, rfl⟩
  rw [if_neg h_CATEGORY_ON_CALL_WEEKEND_BIAS] at h
  by_cases h_CATEGORY_NO_WARD_WEEKS : category = CATEGORY_NO_WARD_WEEKS
  · rw [if_pos h_CATEGORY_NO_WARD_WEEKS] at h
    cases h
    exact ⟨rfl, rfl, rfl, rfl⟩
  rw [if_neg h_CATEGORY_NO_WARD_WEEKS] at h
  by_cases h_CATEGORY_FORCE_ON_CALL_DAY : category = CATEGORY_FORCE_ON_CALL_DAY
  · rw [if_pos h_CATEGORY_FORCE_ON_CALL_DAY] at h
    split at h
    · exact absurd h (by simp)
    · cases h
      exact ⟨rfl, rfl, rfl, rfl⟩
  rw [if_neg h_CATEGORY_FORCE_ON_CALL_DAY] at h
  exact absurd h (by simp)

theorem read_row_from_same_pool (libc : libc_t) (day_count : Int) (row : List String)
    (col : Nat) (person category : Int) (config config' : config_t)
    (h : read_row_from libc day_count row col person category config = some config') :
    same_pool config config' := by
  induction row generalizing col person category config with
  | nil =>
    unfold read_row_from at h
    cases h
    exact same_pool_refl _
  | cons line next ih =>
    unfold read_row_from at h
    by_cases hcol : ¬ ((col : Int) < FIRST_DAY_COLUMN + day_count)
    · rw [if_pos hcol] at h
      cases h
      exact same_pool_refl _
    rw [if_neg hcol] at h
    by_cases h0 : col = 0
    · rw [if_pos h0] at h
      by_cases hline : line ≠ ""
      · rw [if_pos hline] at h
        cases hfound : find_or_add_person config line with
        | none => rw [hfound] at h; exact absurd h (by simp)
        | some found =>
          rw [hfound] at h
          exact same_pool_trans (find_or_add_person_same_pool config line found hfound)
            (ih _ _ _ _ h)
      · rw [if_neg hline] at h
        exact ih _ _ _ _ h
    rw [if_neg h0] at h
    by_cases h1 : col = 1
    · rw [if_pos h1] at h
      by_cases hline : line = ""
      · rw [if_pos hline] at h
        split at h
        · cases h
          exact same_pool_refl _
        · exact absurd h (by simp)
      · rw [if_neg hline] at h
        cases hmatch : match_category_by_tag line with
        | none => rw [hmatch] at h; exact absurd h (by simp)
        | some matched =>
          rw [hmatch] at h
          dsimp only at h
          split at h
          · cases h
            exact same_pool_refl _
          · exact ih _ _ _ _ h
    rw [if_neg h1] at h
    by_cases hline : line ≠ ""
    · rw [if_pos hline] at h
      cases hcell : read_cell libc config person category (col - FIRST_DAY_COLUMN) line with
      | none => rw [hcell] at h; exact absurd h (by simp)
      | some cell =>
        rw [hcell] at h
        exact same_pool_trans (read_cell_same_pool libc config person category _ line cell hcell)
          (ih _ _ _ _ h)
    · rw [if_neg hline] at h
      exact ih _ _ _ _ h

theorem read_rows_same_pool (libc : libc_t) (day_count : Int) (rows : List (List String))
    (config config' : config_t) (h : read_rows libc day_count rows config = some config') :
    same_pool config config' := by
  unfold read_rows at h
  induction rows generalizing config with
  | nil =>
    simp only [List.foldlM_nil] at h
    cases h
    exact same_pool_refl _
  | cons row rest ih =>
    rw [List.foldlM_cons] at h
    cases hrow : read_row_from libc day_count row 0 (-1) (-1) config with
    | none => rw [hrow] at h; exact absurd h (by simp)
    | some c1 =>
      rw [hrow] at h
      exact same_pool_trans (read_row_from_same_pool libc day_count row 0 _ _ config c1 hrow)
        (ih c1 h)

theorem foldl_rel {α : Type} (R : config_t → config_t → Prop) (hrefl : ∀ c, R c c)
    (htrans : ∀ a b c, R a b → R b c → R a c) (f : config_t → α → config_t)
    (hf : ∀ c x, R c (f c x)) (l : List α) (c : config_t) : R c (l.foldl f c) := by
  induction l generalizing c with
  | nil => exact hrefl c
  | cons x xs ih => exact htrans _ _ _ (hf c x) (ih (f c x))

theorem same_biases_refl (a : config_t) : same_biases a a :=
  ⟨rfl, rfl, fun _ => rfl, fun _ => rfl, fun _ => rfl, fun _ => rfl⟩

theorem same_biases_trans (a b c : config_t) (h1 : same_biases a b) (h2 : same_biases b c) :
    same_biases a c :=
  ⟨h2.week_count.trans h1.week_count, h2.person_count.trans h1.person_count,
    fun j => (h2.on_call_day j).trans (h1.on_call_day j),
    fun j => (h2.on_call_weekend j).trans (h1.on_call_weekend j),
    fun j => (h2.ward_week j).trans (h1.ward_week j),
    fun j => (h2.bank_holiday j).trans (h1.bank_holiday j)⟩

theorem same_totals_refl (a : config_t) : same_totals a a := ⟨rfl, rfl, rfl, rfl⟩

theorem same_totals_trans (a b c : config_t) (h1 : same_totals a b) (h2 : same_totals b c) :
    same_totals a c :=
  ⟨h2.on_call_days.trans h1.on_call_days, h2.on_call_weekends.trans h1.on_call_weekends,
    h2.ward_weeks.trans h1.ward_weeks, h2.bank_holidays.trans h1.bank_holidays⟩

theorem same_biases_update (a b : config_t) (i : Int) (person : person_config_t)
    (hw : b.week_count = a.week_count) (hp : b.person_count = a.person_count)
    (hpeople : b.people = Function.update a.people i person)
    (h1 : person.on_call_day_bias = (a.people i).on_call_day_bias)
    (h2 : person.on_call_weekend_bias = (a.people i).on_call_weekend_bias)
    (h3 : person.ward_week_bias = (a.people i).ward_week_bias)
    (h4 : person.bank_holiday_bias = (a.people i).bank_holiday_bias) :
    same_biases a b := by
  refine ⟨hw, hp, ?_, ?_, ?_, ?_⟩ <;> intro j <;> rw [hpeople] <;> by_cases hj : j = i
  · subst hj; simpa using h1
  · simp [Function.update_noteq hj]
  · subst hj; simpa using h2
  · simp [Function.update_noteq hj]
  · subst hj; simpa using h3
  · simp [Function.update_noteq hj]
  · subst hj; simpa using h4
  · simp [Function.update_noteq hj]

theorem set_holiday_day_same (config : config_t) (d : Nat) (person : Int) :
    same_biases config (set_holiday_day config d person) ∧
      same_totals config (set_holiday_day config d person) :=
  ⟨⟨rfl, rfl, fun _ => rfl, fun _ => rfl, fun _ => rfl, fun _ => rfl⟩, ⟨rfl, rfl, rfl, rfl⟩⟩

theorem read_config_person_days_same (config : config_t) (person_index : Nat) :
    same_biases config (read_config_person_days config person_index) ∧
      same_totals config (read_config_person_days config person_index) := by
  have hrefl : ∀ c : config_t, same_biases c c ∧ same_totals c c :=
    fun c => ⟨same_biases_refl c, same_totals_refl c⟩
  have htrans : ∀ a b c : config_t, same_biases a b ∧ same_totals a b →
      same_biases b c ∧ same_totals b c → same_biases a c ∧ same_totals a c :=
    fun a b c h1 h2 =>
      ⟨same_biases_trans a b c h1.1 h2.1, same_totals_trans a b c h1.2 h2.2⟩
  unfold read_config_person_days
  dsimp only
  apply htrans _ _ _ _ (foldl_rel _ hrefl htrans _ _ _ _)
  · apply htrans _ _ _ (foldl_rel _ hrefl htrans _ _ _ _) (foldl_rel _ hrefl htrans _ _ _ _)
    · intro c x
      exact set_holiday_day_same c _ _
    · intro c k
      split
      · exact ⟨same_biases_update c _ _ _ rfl rfl rfl rfl rfl rfl rfl, ⟨rfl, rfl, rfl, rfl⟩⟩
      · exact hrefl c
  · intro c k
    exact set_holiday_day_same c _ _

theorem read_config_person_spec (config : config_t) (person_index : Nat)
    (config' : config_t) (h : read_config_person config person_index = some config') :
    same_biases config config' ∧
      config'.total_on_call_days_and_bias
        = config.total_on_call_days_and_bias + (config.people person_index).on_call_day_bias ∧
      config'.total_on_call_weekends_and_bias
        = config.total_on_call_weekends_and_bias
          + (config.people person_index).on_call_weekend_bias ∧
      config'.total_ward_weeks_and_bias
        = config.total_ward_weeks_and_bias + (config.people person_index).ward_week_bias ∧
      config'.total_bank_holidays_and_bias
        = config.total_bank_holidays_and_bias
          + (config.people person_index).bank_holiday_bias := by
  obtain ⟨hb, ht⟩ := read_config_person_days_same config person_index
  unfold read_config_person at h
  dsimp only at h
  generalize read_config_person_days config person_index = c3 at h hb ht
  split at h
  · exact absurd h (by simp)
  · cases h
    refine ⟨?_, ?_, ?_, ?_, ?_⟩
    · exact same_biases_trans _ _ _ hb
        (same_biases_update c3 _ _ _ rfl rfl rfl rfl rfl rfl rfl)
    · show c3.total_on_call_days_and_bias + (c3.people person_index).on_call_day_bias = _
      rw [ht.on_call_days, hb.on_call_day]
    · show c3.total_on_call_weekends_and_bias + (c3.people person_index).on_call_weekend_bias
        = _
      rw [ht.on_call_weekends, hb.on_call_weekend]
    · show c3.total_ward_weeks_and_bias + (c3.people person_index).ward_week_bias = _
      rw [ht.ward_weeks, hb.ward_week]
    · show c3.total_bank_holidays_and_bias + (c3.people person_index).bank_holiday_bias = _
      rw [ht.bank_holidays, hb.bank_holiday]

theorem read_config_aggregate_spec (n : Nat) (config config' : config_t)
    (h : (List.range n).foldlM read_config_person config = some config') :
    same_biases config config' ∧
      config'.total_on_call_days_and_bias
        = config.total_on_call_days_and_bias
          + Finset.sum (Finset.range n) (fun i => (config.people i).on_call_day_bias) ∧
      config'.total_on_call_weekends_and_bias
        = config.total_on_call_weekends_and_bias
          + Finset.sum (Finset.range n) (fun i => (config.people i).on_call_weekend_bias) ∧
      config'.total_ward_weeks_and_bias
        = config.total_ward_weeks_and_bias
          + Finset.sum (Finset.range n) (fun i => (config.people i).ward_week_bias) ∧
      config'.total_bank_holidays_and_bias
        = config.total_bank_holidays_and_bias
          + Finset.sum (Finset.range n) (fun i => (config.people i).bank_holiday_bias) := by
  induction n generalizing config' with
  | zero =>
    simp only [List.range_zero, List.foldlM_nil] at h
    cases h
    exact ⟨same_biases_refl _, by simp, by simp, by simp, by simp⟩
  | succ k ih =>
    rw [List.range_succ, List.foldlM_append] at h
    cases hk : (List.range k).foldlM read_config_person config with
    | none => rw [hk] at h; exact absurd h (by simp)
    | some c1 =>
      rw [hk] at h
      have h' : read_config_person c1 k = some config' := by
        simpa using h
      obtain ⟨ib, i1, i2, i3, i4⟩ := ih c1 hk
      obtain ⟨pb, p1, p2, p3, p4⟩ := read_config_person_spec c1 k config' h'
      refine ⟨same_biases_trans _ _ _ ib pb, ?_, ?_, ?_, ?_⟩
      · rw [p1, i1, ib.on_call_day, Finset.sum_range_succ, add_assoc]
      · rw [p2, i2, ib.on_call_weekend, Finset.sum_range_succ, add_assoc]
      · rw [p3, i3, ib.ward_week, Finset.sum_range_succ, add_assoc]
      · rw [p4, i4, ib.bank_holiday, Finset.sum_range_succ, add_assoc]

theorem read_config_targets_same (config : config_t) :
    same_biases config (read_config_targets config) ∧
      same_totals config (read_config_targets config) := by
  have hrefl : ∀ c : config_t, same_biases c c ∧ same_totals c c :=
    fun c => ⟨same_biases_refl c, same_totals_refl c⟩
  have htrans : ∀ a b c : config_t, same_biases a b ∧ same_totals a b →
      same_biases b c ∧ same_totals b c → same_biases a c ∧ same_totals a c :=
    fun a b c h1 h2 =>
      ⟨same_biases_trans a b c h1.1 h2.1, same_totals_trans a b c h1.2 h2.2⟩
  unfold read_config_targets
  apply foldl_rel _ hrefl htrans
  intro c i
  unfold read_config_target
  exact ⟨same_biases_update c _ _ _ rfl rfl rfl rfl rfl rfl rfl, ⟨rfl, rfl, rfl, rfl⟩⟩

theorem read_config_header_spec (header_columns : Nat) (config : config_t)
    (h : read_config_header header_columns = some config) :
    config.person_count = 0 ∧
      config.total_on_call_days_and_bias = 5 * (config.week_count : ℚ) ∧
      config.total_on_call_weekends_and_bias = (config.week_count : ℚ) ∧
      config.total_ward_weeks_and_bias = (config.week_count : ℚ) ∧
      config.total_bank_holidays_and_bias = 0 := by
  unfold read_config_header at h
  dsimp only at h
  split at h
  · exact absurd h (by simp)
  · split at h
    · exact absurd h (by simp)
    · cases h
      have hnn : 0 ≤ Int.tdiv ((header_columns : Int) - (FIRST_DAY_COLUMN : Nat)) 7 := by
        by_cases h2 : 2 ≤ header_columns
        · apply Int.tdiv_nonneg
          · have : FIRST_DAY_COLUMN = 2 := rfl
            omega
          · decide
        · have h01 : header_columns = 0 ∨ header_columns = 1 := by omega
          rcases h01 with rfl | rfl <;> decide
      have hcast : (((Int.tdiv ((header_columns : Int) - (FIRST_DAY_COLUMN : Nat)) 7).toNat
          : Nat) : ℚ) = ((Int.tdiv ((header_columns : Int) - (FIRST_DAY_COLUMN : Nat)) 7 : Int)
            : ℚ) := by
        rw [← Int.cast_natCast, Int.toNat_of_nonneg hnn]
      refine ⟨rfl, ?_, ?_, ?_, rfl⟩
      · show (5 : ℚ) * _ = 5 * _
        rw [hcast]
      · show ((_ : Int) : ℚ) = _
        rw [hcast]
      · show ((_ : Int) : ℚ) = _
        rw [hcast]

theorem read_config_spec (libc : libc_t) (header_columns : Nat) (rows : List (List String))
    (config : config_t) (h : read_config libc header_columns rows = some config) :
    ∃ c0 c1 : config_t,
      read_config_header header_columns = some c0 ∧
      read_rows libc ((header_columns : Int) - FIRST_DAY_COLUMN) rows c0 = some c1 ∧
      same_biases c1 config ∧
      config.total_on_call_days_and_bias
        = c1.total_on_call_days_and_bias + bias_sum c1 person_config_t.on_call_day_bias ∧
      config.total_on_call_weekends_and_bias
        = c1.total_on_call_weekends_and_bias
          + bias_sum c1 person_config_t.on_call_weekend_bias ∧
      config.total_ward_weeks_and_bias
        = c1.total_ward_weeks_and_bias + bias_sum c1 person_config_t.ward_week_bias ∧
      config.total_bank_holidays_and_bias
        = c1.total_bank_holidays_and_bias + bias_sum c1 person_config_t.bank_holiday_bias := by
  unfold read_config at h
  cases h0 : read_config_header header_columns with
  | none => rw [h0] at h; exact absurd h (by simp)
  | some c0 =>
    rw [h0] at h
    dsimp only at h
    cases h1 : read_rows libc ((header_columns : Int) - FIRST_DAY_COLUMN) rows c0 with
    | none => rw [h1] at h; exact absurd h (by simp)
    | some c1 =>
      rw [h1] at h
      dsimp only at h
      cases h2 : read_config_aggregate c1 with
      | none => rw [h2] at h; exact absurd h (by simp)
      | some c2 =>
        rw [h2] at h
        dsimp only at h
        cases h
        obtain ⟨ab, a1, a2, a3, a4⟩ := read_config_aggregate_spec c1.person_count c1 c2 h2
        obtain ⟨tb, tt⟩ := read_config_targets_same c2
        refine ⟨c0, c1, rfl, h1, same_biases_trans _ _ _ ab tb, ?_, ?_, ?_, ?_⟩
        · rw [tt.on_call_days, a1]; rfl
        · rw [tt.on_call_weekends, a2]; rfl
        · rw [tt.ward_weeks, a3]; rfl
        · rw [tt.bank_holidays, a4]; rfl

theorem bias_sum_congr (a b : config_t) (hb : same_biases a b) :
    bias_sum b person_config_t.on_call_day_bias = bias_sum a person_config_t.on_call_day_bias ∧
      bias_sum b person_config_t.on_call_weekend_bias
        = bias_sum a person_config_t.on_call_weekend_bias ∧
      bias_sum b person_config_t.ward_week_bias = bias_sum a person_config_t.ward_week_bias ∧
      bias_sum b person_config_t.bank_holiday_bias
        = bias_sum a person_config_t.bank_holiday_bias := by
  unfold bias_sum
  rw [hb.person_count]
  refine ⟨?_, ?_, ?_, ?_⟩ <;> apply Finset.sum_congr rfl <;> intro i _
  · exact hb.on_call_day i
  · exact hb.on_call_weekend i
  · exact hb.ward_week i
  · exact hb.bank_holiday i

/-- C19: in every configuration that `read_config` returns, the pool totals for on-call
days, on-call weekends and ward weeks are the baseline plus the sum of the biases of the
persons: `5 * week_count`, `week_count` and `week_count` plus the respective sum (exact
arithmetic). -/
theorem read_config_pool_totals (libc : libc_t) (header_columns : Nat)
    (rows : List (List String)) (config : config_t)
    (h : read_config libc header_columns rows = some config) :
    config.total_on_call_days_and_bias
        = 5 * (config.week_count : ℚ) + bias_sum config person_config_t.on_call_day_bias ∧
      config.total_on_call_weekends_and_bias
        = (config.week_count : ℚ) + bias_sum config person_config_t.on_call_weekend_bias ∧
      config.total_ward_weeks_and_bias
        = (config.week_count : ℚ) + bias_sum config person_config_t.ward_week_bias := by
  obtain ⟨c0, c1, h0, h1, hb, t1, t2, t3, _⟩ := read_config_spec libc header_columns rows config h
  obtain ⟨_, e1, e2, e3, _⟩ := read_config_header_spec header_columns c0 h0
  have hp := read_rows_same_pool libc _ rows c0 c1 h1
  obtain ⟨s1, s2, s3, _⟩ := bias_sum_congr c1 config hb
  have hw : config.week_count = c0.week_count := hb.week_count.trans hp.week_count
  refine ⟨?_, ?_, ?_⟩
  · rw [t1, s1, hp.on_call_days, e1, hw]
  · rw [t2, s2, hp.on_call_weekends, e2, hw]
  · rw [t3, s3, hp.ward_weeks, e3, hw]

/-- C19, witness: the one-week file with the biases 2, 1 and 3 is accepted, and its
totals are 5 + 2, 1 + 1 and 1 + 3. -/
theorem read_config_pool_totals_witness :
    ((read_config example_libc 9 bias_rows).map fun c =>
        (c.total_on_call_days_and_bias, c.total_on_call_weekends_and_bias,
          c.total_ward_weeks_and_bias)) = some (7, 2, 4) ∧
      ((read_config example_libc 9 bias_rows).map fun c =>
        decide (c.total_on_call_days_and_bias
          = 5 * (c.week_count : ℚ) + bias_sum c person_config_t.on_call_day_bias))
        = some true := by
  refine ⟨by decide!, ?_⟩
  cases hrc : read_config example_libc 9 bias_rows with
  | none =>
    have hsome : (read_config example_libc 9 bias_rows).isSome = true := by decide!
    rw [hrc] at hsome
    exact absurd hsome (by simp)
  | some c =>
    simp only [Option.map_some', Option.some.injEq, decide_eq_true_eq]
    exact (read_config_pool_totals example_libc 9 bias_rows c hrc).1

/-! ## C20: the bank-holiday total -/

/-- C20 (the code at the failing input): with two bank-holiday lines that both mark
Monday, `read_config` accepts the file and returns `total_bank_holidays_and_bias = 2`,
although one day of the horizon is flagged as bank holiday and the sum of the
bank-holiday biases is 0. -/
theorem read_config_counts_bank_holiday_twice :
    ((read_config example_libc 9 bank_holiday_twice_rows).map fun c =>
        (c.total_bank_holidays_and_bias, bank_holiday_count c,
          bias_sum c person_config_t.bank_holiday_bias)) = some (2, 1, 0) := by
  decide!

/-! ## C29, C30: the buffers of the search loop -/

theorem search_accept_best_ge_current (i : Nat) (u accept_prob : ℚ) (s : search_t) :
    (search_accept i u accept_prob s).current.score.value
      ≤ (search_accept i u accept_prob s).best.score.value := by
  unfold search_accept
  dsimp only
  generalize (if s.candidate.score.value > s.current.score.value ∨ u < accept_prob then
    swap_state s.current s.candidate else (s.current, s.candidate)).1 = c
  by_cases h : i = 0 ∨ c.score.value > s.best.score.value
  · rw [if_pos h]
  · rw [if_neg h]
    push_neg at h
    exact h.2

theorem search_accept_consistent (config : config_t) (points : points_t) (i : Nat)
    (u accept_prob : ℚ) (s : search_t) (h : Consistent config points s)
    (hc : s.candidate.score = score_rota config points s.candidate.rota) :
    Consistent config points (search_accept i u accept_prob s) := by
  unfold search_accept
  dsimp only
  have hcur : ((if s.candidate.score.value > s.current.score.value ∨ u < accept_prob then
      swap_state s.current s.candidate else (s.current, s.candidate)).1).score
      = score_rota config points
        ((if s.candidate.score.value > s.current.score.value ∨ u < accept_prob then
          swap_state s.current s.candidate else (s.current, s.candidate)).1).rota := by
    by_cases hs : s.candidate.score.value > s.current.score.value ∨ u < accept_prob
    · rw [if_pos hs]; exact hc
    · rw [if_neg hs]; exact h.1
  generalize (if s.candidate.score.value > s.current.score.value ∨ u < accept_prob then
    swap_state s.current s.candidate else (s.current, s.candidate)).1 = c at hcur
  refine ⟨hcur, ?_⟩
  by_cases hb : i = 0 ∨ c.score.value > s.best.score.value
  · rw [if_pos hb]; exact hcur
  · rw [if_neg hb]; exact h.2

theorem search_iteration_consistent (config : config_t) (points : points_t)
    (accept_prob : ℚ) (i : Nat) (r_kind r_a r_b r_c r_d r_u : Nat) (s : search_t)
    (h : Consistent config points s) :
    Consistent config points
      (search_iteration config points accept_prob i r_kind r_a r_b r_c r_d r_u s) := by
  unfold search_iteration
  exact search_accept_consistent config points i _ accept_prob _ ⟨h.1, h.2⟩ rfl

theorem search_run_consistent (config : config_t) (points : points_t)
    (accept_prob : Nat → ℚ) (draws : Nat → draws_t) (rota : rota_t) (n : Nat) :
    Consistent config points (search_run config points accept_prob draws rota n) := by
  induction n with
  | zero => exact ⟨rfl, rfl⟩
  | succ k ih => exact search_iteration_consistent config points _ k _ _ _ _ _ _ _ ih

/-- C29: at loop entry and after every iteration `i >= 0` of the search loop, whatever
the random draws and acceptance probabilities, `best.value >= current.value`; the same
holds after one iteration started from any state of the three buffers. -/
theorem search_best_at_least_current (config : config_t) (points : points_t)
    (accept_prob : Nat → ℚ) (draws : Nat → draws_t) (rota : rota_t) (n : Nat) :
    (search_run config points accept_prob draws rota n).current.score.value
        ≤ (search_run config points accept_prob draws rota n).best.score.value ∧
      ∀ (p : ℚ) (i r_kind r_a r_b r_c r_d r_u : Nat) (s : search_t),
        (search_iteration config points p i r_kind r_a r_b r_c r_d r_u s).current.score.value
          ≤ (search_iteration config points p i r_kind r_a r_b r_c r_d r_u
              s).best.score.value := by
  have step : ∀ (p : ℚ) (i r_kind r_a r_b r_c r_d r_u : Nat) (s : search_t),
      (search_iteration config points p i r_kind r_a r_b r_c r_d r_u s).current.score.value
        ≤ (search_iteration config points p i r_kind r_a r_b r_c r_d r_u
            s).best.score.value := by
    intro p i r_kind r_a r_b r_c r_d r_u s
    unfold search_iteration
    exact search_accept_best_ge_current i _ p _
  refine ⟨?_, step⟩
  cases n with
  | zero => exact le_refl _
  | succ k => exact step _ _ _ _ _ _ _ _ _

/-- C30: at loop entry and after every iteration of the search loop, `current.score` is
`score_rota` of `current.rota` and `best.score` is `score_rota` of `best.rota`: the swap
of `current` and `candidate` and the copy into `best` move a schedule together with its
score. -/
theorem search_scores_belong_to_schedules (config : config_t) (points : points_t)
    (accept_prob : Nat → ℚ) (draws : Nat → draws_t) (rota : rota_t) (n : Nat) :
    (search_run config points accept_prob draws rota n).current.score
        = score_rota config points
          (search_run config points accept_prob draws rota n).current.rota ∧
      (search_run config points accept_prob draws rota n).best.score
        = score_rota config points
          (search_run config points accept_prob draws rota n).best.rota :=
  search_run_consistent config points accept_prob draws rota n

/-! ## C25: the failure list is in calendar order -/

theorem pairwise_flatMap_range {α : Type} (key : α → Int) (f : Nat → List α) (n : Nat)
    (hin : ∀ i, (f i).Pairwise fun a b => key a ≤ key b)
    (hb : ∀ i j, i < j → ∀ a ∈ f i, ∀ b ∈ f j, key a ≤ key b) :
    ((List.range n).flatMap f).Pairwise fun a b => key a ≤ key b := by
  induction n with
  | zero => simp
  | succ k ih =>
    rw [List.range_succ, List.flatMap_append, List.pairwise_append]
    refine ⟨ih, by simpa using hin k, ?_⟩
    intro a ha b hb'
    simp only [List.mem_flatMap, List.mem_range] at ha
    simp only [List.flatMap_cons, List.flatMap_nil, List.append_nil] at hb'
    obtain ⟨i, hi, hai⟩ := ha
    exact hb i k hi a hai b hb'

theorem week_violations_day (config : config_t) (rota : rota_t) (w : Nat)
    (e : failure_data_t) (he : e ∈ week_violations config rota w) :
    ∃ d, d < 7 ∧ e.rota_day_index = ((w * 7 + d : Nat) : Int) := by
  unfold week_violations at he
  simp only [List.mem_flatMap, List.mem_range] at he
  obtain ⟨d, hd, hmem⟩ := he
  exact ⟨d, hd, day_violations_day config rota w d e hmem⟩

theorem week_violations_sorted (config : config_t) (rota : rota_t) (w : Nat) :
    (week_violations config rota w).Pairwise fun a b => a.rota_day_index ≤ b.rota_day_index := by
  unfold week_violations
  apply pairwise_flatMap_range
  · intro d
    rw [List.pairwise_iff_forall_sublist]
    intro a b hab
    have ha := day_violations_day config rota w d a (hab.subset (by simp))
    have hb := day_violations_day config rota w d b (hab.subset (by simp))
    rw [ha, hb]
  · intro i j hij a ha b hb
    rw [day_violations_day config rota w i a ha, day_violations_day config rota w j b hb]
    push_cast
    omega

theorem hard_violations_sorted (config : config_t) (rota : rota_t) :
    (hard_violations config rota).Pairwise fun a b => a.rota_day_index ≤ b.rota_day_index := by
  unfold hard_violations
  apply pairwise_flatMap_range
  · exact week_violations_sorted config rota
  · intro i j hij a ha b hb
    obtain ⟨d, hd, hda⟩ := week_violations_day config rota i a ha
    obtain ⟨d', _, hdb⟩ := week_violations_day config rota j b hb
    rw [hda, hdb]
    push_cast
    omega

theorem hard_violations_day_range (config : config_t) (rota : rota_t) (e : failure_data_t)
    (he : e ∈ hard_violations config rota) :
    0 ≤ e.rota_day_index ∧ e.rota_day_index < 7 * (config.week_count : Int) := by
  unfold hard_violations at he
  simp only [List.mem_flatMap, List.mem_range] at he
  obtain ⟨w, hw, hmem⟩ := he
  obtain ⟨d, hd, hde⟩ := week_violations_day config rota w e hmem
  rw [hde]
  push_cast
  omega

/-- C25: for every configuration, weight table and schedule, the day indices of the
records `failure_data[0 .. failure_count-1]` returned by `score_rota` are non-decreasing
and each lies in `[0, 7*week_count)`. -/
theorem score_rota_failures_chronological (config : config_t) (points : points_t)
    (rota : rota_t) :
    (recorded_failures (score_rota config points rota)).Pairwise
        (fun a b => a.rota_day_index ≤ b.rota_day_index) ∧
      ∀ e ∈ recorded_failures (score_rota config points rota),
        0 ≤ e.rota_day_index ∧ e.rota_day_index < 7 * (config.week_count : Int) := by
  rw [recorded_failures_eq]
  refine ⟨(hard_violations_sorted config rota).sublist (List.take_sublist _ _), ?_⟩
  intro e he
  exact hard_violations_day_range config rota e (List.mem_of_mem_take he)

/-! ## C26: working on the day before a holiday -/

theorem filter_before_holiday_weekday (config : config_t) (rota : rota_t)
    (week_index day_index : Nat) (yesterday : Int) :
    (weekday_violations config rota week_index day_index yesterday).filter
        (fun e => decide (e.failure = FAILURE_WORK_JUST_BEFORE_HOLIDAY))
      = if is_holiday_day config (week_index * 7 + day_index + 1)
            ((rota.weeks week_index).shifts day_index) = true then
          [⟨FAILURE_WORK_JUST_BEFORE_HOLIDAY, (rota.weeks week_index).shifts day_index,
            ((week_index * 7 + day_index : Nat) : Int)⟩]
        else [] := by
  unfold weekday_violations
  simp [List.filter_append, filter_ite_singleton]

theorem filter_before_holiday_weekend (config : config_t) (rota : rota_t)
    (week_index day_index : Nat) (yesterday : Int) :
    (weekend_violations config rota week_index day_index yesterday).filter
        (fun e => decide (e.failure = FAILURE_WORK_JUST_BEFORE_HOLIDAY)) = [] := by
  unfold weekend_violations
  simp [List.filter_append, filter_ite_singleton]

theorem filter_before_holiday_week (config : config_t) (rota : rota_t) (week_index : Nat) :
    (week_violations config rota week_index).filter
        (fun e => decide (e.failure = FAILURE_WORK_JUST_BEFORE_HOLIDAY))
      = (List.range 5).flatMap fun day_index =>
          if is_holiday_day config (week_index * 7 + day_index + 1)
              ((rota.weeks week_index).shifts day_index) = true then
            [⟨FAILURE_WORK_JUST_BEFORE_HOLIDAY, (rota.weeks week_index).shifts day_index,
              ((week_index * 7 + day_index : Nat) : Int)⟩]
          else [] := by
  unfold week_violations
  rw [filter_flatMap_range]
  have h7 : List.range 7 = [0, 1, 2, 3, 4, 5, 6] := by decide
  have h5 : List.range 5 = [0, 1, 2, 3, 4] := by decide
  rw [h7, h5]
  simp [day_violations, filter_before_holiday_weekday, filter_before_holiday_weekend]

theorem filter_before_holiday_hard_violations (config : config_t) (rota : rota_t) :
    (hard_violations config rota).filter
        (fun e => decide (e.failure = FAILURE_WORK_JUST_BEFORE_HOLIDAY))
      = before_holiday_records config rota := by
  unfold hard_violations before_holiday_records
  rw [filter_flatMap_range]
  simp only [filter_before_holiday_week]

theorem charge_split (points : points_t) (p : failure_data_t → Bool)
    (events : List failure_data_t) :
    charge points events
      = charge points (events.filter fun e => !p e) + charge points (events.filter p) := by
  unfold charge
  induction events with
  | nil => simp
  | cons e es ih =>
    rw [List.map_cons, List.sum_cons, ih, List.filter_cons, List.filter_cons]
    by_cases he : p e = true
    · simp [he]
      ring
    · simp [he]
      ring

theorem charge_before_holiday (points : points_t) (events : List failure_data_t) :
    charge points
        (events.filter fun e => decide (e.failure = FAILURE_WORK_JUST_BEFORE_HOLIDAY))
      = points.values POINTS_WORK_ON_HOLIDAY
        * ((events.filter
            fun e => decide (e.failure = FAILURE_WORK_JUST_BEFORE_HOLIDAY)).length : ℚ) := by
  unfold charge
  induction events with
  | nil => simp
  | cons e es ih =>
    rw [List.filter_cons]
    by_cases he : e.failure = FAILURE_WORK_JUST_BEFORE_HOLIDAY
    · simp only [he, decide_True, if_true, List.map_cons, List.sum_cons, List.length_cons]
      rw [ih]
      have : failure_points FAILURE_WORK_JUST_BEFORE_HOLIDAY = POINTS_WORK_ON_HOLIDAY := by
        decide
      rw [this]
      push_cast
      ring
    · simp only [he, decide_False]
      exact ih

theorem mem_before_holiday_records (config : config_t) (rota : rota_t) (e : failure_data_t) :
    e ∈ before_holiday_records config rota ↔
      ∃ week_index day_index, week_index < config.week_count ∧ day_index < 5 ∧
        is_holiday_day config (week_index * 7 + day_index + 1)
          ((rota.weeks week_index).shifts day_index) = true ∧
        e = ⟨FAILURE_WORK_JUST_BEFORE_HOLIDAY, (rota.weeks week_index).shifts day_index,
              ((week_index * 7 + day_index : Nat) : Int)⟩ := by
  unfold before_holiday_records
  simp only [List.mem_flatMap, List.mem_range]
  constructor
  · rintro ⟨w, hw, d, hd, hmem⟩
    split at hmem
    · next hc => exact ⟨w, d, hw, hd, hc, by simpa using hmem⟩
    · simp at hmem
  · rintro ⟨w, d, hw, hd, hc, he⟩
    exact ⟨w, hw, d, hd, by rw [if_pos hc, he]; simp⟩

/-- C26: `score_rota` applies the day-before-holiday check to the weekday on-call slots
only. The records of kind FAILURE_WORK_JUST_BEFORE_HOLIDAY among all hard violations are
exactly `before_holiday_records`: one record (p, d) for each weekday on-call slot of day
`d` whose person `p` has the holiday bit on day `d + 1`, and none for a ward person or
the weekend slot. Each of them adds `points[work_on_holiday]` to the value (here with the
soft weights zero: the value is the charge of the other hard violations plus that weight
times the number of such slots), and the recorded ones are a prefix of them, all of them
when the cap of 16 is not exceeded. -/
theorem score_rota_before_holiday (config : config_t) (rota : rota_t) :
    (∀ e : failure_data_t, e ∈ before_holiday_records config rota ↔
        ∃ week_index day_index, week_index < config.week_count ∧ day_index < 5 ∧
          is_holiday_day config (week_index * 7 + day_index + 1)
            ((rota.weeks week_index).shifts day_index) = true ∧
          e = ⟨FAILURE_WORK_JUST_BEFORE_HOLIDAY, (rota.weeks week_index).shifts day_index,
                ((week_index * 7 + day_index : Nat) : Int)⟩) ∧
      (∀ points : points_t, SoftZero points →
        (score_rota config points rota).value
          = charge points ((hard_violations config rota).filter
              fun e => !decide (e.failure = FAILURE_WORK_JUST_BEFORE_HOLIDAY))
            + points.values POINTS_WORK_ON_HOLIDAY
              * ((before_holiday_records config rota).length : ℚ)) ∧
      (∀ points : points_t,
        (recorded_failures (score_rota config points rota)).filter
            (fun e => decide (e.failure = FAILURE_WORK_JUST_BEFORE_HOLIDAY))
          <+: before_holiday_records config rota) ∧
      (∀ points : points_t, (hard_violations config rota).length ≤ MAX_FAILURE_COUNT →
        (recorded_failures (score_rota config points rota)).filter
            (fun e => decide (e.failure = FAILURE_WORK_JUST_BEFORE_HOLIDAY))
          = before_holiday_records config rota) := by
  refine ⟨mem_before_holiday_records config rota, ?_, ?_, ?_⟩
  · intro points hz
    rw [(score_rota_logged config points rota).value hz,
      charge_split points (fun e => decide (e.failure = FAILURE_WORK_JUST_BEFORE_HOLIDAY)),
      charge_before_holiday, filter_before_holiday_hard_violations]
  · intro points
    rw [recorded_failures_eq, ← filter_before_holiday_hard_violations config rota]
    exact List.IsPrefix.filter _ (List.take_prefix _ _)
  · intro points hle
    rw [recorded_failures_eq, List.take_of_length_le hle,
      filter_before_holiday_hard_violations]

theorem soft_zero_hard_unit_points : SoftZero hard_unit_points := by
  intro i hi
  show (if i < 6 then (1 : ℚ) else 0) = 0
  rw [if_neg (by omega)]

/-- C26, witness: person 1 is on call every day of the week and on holiday on Tuesday;
the Monday slot yields the record (FAILURE_WORK_JUST_BEFORE_HOLIDAY, 1, 0), and with the
hard weights 1 the value is 7: that record, Tuesday on call on the holiday itself, and five
times on call on the day after being on call. -/
theorem score_rota_before_holiday_witness :
    SoftZero hard_unit_points ∧
      before_holiday_records holiday_tuesday_config rota_no_overlap
        = [⟨FAILURE_WORK_JUST_BEFORE_HOLIDAY, 1, 0⟩] ∧
      (score_rota holiday_tuesday_config hard_unit_points rota_no_overlap).value
        = charge hard_unit_points ((hard_violations holiday_tuesday_config rota_no_overlap).filter
            fun e => !decide (e.failure = FAILURE_WORK_JUST_BEFORE_HOLIDAY))
          + hard_unit_points.values POINTS_WORK_ON_HOLIDAY
            * ((before_holiday_records holiday_tuesday_config rota_no_overlap).length : ℚ) ∧
      (score_rota holiday_tuesday_config hard_unit_points rota_no_overlap).value = 7 :=
  ⟨soft_zero_hard_unit_points, by decide,
    (score_rota_before_holiday holiday_tuesday_config rota_no_overlap).2.1 hard_unit_points
      soft_zero_hard_unit_points, by decide!⟩

/-! ## C22: two start dates or two end dates for a person -/

/-- C22 (code at the failing inputs): `read_config` accepts a file in which alice has a
start date cell on day 0 and a second one on day 1 (the result has `first_day = 1`), and
a file in which she has an end date line for the last day and a second one for day 5
(the result has `last_day = 5`): the test for an earlier cell compares the field with its
default value, which a first cell on day 0 (on the last day) leaves in place. When the
first cell is on another day the second cell is fatal. -/
theorem read_config_accepts_second_start_date :
    (read_config example_libc 9 start_date_twice_rows).map
        (fun c => (c.people 0).first_day) = some 1 ∧
      (read_config example_libc 9 end_date_twice_rows).map
        (fun c => (c.people 0).last_day) = some 5 ∧
      (read_config example_libc 9 start_date_twice_later_rows).isNone = true ∧
      (read_config example_libc 9 end_date_twice_earlier_rows).isNone = true := by
  decide!

/-! ## C24: the weight table read from the points file -/

theorem find_points_name_none (name : String) :
    ((List.range POINTS_COUNT).find? fun i => g_points_names.getD i "" = name) = none
      ↔ name ∉ g_points_names := by
  rw [List.find?_eq_none]
  constructor
  · intro h hmem
    obtain ⟨i, hi, hget⟩ := List.getElem_of_mem hmem
    have hlen : g_points_names.length = POINTS_COUNT := rfl
    have := h i (List.mem_range.mpr (by omega))
    apply this
    rw [decide_eq_true_eq, List.getD_eq_getElem _ _ hi]
    exact hget
  · intro h i hi
    have hi' : i < g_points_names.length := List.mem_range.mp hi
    simp only [decide_eq_true_eq]
    intro heq
    apply h
    rw [← heq, List.getD_eq_getElem _ _ hi']
    exact List.getElem_mem _

theorem find_points_name_some (name : String) (k : Nat)
    (h : ((List.range POINTS_COUNT).find? fun i => g_points_names.getD i "" = name) = some k) :
    k < POINTS_COUNT ∧ ∀ i, i < POINTS_COUNT → (name = g_points_names.getD i "" ↔ i = k) := by
  have hk := List.mem_range.mp (List.mem_of_find?_eq_some h)
  have hname : g_points_names.getD k "" = name := by
    simpa using List.find?_some h
  refine ⟨hk, ?_⟩
  intro i hi
  have hnodup : g_points_names.Nodup := by decide
  have hlen : g_points_names.length = POINTS_COUNT := rfl
  constructor
  · intro heq
    rw [← hname, List.getD_eq_getElem _ _ (by omega), List.getD_eq_getElem _ _ (by omega)] at heq
    exact ((List.Nodup.getElem_inj_iff hnodup).mp heq).symm
  · intro hik
    rw [hik, hname]

theorem read_points_fold (libc : libc_t) (lines : List (Option (String × String)))
    (p : points_t) :
    (lines.foldlM (read_points_line libc) p = none ↔
        ∃ name value, some (name, value) ∈ lines ∧ name ∉ g_points_names) ∧
      ∀ q : points_t, lines.foldlM (read_points_line libc) p = some q →
        ∀ i, q.values i
          = if i < POINTS_COUNT then
              match last_value lines (g_points_names.getD i "") with
              | some value => libc.atof value
              | none => p.values i
            else p.values i := by
  induction lines generalizing p with
  | nil =>
    refine ⟨by simp, ?_⟩
    intro q hq i
    simp only [List.foldlM_nil] at hq
    cases hq
    simp [last_value]
  | cons line rest ih =>
    rw [List.foldlM_cons]
    cases line with
    | none =>
      have hstep : read_points_line libc p none = some p := rfl
      rw [hstep]
      simp only [Option.some_bind, Option.bind_eq_bind]
      obtain ⟨ih1, ih2⟩ := ih p
      refine ⟨?_, ?_⟩
      · rw [ih1]
        simp
      · intro q hq i
        rw [ih2 q hq i]
        simp only [last_value]
        cases last_value rest (g_points_names.getD i "") <;> rfl
    | some nv =>
      obtain ⟨name, value⟩ := nv
      cases hfind : (List.range POINTS_COUNT).find?
          fun i => g_points_names.getD i "" = name with
      | none =>
        have hstep : read_points_line libc p (some (name, value)) = none := by
          unfold read_points_line
          simp only [hfind]
        rw [hstep]
        refine ⟨?_, ?_⟩
        · simp only [Option.none_bind, Option.bind_eq_bind, true_iff]
          exact ⟨name, value, by simp, (find_points_name_none name).mp hfind⟩
        · intro q hq
          simp at hq
      | some k =>
        have hstep : read_points_line libc p (some (name, value))
            = some ⟨Function.update p.values k (libc.atof value)⟩ := by
          unfold read_points_line
          simp only [hfind]
        rw [hstep]
        simp only [Option.some_bind, Option.bind_eq_bind]
        obtain ⟨hk, hinj⟩ := find_points_name_some name k hfind
        have hknown : name ∈ g_points_names := by
          by_contra hne
          rw [(find_points_name_none name).mpr hne] at hfind
          cases hfind
        obtain ⟨ih1, ih2⟩ := ih ⟨Function.update p.values k (libc.atof value)⟩
        refine ⟨?_, ?_⟩
        · rw [ih1]
          constructor
          · rintro ⟨n, v, hmem, hn⟩
            exact ⟨n, v, List.mem_cons_of_mem _ hmem, hn⟩
          · rintro ⟨n, v, hmem, hn⟩
            rcases List.mem_cons.mp hmem with heq | hmem
            · cases heq
              exact absurd hknown hn
            · exact ⟨n, v, hmem, hn⟩
        · intro q hq i
          rw [ih2 q hq i]
          by_cases hi : i < POINTS_COUNT
          · rw [if_pos hi, if_pos hi]
            simp only [last_value]
            cases last_value rest (g_points_names.getD i "") with
            | some v => rfl
            | none =>
              by_cases hik : i = k
              · have hn : name = g_points_names.getD i "" := (hinj i hi).mpr hik
                simp only [hn, if_true]
                rw [hik]
                simp
              · have hn : ¬ name = g_points_names.getD i "" := fun h => hik ((hinj i hi).mp h)
                simp only [hn, if_false]
                simp [Function.update_noteq hik]
          · rw [if_neg hi, if_neg hi]
            have hik : i ≠ k := by omega
            simp [Function.update_noteq hik]

/-- C24: `read_points` on the list of the lines of the file (an empty line, or a name and
a value text) fails if and only if some non-empty line carries a name that is not one of
the 20 entries of `g_points_names`; when it returns a table, the weight of index `i < 20`
is `atof` of the value of the last line that carries the name `g_points_names[i]`, and 0
when no line carries that name, and the table holds nothing else (every entry from index
20 on is 0). -/
theorem read_points_table (libc : libc_t) (lines : List (Option (String × String))) :
    (read_points libc lines = none ↔
        ∃ name value, some (name, value) ∈ lines ∧ name ∉ g_points_names) ∧
      ∀ points : points_t, read_points libc lines = some points →
        (∀ i, i < POINTS_COUNT →
          points.values i
            = match last_value lines (g_points_names.getD i "") with
              | some value => libc.atof value
              | none => 0) ∧
        ∀ i, POINTS_COUNT ≤ i → points.values i = 0 := by
  obtain ⟨h1, h2⟩ := read_points_fold libc lines ⟨fun _ => 0⟩
  refine ⟨h1, ?_⟩
  intro points hp
  refine ⟨?_, ?_⟩
  · intro i hi
    rw [h2 points hp i, if_pos hi]
  · intro i hi
    rw [h2 points hp i, if_neg (by omega)]

/-- C24, witness: a file with an empty line, `day_off` given as 3 and later as 5, and
`shift_overlap` given as 7: the table has `shift_overlap = 7`, `day_off = 5` and
`work_on_holiday = 0`; with a line of unknown name the load fails. -/
theorem read_points_table_witness :
    (read_points example_libc example_points_lines).map
        (fun points => (points.values POINTS_SHIFT_OVERLAP, points.values POINTS_DAY_OFF,
          points.values POINTS_WORK_ON_HOLIDAY)) = some (7, 5, 0) ∧
      (read_points example_libc (example_points_lines ++ [some ("day_of", "1")])).isNone
        = true ∧
      ((read_points example_libc (example_points_lines ++ [some ("day_of", "1")]) = none ↔
        ∃ name value, some (name, value) ∈ example_points_lines ++ [some ("day_of", "1")] ∧
          name ∉ g_points_names)) :=
  ⟨by decide!, by decide!,
    (read_points_table example_libc (example_points_lines ++ [some ("day_of", "1")])).1⟩

/-! ## What the lines of the file keep -/

theorem read_row_from_rel (libc : libc_t) (day_count : Int) (R : config_t → config_t → Prop)
    (hrefl : ∀ c, R c c) (htrans : ∀ a b c, R a b → R b c → R a c)
    (hfind : ∀ (c : config_t) (name : String) (found : config_t × Int),
      find_or_add_person c name = some found → R c found.1)
    (hcell : ∀ (c : config_t) (person category : Int) (d : Nat) (line : String)
      (c' : config_t), read_cell libc c person category d line = some c' → R c c')
    (row : List String) (col : Nat) (person category : Int) (config config' : config_t)
    (h : read_row_from libc day_count row col person category config = some config') :
    R config config' := by
  induction row generalizing col person category config with
  | nil =>
    unfold read_row_from at h
    cases h
    exact hrefl _
  | cons line next ih =>
    unfold read_row_from at h
    by_cases hcol : ¬ ((col : Int) < FIRST_DAY_COLUMN + day_count)
    · rw [if_pos hcol] at h
      cases h
      exact hrefl _
    rw [if_neg hcol] at h
    by_cases h0 : col = 0
    · rw [if_pos h0] at h
      by_cases hline : line ≠ ""
      · rw [if_pos hline] at h
        cases hfound : find_or_add_person config line with
        | none => rw [hfound] at h; exact absurd h (by simp)
        | some found =>
          rw [hfound] at h
          exact htrans _ _ _ (hfind config line found hfound) (ih _ _ _ _ h)
      · rw [if_neg hline] at h
        exact ih _ _ _ _ h
    rw [if_neg h0] at h
    by_cases h1 : col = 1
    · rw [if_pos h1] at h
      by_cases hline : line = ""
      · rw [if_pos hline] at h
        split at h
        · cases h
          exact hrefl _
        · exact absurd h (by simp)
      · rw [if_neg hline] at h
        cases hmatch : match_category_by_tag line with
        | none => rw [hmatch] at h; exact absurd h (by simp)
        | some matched =>
          rw [hmatch] at h
          dsimp only at h
          split at h
          · cases h
            exact hrefl _
          · exact ih _ _ _ _ h
    rw [if_neg h1] at h
    by_cases hline : line ≠ ""
    · rw [if_pos hline] at h
      cases hcell' : read_cell libc config person category (col - FIRST_DAY_COLUMN) line with
      | none => rw [hcell'] at h; exact absurd h (by simp)
      | some cell =>
        rw [hcell'] at h
        exact htrans _ _ _ (hcell config person category _ line cell hcell') (ih _ _ _ _ h)
    · rw [if_neg hline] at h
      exact ih _ _ _ _ h

theorem read_rows_rel (libc : libc_t) (day_count : Int) (R : config_t → config_t → Prop)
    (hrefl : ∀ c, R c c) (htrans : ∀ a b c, R a b → R b c → R a c)
    (hfind : ∀ (c : config_t) (name : String) (found : config_t × Int),
      find_or_add_person c name = some found → R c found.1)
    (hcell : ∀ (c : config_t) (person category : Int) (d : Nat) (line : String)
      (c' : config_t), read_cell libc c person category d line = some c' → R c c')
    (rows : List (List String)) (config config' : config_t)
    (h : read_rows libc day_count rows config = some config') : R config config' := by
  unfold read_rows at h
  induction rows generalizing config with
  | nil =>
    simp only [List.foldlM_nil] at h
    cases h
    exact hrefl _
  | cons row rest ih =>
    rw [List.foldlM_cons] at h
    cases hrow : read_row_from libc day_count row 0 (-1) (-1) config with
    | none => rw [hrow] at h; exact absurd h (by simp)
    | some c1 =>
      rw [hrow] at h
      exact htrans _ _ _
        (read_row_from_rel libc day_count R hrefl htrans hfind hcell row 0 _ _ config c1 hrow)
        (ih c1 h)

theorem rows_frame_refl (a : config_t) : rows_frame a a := ⟨rfl, rfl, rfl, fun h => h⟩

theorem rows_frame_trans (a b c : config_t) (h1 : rows_frame a b) (h2 : rows_frame b c) :
    rows_frame a c :=
  ⟨h2.week_count.trans h1.week_count, h2.on_call.trans h1.on_call, h2.ward.trans h1.ward,
    fun h => h2.ok (h1.ok h)⟩

theorem rows_ok_update (config : config_t) (person : Int) (x : person_config_t)
    (hok : rows_ok config)
    (hx : x.total_non_holiday_days = 0 ∧ 0 ≤ x.first_day ∧ -1 ≤ x.last_day) :
    ∀ j : Int, ((Function.update config.people person x) j).total_non_holiday_days = 0 ∧
      0 ≤ ((Function.update config.people person x) j).first_day ∧
      -1 ≤ ((Function.update config.people person x) j).last_day := by
  intro j
  by_cases hj : j = person
  · rw [hj, Function.update_same]
    exact hx
  · rw [Function.update_noteq hj]
    exact hok j

theorem find_or_add_person_rows_frame (config : config_t) (name : String)
    (found : config_t × Int) (h : find_or_add_person config name = some found) :
    rows_frame config found.1 := by
  unfold find_or_add_person at h
  split at h
  · exact absurd h (by simp)
  · split at h
    · cases h; exact rows_frame_refl _
    · cases h
      refine ⟨rfl, rfl, rfl, fun hok => ?_⟩
      exact rows_ok_update config _ _ hok ⟨(hok _).1, le_refl 0, by
        show (-1 : Int) ≤ (config.week_count : Int) * 7 - 1
        omega⟩

theorem read_cell_rows_frame (libc : libc_t) (config : config_t) (person category : Int)
    (rota_day_index : Nat) (line : String) (config' : config_t)
    (h : read_cell libc config person category rota_day_index line = some config') :
    rows_frame config config' := by
  have keep : ∀ x : person_config_t,
      x.total_non_holiday_days = (config.people person).total_non_holiday_days →
      (0 ≤ (config.people person).first_day → 0 ≤ x.first_day) →
      (-1 ≤ (config.people person).last_day → -1 ≤ x.last_day) →
      rows_frame config { config with people := Function.update config.people person x } := by
    intro x h1 h2 h3
    refine ⟨rfl, rfl, rfl, fun hok => ?_⟩
    exact rows_ok_update config person x hok
      ⟨h1.trans (hok person).1, h2 (hok person).2.1, h3 (hok person).2.2⟩
  have hfold : ∀ (f : config_t → Nat → config_t), (∀ c x, rows_frame c (f c x)) →
      ∀ (l : List Nat) (c : config_t), rows_frame c (l.foldl f c) :=
    fun f hf l c => foldl_rel rows_frame rows_frame_refl rows_frame_trans f hf l c
  unfold read_cell at h
  dsimp only at h
  by_cases h_holiday : category = CATEGORY_HOLIDAY
  · rw [if_pos h_holiday] at h
    cases h
    exact ⟨rfl, rfl, rfl, fun hok => hok⟩
  rw [if_neg h_holiday] at h
  by_cases h_cannot_day : category = CATEGORY_CANNOT_ON_CALL_DAY
  · rw [if_pos h_cannot_day] at h
    cases h
    exact ⟨rfl, rfl, rfl, fun hok => hok⟩
  rw [if_neg h_cannot_day] at h
  by_cases h_cannot_always : category = CATEGORY_CANNOT_ON_CALL_DAY_ALWAYS
  · rw [if_pos h_cannot_always] at h
    cases h
    apply hfold
    intro c x
    exact ⟨rfl, rfl, rfl, fun hok => hok⟩
  rw [if_neg h_cannot_always] at h
  by_cases h_dislike_day : category = CATEGORY_DISLIKE_ON_CALL_DAY
  · rw [if_pos h_dislike_day] at h
    cases h
    exact ⟨rfl, rfl, rfl, fun hok => hok⟩
  rw [if_neg h_dislike_day] at h
  by_cases h_dislike_always : category = CATEGORY_DISLIKE_ON_CALL_DAY_ALWAYS
  · rw [if_pos h_dislike_always] at h
    cases h
    apply hfold
    intro c x
    exact ⟨rfl, rfl, rfl, fun hok => hok⟩
  rw [if_neg h_dislike_always] at h
  by_cases h_cannot_ward : category = CATEGORY_CANNOT_WARD_WEEK
  · rw [if_pos h_cannot_ward] at h
    split at h
    · cases h
      exact ⟨rfl, rfl, rfl, fun hok => hok⟩
    · cases h
      exact rows_frame_refl _
  rw [if_neg h_cannot_ward] at h
  by_cases h_dislike_ward : category = CATEGORY_DISLIKE_WARD_WEEK
  · rw [if_pos h_dislike_ward] at h
    split at h
    · cases h
      exact ⟨rfl, rfl, rfl, fun hok => hok⟩
    · cases h
      exact rows_frame_refl _
  rw [if_neg h_dislike_ward] at h
  by_cases h_part : category = CATEGORY_PART_TIME
  · rw [if_pos h_part] at h
    split at h
    · exact absurd h (by simp)
    · split at h
      · exact absurd h (by simp)
      · cases h
        exact keep _ rfl (fun h => h) (fun h => h)
  rw [if_neg h_part] at h
  by_cases h_start : category = CATEGORY_START_DATE
  · rw [if_pos h_start] at h
    split at h
    · exact absurd h (by simp)
    · cases h
      exact keep _ rfl (fun _ => Int.natCast_nonneg _) (fun h => h)
  rw [if_neg h_start] at h
  by_cases h_end : category = CATEGORY_END_DATE
  · rw [if_pos h_end] at h
    split at h
    · exact absurd h (by simp)
    · cases h
      exact keep _ rfl (fun h => h)
        (fun _ => le_trans (by decide) (Int.natCast_nonneg rota_day_index))
  rw [if_neg h_end] at h
  by_cases h_bank : category = CATEGORY_BANK_HOLIDAY
  · rw [if_pos h_bank] at h
    cases h
    exact ⟨rfl, rfl, rfl, fun hok => hok⟩
  rw [if_neg h_bank] at h
  by_cases h_bank_bias : category = CATEGORY_BANK_HOLIDAY_BIAS
  · rw [if_pos h_bank_bias] at h
    cases h
    exact keep _ rfl (fun h => h) (fun h => h)
  rw [if_neg h_bank_bias] at h
  by_cases h_ward_bias : category = CATEGORY_WARD_WEEK_BIAS
  · rw [if_pos h_ward_bias] at h
    cases h
    exact keep _ rfl (fun h => h) (fun h => h)
  rw [if_neg h_ward_bias] at h
  by_cases h_day_bias : category = CATEGORY_ON_CALL_DAY_BIAS
  · rw [if_pos h_day_bias] at h
    cases h
    exact keep _ rfl (fun h => h) (fun h => h)
  rw [if_neg h_day_bias] at h
  by_cases h_weekend_bias : category = CATEGORY_ON_CALL_WEEKEND_BIAS
  · rw [if_pos h_weekend_bias] at h
    cases h
    exact keep _ rfl (fun h => h) (fun h => h)
  rw [if_neg h_weekend_bias] at h
  by_cases h_no_ward : category = CATEGORY_NO_WARD_WEEKS
  · rw [if_pos h_no_ward] at h
    cases h
    exact keep _ rfl (fun h => h) (fun h => h)
  rw [if_neg h_no_ward] at h
  by_cases h_force : category = CATEGORY_FORCE_ON_CALL_DAY
  · rw [if_pos h_force] at h
    split at h
    · exact absurd h (by simp)
    · cases h
      exact ⟨rfl, rfl, rfl, fun hok => hok⟩
  rw [if_neg h_force] at h
  exact absurd h (by simp)

theorem read_config_header_rows_ok (header_columns : Nat) (config : config_t)
    (h : read_config_header header_columns = some config) :
    rows_ok config ∧ config.effective_on_call_person_count = 0 ∧
      config.effective_ward_person_count = 0 := by
  unfold read_config_header at h
  dsimp only at h
  split at h
  · exact absurd h (by simp)
  · split at h
    · exact absurd h (by simp)
    · cases h
      exact ⟨fun _ => ⟨rfl, le_refl 0, show (-1 : Int) ≤ 0 by decide⟩, rfl, rfl⟩

theorem read_rows_rows_frame (libc : libc_t) (day_count : Int) (rows : List (List String))
    (config config' : config_t) (h : read_rows libc day_count rows config = some config') :
    rows_frame config config' :=
  read_rows_rel libc day_count rows_frame rows_frame_refl rows_frame_trans
    find_or_add_person_rows_frame (read_cell_rows_frame libc) rows config config' h

/-! ## The holiday bits written by the aggregation -/

theorem and_shift_ne_zero (x m : Nat) : ((x &&& (1 <<< m)) != 0) = x.testBit m := by
  rw [Nat.one_shiftLeft]
  by_cases h : x.testBit m = true
  · rw [h]
    simp only [bne_iff_ne, ne_eq]
    intro h0
    have := Nat.testBit_and x (2 ^ m) m
    rw [h0, Nat.zero_testBit, h, Nat.testBit_two_pow_self] at this
    exact absurd this (by decide)
  · have hf : x.testBit m = false := by simpa using h
    rw [hf]
    simp only [bne_eq_false_iff_eq]
    apply Nat.eq_of_testBit_eq
    intro i
    rw [Nat.testBit_and, Nat.zero_testBit, Nat.testBit_two_pow]
    by_cases hi : m = i
    · subst hi
      rw [hf]
      rfl
    · simp [hi]

theorem is_holiday_day_eq (config : config_t) (d : Nat) (q : Int) :
    is_holiday_day config d q = (config.holiday_day_bits d).testBit q.toNat := by
  unfold is_holiday_day
  exact and_shift_ne_zero _ _

theorem is_holiday_day_set (config : config_t) (d0 : Nat) (p : Int) (d : Nat) (q : Int) :
    is_holiday_day (set_holiday_day config d0 p) d q = true ↔
      is_holiday_day config d q = true ∨ (d = d0 ∧ q.toNat = p.toNat) := by
  rw [is_holiday_day_eq, is_holiday_day_eq]
  unfold set_holiday_day
  dsimp only
  by_cases hd : d = d0
  · subst hd
    rw [Function.update_same, Nat.testBit_or, Nat.one_shiftLeft, Nat.testBit_two_pow]
    simp only [Bool.or_eq_true, decide_eq_true_eq, true_and]
    constructor
    · rintro (h | h)
      · exact Or.inl h
      · exact Or.inr h.symm
    · rintro (h | h)
      · exact Or.inl h
      · exact Or.inr h.symm
  · rw [Function.update_noteq hd]
    simp [hd]

theorem holiday_fold (g : Nat → Nat) (p : Int) (n : Nat) (config : config_t) :
    ((List.range n).foldl (fun c i => set_holiday_day c (g i) p) config).people
        = config.people ∧
      { (List.range n).foldl (fun c i => set_holiday_day c (g i) p) config with
        holiday_day_bits := config.holiday_day_bits } = config ∧
      ∀ (d : Nat) (q : Int),
        is_holiday_day ((List.range n).foldl (fun c i => set_holiday_day c (g i) p) config) d q
            = true ↔
          is_holiday_day config d q = true ∨ (q.toNat = p.toNat ∧ ∃ i, i < n ∧ g i = d) := by
  induction n with
  | zero =>
    refine ⟨rfl, rfl, ?_⟩
    intro d q
    simp
  | succ k ih =>
    rw [List.range_succ, List.foldl_append]
    simp only [List.foldl_cons, List.foldl_nil]
    obtain ⟨ih1, ih2, ih3⟩ := ih
    generalize (List.range k).foldl (fun c i => set_holiday_day c (g i) p) config = r
      at ih1 ih2 ih3
    refine ⟨ih1, ?_, ?_⟩
    · rw [← ih2]
      rfl
    · intro d q
      rw [is_holiday_day_set, ih3]
      constructor
      · rintro ((h | ⟨hq, i, hi, hg⟩) | ⟨hd, hq⟩)
        · exact Or.inl h
        · exact Or.inr ⟨hq, i, by omega, hg⟩
        · exact Or.inr ⟨hq, k, by omega, hd.symm⟩
      · rintro (h | ⟨hq, i, hi, hg⟩)
        · exact Or.inl (Or.inl h)
        · by_cases hik : i = k
          · subst hik
            exact Or.inr ⟨hg.symm, hq⟩
          · exact Or.inl (Or.inr ⟨hq, i, by omega, hg⟩)
theorem count_fold (k : Int) (g : Nat → Nat) (n : Nat) (config : config_t) :
    (List.range n).foldl
        (fun c i =>
          if is_holiday_day c (g i) k = false then
            { c with
              people := Function.update c.people k
                { c.people k with
                  total_non_holiday_days := (c.people k).total_non_holiday_days + 1 } }
          else c) config
      = { config with
          people := Function.update config.people k
            { config.people k with
              total_non_holiday_days := (config.people k).total_non_holiday_days
                + (((List.range n).filter fun i => !is_holiday_day config (g i) k).length
                  : Int) } } := by
  induction n with
  | zero =>
    simp only [List.range_zero, List.foldl_nil, List.filter_nil, List.length_nil,
      Nat.cast_zero, add_zero]
    rw [Function.update_eq_self]
  | succ m ih =>
    rw [List.range_succ, List.foldl_append, ih, List.filter_append, List.length_append]
    simp only [List.foldl_cons, List.foldl_nil]
    have hb : ∀ X : Int → person_config_t,
        is_holiday_day { config with people := X } (g m) k = is_holiday_day config (g m) k :=
      fun _ => rfl
    rw [hb]
    by_cases hp : is_holiday_day config (g m) k = false
    · rw [if_pos hp]
      simp only [Function.update_same, Function.update_idem, hp, List.filter_cons,
        List.filter_nil, Bool.not_false, if_true, List.length_cons, List.length_nil]
      push_cast
      simp only [add_assoc, zero_add]
    · rw [if_neg hp]
      have hp' : is_holiday_day config (g m) k = true := by simpa using hp
      simp [hp']

theorem count_shift (P : Nat → Bool) (F L : Nat) :
    ((List.range (L - F)).filter fun i => P (F + i)).length
      = ((List.range L).filter fun d => decide (F ≤ d) && P d).length := by
  induction L with
  | zero => simp
  | succ m ih =>
    by_cases hm : F ≤ m
    · have h1 : m + 1 - F = (m - F) + 1 := by omega
      have h2 : F + (m - F) = m := by omega
      rw [h1, List.range_succ, List.range_succ, List.filter_append, List.filter_append,
        List.length_append, List.length_append, ih]
      simp only [List.filter_cons, List.filter_nil, h2, hm, decide_True, Bool.true_and]
      by_cases hP : P m = true <;> simp [hP]
    · have h1 : m + 1 - F = 0 := by omega
      have h2 : m - F = 0 := by omega
      rw [h2] at ih
      rw [h1, List.range_succ, List.filter_append, List.length_append, ← ih]
      simp [hm]

theorem read_config_person_days_effect (config : config_t) (k : Nat)
    (hfirst : 0 ≤ (config.people k).first_day) (hlast : -1 ≤ (config.people k).last_day) :
    (read_config_person_days config k).people
        = Function.update config.people (k : Int)
          { config.people k with
            total_non_holiday_days := (config.people k).total_non_holiday_days
              + (non_holiday_days config k (config.people k).first_day
                  (config.people k).last_day : Int) } ∧
      { read_config_person_days config k with
        holiday_day_bits := config.holiday_day_bits, people := config.people } = config ∧
      ∀ (d : Nat) (q : Int),
        is_holiday_day (read_config_person_days config k) d q = true ↔
          is_holiday_day config d q = true ∨
            (q.toNat = k ∧ ((d : Int) < (config.people k).first_day ∨
              ((config.people k).last_day < (d : Int) ∧
                (d : Int) < 7 * (config.week_count : Int)))) := by
  unfold read_config_person_days
  dsimp only
  generalize hF : (config.people k).first_day = first at hfirst ⊢
  generalize hL : (config.people k).last_day = last at hlast ⊢
  obtain ⟨a1, a2, a3⟩ := holiday_fold (fun i => i) (k : Int) first.toNat config
  dsimp only at a1 a2 a3
  generalize (List.range first.toNat).foldl (fun c i => set_holiday_day c i (k : Int)) config
    = c1 at a1 a2 a3 ⊢
  have b := count_fold (k : Int) (fun i => (first + (i : Int)).toNat)
    (last + 1 - first).toNat c1
  dsimp only at b
  rw [b]
  obtain ⟨e1, e2, e3⟩ := holiday_fold (fun i => (last + 1 + (i : Int)).toNat) (k : Int)
    (7 * (config.week_count : Int) - (last + 1)).toNat
    { c1 with
      people := Function.update c1.people (k : Int)
        { c1.people k with
          total_non_holiday_days := (c1.people k).total_non_holiday_days
            + (((List.range (last + 1 - first).toNat).filter
                fun (i : Nat) => !is_holiday_day c1 (first + (i : Int)).toNat k).length : Int) } }
  dsimp only at e1 e2 e3
  generalize (List.range (7 * (config.week_count : Int) - (last + 1)).toNat).foldl
    (fun c i => set_holiday_day c (last + 1 + (i : Int)).toNat (k : Int))
    { c1 with
      people := Function.update c1.people (k : Int)
        { c1.people k with
          total_non_holiday_days := (c1.people k).total_non_holiday_days
            + (((List.range (last + 1 - first).toNat).filter
                fun (i : Nat) => !is_holiday_day c1 (first + (i : Int)).toNat k).length : Int) } }
    = c3 at e1 e2 e3 ⊢
  have hcount : ((List.range (last + 1 - first).toNat).filter
      fun (i : Nat) => !is_holiday_day c1 (first + (i : Int)).toNat k).length
      = non_holiday_days config k first last := by
    unfold non_holiday_days
    obtain ⟨F, rfl⟩ := Int.eq_ofNat_of_zero_le hfirst
    have hm : (last + 1 - (F : Int)).toNat = (last + 1).toNat - F := by omega
    have key := count_shift (fun d => !is_holiday_day config d k) F (last + 1).toNat
    simp only [Nat.cast_le]
    rw [hm, ← key]
    congr 1
    apply List.filter_congr
    intro i _
    have hidx : ((F : Int) + (i : Int)).toNat = F + i := by omega
    rw [hidx]
    have hiff := a3 (F + i) (k : Int)
    have hno : ¬ ((k : Int).toNat = (k : Int).toNat ∧ ∃ j, j < (F : Int).toNat ∧ j = F + i) := by
      rintro ⟨_, j, hj, hji⟩
      have : (F : Int).toNat = F := by omega
      omega
    have hsame : is_holiday_day c1 (F + i) k = is_holiday_day config (F + i) k := by
      rw [Bool.eq_iff_iff, hiff]
      constructor
      · rintro (h | h)
        · exact h
        · exact absurd h hno
      · intro h
        exact Or.inl h
    rw [hsame]
  refine ⟨?_, ?_, ?_⟩
  · rw [e1]
    show Function.update c1.people (k : Int) _ = _
    rw [hcount, a1, hF, hL]
  · have h2 := congrArg (fun c : config_t =>
      ({ c with holiday_day_bits := config.holiday_day_bits, people := config.people }
        : config_t)) e2
    have h3 := congrArg (fun c : config_t => ({ c with people := config.people } : config_t)) a2
    exact Eq.trans h2 h3
  · intro d q
    rw [e3]
    have hbits : ∀ X : Int → person_config_t,
        is_holiday_day { c1 with people := X } d q = is_holiday_day c1 d q := fun _ => rfl
    rw [hbits, a3]
    have hk : (k : Int).toNat = k := by omega
    rw [hk]
    constructor
    · rintro ((h | ⟨hq, i, hi, hid⟩) | ⟨hq, i, hi, hid⟩)
      · exact Or.inl h
      · exact Or.inr ⟨hq, Or.inl (by omega)⟩
      · exact Or.inr ⟨hq, Or.inr (by omega)⟩
    · rintro (h | ⟨hq, hd | hd⟩)
      · exact Or.inl (Or.inl h)
      · exact Or.inl (Or.inr ⟨hq, d, by omega, rfl⟩)
      · exact Or.inr ⟨hq, (d - (last + 1).toNat), by omega, by omega⟩
theorem read_config_person_effect (config : config_t) (k : Nat)
    (hfirst : 0 ≤ (config.people k).first_day) (hlast : -1 ≤ (config.people k).last_day) :
    read_config_person config k
      = if (config.people k).cannot_do_ward_weeks = true ∧ (config.people k).ward_week_bias ≠ 0
        then none
        else
          some { config with
            holiday_day_bits := (read_config_person_days config k).holiday_day_bits
            people := Function.update config.people (k : Int) (aggregated_person config k)
            total_on_call_days_and_bias :=
              config.total_on_call_days_and_bias + (config.people k).on_call_day_bias
            total_on_call_weekends_and_bias :=
              config.total_on_call_weekends_and_bias + (config.people k).on_call_weekend_bias
            total_ward_weeks_and_bias :=
              config.total_ward_weeks_and_bias + (config.people k).ward_week_bias
            total_bank_holidays_and_bias :=
              config.total_bank_holidays_and_bias + (config.people k).bank_holiday_bias
            effective_on_call_person_count :=
              config.effective_on_call_person_count
                + (aggregated_person config k).effective_full_time_amount
            effective_ward_person_count :=
              if (config.people k).cannot_do_ward_weeks = false then
                config.effective_ward_person_count
                  + (aggregated_person config k).effective_full_time_amount
              else config.effective_ward_person_count } := by
  obtain ⟨hp, hg, _⟩ := read_config_person_days_effect config k hfirst hlast
  unfold read_config_person
  dsimp only
  have hc3 : read_config_person_days config k
      = { config with
          holiday_day_bits := (read_config_person_days config k).holiday_day_bits
          people := Function.update config.people (k : Int)
            { config.people k with
              total_non_holiday_days := (config.people k).total_non_holiday_days
                + (non_holiday_days config k (config.people k).first_day
                    (config.people k).last_day : Int) } } := by
    have := congrArg (fun c : config_t =>
      ({ c with
        holiday_day_bits := (read_config_person_days config k).holiday_day_bits
        people := (read_config_person_days config k).people } : config_t)) hg
    rw [← hp]
    exact this
  generalize (read_config_person_days config k).holiday_day_bits = B at hc3 ⊢
  rw [hc3]
  dsimp only
  simp only [Function.update_same, Function.update_idem]
  rfl

theorem foldlM_range_succ {α : Type} (f : α → Nat → Option α) (a : α) (m : Nat) :
    (List.range (m + 1)).foldlM f a = ((List.range m).foldlM f a).bind fun r => f r m := by
  rw [List.range_succ, List.foldlM_append]
  cases (List.range m).foldlM f a with
  | none => rfl
  | some r => simp

/-- The state of the aggregation loop after the persons `0 .. n - 1`, from the
configuration `c` that the lines of the file produced. -/
theorem read_config_aggregate_fold (config : config_t) (hok : ranges_ok config) (n : Nat) :
    ((List.range n).foldlM read_config_person config = none ↔
        ∃ i, i < n ∧ (config.people (i : Nat)).cannot_do_ward_weeks = true ∧
          (config.people (i : Nat)).ward_week_bias ≠ 0) ∧
      ∀ r : config_t, (List.range n).foldlM read_config_person config = some r →
        r.week_count = config.week_count ∧ r.person_count = config.person_count ∧
        (∀ j : Int, r.people j
          = if 0 ≤ j ∧ j < (n : Int) then aggregated_person config j else config.people j) ∧
        (∀ (d : Nat) (q : Int), is_holiday_day r d q = true ↔
          is_holiday_day config d q = true ∨
            (q.toNat < n ∧ ((d : Int) < (config.people (q.toNat : Nat)).first_day ∨
              ((config.people (q.toNat : Nat)).last_day < (d : Int) ∧
                (d : Int) < 7 * (config.week_count : Int))))) ∧
        r.effective_on_call_person_count
          = config.effective_on_call_person_count
            + Finset.sum (Finset.range n)
                (fun i => (aggregated_person config (i : Nat)).effective_full_time_amount) ∧
        r.effective_ward_person_count
          = config.effective_ward_person_count
            + Finset.sum (Finset.range n) (fun i =>
                if (config.people (i : Nat)).cannot_do_ward_weeks = false then
                  (aggregated_person config (i : Nat)).effective_full_time_amount
                else 0) := by
  induction n with
  | zero =>
    refine ⟨by simp, ?_⟩
    intro r hr
    simp only [List.range_zero, List.foldlM_nil] at hr
    cases hr
    refine ⟨rfl, rfl, ?_, ?_, by simp, by simp⟩
    · intro j
      rw [if_neg (by omega)]
    · intro d q
      simp
  | succ m ih =>
    rw [foldlM_range_succ]
    obtain ⟨ih1, ih2⟩ := ih
    cases hm : (List.range m).foldlM read_config_person config with
    | none =>
      obtain ⟨i, hi, hc⟩ := ih1.mp hm
      refine ⟨?_, ?_⟩
      · simp only [Option.none_bind, true_iff]
        exact ⟨i, by omega, hc⟩
      · intro r hr
        simp at hr
    | some r =>
      obtain ⟨hw, hpc, hpeople, hbits, hon, hward⟩ := ih2 r hm
      have hno : ¬ ∃ i, i < m ∧ (config.people (i : Nat)).cannot_do_ward_weeks = true ∧
          (config.people (i : Nat)).ward_week_bias ≠ 0 := by
        intro h
        rw [ih1.mpr h] at hm
        cases hm
      have hpm : r.people (m : Nat) = config.people (m : Nat) := by
        rw [hpeople, if_neg (by omega)]
      have hmm : ((m : Nat) : Int).toNat = m := by omega
      have hday : ∀ d : Nat, is_holiday_day r d (m : Nat) = is_holiday_day config d (m : Nat) := by
        intro d
        rw [Bool.eq_iff_iff, hbits, hmm]
        constructor
        · rintro (h | ⟨h, _⟩)
          · exact h
          · omega
        · intro h
          exact Or.inl h
      have hagg : aggregated_person r (m : Nat) = aggregated_person config (m : Nat) := by
        unfold aggregated_person non_holiday_days
        simp only [hpm, hw, hday]
      simp only [Option.some_bind]
      rw [read_config_person_effect r m (by rw [hpm]; exact (hok _).1)
        (by rw [hpm]; exact (hok _).2), hpm, hagg]
      by_cases hc : (config.people (m : Nat)).cannot_do_ward_weeks = true ∧
          (config.people (m : Nat)).ward_week_bias ≠ 0
      · rw [if_pos hc]
        refine ⟨?_, ?_⟩
        · simp only [true_iff]
          exact ⟨m, by omega, hc⟩
        · intro r' hr'
          cases hr'
      · rw [if_neg hc]
        refine ⟨?_, ?_⟩
        · constructor
          · intro h
            cases h
          · rintro ⟨i, hi, hci⟩
            exfalso
            by_cases him : i = m
            · subst him
              exact hc hci
            · exact hno ⟨i, by omega, hci⟩
        · intro r' hr'
          simp only [Option.some.injEq] at hr'
          subst hr'
          refine ⟨hw, hpc, ?_, ?_, ?_, ?_⟩
          · intro j
            show Function.update r.people (m : Int) (aggregated_person config (m : Nat)) j = _
            by_cases hj : j = (m : Int)
            · subst hj
              rw [Function.update_same, if_pos (by omega)]
            · rw [Function.update_noteq hj, hpeople]
              by_cases hjm : 0 ≤ j ∧ j < (m : Int)
              · rw [if_pos hjm, if_pos (by omega)]
              · rw [if_neg hjm, if_neg (by omega)]
          · intro d q
            obtain ⟨_, _, hb⟩ := read_config_person_days_effect r m
              (by rw [hpm]; exact (hok _).1) (by rw [hpm]; exact (hok _).2)
            have h1 : is_holiday_day (read_config_person_days r m) d q = true ↔
                is_holiday_day config d q = true ∨
                  (q.toNat < m + 1 ∧ ((d : Int) < (config.people (q.toNat : Nat)).first_day ∨
                    ((config.people (q.toNat : Nat)).last_day < (d : Int) ∧
                      (d : Int) < 7 * (config.week_count : Int)))) := by
              rw [hb, hbits, hpm, hw]
              constructor
              · rintro ((h | ⟨hq, h⟩) | ⟨hq, h⟩)
                · exact Or.inl h
                · exact Or.inr ⟨by omega, h⟩
                · rw [← hq] at h
                  exact Or.inr ⟨by omega, h⟩
              · rintro (h | ⟨hq, h⟩)
                · exact Or.inl (Or.inl h)
                · by_cases hqm : q.toNat = m
                  · rw [hqm] at h
                    exact Or.inr ⟨hqm, h⟩
                  · exact Or.inl (Or.inr ⟨by omega, h⟩)
            exact h1
          · show r.effective_on_call_person_count + _ = _
            rw [hon, Finset.sum_range_succ, add_assoc]
          · show (if (config.people (m : Nat)).cannot_do_ward_weeks = false then
              r.effective_ward_person_count + _ else r.effective_ward_person_count) = _
            rw [hward, Finset.sum_range_succ]
            split
            · rw [add_assoc]
            · rw [add_zero]
/-! ## The targets written by the last loop of `read_config` -/

theorem read_config_target_step (config : config_t) (P : Int → person_config_t) (m : Nat)
    (hP : P (m : Nat) = config.people (m : Nat)) :
    read_config_target { config with people := P } m
      = { config with
          people := Function.update P (m : Int) ((read_config_target config m).people m) } := by
  unfold read_config_target
  dsimp only
  rw [hP]
  simp only [Function.update_same]

theorem read_config_targets_fold (config : config_t) (n : Nat) :
    (List.range n).foldl read_config_target config
      = { config with
          people := fun j =>
            if 0 ≤ j ∧ j < (n : Int) then (read_config_target config j.toNat).people j
            else config.people j } := by
  induction n with
  | zero =>
    simp only [List.range_zero, List.foldl_nil]
    have : (fun j : Int => if 0 ≤ j ∧ j < ((0 : Nat) : Int) then
        (read_config_target config j.toNat).people j else config.people j) = config.people := by
      funext j
      rw [if_neg (by omega)]
    rw [this]
  | succ m ih =>
    rw [List.range_succ, List.foldl_append, ih]
    simp only [List.foldl_cons, List.foldl_nil]
    rw [read_config_target_step config _ m (by rw [if_neg (by omega)])]
    congr 1
    funext j
    by_cases hj : j = (m : Int)
    · subst hj
      have : ((m : Nat) : Int).toNat = m := by omega
      rw [Function.update_same, if_pos (by omega), this]
    · rw [Function.update_noteq hj]
      by_cases hjm : 0 ≤ j ∧ j < (m : Int)
      · rw [if_pos hjm, if_pos (by omega)]
      · rw [if_neg hjm, if_neg (by omega)]

theorem read_config_targets_people (config : config_t) (i : Nat) (hi : i < config.person_count) :
    (read_config_targets config).people (i : Nat)
      = { config.people (i : Nat) with
          target_on_call_days :=
            (config.people (i : Nat)).effective_full_time_amount
              / config.effective_on_call_person_count * config.total_on_call_days_and_bias
          target_on_call_weekends :=
            (config.people (i : Nat)).effective_full_time_amount
              / config.effective_on_call_person_count * config.total_on_call_weekends_and_bias
          target_ward_weeks :=
            (if (config.people (i : Nat)).cannot_do_ward_weeks = true then 0
              else (config.people (i : Nat)).effective_full_time_amount
                / config.effective_ward_person_count) * config.total_ward_weeks_and_bias
          target_on_call_bank_holidays :=
            (config.people (i : Nat)).effective_full_time_amount
              / config.effective_on_call_person_count * config.total_bank_holidays_and_bias
          target_day_off_block_size :=
            (read_config_target config i).people (i : Nat) |>.target_day_off_block_size
          target_ward_week_spacing :=
            (read_config_target config i).people (i : Nat) |>.target_ward_week_spacing } := by
  unfold read_config_targets
  rw [read_config_targets_fold]
  dsimp only
  have : ((i : Nat) : Int).toNat = i := by omega
  rw [if_pos (by omega), this]
  unfold read_config_target
  simp only [Function.update_same]

theorem read_config_targets_globals (config : config_t) :
    { read_config_targets config with people := config.people } = config := by
  unfold read_config_targets
  rw [read_config_targets_fold]

theorem read_config_target_spacing (config : config_t) (i : Nat) :
    ((read_config_target config i).people (i : Nat)).target_ward_week_spacing
        = (((read_config_target config i).people (i : Nat)).total_non_holiday_days : ℚ)
          / expected_ward_weeks ((read_config_target config i).people (i : Nat)) ∧
      ((read_config_target config i).people (i : Nat)).target_day_off_block_size
        = ((((read_config_target config i).people (i : Nat)).total_non_holiday_days : ℚ)
            - expected_working_days ((read_config_target config i).people (i : Nat)))
          / expected_shift_count ((read_config_target config i).people (i : Nat)) := by
  unfold read_config_target
  simp only [Function.update_same]
  exact ⟨rfl, rfl⟩

theorem read_config_stages (libc : libc_t) (header_columns : Nat) (rows : List (List String))
    (config : config_t) (h : read_config libc header_columns rows = some config) :
    ∃ c0 c1 c2 : config_t,
      read_config_header header_columns = some c0 ∧
      read_rows libc ((header_columns : Int) - FIRST_DAY_COLUMN) rows c0 = some c1 ∧
      read_config_aggregate c1 = some c2 ∧ config = read_config_targets c2 := by
  unfold read_config at h
  cases h0 : read_config_header header_columns with
  | none => rw [h0] at h; exact absurd h (by simp)
  | some c0 =>
    rw [h0] at h
    dsimp only at h
    cases h1 : read_rows libc ((header_columns : Int) - FIRST_DAY_COLUMN) rows c0 with
    | none => rw [h1] at h; exact absurd h (by simp)
    | some c1 =>
      rw [h1] at h
      dsimp only at h
      cases h2 : read_config_aggregate c1 with
      | none => rw [h2] at h; exact absurd h (by simp)
      | some c2 =>
        rw [h2] at h
        dsimp only at h
        cases h
        exact ⟨c0, c1, c2, rfl, h1, h2, rfl⟩

theorem read_rows_ok (libc : libc_t) (header_columns : Nat) (rows : List (List String))
    (c0 c1 : config_t) (h0 : read_config_header header_columns = some c0)
    (h1 : read_rows libc ((header_columns : Int) - FIRST_DAY_COLUMN) rows c0 = some c1) :
    rows_ok c1 ∧ c1.effective_on_call_person_count = 0 ∧ c1.effective_ward_person_count = 0 := by
  obtain ⟨hok, hon, hward⟩ := read_config_header_rows_ok header_columns c0 h0
  have hf := read_rows_rows_frame libc _ rows c0 c1 h1
  exact ⟨hf.ok hok, hf.on_call.trans hon, hf.ward.trans hward⟩
theorem read_config_result (libc : libc_t) (header_columns : Nat) (rows : List (List String))
    (config : config_t) (h : read_config libc header_columns rows = some config) :
    ∃ c0 c1 : config_t,
      read_config_header header_columns = some c0 ∧
      read_rows libc ((header_columns : Int) - FIRST_DAY_COLUMN) rows c0 = some c1 ∧
      rows_ok c1 ∧
      config.week_count = c1.week_count ∧ config.person_count = c1.person_count ∧
      (∀ i, i < c1.person_count → ¬ ((c1.people (i : Nat)).cannot_do_ward_weeks = true ∧
        (c1.people (i : Nat)).ward_week_bias ≠ 0)) ∧
      (∀ i, i < c1.person_count →
        config.people (i : Nat)
          = { aggregated_person c1 (i : Nat) with
              target_on_call_days := (config.people (i : Nat)).target_on_call_days
              target_on_call_weekends := (config.people (i : Nat)).target_on_call_weekends
              target_ward_weeks :=
                (if (c1.people (i : Nat)).cannot_do_ward_weeks = true then 0
                  else (config.people (i : Nat)).effective_full_time_amount
                    / config.effective_ward_person_count) * config.total_ward_weeks_and_bias
              target_on_call_bank_holidays :=
                (config.people (i : Nat)).target_on_call_bank_holidays
              target_day_off_block_size :=
                (((config.people (i : Nat)).total_non_holiday_days : ℚ)
                  - expected_working_days (config.people (i : Nat)))
                / expected_shift_count (config.people (i : Nat))
              target_ward_week_spacing :=
                ((config.people (i : Nat)).total_non_holiday_days : ℚ)
                  / expected_ward_weeks (config.people (i : Nat)) }) ∧
      (∀ (d : Nat) (q : Int), is_holiday_day config d q = true ↔
        is_holiday_day c1 d q = true ∨
          (q.toNat < c1.person_count ∧ ((d : Int) < (c1.people (q.toNat : Nat)).first_day ∨
            ((c1.people (q.toNat : Nat)).last_day < (d : Int) ∧
              (d : Int) < 7 * (c1.week_count : Int))))) ∧
      config.effective_ward_person_count
        = Finset.sum (Finset.range c1.person_count) (fun i =>
            if (c1.people (i : Nat)).cannot_do_ward_weeks = false then
              (aggregated_person c1 (i : Nat)).effective_full_time_amount
            else 0) := by
  obtain ⟨c0, c1, c2, h0, h1, h2, hc⟩ := read_config_stages libc header_columns rows config h
  obtain ⟨hok, _, hward0⟩ := read_rows_ok libc header_columns rows c0 c1 h0 h1
  have hranges : ranges_ok c1 := fun j => (hok j).2
  obtain ⟨hnone, hsome⟩ := read_config_aggregate_fold c1 hranges c1.person_count
  obtain ⟨hw, hpc, hpeople, hbits, _, hward⟩ := hsome c2 h2
  have hg := read_config_targets_globals c2
  rw [← hc] at hg
  have gw : config.week_count = c2.week_count := by
    have := congrArg config_t.week_count hg
    exact this
  have gp : config.person_count = c2.person_count := by
    have := congrArg config_t.person_count hg
    exact this
  have gb : config.holiday_day_bits = c2.holiday_day_bits := by
    have := congrArg config_t.holiday_day_bits hg
    exact this
  have ge : config.effective_ward_person_count = c2.effective_ward_person_count := by
    have := congrArg config_t.effective_ward_person_count hg
    exact this
  have gt : config.total_ward_weeks_and_bias = c2.total_ward_weeks_and_bias := by
    have := congrArg config_t.total_ward_weeks_and_bias hg
    exact this
  refine ⟨c0, c1, h0, h1, hok, gw.trans hw, gp.trans hpc, ?_, ?_, ?_, ?_⟩
  · intro i hi hcond
    have : (List.range c1.person_count).foldlM read_config_person c1 = none :=
      hnone.mpr ⟨i, hi, hcond⟩
    unfold read_config_aggregate at h2
    rw [this] at h2
    cases h2
  · intro i hi
    have hci : config.people (i : Nat) = (read_config_targets c2).people (i : Nat) := by
      rw [hc]
    have hspace := read_config_target_spacing c2 i
    have hpi : c2.people (i : Nat) = aggregated_person c1 (i : Nat) := by
      rw [hpeople, if_pos (by omega)]
    have key := read_config_targets_people c2 i (by omega)
    rw [← hci] at key
    have hsame : (read_config_target c2 i).people (i : Nat) = config.people (i : Nat) := by
      rw [hci]
      unfold read_config_targets
      rw [read_config_targets_fold]
      dsimp only
      have : ((i : Nat) : Int).toNat = i := by omega
      rw [if_pos (by omega), this]
    rw [hsame] at hspace key
    have k1 := congrArg person_config_t.target_on_call_days key
    have k2 := congrArg person_config_t.target_on_call_weekends key
    have k3 := congrArg person_config_t.target_on_call_bank_holidays key
    have k4 := congrArg person_config_t.effective_full_time_amount key
    dsimp only at k1 k2 k3 k4
    conv_lhs => rw [key]
    rw [← hspace.1, ← hspace.2, k1, k2, k3, k4, ge, gt, hpi]
    rfl
  · intro d q
    have : is_holiday_day config d q = is_holiday_day c2 d q := by
      unfold is_holiday_day
      rw [gb]
    rw [this, hbits]
  · rw [ge, hward, hward0, zero_add]

/-! ## C21: the divisors of the target computation -/

/-- C23: once the header and the lines of the file are read (configuration `c1`),
`read_config` fails if and only if some person has `cannot_do_ward_weeks` set and a
non-zero `ward_week_bias`; and in every configuration that `read_config` returns, each
ward-disallowed person has `ward_week_bias = 0` and `target_ward_weeks = 0`, and
`effective_ward_person_count` is the sum of the effective full-time amounts of the
persons that are not ward-disallowed. -/
theorem read_config_ward_disallowed (libc : libc_t) (header_columns : Nat)
    (rows : List (List String)) :
    (∀ c0 c1 : config_t, read_config_header header_columns = some c0 →
        read_rows libc ((header_columns : Int) - FIRST_DAY_COLUMN) rows c0 = some c1 →
        (read_config libc header_columns rows = none ↔
          ∃ i, i < c1.person_count ∧ (c1.people (i : Nat)).cannot_do_ward_weeks = true ∧
            (c1.people (i : Nat)).ward_week_bias ≠ 0)) ∧
      ∀ config : config_t, read_config libc header_columns rows = some config →
        (∀ i, i < config.person_count →
          (config.people (i : Nat)).cannot_do_ward_weeks = true →
            (config.people (i : Nat)).ward_week_bias = 0 ∧
              (config.people (i : Nat)).target_ward_weeks = 0) ∧
        config.effective_ward_person_count
          = Finset.sum (Finset.range config.person_count) (fun i =>
              if (config.people (i : Nat)).cannot_do_ward_weeks = true then 0
              else (config.people (i : Nat)).effective_full_time_amount) := by
  refine ⟨?_, ?_⟩
  · intro c0 c1 h0 h1
    obtain ⟨hok, _, _⟩ := read_rows_ok libc header_columns rows c0 c1 h0 h1
    have hranges : ranges_ok c1 := fun j => (hok j).2
    obtain ⟨hnone, _⟩ := read_config_aggregate_fold c1 hranges c1.person_count
    rw [← hnone]
    unfold read_config
    rw [h0]
    dsimp only
    rw [h1]
    dsimp only
    unfold read_config_aggregate
    cases (List.range c1.person_count).foldlM read_config_person c1 with
    | none => simp
    | some c2 => simp
  · intro config h
    obtain ⟨c0, c1, _, _, _, _, hpc, hnot, hpeople, _, hward⟩ :=
      read_config_result libc header_columns rows config h
    have hflag : ∀ i, i < c1.person_count →
        (config.people (i : Nat)).cannot_do_ward_weeks
          = (c1.people (i : Nat)).cannot_do_ward_weeks := by
      intro i hi
      have := congrArg person_config_t.cannot_do_ward_weeks (hpeople i hi)
      exact this
    have hbias : ∀ i, i < c1.person_count →
        (config.people (i : Nat)).ward_week_bias = (c1.people (i : Nat)).ward_week_bias := by
      intro i hi
      have := congrArg person_config_t.ward_week_bias (hpeople i hi)
      exact this
    have heff : ∀ i, i < c1.person_count →
        (config.people (i : Nat)).effective_full_time_amount
          = (aggregated_person c1 (i : Nat)).effective_full_time_amount := by
      intro i hi
      have := congrArg person_config_t.effective_full_time_amount (hpeople i hi)
      exact this
    refine ⟨?_, ?_⟩
    · intro i hi hcannot
      rw [hpc] at hi
      rw [hflag i hi] at hcannot
      refine ⟨?_, ?_⟩
      · rw [hbias i hi]
        by_contra hne
        exact hnot i hi ⟨hcannot, hne⟩
      · have := congrArg person_config_t.target_ward_weeks (hpeople i hi)
        dsimp only at this
        rw [this, if_pos hcannot, zero_mul]
    · rw [hward, hpc]
      apply Finset.sum_congr rfl
      intro i hi
      have hi' := Finset.mem_range.mp hi
      rw [hflag i hi', heff i hi']
      cases (c1.people (i : Nat)).cannot_do_ward_weeks <;> simp

/-- C23, witness: a file in which alice cannot do ward weeks and has a ward week bias is
rejected; the file with ward-disallowed alice and bob is accepted, alice has bias 0 and
target 0, bob has the whole ward target 1, and the effective ward person count is bob's
amount 1. -/
theorem read_config_ward_disallowed_witness :
    (read_config example_libc 9 ward_bias_conflict_rows).isNone = true ∧
      (read_config example_libc 9 ward_disallowed_rows).map
        (fun c => ((c.people 0).cannot_do_ward_weeks, (c.people 0).ward_week_bias,
          (c.people 0).target_ward_weeks, (c.people 1).target_ward_weeks,
          c.effective_ward_person_count)) = some (true, 0, 0, 1, 1) ∧
      ((read_config example_libc 9 ward_disallowed_rows).map fun c =>
        decide (c.effective_ward_person_count
          = Finset.sum (Finset.range c.person_count) (fun i =>
              if (c.people (i : Nat)).cannot_do_ward_weeks = true then 0
              else (c.people (i : Nat)).effective_full_time_amount))) = some true := by
  refine ⟨by decide!, by decide!, ?_⟩
  cases hrc : read_config example_libc 9 ward_disallowed_rows with
  | none =>
    have hsome : (read_config example_libc 9 ward_disallowed_rows).isSome = true := by decide!
    rw [hrc] at hsome
    exact absurd hsome (by simp)
  | some c =>
    simp only [Option.map_some', Option.some.injEq, decide_eq_true_eq]
    exact ((read_config_ward_disallowed example_libc 9 ward_disallowed_rows).2 c hrc).2

/-! ## C28: the active range after the aggregation -/

/-- C28: in every configuration that `read_config` returns, for every person `i`, with
`c1` the configuration that the lines of the file produced: the active range and the
full-time amount are those of `c1`; every day `d` of the horizon with `d < first_day` or
`d > last_day` has the holiday bit of the person; the holiday bits of the days inside
`[first_day, last_day]` are those of `c1`; `total_non_holiday_days` is the number of days
in `[first_day, last_day]` without the holiday bit; and `effective_full_time_amount` is
`full_time_amount * (last_day - first_day + 1) / (7 * week_count)`. -/
theorem read_config_active_range (libc : libc_t) (header_columns : Nat)
    (rows : List (List String)) (config : config_t)
    (h : read_config libc header_columns rows = some config) :
    ∃ c0 c1 : config_t,
      read_config_header header_columns = some c0 ∧
      read_rows libc ((header_columns : Int) - FIRST_DAY_COLUMN) rows c0 = some c1 ∧
      ∀ i, i < config.person_count →
        (config.people (i : Nat)).first_day = (c1.people (i : Nat)).first_day ∧
        (config.people (i : Nat)).last_day = (c1.people (i : Nat)).last_day ∧
        (config.people (i : Nat)).full_time_amount = (c1.people (i : Nat)).full_time_amount ∧
        (∀ d : Nat, d < 7 * config.week_count →
          ((d : Int) < (config.people (i : Nat)).first_day ∨
            (config.people (i : Nat)).last_day < (d : Int)) →
          is_holiday_day config d (i : Nat) = true) ∧
        (∀ d : Nat, (config.people (i : Nat)).first_day ≤ (d : Int) →
          (d : Int) ≤ (config.people (i : Nat)).last_day →
          is_holiday_day config d (i : Nat) = is_holiday_day c1 d (i : Nat)) ∧
        (config.people (i : Nat)).total_non_holiday_days
          = (non_holiday_days config (i : Nat) (config.people (i : Nat)).first_day
              (config.people (i : Nat)).last_day : Int) ∧
        (config.people (i : Nat)).effective_full_time_amount
          = (config.people (i : Nat)).full_time_amount
            * ((((config.people (i : Nat)).last_day - (config.people (i : Nat)).first_day + 1
                : Int) : ℚ)) / ((7 * config.week_count : Nat) : ℚ) := by
  obtain ⟨c0, c1, h0, h1, hok, hwc, hpc, _, hpeople, hbits, _⟩ :=
    read_config_result libc header_columns rows config h
  refine ⟨c0, c1, h0, h1, ?_⟩
  intro i hi
  rw [hpc] at hi
  have hp := hpeople i hi
  have hfirst : (config.people (i : Nat)).first_day = (c1.people (i : Nat)).first_day := by
    have := congrArg person_config_t.first_day hp
    exact this
  have hlast : (config.people (i : Nat)).last_day = (c1.people (i : Nat)).last_day := by
    have := congrArg person_config_t.last_day hp
    exact this
  have hfull : (config.people (i : Nat)).full_time_amount
      = (c1.people (i : Nat)).full_time_amount := by
    have := congrArg person_config_t.full_time_amount hp
    exact this
  have hii : ((i : Nat) : Int).toNat = i := by omega
  have hinside : ∀ d : Nat, (c1.people (i : Nat)).first_day ≤ (d : Int) →
      (d : Int) ≤ (c1.people (i : Nat)).last_day →
      is_holiday_day config d (i : Nat) = is_holiday_day c1 d (i : Nat) := by
    intro d hd1 hd2
    rw [Bool.eq_iff_iff, hbits, hii]
    constructor
    · rintro (hh | ⟨_, hh | hh⟩)
      · exact hh
      · omega
      · omega
    · intro hh
      exact Or.inl hh
  refine ⟨hfirst, hlast, hfull, ?_, ?_, ?_, ?_⟩
  · intro d hd hout
    rw [hbits, hii]
    right
    rw [hfirst, hlast] at hout
    refine ⟨hi, ?_⟩
    rcases hout with hout | hout
    · exact Or.inl hout
    · exact Or.inr ⟨hout, by rw [← hwc]; omega⟩
  · intro d hd1 hd2
    rw [hfirst] at hd1
    rw [hlast] at hd2
    exact hinside d hd1 hd2
  · have htnhd := congrArg person_config_t.total_non_holiday_days hp
    have hsimp : (config.people (i : Nat)).total_non_holiday_days
        = (c1.people (i : Nat)).total_non_holiday_days
          + (non_holiday_days c1 (i : Nat) (c1.people (i : Nat)).first_day
              (c1.people (i : Nat)).last_day : Int) := htnhd
    rw [hsimp, (hok _).1, zero_add, hfirst, hlast]
    congr 1
    unfold non_holiday_days
    congr 1
    apply List.filter_congr
    intro d hd
    have hd' := List.mem_range.mp hd
    by_cases hge : (c1.people (i : Nat)).first_day ≤ (d : Int)
    · rw [hinside d hge (by omega)]
    · simp [hge]
  · have heff := congrArg person_config_t.effective_full_time_amount hp
    have hsimp : (config.people (i : Nat)).effective_full_time_amount
        = (c1.people (i : Nat)).full_time_amount
          * (((1 + (c1.people (i : Nat)).last_day - (c1.people (i : Nat)).first_day : Int) : ℚ)
            / ((7 * (c1.week_count : Int) : Int) : ℚ)) := heff
    rw [hsimp, hfull, hfirst, hlast, hwc]
    push_cast
    ring

/-- C28, witness: alice starts on day 2, ends on day 4 and is on holiday on day 3 of a
one-week horizon: after `read_config` the holiday bits of the week are set on days 0, 1,
3, 5 and 6, two non-holiday days are counted and the effective amount is 3/7. -/
theorem read_config_active_range_witness :
    (read_config example_libc 9 active_range_rows).map
        (fun c => ((c.people 0).first_day, (c.people 0).last_day,
          (List.range 7).map (fun d => is_holiday_day c d 0),
          (c.people 0).total_non_holiday_days, (c.people 0).effective_full_time_amount))
        = some (2, 4, [true, true, false, true, false, true, true], 2, 3 / 7) ∧
      ((read_config example_libc 9 active_range_rows).map fun c =>
        decide ((c.people 0).total_non_holiday_days
          = (non_holiday_days c 0 (c.people 0).first_day (c.people 0).last_day : Int)))
        = some true := by
  refine ⟨by decide!, ?_⟩
  cases hrc : read_config example_libc 9 active_range_rows with
  | none =>
    have hsome : (read_config example_libc 9 active_range_rows).isSome = true := by decide!
    rw [hrc] at hsome
    exact absurd hsome (by simp)
  | some c =>
    have hfacts : ((read_config example_libc 9 active_range_rows).map fun c =>
        decide (0 < c.person_count)) = some true := by
      decide!
    rw [hrc] at hfacts
    simp only [Option.map_some', Option.some.injEq, decide_eq_true_eq] at hfacts
    simp only [Option.map_some', Option.some.injEq, decide_eq_true_eq]
    obtain ⟨_, _, _, _, hall⟩ :=
      read_config_active_range example_libc 9 active_range_rows c hrc
    exact (hall 0 hfacts).2.2.2.2.2.1

/-! ## C27: several on-call slots in one week -/

theorem no_ward_zero_weight (points : points_t) (d : Int)
    (h : points.values POINTS_NO_WARD_WEEK = 0) : get_no_ward_week_score points d = 0 := by
  unfold get_no_ward_week_score
  rw [h, decay_loop_zero]

theorem score_weekday_value_multiple (config : config_t) (points : points_t) (rota : rota_t)
    (week_index day_index : Nat) (st : sweep_t)
    (h0 : ∀ i, i ≠ POINTS_MULTIPLE_ON_CALLS_PER_WEEK → points.values i = 0) :
    (score_weekday config points rota week_index day_index st).score.value
      = st.score.value
        + (if st.last_on_call_week ((rota.weeks week_index).shifts day_index)
              = (week_index : Int)
            then points.values POINTS_MULTIPLE_ON_CALLS_PER_WEEK else 0) := by
  unfold score_weekday
  dsimp only
  simp only [value_soft, value_hard, value_add]
  simp only [h0 0 (by decide), h0 1 (by decide), h0 2 (by decide), h0 3 (by decide),
    h0 4 (by decide), h0 5 (by decide), h0 6 (by decide), h0 7 (by decide),
    h0 14 (by decide), h0 15 (by decide),
    days_off_zero_weight points _ (h0 16 (by decide)),
    no_ward_zero_weight points _ (h0 18 (by decide)), ite_self, add_zero]

theorem score_weekend_day_value_multiple (config : config_t) (points : points_t)
    (rota : rota_t) (week_index day_index : Nat) (st : sweep_t)
    (h0 : ∀ i, i ≠ POINTS_MULTIPLE_ON_CALLS_PER_WEEK → points.values i = 0) :
    (score_weekend_day config points rota week_index day_index st).score.value
      = st.score.value
        + (if day_index = 5 ∧ st.last_on_call_week
              ((rota.weeks week_index).shifts SHIFT_ON_CALL_WEEKEND) = (week_index : Int)
            then points.values POINTS_MULTIPLE_ON_CALLS_PER_WEEK else 0) := by
  rw [score_weekend_day_value]
  simp only [h0 1 (by decide), h0 2 (by decide), h0 4 (by decide), h0 5 (by decide),
    h0 6 (by decide), days_off_zero_weight points _ (h0 16 (by decide)), ite_self, add_zero]

theorem score_day_last_on_call_week (config : config_t) (points : points_t) (rota : rota_t)
    (week_index : Nat) (st : sweep_t) (day_index : Nat) :
    (score_day config points rota week_index st day_index).last_on_call_week
      = Function.update st.last_on_call_week
          ((rota.weeks week_index).shifts (min day_index 5)) (week_index : Int) := by
  unfold score_day
  by_cases h : day_index < 5
  · rw [if_pos h]
    have : min day_index 5 = day_index := by omega
    rw [this]
    rfl
  · rw [if_neg h]
    have : min day_index 5 = 5 := by omega
    rw [this]
    rfl

theorem score_day_value_multiple (config : config_t) (points : points_t) (rota : rota_t)
    (week_index : Nat) (st : sweep_t) (day_index : Nat)
    (h0 : ∀ i, i ≠ POINTS_MULTIPLE_ON_CALLS_PER_WEEK → points.values i = 0) :
    (score_day config points rota week_index st day_index).score.value
      = st.score.value
        + (if day_index < 6 ∧ st.last_on_call_week ((rota.weeks week_index).shifts day_index)
              = (week_index : Int)
            then points.values POINTS_MULTIPLE_ON_CALLS_PER_WEEK else 0) := by
  unfold score_day
  by_cases h : day_index < 5
  · rw [if_pos h, score_weekday_value_multiple _ _ _ _ _ _ h0]
    have : day_index < 6 := by omega
    simp only [this, true_and]
  · rw [if_neg h, score_weekend_day_value_multiple _ _ _ _ _ _ h0]
    by_cases h5 : day_index = 5
    · subst h5
      simp
    · have : ¬ day_index < 6 := by omega
      simp only [h5, this, false_and]
theorem repeated_on_calls_succ (rota : rota_t) (week_index k : Nat) :
    (repeated_on_calls rota week_index (k + 1)).length
      = (repeated_on_calls rota week_index k).length
        + if ∃ s, s < k ∧ (rota.weeks week_index).shifts s = (rota.weeks week_index).shifts k
          then 1 else 0 := by
  unfold repeated_on_calls
  rw [List.range_succ, List.filter_append, List.length_append]
  congr 1
  by_cases h : ∃ s, s < k ∧
      (rota.weeks week_index).shifts s = (rota.weeks week_index).shifts k
  · rw [if_pos h]
    have : ((List.range k).any fun s' =>
        decide ((rota.weeks week_index).shifts s' = (rota.weeks week_index).shifts k))
        = true := by
      rw [List.any_eq_true]
      obtain ⟨s, hs, he⟩ := h
      exact ⟨s, List.mem_range.mpr hs, by simpa using he⟩
    simp [this]
  · rw [if_neg h]
    have : ((List.range k).any fun s' =>
        decide ((rota.weeks week_index).shifts s' = (rota.weeks week_index).shifts k))
        = false := by
      rw [Bool.eq_false_iff]
      intro hany
      rw [List.any_eq_true] at hany
      obtain ⟨s, hs, he⟩ := hany
      exact h ⟨s, List.mem_range.mp hs, by simpa using he⟩
    simp [this]

theorem score_days_multiple (config : config_t) (points : points_t) (rota : rota_t)
    (week_index : Nat) (st : sweep_t)
    (h0 : ∀ i, i ≠ POINTS_MULTIPLE_ON_CALLS_PER_WEEK → points.values i = 0)
    (hst : ∀ s, s < 6 →
      st.last_on_call_week ((rota.weeks week_index).shifts s) ≠ (week_index : Int))
    (k : Nat) (hk : k ≤ 7) :
    (∀ p : Int, (∃ s, s < min k 6 ∧ (rota.weeks week_index).shifts s = p) →
        ((List.range k).foldl (score_day config points rota week_index) st).last_on_call_week p
          = (week_index : Int)) ∧
      (∀ p : Int, (¬ ∃ s, s < min k 6 ∧ (rota.weeks week_index).shifts s = p) →
        ((List.range k).foldl (score_day config points rota week_index) st).last_on_call_week p
          = st.last_on_call_week p) ∧
      ((List.range k).foldl (score_day config points rota week_index) st).score.value
        = st.score.value
          + points.values POINTS_MULTIPLE_ON_CALLS_PER_WEEK
            * ((repeated_on_calls rota week_index (min k 6)).length : ℚ) := by
  induction k with
  | zero =>
    refine ⟨?_, ?_, ?_⟩
    · rintro p ⟨s, hs, _⟩
      omega
    · intro p _
      rfl
    · simp [repeated_on_calls]
  | succ k ih =>
    obtain ⟨ih1, ih2, ih3⟩ := ih (by omega)
    rw [List.range_succ, List.foldl_append]
    simp only [List.foldl_cons, List.foldl_nil]
    generalize (List.range k).foldl (score_day config points rota week_index) st = r
      at ih1 ih2 ih3
    rw [score_day_last_on_call_week, score_day_value_multiple _ _ _ _ _ _ h0]
    by_cases hk6 : k < 6
    · have hmin : min k 6 = k := by omega
      have hmin1 : min (k + 1) 6 = k + 1 := by omega
      have hmin5 : min k 5 = k := by omega
      rw [hmin] at ih1 ih2 ih3
      rw [hmin1, hmin5]
      refine ⟨?_, ?_, ?_⟩
      · rintro p ⟨s, hs, he⟩
        by_cases hp : p = (rota.weeks week_index).shifts k
        · rw [hp, Function.update_same]
        · rw [Function.update_noteq hp]
          apply ih1
          refine ⟨s, ?_, he⟩
          by_cases hsk : s = k
          · subst hsk
            exact absurd he.symm hp
          · omega
      · intro p hne
        have hp : p ≠ (rota.weeks week_index).shifts k :=
          fun h => hne ⟨k, by omega, h.symm⟩
        rw [Function.update_noteq hp]
        apply ih2
        rintro ⟨s, hs, he⟩
        exact hne ⟨s, by omega, he⟩
      · rw [ih3, repeated_on_calls_succ]
        by_cases hex : ∃ s, s < k ∧
            (rota.weeks week_index).shifts s = (rota.weeks week_index).shifts k
        · rw [if_pos ⟨hk6, ih1 _ hex⟩, if_pos hex]
          push_cast
          ring
        · have hlow : r.last_on_call_week ((rota.weeks week_index).shifts k)
              ≠ (week_index : Int) := by
            rw [ih2 _ hex]
            exact hst k hk6
          rw [if_neg (fun h => hlow h.2), if_neg hex]
          push_cast
          ring
    · have hk' : k = 6 := by omega
      subst hk'
      have hmin : min 6 6 = 6 := rfl
      have hmin1 : min (6 + 1) 6 = 6 := rfl
      have hmin5 : min 6 5 = 5 := rfl
      rw [hmin] at ih1 ih2 ih3
      rw [hmin1, hmin5]
      refine ⟨?_, ?_, ?_⟩
      · intro p hex
        by_cases hp : p = (rota.weeks week_index).shifts 5
        · rw [hp, Function.update_same]
        · rw [Function.update_noteq hp]
          exact ih1 p hex
      · intro p hne
        have hp : p ≠ (rota.weeks week_index).shifts 5 :=
          fun h => hne ⟨5, by omega, h.symm⟩
        rw [Function.update_noteq hp]
        exact ih2 p hne
      · rw [ih3, if_neg (by omega), add_zero]

theorem score_week_multiple (config : config_t) (points : points_t) (rota : rota_t)
    (week_index : Nat) (st : sweep_t)
    (h0 : ∀ i, i ≠ POINTS_MULTIPLE_ON_CALLS_PER_WEEK → points.values i = 0)
    (hst : ∀ s, s < 6 →
      st.last_on_call_week ((rota.weeks week_index).shifts s) ≠ (week_index : Int)) :
    (∀ p : Int, (∃ s, s < 6 ∧ (rota.weeks week_index).shifts s = p) →
        (score_week config points rota st week_index).last_on_call_week p
          = (week_index : Int)) ∧
      (∀ p : Int, (¬ ∃ s, s < 6 ∧ (rota.weeks week_index).shifts s = p) →
        (score_week config points rota st week_index).last_on_call_week p
          = st.last_on_call_week p) ∧
      (score_week config points rota st week_index).score.value
        = st.score.value
          + points.values POINTS_MULTIPLE_ON_CALLS_PER_WEEK
            * ((repeated_on_calls rota week_index 6).length : ℚ) := by
  obtain ⟨d1, d2, d3⟩ := score_days_multiple config points rota week_index st h0 hst 7
    (le_refl 7)
  have hmin : min 7 6 = 6 := rfl
  rw [hmin] at d1 d2 d3
  unfold score_week
  dsimp only
  split
  · refine ⟨d1, d2, ?_⟩
    show (add_value _ _).value = _
    rw [value_add, d3, h0 12 (by decide), add_zero]
  · exact ⟨d1, d2, d3⟩
theorem sweep_init_last_on_call_week (config : config_t) (i : Nat)
    (hi : i < config.person_count) :
    (sweep_init config).last_on_call_week (i : Nat) = -1 := by
  unfold sweep_init
  generalize config.person_count = n at hi
  induction n with
  | zero => omega
  | succ k ih =>
    rw [List.range_succ, List.foldl_append]
    simp only [List.foldl_cons, List.foldl_nil]
    by_cases hik : i = k
    · subst hik
      rw [Function.update_same]
    · have hne : ((i : Nat) : Int) ≠ ((k : Nat) : Int) := by omega
      rw [Function.update_noteq hne]
      exact ih (by omega)

theorem score_weeks_multiple (config : config_t) (points : points_t) (rota : rota_t)
    (hvalid : rota_valid config rota)
    (h0 : ∀ i, i ≠ POINTS_MULTIPLE_ON_CALLS_PER_WEEK → points.values i = 0)
    (n : Nat) (hn : n ≤ config.week_count) :
    (∀ p : Int, 0 ≤ p → p < (config.person_count : Int) →
        ((List.range n).foldl (score_week config points rota)
          (sweep_init config)).last_on_call_week p < (n : Int)) ∧
      ((List.range n).foldl (score_week config points rota) (sweep_init config)).score.value
        = points.values POINTS_MULTIPLE_ON_CALLS_PER_WEEK
          * ((Finset.sum (Finset.range n)
              (fun w => (repeated_on_calls rota w 6).length) : Nat) : ℚ) := by
  induction n with
  | zero =>
    refine ⟨?_, ?_⟩
    · intro p hp0 hp1
      obtain ⟨i, rfl⟩ := Int.eq_ofNat_of_zero_le hp0
      simp only [List.range_zero, List.foldl_nil]
      rw [sweep_init_last_on_call_week config i (by omega)]
      decide
    · simp only [List.range_zero, List.foldl_nil, Finset.range_zero, Finset.sum_empty,
        Nat.cast_zero, mul_zero]
      rw [(sweep_init_score config).1]
      rfl
  | succ k ih =>
    obtain ⟨ih1, ih2⟩ := ih (by omega)
    rw [List.range_succ, List.foldl_append]
    simp only [List.foldl_cons, List.foldl_nil]
    generalize (List.range k).foldl (score_week config points rota) (sweep_init config) = st
      at ih1 ih2
    have hst : ∀ s, s < 6 →
        st.last_on_call_week ((rota.weeks k).shifts s) ≠ (k : Int) := by
      intro s hs
      have hv := hvalid k s (by omega) (by show s < 7; omega)
      have := ih1 _ hv.1 hv.2
      omega
    obtain ⟨w1, w2, w3⟩ := score_week_multiple config points rota k st h0 hst
    refine ⟨?_, ?_⟩
    · intro p hp0 hp1
      by_cases hex : ∃ s, s < 6 ∧ (rota.weeks k).shifts s = p
      · rw [w1 p hex]
        push_cast
        omega
      · rw [w2 p hex]
        have := ih1 p hp0 hp1
        push_cast
        omega
    · rw [w3, ih2, Finset.sum_range_succ]
      push_cast
      ring

theorem score_tail_value_zero (config : config_t) (points : points_t) (st : sweep_t)
    (h16 : points.values POINTS_DAY_OFF = 0) (h18 : points.values POINTS_NO_WARD_WEEK = 0)
    (n : Nat) (s : score_t) :
    ((List.range n).foldl (score_tail config points st) s).value = s.value := by
  induction n with
  | zero => rfl
  | succ k ih =>
    rw [List.range_succ, List.foldl_append]
    simp only [List.foldl_cons, List.foldl_nil]
    generalize (List.range k).foldl (score_tail config points st) s = r at ih ⊢
    unfold score_tail
    dsimp only
    rw [value_add, value_add, ih, days_off_zero_weight points _ h16,
      no_ward_zero_weight points _ h18, add_zero, add_zero]

theorem count_repeated_on_calls (rota : rota_t) (week_index n k : Nat)
    (hvalid : ∀ s, s < k → 0 ≤ (rota.weeks week_index).shifts s ∧
      (rota.weeks week_index).shifts s < (n : Int)) :
    Finset.sum (Finset.range n) (fun p =>
        ((List.range k).filter fun s =>
          decide ((rota.weeks week_index).shifts s = ((p : Nat) : Int))).length - 1)
      = (repeated_on_calls rota week_index k).length := by
  induction k with
  | zero => simp [repeated_on_calls]
  | succ k ih =>
    have ih' := ih (fun s hs => hvalid s (by omega))
    rw [repeated_on_calls_succ, ← ih']
    obtain ⟨hq0, hq1⟩ := hvalid k (by omega)
    obtain ⟨q, hq⟩ := Int.eq_ofNat_of_zero_le hq0
    have hqn : q < n := by omega
    have hex : (∃ s, s < k ∧ (rota.weeks week_index).shifts s = (rota.weeks week_index).shifts k)
        ↔ 0 < ((List.range k).filter fun s =>
            decide ((rota.weeks week_index).shifts s = ((q : Nat) : Int))).length := by
      rw [List.length_pos_iff_exists_mem]
      constructor
      · rintro ⟨s, hs, he⟩
        exact ⟨s, List.mem_filter.mpr ⟨List.mem_range.mpr hs, by rw [← hq]; simpa using he⟩⟩
      · rintro ⟨s, hs⟩
        obtain ⟨hs1, hs2⟩ := List.mem_filter.mp hs
        exact ⟨s, List.mem_range.mp hs1, by rw [hq]; simpa using hs2⟩
    have hstep : ∀ p, p ∈ Finset.range n →
        ((List.range (k + 1)).filter fun s =>
          decide ((rota.weeks week_index).shifts s = ((p : Nat) : Int))).length - 1
        = (((List.range k).filter fun s =>
            decide ((rota.weeks week_index).shifts s = ((p : Nat) : Int))).length - 1)
          + (if p = q then
              (if 0 < ((List.range k).filter fun s =>
                decide ((rota.weeks week_index).shifts s = ((q : Nat) : Int))).length
                then 1 else 0)
            else 0) := by
      intro p _
      rw [List.range_succ, List.filter_append, List.length_append]
      by_cases hpq : p = q
      · subst hpq
        have : decide ((rota.weeks week_index).shifts k = ((p : Nat) : Int)) = true := by
          simpa using hq
        simp only [List.filter_cons, this, if_true, List.filter_nil, List.length_cons,
          List.length_nil]
        split <;> omega
      · have : decide ((rota.weeks week_index).shifts k = ((p : Nat) : Int)) = false := by
          rw [decide_eq_false_iff_not, hq]
          intro h
          apply hpq
          exact_mod_cast h.symm
        simp only [List.filter_cons, this, List.filter_nil, List.length_nil, if_neg hpq]
        simp
    rw [Finset.sum_congr rfl hstep, Finset.sum_add_distrib, Finset.sum_ite_eq',
      if_pos (Finset.mem_range.mpr hqn)]
    congr 1
    by_cases h : ∃ s, s < k ∧
        (rota.weeks week_index).shifts s = (rota.weeks week_index).shifts k
    · rw [if_pos h, if_pos (hex.mp h)]
    · rw [if_neg h, if_neg (fun h' => h (hex.mpr h'))]
theorem distribution_term_zero_weights (points : points_t) (ps : person_score_t)
    (h8 : points.values POINTS_ON_CALL_DAY_DIFFERENCE = 0)
    (h9 : points.values POINTS_ON_CALL_BANK_HOLIDAY_DIFFERENCE = 0)
    (h10 : points.values POINTS_ON_CALL_WEEKEND_DIFFERENCE = 0)
    (h11 : points.values POINTS_WARD_WEEK_DIFFERENCE = 0) :
    distribution_term points ps = 0 := by
  unfold distribution_term
  rw [h8, h9, h10, h11]
  ring

/-- C27: for a valid schedule, with `points[multiple_on_calls_per_week] = w` and every
other weight 0, the value of `score_rota` is `w` times the sum, over the weeks and the
persons, of `max(0, c - 1)`, `c` being the number of the week's six on-call slots (Monday
to Friday and the weekend slot, counted once) that the person holds; in each week this
sum is the number of on-call slots whose holder also holds an earlier on-call slot of the
week. -/
theorem score_rota_multiple_on_calls (config : config_t) (points : points_t) (rota : rota_t)
    (hvalid : rota_valid config rota)
    (h0 : ∀ i, i ≠ POINTS_MULTIPLE_ON_CALLS_PER_WEEK → points.values i = 0) :
    (score_rota config points rota).value
        = points.values POINTS_MULTIPLE_ON_CALLS_PER_WEEK
          * ((Finset.sum (Finset.range config.week_count) (fun w =>
              Finset.sum (Finset.range config.person_count) (fun p =>
                on_call_count rota w ((p : Nat) : Int) - 1)) : Nat) : ℚ) ∧
      ∀ w, w < config.week_count →
        Finset.sum (Finset.range config.person_count) (fun p =>
            on_call_count rota w ((p : Nat) : Int) - 1)
          = (repeated_on_calls rota w 6).length := by
  have hcount : ∀ w, w < config.week_count →
      Finset.sum (Finset.range config.person_count) (fun p =>
          on_call_count rota w ((p : Nat) : Int) - 1)
        = (repeated_on_calls rota w 6).length := by
    intro w hw
    exact count_repeated_on_calls rota w config.person_count 6
      (fun s hs => hvalid w s hw (by show s < 7; omega))
  refine ⟨?_, hcount⟩
  obtain ⟨hv, _⟩ := score_rota_distribution config points rota
  rw [hv, score_tail_value_zero config points _ (h0 16 (by decide)) (h0 18 (by decide))]
  have hz : Finset.sum (Finset.range config.person_count)
      (fun i => distribution_term points ((score_rota config points rota).people i)) = 0 := by
    apply Finset.sum_eq_zero
    intro i _
    exact distribution_term_zero_weights points _ (h0 8 (by decide)) (h0 9 (by decide))
      (h0 10 (by decide)) (h0 11 (by decide))
  rw [hz, add_zero]
  unfold score_sweep
  rw [(score_weeks_multiple config points rota hvalid h0 config.week_count (le_refl _)).2]
  congr 2
  apply Finset.sum_congr rfl
  intro w hw
  exact (hcount w (Finset.mem_range.mp hw)).symm

theorem rota_valid_two_weeks : rota_valid (example_config 2 2) (rota_two_weeks 1) := by
  intro w s _ _
  unfold rota_two_weeks example_config
  dsimp only
  by_cases hw1 : w = 1
  · rw [if_pos hw1]
    dsimp only
    split_ifs <;> decide
  · rw [if_neg hw1]
    show (0 : Int) ≤ 0 ∧ (0 : Int) < ((2 : Nat) : Int)
    decide

/-- C27, witness: two persons, two weeks; in week 0 person 0 holds all six on-call slots
(5 repeats), in week 1 the on-call slots are held by 0, 0, 1, 0, 1, 0 (3 repeats of
person 0 and 1 of person 1): with the weight 1 the value is 9. -/
theorem score_rota_multiple_on_calls_witness :
    rota_valid (example_config 2 2) (rota_two_weeks 1) ∧
      (score_rota (example_config 2 2) multiple_unit_points (rota_two_weeks 1)).value
        = multiple_unit_points.values POINTS_MULTIPLE_ON_CALLS_PER_WEEK
          * ((Finset.sum (Finset.range (example_config 2 2).week_count) (fun w =>
              Finset.sum (Finset.range (example_config 2 2).person_count) (fun p =>
                on_call_count (rota_two_weeks 1) w ((p : Nat) : Int) - 1)) : Nat) : ℚ) ∧
      (score_rota (example_config 2 2) multiple_unit_points (rota_two_weeks 1)).value = 9 :=
  ⟨rota_valid_two_weeks,
    (score_rota_multiple_on_calls (example_config 2 2) multiple_unit_points (rota_two_weeks 1)
      rota_valid_two_weeks
      (fun i hi => by
        show (if i = 13 then (1 : ℚ) else 0) = 0
        rw [if_neg hi])).1,
    by decide!⟩

/-! ## C35: the bank-holiday bitset -/

theorem is_bank_holiday_eq (config : config_t) (e : Nat) :
    is_bank_holiday config e = (config.bank_holiday_bits (e / 32)).testBit (e % 32) := by
  unfold is_bank_holiday
  exact and_shift_ne_zero _ _

/-- C35: the bank-holiday bitset is a set of day indices. For all day indices `d` and `e`
in `[0, 7 * 32)`, after `set_bank_holiday(config, d)` the test `is_bank_holiday(e)` is true
if and only if `e = d` or it was true before; the entry written is one of the 7 entries of
the array and entries that fit in 32 bits still do; no field of the configuration other
than `bank_holiday_bits` changes; and setting the same day twice gives the same
configuration as setting it once. -/
theorem set_bank_holiday_is_set_insert (config : config_t) (d e : Nat)
    (hd : d < 7 * MAX_WEEK_COUNT) (he : e < 7 * MAX_WEEK_COUNT) :
    (is_bank_holiday (set_bank_holiday config d) e = true ↔
        e = d ∨ is_bank_holiday config e = true) ∧
      (d / 32 < 7 ∧ e / 32 < 7 ∧
        ((∀ k, config.bank_holiday_bits k < 2 ^ 32) →
          ∀ k, (set_bank_holiday config d).bank_holiday_bits k < 2 ^ 32)) ∧
      { set_bank_holiday config d with bank_holiday_bits := config.bank_holiday_bits }
        = config ∧
      set_bank_holiday (set_bank_holiday config d) d = set_bank_holiday config d := by
  refine ⟨?_, ⟨?_, ?_, ?_⟩, rfl, ?_⟩
  · rw [is_bank_holiday_eq, is_bank_holiday_eq]
    unfold set_bank_holiday
    dsimp only
    by_cases hw : e / 32 = d / 32
    · rw [hw, Function.update_same, Nat.testBit_or, Nat.one_shiftLeft, Nat.testBit_two_pow]
      simp only [Bool.or_eq_true, decide_eq_true_eq]
      constructor
      · rintro (h | h)
        · exact Or.inr h
        · exact Or.inl (by omega)
      · rintro (h | h)
        · exact Or.inr (by omega)
        · exact Or.inl h
    · rw [Function.update_noteq hw]
      constructor
      · intro h
        exact Or.inr h
      · rintro (h | h)
        · exact absurd (by rw [h]) hw
        · exact h
  · have : MAX_WEEK_COUNT = 32 := rfl
    omega
  · have : MAX_WEEK_COUNT = 32 := rfl
    omega
  · intro hbits k
    unfold set_bank_holiday
    dsimp only
    by_cases hk : k = d / 32
    · rw [hk, Function.update_same]
      apply Nat.or_lt_two_pow (hbits _)
      rw [Nat.one_shiftLeft]
      exact Nat.pow_lt_pow_right (by decide) (Nat.mod_lt _ (by decide))
    · rw [Function.update_noteq hk]
      exact hbits k
  · unfold set_bank_holiday
    dsimp only
    rw [Function.update_same, Function.update_idem, Nat.or_assoc, Nat.or_self]

/-- C35, witness: in the configuration with the bank holidays 1 and 5, setting day 37
makes the test true for day 37 and leaves it false for day 36; day 5 stays set. -/
theorem set_bank_holiday_is_set_insert_witness :
    (is_bank_holiday (set_bank_holiday bank_holiday_config 37) 36 = true ↔
        36 = 37 ∨ is_bank_holiday bank_holiday_config 36 = true) ∧
      is_bank_holiday (set_bank_holiday bank_holiday_config 37) 37 = true ∧
      is_bank_holiday (set_bank_holiday bank_holiday_config 37) 36 = false ∧
      is_bank_holiday (set_bank_holiday bank_holiday_config 37) 5 = true ∧
      is_bank_holiday bank_holiday_config 37 = false :=
  ⟨(set_bank_holiday_is_set_insert bank_holiday_config 37 36 (by decide) (by decide)).1,
    by decide, by decide, by decide, by decide⟩

/-! ## What the sweep computes apart from the value -/

theorem same_log_add_value {a b : score_t} (h : same_log a b) (x y : ℚ) :
    same_log (add_value a x) (add_value b y) :=
  ⟨h.failure_count, h.failure_data⟩

theorem same_log_people {a b : score_t} (h : same_log a b)
    (pa pb : Int → person_score_t) :
    same_log { a with people := pa } { b with people := pb } :=
  ⟨h.failure_count, h.failure_data⟩

theorem same_log_soft {a b : score_t} (h : same_log a b) (c : Prop) [Decidable c]
    (x y : ℚ) :
    same_log (if c then add_value a x else a) (if c then add_value b y else b) := by
  split
  · exact same_log_add_value h x y
  · exact h

theorem same_log_hard {a b : score_t} (h : same_log a b) (c : Prop) [Decidable c]
    (x y : ℚ) (f p d : Int) :
    same_log (if c then add_failure (add_value a x) f p d else a)
      (if c then add_failure (add_value b y) f p d else b) := by
  split
  · unfold add_failure
    have hc : (add_value a x).failure_count = (add_value b y).failure_count :=
      h.failure_count
    have hd : (add_value a x).failure_data = (add_value b y).failure_data := h.failure_data
    rw [hc]
    split
    · exact ⟨rfl, by show List.set _ _ _ = List.set _ _ _; rw [hd]⟩
    · exact ⟨hc, hd⟩
  · exact h

theorem people_add_value (s : score_t) (x : ℚ) : (add_value s x).people = s.people := rfl

theorem people_add_failure (s : score_t) (f p d : Int) :
    (add_failure s f p d).people = s.people := by
  unfold add_failure
  split <;> rfl

theorem people_hard (s : score_t) (c : Prop) [Decidable c] (x : ℚ) (f p d : Int) :
    (if c then add_failure (add_value s x) f p d else s).people = s.people := by
  split
  · rw [people_add_failure]; rfl
  · rfl

theorem people_soft (s : score_t) (c : Prop) [Decidable c] (x : ℚ) :
    (if c then add_value s x else s).people = s.people := by
  split <;> rfl

theorem score_weekday_same (config : config_t) (P Q : points_t) (rota : rota_t)
    (week_index day_index : Nat) (a b : sweep_t) (h : same_sweep a b) :
    same_sweep (score_weekday config P rota week_index day_index a)
      (score_weekday config Q rota week_index day_index b) := by
  obtain ⟨⟨pa, va, ca, da⟩, l1, l2, l3, y⟩ := a
  obtain ⟨⟨pb, vb, cb, db⟩, m1, m2, m3, z⟩ := b
  obtain ⟨h1, ⟨h2, h3⟩, h4, h5, h6, h7⟩ := h
  dsimp only at h1 h2 h3 h4 h5 h6 h7
  subst h1 h2 h3 h4 h5 h6 h7
  refine ⟨?_, ?_, rfl, rfl, rfl, rfl⟩
  · unfold score_weekday
    dsimp only
    simp only [people_hard, people_soft, people_add_value]
  · unfold score_weekday
    dsimp only
    apply same_log_people
    apply same_log_soft
    apply same_log_soft
    apply same_log_add_value
    apply same_log_soft
    apply same_log_soft
    apply same_log_soft
    apply same_log_soft
    apply same_log_soft
    apply same_log_hard
    apply same_log_hard
    apply same_log_hard
    apply same_log_hard
    apply same_log_hard
    apply same_log_hard
    apply same_log_hard
    apply same_log_hard
    apply same_log_hard
    apply same_log_hard
    exact ⟨rfl, rfl⟩

theorem score_weekend_day_same (config : config_t) (P Q : points_t) (rota : rota_t)
    (week_index day_index : Nat) (a b : sweep_t) (h : same_sweep a b) :
    same_sweep (score_weekend_day config P rota week_index day_index a)
      (score_weekend_day config Q rota week_index day_index b) := by
  obtain ⟨⟨pa, va, ca, da⟩, l1, l2, l3, y⟩ := a
  obtain ⟨⟨pb, vb, cb, db⟩, m1, m2, m3, z⟩ := b
  obtain ⟨h1, ⟨h2, h3⟩, h4, h5, h6, h7⟩ := h
  dsimp only at h1 h2 h3 h4 h5 h6 h7
  subst h1 h2 h3 h4 h5 h6 h7
  refine ⟨?_, ?_, rfl, rfl, rfl, rfl⟩
  · unfold score_weekend_day
    dsimp only
    simp only [people_hard, people_soft, people_add_value]
  · unfold score_weekend_day
    dsimp only
    apply same_log_people
    apply same_log_soft
    apply same_log_soft
    apply same_log_soft
    apply same_log_hard
    apply same_log_hard
    apply same_log_hard
    apply same_log_hard
    exact ⟨rfl, rfl⟩

theorem same_sweep_refl (a : sweep_t) : same_sweep a a :=
  ⟨rfl, ⟨rfl, rfl⟩, rfl, rfl, rfl, rfl⟩

theorem same_sweep_foldl (F G : sweep_t → Nat → sweep_t)
    (hFG : ∀ a b k, same_sweep a b → same_sweep (F a k) (G b k)) (l : List Nat)
    (a b : sweep_t) (h : same_sweep a b) : same_sweep (l.foldl F a) (l.foldl G b) := by
  induction l generalizing a b with
  | nil => exact h
  | cons x xs ih => exact ih _ _ (hFG a b x h)

theorem score_day_same (config : config_t) (P Q : points_t) (rota : rota_t)
    (week_index : Nat) (a b : sweep_t) (day_index : Nat) (h : same_sweep a b) :
    same_sweep (score_day config P rota week_index a day_index)
      (score_day config Q rota week_index b day_index) := by
  unfold score_day
  split
  · exact score_weekday_same config P Q rota week_index day_index a b h
  · exact score_weekend_day_same config P Q rota week_index day_index a b h

theorem score_week_same (config : config_t) (P Q : points_t) (rota : rota_t)
    (a b : sweep_t) (week_index : Nat) (h : same_sweep a b) :
    same_sweep (score_week config P rota a week_index)
      (score_week config Q rota b week_index) := by
  have hd := same_sweep_foldl (score_day config P rota week_index)
    (score_day config Q rota week_index)
    (fun a b k hab => score_day_same config P Q rota week_index a b k hab)
    (List.range 7) a b h
  unfold score_week
  dsimp only
  split
  · exact ⟨hd.people, same_log_add_value hd.log _ _, hd.last_on_call_week, hd.last_work_day,
      hd.last_ward_week, hd.person_on_call_yesterday⟩
  · exact hd

theorem score_sweep_same (config : config_t) (P Q : points_t) (rota : rota_t) :
    same_sweep (score_sweep config P rota) (score_sweep config Q rota) := by
  unfold score_sweep
  exact same_sweep_foldl (score_week config P rota) (score_week config Q rota)
    (fun a b k hab => score_week_same config P Q rota a b k hab) _ _ _
    (same_sweep_refl _)

theorem score_tail_fold (config : config_t) (points : points_t) (st : sweep_t) (n : Nat)
    (s : score_t) :
    ((List.range n).foldl (score_tail config points st) s).people = s.people ∧
      ((List.range n).foldl (score_tail config points st) s).failure_count
        = s.failure_count ∧
      ((List.range n).foldl (score_tail config points st) s).failure_data
        = s.failure_data ∧
      ((List.range n).foldl (score_tail config points st) s).value
        = s.value + Finset.sum (Finset.range n) (fun i =>
            get_days_off_score points ((config.people i).last_day - st.last_work_day i)
              + get_no_ward_week_score points
                  (Int.tdiv (config.people i).last_day 7 - st.last_ward_week i)) := by
  induction n with
  | zero => exact ⟨rfl, rfl, rfl, by simp⟩
  | succ k ih =>
    rw [List.range_succ, List.foldl_append, Finset.sum_range_succ]
    simp only [List.foldl_cons, List.foldl_nil]
    generalize (List.range k).foldl (score_tail config points st) s = r at ih ⊢
    obtain ⟨h1, h2, h3, h4⟩ := ih
    unfold score_tail
    dsimp only
    refine ⟨h1, h2, h3, ?_⟩
    simp only [value_add, h4]
    ring

theorem score_rota_same (config : config_t) (P Q : points_t) (rota : rota_t) :
    (score_rota config P rota).failure_count = (score_rota config Q rota).failure_count ∧
      (score_rota config P rota).failure_data = (score_rota config Q rota).failure_data ∧
      (score_rota config P rota).people = (score_rota config Q rota).people := by
  have hs := score_sweep_same config P Q rota
  obtain ⟨tp1, tp2, tp3, _⟩ := score_tail_fold config P (score_sweep config P rota)
    config.person_count (score_sweep config P rota).score
  obtain ⟨tq1, tq2, tq3, _⟩ := score_tail_fold config Q (score_sweep config Q rota)
    config.person_count (score_sweep config Q rota).score
  obtain ⟨dp1, dp2, _, dp4⟩ := score_distribution_fold config P
    ((List.range config.person_count).foldl
      (score_tail config P (score_sweep config P rota)) (score_sweep config P rota).score)
    config.person_count
  obtain ⟨dq1, dq2, _, dq4⟩ := score_distribution_fold config Q
    ((List.range config.person_count).foldl
      (score_tail config Q (score_sweep config Q rota)) (score_sweep config Q rota).score)
    config.person_count
  unfold score_rota
  dsimp only
  refine ⟨?_, ?_, ?_⟩
  · rw [dp1, dq1, tp2, tq2]
    exact hs.log.failure_count
  · rw [dp2, dq2, tp3, tq3]
    exact hs.log.failure_data
  · funext j
    rw [dp4 j, dq4 j, tp1, tq1, hs.people]

/-! ## C31: the discrete part of the score does not depend on the weights -/

/-- C31: the discrete part of the score is independent of the weight table. For every
configuration, every schedule and any two weight tables `P` and `Q`, `score_rota` returns
the same `failure_count`, the same `failure_data` records, and for every person the same
record of the four totals and the four remainders. -/
theorem score_rota_discrete_part_independent (config : config_t) (P Q : points_t)
    (rota : rota_t) :
    (score_rota config P rota).failure_count = (score_rota config Q rota).failure_count ∧
      (score_rota config P rota).failure_data = (score_rota config Q rota).failure_data ∧
      ∀ i : Int,
        ((score_rota config P rota).people i).total_ward_weeks
            = ((score_rota config Q rota).people i).total_ward_weeks ∧
          ((score_rota config P rota).people i).total_on_call_days
            = ((score_rota config Q rota).people i).total_on_call_days ∧
          ((score_rota config P rota).people i).total_on_call_weekends
            = ((score_rota config Q rota).people i).total_on_call_weekends ∧
          ((score_rota config P rota).people i).total_on_call_bank_holidays
            = ((score_rota config Q rota).people i).total_on_call_bank_holidays ∧
          ((score_rota config P rota).people i).remainder_ward_weeks
            = ((score_rota config Q rota).people i).remainder_ward_weeks ∧
          ((score_rota config P rota).people i).remainder_on_call_days
            = ((score_rota config Q rota).people i).remainder_on_call_days ∧
          ((score_rota config P rota).people i).remainder_on_call_weekends
            = ((score_rota config Q rota).people i).remainder_on_call_weekends ∧
          ((score_rota config P rota).people i).remainder_on_call_bank_holidays
            = ((score_rota config Q rota).people i).remainder_on_call_bank_holidays := by
  obtain ⟨h1, h2, h3⟩ := score_rota_same config P Q rota
  refine ⟨h1, h2, ?_⟩
  intro i
  rw [h3]
  exact ⟨rfl, rfl, rfl, rfl, rfl, rfl, rfl, rfl⟩

/-! ## The value as a function of the weights -/

theorem decay_loop_lin (decay a b : ℚ) (n : Nat) (s1 s2 x1 x2 : ℚ) :
    decay_loop decay n (a * s1 + b * s2, a * x1 + b * x2)
      = (a * (decay_loop decay n (s1, x1)).1 + b * (decay_loop decay n (s2, x2)).1,
          a * (decay_loop decay n (s1, x1)).2 + b * (decay_loop decay n (s2, x2)).2) := by
  induction n generalizing s1 s2 x1 x2 with
  | zero => rfl
  | succ k ih =>
    simp only [decay_loop]
    rw [← ih]
    congr 2 <;> ring

theorem get_days_off_score_lin {a b : ℚ} {R P Q : points_t} (h : lin_tables a b R P Q)
    (d : Int) :
    get_days_off_score R d = a * get_days_off_score P d + b * get_days_off_score Q d := by
  unfold get_days_off_score
  rw [← h.day_off_decay_left, ← h.day_off_decay_right,
    h.values POINTS_DAY_OFF (by decide) (by decide)]
  have h0 : (0 : ℚ) = a * 0 + b * 0 := by ring
  rw [h0, decay_loop_lin]
  simp

theorem get_no_ward_week_score_lin {a b : ℚ} {R P Q : points_t}
    (h : lin_tables a b R P Q) (d : Int) :
    get_no_ward_week_score R d
      = a * get_no_ward_week_score P d + b * get_no_ward_week_score Q d := by
  unfold get_no_ward_week_score
  rw [← h.no_ward_week_decay_left, ← h.no_ward_week_decay_right,
    h.values POINTS_NO_WARD_WEEK (by decide) (by decide)]
  have h0 : (0 : ℚ) = a * 0 + b * 0 := by ring
  rw [h0, decay_loop_lin]
  simp

theorem ite_indicator (c : Prop) [Decidable c] (x : ℚ) :
    (if c then x else 0) = (((if c then 1 else 0 : Nat) : ℚ)) * x := by
  split <;> simp

theorem score_weekday_lin {a b : ℚ} {R P Q : points_t} (h : lin_tables a b R P Q)
    (config : config_t) (rota : rota_t) (week_index day_index : Nat) (r p q : sweep_t)
    (hs : lin_sweep a b r p q) :
    lin_sweep a b (score_weekday config R rota week_index day_index r)
      (score_weekday config P rota week_index day_index p)
      (score_weekday config Q rota week_index day_index q) := by
  refine ⟨score_weekday_same config R P rota week_index day_index r p hs.left,
    score_weekday_same config R Q rota week_index day_index r q hs.right, ?_⟩
  obtain ⟨⟨pr, vr, cr, dr⟩, l1, l2, l3, y⟩ := r
  obtain ⟨⟨pp, vp, cp, dp⟩, m1, m2, m3, z⟩ := p
  obtain ⟨⟨pq, vq, cq, dq⟩, n1, n2, n3, u⟩ := q
  obtain ⟨⟨h1, ⟨h2, h3⟩, h4, h5, h6, h7⟩, ⟨k1, ⟨k2, k3⟩, k4, k5, k6, k7⟩, hv⟩ := hs
  dsimp only at h1 h2 h3 h4 h5 h6 h7 k1 k2 k3 k4 k5 k6 k7 hv
  subst h1 h2 h3 h4 h5 h6 h7
  subst k1 k2 k3 k4 k5 k6 k7
  subst hv
  unfold score_weekday
  dsimp only
  simp only [value_soft, value_hard, value_add, get_days_off_score_lin h,
    get_no_ward_week_score_lin h,
    h.values POINTS_SHIFT_OVERLAP (by decide) (by decide),
    h.values POINTS_WORK_ON_HOLIDAY (by decide) (by decide),
    h.values POINTS_ON_CALL_ON_INVALID_DAY (by decide) (by decide),
    h.values POINTS_ON_WARD_ON_INVALID_WEEK (by decide) (by decide),
    h.values POINTS_NOT_ON_CALL_WHEN_FORCED (by decide) (by decide),
    h.values POINTS_WORK_FOLLOWING_ON_CALL (by decide) (by decide),
    h.values POINTS_ON_CALL_ON_DISLIKED_DAY (by decide) (by decide),
    h.values POINTS_WARD_WEEK_ON_DISLIKED_WEEK (by decide) (by decide),
    h.values POINTS_MULTIPLE_ON_CALLS_PER_WEEK (by decide) (by decide),
    h.values POINTS_WARD_WEEK_ONE_WEEK_AGO (by decide) (by decide),
    h.values POINTS_WARD_WEEK_TWO_WEEKS_AGO (by decide) (by decide)]
  simp only [ite_indicator]
  ring
theorem score_weekend_day_lin {a b : ℚ} {R P Q : points_t} (h : lin_tables a b R P Q)
    (config : config_t) (rota : rota_t) (week_index day_index : Nat) (r p q : sweep_t)
    (hs : lin_sweep a b r p q) :
    lin_sweep a b (score_weekend_day config R rota week_index day_index r)
      (score_weekend_day config P rota week_index day_index p)
      (score_weekend_day config Q rota week_index day_index q) := by
  refine ⟨score_weekend_day_same config R P rota week_index day_index r p hs.left,
    score_weekend_day_same config R Q rota week_index day_index r q hs.right, ?_⟩
  obtain ⟨⟨pr, vr, cr, dr⟩, l1, l2, l3, y⟩ := r
  obtain ⟨⟨pp, vp, cp, dp⟩, m1, m2, m3, z⟩ := p
  obtain ⟨⟨pq, vq, cq, dq⟩, n1, n2, n3, u⟩ := q
  obtain ⟨⟨h1, ⟨h2, h3⟩, h4, h5, h6, h7⟩, ⟨k1, ⟨k2, k3⟩, k4, k5, k6, k7⟩, hv⟩ := hs
  dsimp only at h1 h2 h3 h4 h5 h6 h7 k1 k2 k3 k4 k5 k6 k7 hv
  subst h1 h2 h3 h4 h5 h6 h7
  subst k1 k2 k3 k4 k5 k6 k7
  subst hv
  unfold score_weekend_day
  dsimp only
  simp only [value_soft, value_hard, value_add, get_days_off_score_lin h,
    h.values POINTS_WORK_ON_HOLIDAY (by decide) (by decide),
    h.values POINTS_ON_CALL_ON_INVALID_DAY (by decide) (by decide),
    h.values POINTS_NOT_ON_CALL_WHEN_FORCED (by decide) (by decide),
    h.values POINTS_WORK_FOLLOWING_ON_CALL (by decide) (by decide),
    h.values POINTS_ON_CALL_ON_DISLIKED_DAY (by decide) (by decide),
    h.values POINTS_MULTIPLE_ON_CALLS_PER_WEEK (by decide) (by decide)]
  simp only [ite_indicator]
  ring

theorem lin_sweep_foldl {a b : ℚ} (F G H : sweep_t → Nat → sweep_t)
    (hstep : ∀ r p q k, lin_sweep a b r p q → lin_sweep a b (F r k) (G p k) (H q k))
    (l : List Nat) (r p q : sweep_t) (h : lin_sweep a b r p q) :
    lin_sweep a b (l.foldl F r) (l.foldl G p) (l.foldl H q) := by
  induction l generalizing r p q with
  | nil => exact h
  | cons x xs ih => exact ih _ _ _ (hstep r p q x h)

theorem score_day_lin {a b : ℚ} {R P Q : points_t} (h : lin_tables a b R P Q)
    (config : config_t) (rota : rota_t) (week_index : Nat) (r p q : sweep_t)
    (day_index : Nat) (hs : lin_sweep a b r p q) :
    lin_sweep a b (score_day config R rota week_index r day_index)
      (score_day config P rota week_index p day_index)
      (score_day config Q rota week_index q day_index) := by
  unfold score_day
  split
  · exact score_weekday_lin h config rota week_index day_index r p q hs
  · exact score_weekend_day_lin h config rota week_index day_index r p q hs

theorem score_week_lin {a b : ℚ} {R P Q : points_t} (h : lin_tables a b R P Q)
    (config : config_t) (rota : rota_t) (r p q : sweep_t) (week_index : Nat)
    (hs : lin_sweep a b r p q) :
    lin_sweep a b (score_week config R rota r week_index)
      (score_week config P rota p week_index) (score_week config Q rota q week_index) := by
  refine ⟨score_week_same config R P rota r p week_index hs.left,
    score_week_same config R Q rota r q week_index hs.right, ?_⟩
  have hd := lin_sweep_foldl (score_day config R rota week_index)
    (score_day config P rota week_index) (score_day config Q rota week_index)
    (fun r p q k hk => score_day_lin h config rota week_index r p q k hk)
    (List.range 7) r p q hs
  unfold score_week
  dsimp only
  split
  · show _ + _ = a * (_ + _) + b * (_ + _)
    rw [hd.value, h.values POINTS_ON_CALL_WEEKEND_FOLLOWS_WARD_WEEK (by decide) (by decide)]
    ring
  · exact hd.value

theorem score_sweep_lin {a b : ℚ} {R P Q : points_t} (h : lin_tables a b R P Q)
    (config : config_t) (rota : rota_t) :
    lin_sweep a b (score_sweep config R rota) (score_sweep config P rota)
      (score_sweep config Q rota) := by
  unfold score_sweep
  refine lin_sweep_foldl (score_week config R rota) (score_week config P rota)
    (score_week config Q rota)
    (fun r p q k hk => score_week_lin h config rota r p q k hk) _ _ _ _ ?_
  refine ⟨same_sweep_refl _, same_sweep_refl _, ?_⟩
  rw [(sweep_init_score config).1]
  show (0 : ℚ) = a * 0 + b * 0
  ring

theorem distribution_term_lin {a b : ℚ} {R P Q : points_t} (h : lin_tables a b R P Q)
    (ps : person_score_t) :
    distribution_term R ps = a * distribution_term P ps + b * distribution_term Q ps := by
  unfold distribution_term
  rw [h.values POINTS_ON_CALL_DAY_DIFFERENCE (by decide) (by decide),
    h.values POINTS_ON_CALL_WEEKEND_DIFFERENCE (by decide) (by decide),
    h.values POINTS_WARD_WEEK_DIFFERENCE (by decide) (by decide),
    h.values POINTS_ON_CALL_BANK_HOLIDAY_DIFFERENCE (by decide) (by decide)]
  ring

theorem score_rota_lin {a b : ℚ} {R P Q : points_t} (h : lin_tables a b R P Q)
    (config : config_t) (rota : rota_t) :
    (score_rota config R rota).value
      = a * (score_rota config P rota).value + b * (score_rota config Q rota).value := by
  have hs := score_sweep_lin h config rota
  obtain ⟨tr1, _, _, tr4⟩ := score_tail_fold config R (score_sweep config R rota)
    config.person_count (score_sweep config R rota).score
  obtain ⟨tp1, _, _, tp4⟩ := score_tail_fold config P (score_sweep config P rota)
    config.person_count (score_sweep config P rota).score
  obtain ⟨tq1, _, _, tq4⟩ := score_tail_fold config Q (score_sweep config Q rota)
    config.person_count (score_sweep config Q rota).score
  obtain ⟨_, _, dr3, _⟩ := score_distribution_fold config R
    ((List.range config.person_count).foldl
      (score_tail config R (score_sweep config R rota)) (score_sweep config R rota).score)
    config.person_count
  obtain ⟨_, _, dp3, _⟩ := score_distribution_fold config P
    ((List.range config.person_count).foldl
      (score_tail config P (score_sweep config P rota)) (score_sweep config P rota).score)
    config.person_count
  obtain ⟨_, _, dq3, _⟩ := score_distribution_fold config Q
    ((List.range config.person_count).foldl
      (score_tail config Q (score_sweep config Q rota)) (score_sweep config Q rota).score)
    config.person_count
  unfold score_rota
  dsimp only
  rw [dr3, dp3, dq3, tr4, tp4, tq4, tr1, tp1, tq1, hs.value, ← hs.left.people,
    ← hs.right.people, ← hs.left.last_work_day, ← hs.right.last_work_day,
    ← hs.left.last_ward_week, ← hs.right.last_ward_week]
  simp only [get_days_off_score_lin h, get_no_ward_week_score_lin h,
    distribution_term_lin h, Finset.sum_add_distrib, ← Finset.mul_sum]
  ring

theorem lin_tables_combine (a b : ℚ) (P Q : points_t)
    (h17 : P.values POINTS_DAY_OFF_DECAY = Q.values POINTS_DAY_OFF_DECAY)
    (h19 : P.values POINTS_NO_WARD_WEEK_DECAY = Q.values POINTS_NO_WARD_WEEK_DECAY) :
    lin_tables a b (combine_points a b P Q) P Q := by
  refine ⟨?_, ?_, ?_, ?_, ?_⟩
  · intro i h1 h2
    simp [combine_points, h1, h2]
  · simp [combine_points]
  · rw [← h17]
    simp [combine_points]
  · simp [combine_points]
  · rw [← h19]
    simp [combine_points]

theorem lin_tables_zero (Z : points_t)
    (hz : ∀ i, i ≠ POINTS_DAY_OFF_DECAY → i ≠ POINTS_NO_WARD_WEEK_DECAY → Z.values i = 0) :
    lin_tables 0 0 Z Z Z := by
  refine ⟨?_, rfl, rfl, rfl, rfl⟩
  intro i h1 h2
  rw [hz i h1 h2]
  ring

/-! ## C34: the value is linear in the eighteen weights that are not decays -/

/-- C34: with the configuration and the schedule fixed, the value of the score is linear
in the eighteen non-decay weights. For weight tables `P` and `Q` that agree on
`day_off_decay` and `no_ward_week_decay` and scalars `a` and `b`, the value computed with
the table whose non-decay entries are `a * P + b * Q` (and whose decays are the shared
ones) is `a * value(P) + b * value(Q)`; and a table whose eighteen non-decay entries are
all zero gives the value `0`. -/
theorem score_rota_value_linear (config : config_t) (rota : rota_t) (P Q : points_t)
    (a b : ℚ)
    (h17 : P.values POINTS_DAY_OFF_DECAY = Q.values POINTS_DAY_OFF_DECAY)
    (h19 : P.values POINTS_NO_WARD_WEEK_DECAY = Q.values POINTS_NO_WARD_WEEK_DECAY) :
    (score_rota config (combine_points a b P Q) rota).value
        = a * (score_rota config P rota).value + b * (score_rota config Q rota).value ∧
      ∀ Z : points_t,
        (∀ i, i ≠ POINTS_DAY_OFF_DECAY → i ≠ POINTS_NO_WARD_WEEK_DECAY → Z.values i = 0) →
        (score_rota config Z rota).value = 0 := by
  refine ⟨score_rota_lin (lin_tables_combine a b P Q h17 h19) config rota, ?_⟩
  intro Z hz
  have h := score_rota_lin (lin_tables_zero Z hz) config rota
  rw [h]
  ring

/-- Two persons, two weeks, the tables `decay_example_points` and `shared_decay_points`
(both with the decays 1/2 and 1/3) and the scalars 2 and 3. -/
theorem score_rota_value_linear_witness :
    decay_example_points.values POINTS_DAY_OFF_DECAY
        = shared_decay_points.values POINTS_DAY_OFF_DECAY ∧
      decay_example_points.values POINTS_NO_WARD_WEEK_DECAY
        = shared_decay_points.values POINTS_NO_WARD_WEEK_DECAY ∧
      (score_rota (example_config 2 2)
          (combine_points 2 3 decay_example_points shared_decay_points)
          (rota_two_weeks 1)).value
        = 2 * (score_rota (example_config 2 2) decay_example_points (rota_two_weeks 1)).value
          + 3 * (score_rota (example_config 2 2) shared_decay_points
              (rota_two_weeks 1)).value :=
  ⟨by decide!, by decide!,
    (score_rota_value_linear (example_config 2 2) (rota_two_weeks 1) decay_example_points
      shared_decay_points 2 3 (by decide!) (by decide!)).1⟩

/-! ## The counters of the per-person records -/

theorem score_weekday_totals (config : config_t) (points : points_t) (rota : rota_t)
    (week_index day_index : Nat) (st : sweep_t) (j : Int) :
    ((score_weekday config points rota week_index day_index st).score.people j).total_on_call_days
        = (st.score.people j).total_on_call_days
          + (if j = (rota.weeks week_index).shifts day_index then 1 else 0) ∧
      ((score_weekday config points rota week_index day_index st).score.people j).total_on_call_weekends
        = (st.score.people j).total_on_call_weekends ∧
      ((score_weekday config points rota week_index day_index st).score.people j).total_ward_weeks
        = (st.score.people j).total_ward_weeks
          + (if day_index = 0 ∧ j = (rota.weeks week_index).shifts SHIFT_WARD_WEEK then 1
              else 0) ∧
      ((score_weekday config points rota week_index day_index st).score.people j).total_on_call_bank_holidays
        = (st.score.people j).total_on_call_bank_holidays
          + (if is_bank_holiday config (week_index * 7 + day_index) = true
                ∧ j = (rota.weeks week_index).shifts day_index then 1 else 0) := by
  unfold score_weekday
  dsimp only
  simp only [people_hard, people_soft, people_add_value]
  generalize (rota.weeks week_index).shifts day_index = poc
  generalize (rota.weeks week_index).shifts SHIFT_WARD_WEEK = pow
  generalize is_bank_holiday config (week_index * 7 + day_index) = bh
  generalize st.score.people = people
  by_cases h1 : j = poc
  · subst h1
    by_cases h2 : j = pow
    · subst h2
      by_cases h0 : day_index = 0 <;> by_cases hb : bh = true <;>
        simp [Function.update_apply, h0, hb]
    · have h2s : ¬ pow = j := fun h => h2 h.symm
      by_cases h0 : day_index = 0 <;> by_cases hb : bh = true <;>
        simp [Function.update_apply, h0, hb, h2, h2s]
  · have h1s : ¬ poc = j := fun h => h1 h.symm
    by_cases h2 : j = pow
    · subst h2
      by_cases h0 : day_index = 0 <;> by_cases hb : bh = true <;>
        simp [Function.update_apply, h0, hb, h1, h1s]
    · have h2s : ¬ pow = j := fun h => h2 h.symm
      by_cases h0 : day_index = 0 <;> by_cases hb : bh = true <;>
        simp [Function.update_apply, h0, hb, h1, h1s, h2, h2s]

theorem score_weekend_day_totals (config : config_t) (points : points_t) (rota : rota_t)
    (week_index day_index : Nat) (st : sweep_t) (j : Int) :
    ((score_weekend_day config points rota week_index day_index st).score.people j).total_on_call_days
        = (st.score.people j).total_on_call_days ∧
      ((score_weekend_day config points rota week_index day_index st).score.people j).total_on_call_weekends
        = (st.score.people j).total_on_call_weekends
          + (if day_index = 5 ∧ j = (rota.weeks week_index).shifts SHIFT_ON_CALL_WEEKEND
              then 1 else 0) ∧
      ((score_weekend_day config points rota week_index day_index st).score.people j).total_ward_weeks
        = (st.score.people j).total_ward_weeks ∧
      ((score_weekend_day config points rota week_index day_index st).score.people j).total_on_call_bank_holidays
        = (st.score.people j).total_on_call_bank_holidays := by
  unfold score_weekend_day
  dsimp only
  simp only [people_hard, people_soft, people_add_value]
  generalize (rota.weeks week_index).shifts SHIFT_ON_CALL_WEEKEND = poc
  generalize st.score.people = people
  by_cases h1 : j = poc
  · subst h1
    by_cases h0 : day_index = 5 <;> simp [Function.update_apply, h0]
  · have h1s : ¬ poc = j := fun h => h1 h.symm
    by_cases h0 : day_index = 5 <;> simp [Function.update_apply, h0, h1, h1s]

theorem sum_point_increment (n : Nat) (x y : Int → Int) (p : Int) (c : Prop) [Decidable c]
    (hp0 : 0 ≤ p) (hp1 : p < (n : Int))
    (h : ∀ j, y j = x j + if c ∧ j = p then 1 else 0) :
    Finset.sum (Finset.range n) (fun i => y (i : Int))
      = Finset.sum (Finset.range n) (fun i => x (i : Int)) + if c then 1 else 0 := by
  obtain ⟨k, rfl⟩ := Int.eq_ofNat_of_zero_le hp0
  have hk : k < n := by exact_mod_cast hp1
  simp only [h, Finset.sum_add_distrib]
  congr 1
  by_cases hc : c
  · simp only [hc, true_and, if_true, Nat.cast_inj]
    rw [Finset.sum_ite_eq']
    simp [hk]
  · simp [hc]

theorem score_day_sums (config : config_t) (points : points_t) (rota : rota_t)
    (hv : rota_valid config rota) (week_index : Nat) (hw : week_index < config.week_count)
    (st : sweep_t) (day_index : Nat) (hd : day_index < 7) :
    score_sum config (score_day config points rota week_index st day_index).score
          person_score_t.total_on_call_days
        = score_sum config st.score person_score_t.total_on_call_days
          + (if day_index < 5 then 1 else 0) ∧
      score_sum config (score_day config points rota week_index st day_index).score
          person_score_t.total_on_call_weekends
        = score_sum config st.score person_score_t.total_on_call_weekends
          + (if day_index = 5 then 1 else 0) ∧
      score_sum config (score_day config points rota week_index st day_index).score
          person_score_t.total_ward_weeks
        = score_sum config st.score person_score_t.total_ward_weeks
          + (if day_index = 0 then 1 else 0) ∧
      score_sum config (score_day config points rota week_index st day_index).score
          person_score_t.total_on_call_bank_holidays
        = score_sum config st.score person_score_t.total_on_call_bank_holidays
          + (if day_index < 5 ∧ is_bank_holiday config (week_index * 7 + day_index) = true
              then 1 else 0) := by
  unfold score_day score_sum
  by_cases h5 : day_index < 5
  · simp only [h5, if_true, true_and]
    obtain ⟨a0, a1⟩ := hv week_index day_index hw hd
    obtain ⟨b0, b1⟩ := hv week_index SHIFT_WARD_WEEK hw (by decide)
    have ht := score_weekday_totals config points rota week_index day_index st
    refine ⟨?_, ?_, ?_, ?_⟩
    · have h := sum_point_increment config.person_count
        (fun j => (st.score.people j).total_on_call_days)
        (fun j => ((score_weekday config points rota week_index day_index st).score.people
          j).total_on_call_days) _ True a0 a1 (fun j => by
            dsimp only
            rw [(ht j).1]
            simp)
      simpa using h
    · have h56 : ¬ day_index = 5 := by omega
      simp only [(ht _).2.1, h56, if_false, add_zero]
    · exact sum_point_increment config.person_count
        (fun j => (st.score.people j).total_ward_weeks)
        (fun j => ((score_weekday config points rota week_index day_index st).score.people
          j).total_ward_weeks) _ (day_index = 0) b0 b1 (fun j => (ht j).2.2.1)
    · exact sum_point_increment config.person_count
        (fun j => (st.score.people j).total_on_call_bank_holidays)
        (fun j => ((score_weekday config points rota week_index day_index st).score.people
          j).total_on_call_bank_holidays) _
        (is_bank_holiday config (week_index * 7 + day_index) = true) a0 a1
        (fun j => (ht j).2.2.2)
  · simp only [h5, if_false, false_and, add_zero]
    obtain ⟨a0, a1⟩ := hv week_index SHIFT_ON_CALL_WEEKEND hw (by decide)
    have ht := score_weekend_day_totals config points rota week_index day_index st
    have h0 : ¬ day_index = 0 := by omega
    refine ⟨?_, ?_, ?_, ?_⟩
    · simp only [(ht _).1]
    · exact sum_point_increment config.person_count
        (fun j => (st.score.people j).total_on_call_weekends)
        (fun j => ((score_weekend_day config points rota week_index day_index
          st).score.people j).total_on_call_weekends) _ (day_index = 5) a0 a1
        (fun j => (ht j).2.1)
    · simp only [(ht _).2.2.1, h0, if_false, add_zero]
    · simp only [(ht _).2.2.2]

theorem foldl_count (F : sweep_t → Nat → sweep_t) (m : sweep_t → Int) (inc : Nat → Int)
    (l : List Nat) (h : ∀ st k, k ∈ l → m (F st k) = m st + inc k) (st : sweep_t) :
    m (l.foldl F st) = m st + (l.map inc).sum := by
  induction l generalizing st with
  | nil => simp
  | cons x xs ih =>
    rw [List.foldl_cons, ih (fun st k hk => h st k (List.mem_cons_of_mem _ hk)),
      h st x (List.mem_cons_self _ _), List.map_cons, List.sum_cons]
    ring

theorem indicator_sum_eq_length_filter (p : Nat → Bool) (l : List Nat) :
    (l.map fun d => if p d = true then (1 : Int) else 0).sum = ((l.filter p).length : Int) := by
  induction l with
  | nil => rfl
  | cons x xs ih =>
    rw [List.map_cons, List.sum_cons, ih, List.filter_cons]
    split <;> simp
    ring

theorem score_week_sums (config : config_t) (points : points_t) (rota : rota_t)
    (hv : rota_valid config rota) (st : sweep_t) (week_index : Nat)
    (hw : week_index < config.week_count) :
    score_sum config (score_week config points rota st week_index).score
          person_score_t.total_on_call_days
        = score_sum config st.score person_score_t.total_on_call_days + 5 ∧
      score_sum config (score_week config points rota st week_index).score
          person_score_t.total_on_call_weekends
        = score_sum config st.score person_score_t.total_on_call_weekends + 1 ∧
      score_sum config (score_week config points rota st week_index).score
          person_score_t.total_ward_weeks
        = score_sum config st.score person_score_t.total_ward_weeks + 1 ∧
      score_sum config (score_week config points rota st week_index).score
          person_score_t.total_on_call_bank_holidays
        = score_sum config st.score person_score_t.total_on_call_bank_holidays
          + (((List.range 7).filter fun d =>
              decide (d < 5) && is_bank_holiday config (week_index * 7 + d)).length : Int) := by
  have hpeople : (score_week config points rota st week_index).score.people
      = ((List.range 7).foldl (score_day config points rota week_index) st).score.people := by
    unfold score_week
    dsimp only
    split <;> rfl
  unfold score_sum
  rw [hpeople]
  have hday := fun (s : sweep_t) (k : Nat) (hk : k ∈ List.range 7) =>
    score_day_sums config points rota hv week_index hw s k (List.mem_range.mp hk)
  unfold score_sum at hday
  refine ⟨?_, ?_, ?_, ?_⟩
  · rw [foldl_count (score_day config points rota week_index)
      (fun s => Finset.sum (Finset.range config.person_count)
        fun i => (s.score.people i).total_on_call_days)
      (fun d => if d < 5 then 1 else 0) (List.range 7) (fun s k hk => (hday s k hk).1) st]
    rfl
  · rw [foldl_count (score_day config points rota week_index)
      (fun s => Finset.sum (Finset.range config.person_count)
        fun i => (s.score.people i).total_on_call_weekends)
      (fun d => if d = 5 then 1 else 0) (List.range 7) (fun s k hk => (hday s k hk).2.1) st]
    rfl
  · rw [foldl_count (score_day config points rota week_index)
      (fun s => Finset.sum (Finset.range config.person_count)
        fun i => (s.score.people i).total_ward_weeks)
      (fun d => if d = 0 then 1 else 0) (List.range 7) (fun s k hk => (hday s k hk).2.2.1) st]
    rfl
  · rw [foldl_count (score_day config points rota week_index)
      (fun s => Finset.sum (Finset.range config.person_count)
        fun i => (s.score.people i).total_on_call_bank_holidays)
      (fun d => if d < 5 ∧ is_bank_holiday config (week_index * 7 + d) = true then 1 else 0)
      (List.range 7) (fun s k hk => (hday s k hk).2.2.2) st,
      ← indicator_sum_eq_length_filter]
    congr 2
    apply List.map_congr_left
    intro d _
    simp

theorem weekday_filter_weeks (p : Nat → Bool) (n : Nat) :
    ((List.range n).map fun w =>
        (((List.range 7).filter fun d => decide (d < 5) && p (w * 7 + d)).length : Int)).sum
      = (((List.range (7 * n)).filter fun d => decide (d % 7 < 5) && p d).length : Int) := by
  induction n with
  | zero => rfl
  | succ k ih =>
    have hr : List.range (k + 1) = List.range k ++ [k] := List.range_succ k
    rw [hr, List.map_append, List.sum_append, ih]
    have h7 : 7 * (k + 1) = 7 * k + 7 := by ring
    rw [h7, List.range_add, List.filter_append, List.length_append, List.filter_map,
      List.length_map]
    simp only [List.map_cons, List.map_nil, List.sum_cons, List.sum_nil, add_zero,
      Nat.cast_add]
    congr 2
    apply congrArg
    apply List.filter_congr
    intro d hd
    have hd7 : d < 7 := List.mem_range.mp hd
    have h1 : (7 * k + d) % 7 = d := by omega
    have h2 : k * 7 + d = 7 * k + d := by ring
    simp only [Function.comp_apply, h1, h2]

theorem score_sweep_sums (config : config_t) (points : points_t) (rota : rota_t)
    (hv : rota_valid config rota) :
    score_sum config (score_sweep config points rota).score person_score_t.total_on_call_days
        = 5 * (config.week_count : Int) ∧
      score_sum config (score_sweep config points rota).score
          person_score_t.total_on_call_weekends = (config.week_count : Int) ∧
      score_sum config (score_sweep config points rota).score person_score_t.total_ward_weeks
        = (config.week_count : Int) ∧
      score_sum config (score_sweep config points rota).score
          person_score_t.total_on_call_bank_holidays
        = (weekday_bank_holiday_count config : Int) := by
  have hweek := fun (s : sweep_t) (k : Nat) (hk : k ∈ List.range config.week_count) =>
    score_week_sums config points rota hv s k (List.mem_range.mp hk)
  have hinit : ∀ f : person_score_t → Int, f ⟨0, 0, 0, 0, 0, 0, 0, 0⟩ = 0 →
      score_sum config (sweep_init config).score f = 0 := by
    intro f hf
    unfold score_sum
    rw [(sweep_init_score config).1]
    show Finset.sum _ (fun _ => f ⟨0, 0, 0, 0, 0, 0, 0, 0⟩) = 0
    rw [hf]
    simp
  unfold score_sweep
  refine ⟨?_, ?_, ?_, ?_⟩
  · rw [foldl_count (score_week config points rota)
      (fun s => score_sum config s.score person_score_t.total_on_call_days) (fun _ => 5)
      (List.range config.week_count) (fun s k hk => (hweek s k hk).1), hinit _ rfl]
    simp
    ring
  · rw [foldl_count (score_week config points rota)
      (fun s => score_sum config s.score person_score_t.total_on_call_weekends) (fun _ => 1)
      (List.range config.week_count) (fun s k hk => (hweek s k hk).2.1), hinit _ rfl]
    simp
  · rw [foldl_count (score_week config points rota)
      (fun s => score_sum config s.score person_score_t.total_ward_weeks) (fun _ => 1)
      (List.range config.week_count) (fun s k hk => (hweek s k hk).2.2.1), hinit _ rfl]
    simp
  · rw [foldl_count (score_week config points rota)
      (fun s => score_sum config s.score person_score_t.total_on_call_bank_holidays)
      (fun w => (((List.range 7).filter fun d =>
        decide (d < 5) && is_bank_holiday config (w * 7 + d)).length : Int))
      (List.range config.week_count) (fun s k hk => (hweek s k hk).2.2.2), hinit _ rfl,
      zero_add, weekday_filter_weeks (is_bank_holiday config) config.week_count]
    rfl

theorem score_rota_people (config : config_t) (points : points_t) (rota : rota_t)
    (j : Int) :
    (score_rota config points rota).people j
      = if 0 ≤ j ∧ j < (config.person_count : Int) then
          with_remainders config ((score_sweep config points rota).score.people j) j
        else (score_sweep config points rota).score.people j := by
  obtain ⟨t1, _, _, _⟩ := score_tail_fold config points (score_sweep config points rota)
    config.person_count (score_sweep config points rota).score
  obtain ⟨_, _, _, d4⟩ := score_distribution_fold config points
    ((List.range config.person_count).foldl
      (score_tail config points (score_sweep config points rota))
      (score_sweep config points rota).score)
    config.person_count
  unfold score_rota
  dsimp only
  rw [d4 j, t1]

/-! ## C32: the sums of the counters over the persons -/

/-- C32: for every schedule whose slots hold person indices in `[0, person_count)`, the
sums over the persons of the four counters that `score_rota` returns are
`Σ total_on_call_days = 5 * week_count`, `Σ total_on_call_weekends = week_count`,
`Σ total_ward_weeks = week_count`, and `Σ total_on_call_bank_holidays` is the number of
Monday-to-Friday days of the horizon that are flagged as bank holiday. -/
theorem score_rota_counter_sums (config : config_t) (points : points_t) (rota : rota_t)
    (hv : rota_valid config rota) :
    score_sum config (score_rota config points rota) person_score_t.total_on_call_days
        = 5 * (config.week_count : Int) ∧
      score_sum config (score_rota config points rota) person_score_t.total_on_call_weekends
        = (config.week_count : Int) ∧
      score_sum config (score_rota config points rota) person_score_t.total_ward_weeks
        = (config.week_count : Int) ∧
      score_sum config (score_rota config points rota)
          person_score_t.total_on_call_bank_holidays
        = (weekday_bank_holiday_count config : Int) := by
  obtain ⟨h1, h2, h3, h4⟩ := score_sweep_sums config points rota hv
  have hp : ∀ f : person_score_t → Int,
      (∀ (c : config_t) (ps : person_score_t) (j : Int), f (with_remainders c ps j) = f ps) →
      score_sum config (score_rota config points rota) f
        = score_sum config (score_sweep config points rota).score f := by
    intro f hf
    unfold score_sum
    apply Finset.sum_congr rfl
    intro i _
    rw [score_rota_people]
    split
    · exact hf _ _ _
    · rfl
  rw [hp person_score_t.total_on_call_days (fun _ _ _ => rfl),
    hp person_score_t.total_on_call_weekends (fun _ _ _ => rfl),
    hp person_score_t.total_ward_weeks (fun _ _ _ => rfl),
    hp person_score_t.total_on_call_bank_holidays (fun _ _ _ => rfl)]
  exact ⟨h1, h2, h3, h4⟩

/-- C32, witness: two persons, two weeks, bank holidays on Tuesday and on Saturday of
week 0: the sums are 10, 2, 2 and 1 (the Saturday is flagged but is not counted). -/
theorem score_rota_counter_sums_witness :
    rota_valid bank_holiday_config (rota_two_weeks 1) ∧
      score_sum bank_holiday_config
          (score_rota bank_holiday_config hard_unit_points (rota_two_weeks 1))
          person_score_t.total_on_call_days = 10 ∧
      score_sum bank_holiday_config
          (score_rota bank_holiday_config hard_unit_points (rota_two_weeks 1))
          person_score_t.total_on_call_weekends = 2 ∧
      score_sum bank_holiday_config
          (score_rota bank_holiday_config hard_unit_points (rota_two_weeks 1))
          person_score_t.total_ward_weeks = 2 ∧
      score_sum bank_holiday_config
          (score_rota bank_holiday_config hard_unit_points (rota_two_weeks 1))
          person_score_t.total_on_call_bank_holidays = 1 ∧
      bank_holiday_count bank_holiday_config = 2 :=
  ⟨rota_valid_two_weeks,
    (score_rota_counter_sums bank_holiday_config hard_unit_points (rota_two_weeks 1)
      rota_valid_two_weeks).1.trans (by decide),
    (score_rota_counter_sums bank_holiday_config hard_unit_points (rota_two_weeks 1)
      rota_valid_two_weeks).2.1.trans (by decide),
    (score_rota_counter_sums bank_holiday_config hard_unit_points (rota_two_weeks 1)
      rota_valid_two_weeks).2.2.1.trans (by decide),
    (score_rota_counter_sums bank_holiday_config hard_unit_points (rota_two_weeks 1)
      rota_valid_two_weeks).2.2.2.trans (by decide),
    by decide⟩

/-! ## The sums of the targets -/

theorem read_config_totals_and_bias (libc : libc_t) (header_columns : Nat)
    (rows : List (List String)) (config : config_t)
    (h : read_config libc header_columns rows = some config) :
    config.total_on_call_days_and_bias
        = 5 * (config.week_count : ℚ) + bias_sum config person_config_t.on_call_day_bias ∧
      config.total_on_call_weekends_and_bias
        = (config.week_count : ℚ) + bias_sum config person_config_t.on_call_weekend_bias ∧
      config.total_ward_weeks_and_bias
        = (config.week_count : ℚ) + bias_sum config person_config_t.ward_week_bias := by
  obtain ⟨c0, c1, h0, h1, hb, t1, t2, t3, _⟩ := read_config_spec libc header_columns rows config h
  obtain ⟨_, e1, e2, e3, _⟩ := read_config_header_spec header_columns c0 h0
  have hp := read_rows_same_pool libc _ rows c0 c1 h1
  obtain ⟨s1, s2, s3, _⟩ := bias_sum_congr c1 config hb
  have hw : config.week_count = c0.week_count := hb.week_count.trans hp.week_count
  refine ⟨?_, ?_, ?_⟩
  · rw [t1, s1, hp.on_call_days, e1, hw]
  · rw [t2, s2, hp.on_call_weekends, e2, hw]
  · rw [t3, s3, hp.ward_weeks, e3, hw]

theorem read_config_target_sums (libc : libc_t) (header_columns : Nat)
    (rows : List (List String)) (config : config_t)
    (h : read_config libc header_columns rows = some config) :
    (config.effective_on_call_person_count ≠ 0 →
        Finset.sum (Finset.range config.person_count)
            (fun i => (config.people (i : Nat)).target_on_call_days)
          = config.total_on_call_days_and_bias ∧
        Finset.sum (Finset.range config.person_count)
            (fun i => (config.people (i : Nat)).target_on_call_weekends)
          = config.total_on_call_weekends_and_bias) ∧
      (config.effective_ward_person_count ≠ 0 →
        Finset.sum (Finset.range config.person_count)
            (fun i => (config.people (i : Nat)).target_ward_weeks)
          = config.total_ward_weeks_and_bias) := by
  obtain ⟨c0, c1, c2, h0, h1, h2, rfl⟩ := read_config_stages libc header_columns rows config h
  obtain ⟨hok, e_on, e_ward⟩ := read_rows_ok libc header_columns rows c0 c1 h0 h1
  have hranges : ranges_ok c1 := fun j => ⟨(hok j).2.1, (hok j).2.2⟩
  unfold read_config_aggregate at h2
  obtain ⟨_, hpc, hpeople, _, hon, hward⟩ :=
    (read_config_aggregate_fold c1 hranges c1.person_count).2 c2 h2
  rw [e_on, zero_add] at hon
  rw [e_ward, zero_add] at hward
  have hg := read_config_targets_globals c2
  have g1 : (read_config_targets c2).person_count = c2.person_count := by
    have := congrArg config_t.person_count hg
    exact this
  have g2 : (read_config_targets c2).effective_on_call_person_count
      = c2.effective_on_call_person_count := by
    have := congrArg config_t.effective_on_call_person_count hg
    exact this
  have g3 : (read_config_targets c2).effective_ward_person_count
      = c2.effective_ward_person_count := by
    have := congrArg config_t.effective_ward_person_count hg
    exact this
  have g4 : (read_config_targets c2).total_on_call_days_and_bias
      = c2.total_on_call_days_and_bias := by
    have := congrArg config_t.total_on_call_days_and_bias hg
    exact this
  have g5 : (read_config_targets c2).total_on_call_weekends_and_bias
      = c2.total_on_call_weekends_and_bias := by
    have := congrArg config_t.total_on_call_weekends_and_bias hg
    exact this
  have g6 : (read_config_targets c2).total_ward_weeks_and_bias
      = c2.total_ward_weeks_and_bias := by
    have := congrArg config_t.total_ward_weeks_and_bias hg
    exact this
  have heff : ∀ i ∈ Finset.range c1.person_count,
      (aggregated_person c1 (i : Nat)).effective_full_time_amount
        = (c2.people (i : Nat)).effective_full_time_amount := by
    intro i hi
    have hi2 : i < c1.person_count := Finset.mem_range.mp hi
    rw [hpeople, if_pos (by omega)]
  have hcannot : ∀ i ∈ Finset.range c1.person_count,
      (c1.people (i : Nat)).cannot_do_ward_weeks
        = (c2.people (i : Nat)).cannot_do_ward_weeks := by
    intro i hi
    have hi2 : i < c1.person_count := Finset.mem_range.mp hi
    rw [hpeople, if_pos (by omega)]
    rfl
  have hon2 : c2.effective_on_call_person_count
      = Finset.sum (Finset.range c2.person_count)
          (fun i => (c2.people (i : Nat)).effective_full_time_amount) := by
    rw [hon, hpc]
    exact Finset.sum_congr rfl heff
  have hward2 : c2.effective_ward_person_count
      = Finset.sum (Finset.range c2.person_count) (fun i =>
          if (c2.people (i : Nat)).cannot_do_ward_weeks = true then 0
          else (c2.people (i : Nat)).effective_full_time_amount) := by
    rw [hward, hpc]
    apply Finset.sum_congr rfl
    intro i hi
    rw [hcannot i hi, heff i hi]
    cases (c2.people (i : Nat)).cannot_do_ward_weeks <;> simp
  rw [g1, g2, g3, g4, g5, g6]
  constructor
  · intro hne
    constructor
    · rw [Finset.sum_congr rfl (fun i hi => by
        rw [read_config_targets_people c2 i (Finset.mem_range.mp hi)]),
        ← Finset.sum_mul, ← Finset.sum_div, ← hon2, div_self hne, one_mul]
    · rw [Finset.sum_congr rfl (fun i hi => by
        rw [read_config_targets_people c2 i (Finset.mem_range.mp hi)]),
        ← Finset.sum_mul, ← Finset.sum_div, ← hon2, div_self hne, one_mul]
  · intro hne
    have hterm : ∀ i ∈ Finset.range c2.person_count,
        ((read_config_targets c2).people (i : Nat)).target_ward_weeks
          = (if (c2.people (i : Nat)).cannot_do_ward_weeks = true then 0
              else (c2.people (i : Nat)).effective_full_time_amount)
            / c2.effective_ward_person_count * c2.total_ward_weeks_and_bias := by
      intro i hi
      rw [read_config_targets_people c2 i (Finset.mem_range.mp hi)]
      dsimp only
      split <;> simp
    rw [Finset.sum_congr rfl hterm, ← Finset.sum_mul, ← Finset.sum_div, ← hward2,
      div_self hne, one_mul]

theorem score_rota_remainder_sums (config : config_t) (points : points_t) (rota : rota_t)
    (hv : rota_valid config rota) :
    score_sum config (score_rota config points rota) person_score_t.remainder_on_call_days
        = 5 * (config.week_count : ℚ) + bias_sum config person_config_t.on_call_day_bias
          - Finset.sum (Finset.range config.person_count)
              (fun i => (config.people (i : Nat)).target_on_call_days) ∧
      score_sum config (score_rota config points rota)
          person_score_t.remainder_on_call_weekends
        = (config.week_count : ℚ) + bias_sum config person_config_t.on_call_weekend_bias
          - Finset.sum (Finset.range config.person_count)
              (fun i => (config.people (i : Nat)).target_on_call_weekends) ∧
      score_sum config (score_rota config points rota) person_score_t.remainder_ward_weeks
        = (config.week_count : ℚ) + bias_sum config person_config_t.ward_week_bias
          - Finset.sum (Finset.range config.person_count)
              (fun i => (config.people (i : Nat)).target_ward_weeks) := by
  obtain ⟨h1, h2, h3, _⟩ := score_sweep_sums config points rota hv
  have c1 := congrArg (fun x : Int => (x : ℚ)) h1
  have c2 := congrArg (fun x : Int => (x : ℚ)) h2
  have c3 := congrArg (fun x : Int => (x : ℚ)) h3
  unfold score_sum at c1 c2 c3
  simp only [Int.cast_sum, Int.cast_mul, Int.cast_natCast, Int.cast_ofNat] at c1 c2 c3
  have hp : ∀ i ∈ Finset.range config.person_count,
      (score_rota config points rota).people (i : Nat)
        = with_remainders config ((score_sweep config points rota).score.people (i : Nat))
            (i : Nat) := by
    intro i hi
    have hi2 : i < config.person_count := Finset.mem_range.mp hi
    rw [score_rota_people, if_pos (by omega)]
  unfold score_sum bias_sum
  refine ⟨?_, ?_, ?_⟩
  · rw [Finset.sum_congr rfl (fun i hi => by rw [hp i hi]), ← c1, ← Finset.sum_add_distrib,
      ← Finset.sum_sub_distrib]
    rfl
  · rw [Finset.sum_congr rfl (fun i hi => by rw [hp i hi]), ← c2, ← Finset.sum_add_distrib,
      ← Finset.sum_sub_distrib]
    rfl
  · rw [Finset.sum_congr rfl (fun i hi => by rw [hp i hi]), ← c3, ← Finset.sum_add_distrib,
      ← Finset.sum_sub_distrib]
    rfl

/-! ## C33: the remainders sum to zero -/

/-- C33: for every configuration that `read_config` returns with
`effective_on_call_person_count ≠ 0` and `effective_ward_person_count ≠ 0`, every weight
table and every valid schedule, the remainders that `score_rota` returns sum to zero over
the persons: `Σ remainder_on_call_days = 0`, `Σ remainder_on_call_weekends = 0` and
`Σ remainder_ward_weeks = 0` (exact arithmetic). -/
theorem score_rota_remainders_sum_zero (libc : libc_t) (header_columns : Nat)
    (rows : List (List String)) (config : config_t)
    (h : read_config libc header_columns rows = some config)
    (hon : config.effective_on_call_person_count ≠ 0)
    (hward : config.effective_ward_person_count ≠ 0)
    (points : points_t) (rota : rota_t) (hv : rota_valid config rota) :
    score_sum config (score_rota config points rota) person_score_t.remainder_on_call_days
        = 0 ∧
      score_sum config (score_rota config points rota)
          person_score_t.remainder_on_call_weekends = 0 ∧
      score_sum config (score_rota config points rota) person_score_t.remainder_ward_weeks
        = 0 := by
  obtain ⟨r1, r2, r3⟩ := score_rota_remainder_sums config points rota hv
  obtain ⟨t1, t2, t3⟩ := read_config_totals_and_bias libc header_columns rows config h
  obtain ⟨s12, s3⟩ := read_config_target_sums libc header_columns rows config h
  obtain ⟨s1, s2⟩ := s12 hon
  rw [r1, r2, r3, s1, s2, s3 hward, t1, t2, t3]
  exact ⟨sub_self _, sub_self _, sub_self _⟩

/-- C33, witness: the one-week file with the biases 2, 1 and 3 for two persons, and the
schedule that gives every slot to person 0. -/
theorem score_rota_remainders_sum_zero_witness :
    ((read_config example_libc 9 bias_rows).map fun c =>
      decide (score_sum c (score_rota c hard_unit_points rota_all_zero)
            person_score_t.remainder_on_call_days = 0 ∧
          score_sum c (score_rota c hard_unit_points rota_all_zero)
            person_score_t.remainder_on_call_weekends = 0 ∧
          score_sum c (score_rota c hard_unit_points rota_all_zero)
            person_score_t.remainder_ward_weeks = 0)) = some true ∧
      ((read_config example_libc 9 bias_rows).map fun c =>
        (c.person_count, c.week_count, c.effective_on_call_person_count,
          c.effective_ward_person_count)) = some (2, 1, 2, 2) := by
  have hfacts : ((read_config example_libc 9 bias_rows).map fun c =>
      (c.person_count, c.week_count, c.effective_on_call_person_count,
        c.effective_ward_person_count)) = some (2, 1, 2, 2) := by decide!
  refine ⟨?_, hfacts⟩
  cases hrc : read_config example_libc 9 bias_rows with
  | none =>
    rw [hrc] at hfacts
    exact absurd hfacts (by simp)
  | some c =>
    rw [hrc] at hfacts
    simp only [Option.map_some', Option.some.injEq, Prod.mk.injEq] at hfacts
    obtain ⟨f1, f2, f3, f4⟩ := hfacts
    simp only [Option.map_some', Option.some.injEq, decide_eq_true_eq]
    refine score_rota_remainders_sum_zero example_libc 9 bias_rows c hrc
      (by rw [f3]; decide!) (by rw [f4]; decide!) hard_unit_points rota_all_zero ?_
    intro w s _ _
    rw [f1]
    show (0 : Int) ≤ 0 ∧ (0 : Int) < ((2 : Nat) : Int)
    decide

end Rota
